import Mathlib

/-! pvr.dispatcharr: JSON span scanner and field extractors, XMLTV correlator,
refresh worker, disk cache codec, cache seeding on load, catchup URLs, stream
properties, throttled refresh, name normalization, channel filters, HTTP status
check, URL redaction and timers

A shallow embedding of the data-ingestion core of the add-on
(`xtream_client.cpp`, `addon.cpp`, with the records of `dispatcharr_client.h`).

Conventions of the embedding:

* a `std::string` / `std::string_view` is a `List Nat` of byte values
  (`unsigned char`, 0..255); `ascii` turns a Lean string literal of ASCII
  characters into such a list;
* `int` values are `Int`, wrapped with `wrapInt32` where the source casts;
  `time_t` is a signed 64-bit integer and `size_t` an unsigned one (LP64);
* `std::string::npos` results are `Option Nat` with `none` for `npos`;
* a callback parameter (`Fn&& fn`) is modelled by the list of calls made to it,
  in call order;
* `std::unordered_map` / `std::map` are association lists in insertion order;
* clock readings (`steady_clock`, `std::time`) are arguments of the functions
  that take them, and an atomic member is the value it holds.
-/

namespace Dispatcharr

/-! ## Definitions -/

/-- Byte string (`std::string`). -/
abbrev Bytes := List Nat

/-- Bytes of an ASCII literal. -/
def ascii (s : String) : Bytes := s.toList.map Char.toNat

/-- The function `std::isspace` on an `unsigned char` in the "C" locale:
space, `\t`, `\n`, `\v`, `\f`, `\r`. -/
def isSpace (c : Nat) : Bool := c == 32 || (9 ≤ c && c ≤ 13)

/-- The function `std::isdigit`. -/
def isDigit (c : Nat) : Bool := 48 ≤ c && c ≤ 57

/-- The function `std::tolower` in the "C" locale. -/
def toLowerByte (c : Nat) : Nat := if 65 ≤ c ∧ c ≤ 90 then c + 32 else c

/-- `ToLower` (xtream_client.cpp:46, addon.cpp:48). -/
def ToLower (s : Bytes) : Bytes := s.map toLowerByte

/-- `Trim` (xtream_client.cpp:36, addon.cpp:38): drop leading, then trailing
whitespace. -/
def Trim (s : Bytes) : Bytes :=
  ((s.dropWhile isSpace).reverse.dropWhile isSpace).reverse

/-- Two's-complement wrap of an integer to 32 bits (`static_cast<int>`). -/
def wrapInt32 (v : Int) : Int := (v + 2147483648) % 4294967296 - 2147483648

/-- Two's-complement wrap of an integer to 64 bits (`long long` arithmetic). -/
def wrapInt64 (v : Int) : Int :=
  (v + 9223372036854775808) % 18446744073709551616 - 9223372036854775808

/-! ### JSON span scanner (xtream_client.cpp:408-474) -/

/-- Local variables of the scanning loop of `ForEachTopLevelObjectSpan`, plus
the calls made to `fn` so far. The counter `depth` is an `int` that moves by one
per byte; the buffers scanned are HTTP bodies, which `HttpGet` caps at 50 MiB
(`kMaxHttpBodyBytes`), so it cannot overflow and is an unbounded integer here.
`objStart` is `none` for `std::string::npos`. -/
structure ScanState where
  inString : Bool
  escape : Bool
  depth : Int
  objStart : Option Nat
  any : Bool
  calls : List (Nat × Nat)
deriving DecidableEq, Repr

/-- State at loop entry. -/
def ScanState.init : ScanState :=
  { inString := false, escape := false, depth := 0, objStart := none, any := false, calls := [] }

/-- One iteration of the `for (; i < n; ++i)` loop body on byte `c = json[i]`. -/
def scanStep (st : ScanState) (i : Nat) (c : Nat) : ScanState :=
  if st.inString then
    if st.escape then { st with escape := false }
    else if c = 92 then { st with escape := true }
    else if c = 34 then { st with inString := false }
    else st
  else if c = 34 then { st with inString := true }
  else if c = 123 then
    { st with objStart := if st.depth = 0 then some i else st.objStart, depth := st.depth + 1 }
  else if c = 125 then
    match st.objStart with
    | some s =>
      if st.depth - 1 = 0 then
        { st with depth := st.depth - 1, any := true, calls := st.calls ++ [(s, i + 1)],
                  objStart := none }
      else { st with depth := st.depth - 1 }
    | none => { st with depth := st.depth - 1 }
  else st

/-- The loop `for (; i < n; ++i)` over the bytes `json[i..n)`. -/
def scanLoop : Bytes → Nat → ScanState → ScanState
  | [], _, st => st
  | c :: cs, i, st => scanLoop cs (i + 1) (scanStep st i c)

/-- `ForEachTopLevelObjectSpan` (xtream_client.cpp:408): the returned flag and
the spans `(start, end)` handed to `fn`, in call order. -/
def ForEachTopLevelObjectSpan (json : Bytes) : Bool × List (Nat × Nat) :=
  let i := (json.takeWhile isSpace).length
  match json.drop i with
  | [] => (false, [])
  | c :: rest =>
    if c ≠ 91 then (false, [])
    else
      let st := scanLoop (c :: rest) i ScanState.init
      (st.any, st.calls)

/-- First byte of the buffer that is not whitespace, if any. -/
def firstNonSpace (json : Bytes) : Option Nat := (json.dropWhile isSpace).head?

/-- The bytes `[start, end)` of a buffer (`std::string_view(data + start, end - start)`). -/
def slice (json : Bytes) (span : Nat × Nat) : Bytes := (json.drop span.1).take (span.2 - span.1)

/-! ### Well-formed JSON texts (the grammar of RFC 8259), as concrete syntax

These definitions follow the JSON grammar, not the scanner: a value of
`JTopArray` is one way of writing down an array of objects, with every optional
whitespace position made explicit, and `JTopArray.render` is its text. -/

/-- JSON insignificant whitespace characters. -/
inductive JWs where
  | space | tab | lf | cr
deriving DecidableEq, Repr

/-- Byte of a whitespace character. -/
def JWs.byte : JWs → Nat
  | .space => 32
  | .tab => 9
  | .lf => 10
  | .cr => 13

/-- Text of a whitespace run. -/
def renderWs (ws : List JWs) : Bytes := ws.map JWs.byte

/-- Hexadecimal digit `0-9a-fA-F`. -/
def isHexDigit (c : Nat) : Bool :=
  (48 ≤ c && c ≤ 57) || (97 ≤ c && c ≤ 102) || (65 ≤ c && c ≤ 70)

/-- One item of the body of a JSON string literal. -/
inductive JChar where
  /-- An unescaped byte (any byte from 0x20 up, except the quote and the backslash). -/
  | raw (b : Nat)
  /-- A two-character escape: backslash followed by one of `" \ / b f n r t`. -/
  | esc (c : Nat)
  /-- A `\uXXXX` escape with four hexadecimal digits. -/
  | uni (h1 h2 h3 h4 : Nat)
deriving DecidableEq, Repr

/-- Text of a string item. -/
def JChar.render : JChar → Bytes
  | .raw b => [b]
  | .esc c => [92, c]
  | .uni h1 h2 h3 h4 => [92, 117, h1, h2, h3, h4]

/-- Grammar side conditions of a string item. -/
def JChar.wf : JChar → Bool
  | .raw b => 32 ≤ b && b < 256 && b != 34 && b != 92
  | .esc c => c == 34 || c == 92 || c == 47 || c == 98 || c == 102 || c == 110 || c == 114
      || c == 116
  | .uni h1 h2 h3 h4 => isHexDigit h1 && isHexDigit h2 && isHexDigit h3 && isHexDigit h4

/-- Text of a string literal: quote, items, quote. -/
def renderString (s : List JChar) : Bytes := 34 :: (s.flatMap JChar.render ++ [34])

/-- A JSON number: optional minus, integer digits, optional fraction digits,
optional exponent (letter `e`/`E`, optional sign byte, digits). -/
structure JNumber where
  neg : Bool
  int : List Nat
  frac : Option (List Nat)
  exp : Option (Nat × Option Nat × List Nat)
deriving DecidableEq, Repr

/-- Text of a number. -/
def JNumber.render (n : JNumber) : Bytes :=
  (if n.neg then [45] else []) ++ n.int
    ++ (match n.frac with
        | none => []
        | some f => 46 :: f)
    ++ (match n.exp with
        | none => []
        | some (e, none, ds) => e :: ds
        | some (e, some sg, ds) => e :: sg :: ds)

/-- Grammar side conditions of a number. -/
def JNumber.wf (n : JNumber) : Bool :=
  n.int.all isDigit && n.int != [] && (n.int.head? != some 48 || n.int.length == 1)
    && (match n.frac with
        | none => true
        | some f => f.all isDigit && f != [])
    && (match n.exp with
        | none => true
        | some (e, sg, ds) =>
          (e == 101 || e == 69) && (sg == none || sg == some 43 || sg == some 45)
            && ds.all isDigit && ds != [])

mutual
/-- JSON values, with the whitespace allowed inside containers made explicit. -/
inductive JValue where
  | null : JValue
  | true : JValue
  | false : JValue
  | num (n : JNumber) : JValue
  | str (s : List JChar) : JValue
  /-- Array `[ ws elements ]`. -/
  | arr (ws : List JWs) (es : JElems) : JValue
  /-- Object `{ ws members }`. -/
  | obj (ws : List JWs) (ms : JMembers) : JValue
/-- Comma-separated array elements, each `ws value ws`. -/
inductive JElems where
  | nil : JElems
  | cons (pre : List JWs) (v : JValue) (post : List JWs) (rest : JElems) : JElems
/-- Comma-separated object members, each `ws string ws : ws value ws`. -/
inductive JMembers where
  | nil : JMembers
  | cons (pre : List JWs) (key : List JChar) (mid : List JWs) (pre2 : List JWs) (v : JValue)
      (post : List JWs) (rest : JMembers) : JMembers
end

mutual
/-- Text of a value. -/
def JValue.render : JValue → Bytes
  | .null => [110, 117, 108, 108]
  | .true => [116, 114, 117, 101]
  | .false => [102, 97, 108, 115, 101]
  | .num n => n.render
  | .str s => renderString s
  | .arr ws es => 91 :: (renderWs ws ++ (es.render ++ [93]))
  | .obj ws ms => 123 :: (renderWs ws ++ (ms.render ++ [125]))
/-- Text of an element list. -/
def JElems.render : JElems → Bytes
  | .nil => []
  | .cons pre v post .nil => renderWs pre ++ (v.render ++ renderWs post)
  | .cons pre v post rest => renderWs pre ++ (v.render ++ (renderWs post ++ 44 :: rest.render))
/-- Text of a member list. -/
def JMembers.render : JMembers → Bytes
  | .nil => []
  | .cons pre key mid pre2 v post .nil =>
    renderWs pre ++ (renderString key ++ (renderWs mid ++ 58 :: (renderWs pre2
      ++ (v.render ++ renderWs post))))
  | .cons pre key mid pre2 v post rest =>
    renderWs pre ++ (renderString key ++ (renderWs mid ++ 58 :: (renderWs pre2
      ++ (v.render ++ (renderWs post ++ 44 :: rest.render)))))
end

mutual
/-- Grammar side conditions of a value. -/
def JValue.wf : JValue → Bool
  | .null => Bool.true
  | .true => Bool.true
  | .false => Bool.true
  | .num n => n.wf
  | .str s => s.all JChar.wf
  | .arr _ es => es.wf
  | .obj _ ms => ms.wf
/-- Grammar side conditions of an element list. -/
def JElems.wf : JElems → Bool
  | .nil => Bool.true
  | .cons _ v _ rest => v.wf && rest.wf
/-- Grammar side conditions of a member list. -/
def JMembers.wf : JMembers → Bool
  | .nil => Bool.true
  | .cons _ key _ _ v _ rest => key.all JChar.wf && v.wf && rest.wf
end

/-- One element of a top-level array of objects: `ws { ws members } ws`. -/
structure JTopElem where
  pre : List JWs
  ws : List JWs
  members : JMembers
  post : List JWs

/-- Text of the object of a top-level element (without the surrounding whitespace). -/
def JTopElem.objText (e : JTopElem) : Bytes := (JValue.obj e.ws e.members).render

/-- Text of a comma-separated list of top-level elements. -/
def renderTopElems : List JTopElem → Bytes
  | [] => []
  | [e] => renderWs e.pre ++ (e.objText ++ renderWs e.post)
  | e :: es => renderWs e.pre ++ (e.objText ++ (renderWs e.post ++ 44 :: renderTopElems es))

/-- A JSON text that is an array of objects: `ws [ elements ] ws`. -/
structure JTopArray where
  lead : List JWs
  elems : List JTopElem
  trail : List JWs

/-- Text of an array of objects. -/
def JTopArray.render (a : JTopArray) : Bytes :=
  renderWs a.lead ++ 91 :: (renderTopElems a.elems ++ 93 :: renderWs a.trail)

/-- Grammar side conditions of an array of objects. -/
def JTopArray.wf (a : JTopArray) : Bool := a.elems.all (fun e => e.members.wf)

/-- Positions `[start, end)` of the objects of an element list whose text starts
at offset `off`. -/
def topSpans : Nat → List JTopElem → List (Nat × Nat)
  | _, [] => []
  | off, e :: es =>
    (off + e.pre.length, off + e.pre.length + e.objText.length)
      :: topSpans (off + e.pre.length + e.objText.length + e.post.length + 1) es

/-- Positions of the objects of an array-of-objects text. -/
def JTopArray.spans (a : JTopArray) : List (Nat × Nat) := topSpans (a.lead.length + 1) a.elems

/-- Scanner state outside a string literal. -/
def ScanState.quiet (st : ScanState) : Prop := st.inString = false ∧ st.escape = false

/-- State after a span has been handed to the callback. -/
def ScanState.emit (st : ScanState) (span : Nat × Nat) : ScanState :=
  { st with any := true, calls := st.calls ++ [span] }

/-- Bytes that the scanner ignores outside string literals. -/
def inertByte (c : Nat) : Prop := c ≠ 34 ∧ c ≠ 123 ∧ c ≠ 125

/-! ### Field extractors (xtream_client.cpp:476-764) -/

/-- Search loop of `std::string_view::find`: the haystack suffix starting at
index `i`. -/
def findFrom (needle : Bytes) : Bytes → Nat → Option Nat
  | [], i => if needle = [] then some i else none
  | c :: cs, i => if needle.isPrefixOf (c :: cs) then some i else findFrom needle cs (i + 1)

/-- `hay.find(needle, pos)`: the least index `≥ pos` at which `needle` occurs;
`none` is `npos`. -/
def find (hay needle : Bytes) (pos : Nat) : Option Nat :=
  if pos ≤ hay.length then findFrom needle (hay.drop pos) pos else none

/-- `FindKeyPos` (xtream_client.cpp:476): position of the quoted key. -/
def FindKeyPos (obj key : Bytes) : Option Nat := find obj (34 :: (key ++ [34])) 0

/-- The loop `while (pos < obj.size() && std::isspace(obj[pos])) ++pos;`. -/
def skipSpaces (obj : Bytes) (pos : Nat) : Nat :=
  pos + ((obj.drop pos).takeWhile isSpace).length

/-- The digit loop of `ParseIntAt` on the bytes from `pos` on: accumulator `v`
(`long long`) and flag `any`. -/
def parseDigits : Bytes → Int → Bool → Int × Bool
  | [], v, any => (v, any)
  | c :: cs, v, any =>
    if isDigit c then parseDigits cs (wrapInt64 (v * 10 + ((c : Int) - 48))) true else (v, any)

/-- `ParseIntAt` (xtream_client.cpp:483); `none` when it returns false. -/
def ParseIntAt (obj : Bytes) (pos : Nat) : Option Int :=
  match obj.drop (skipSpaces obj pos) with
  | [] => none
  | c :: rest =>
    if c = 34 then
      let neg := rest.head? = some 45
      let r := parseDigits (if neg then rest.drop 1 else rest) 0 false
      if r.2 then some (wrapInt32 (if neg then wrapInt64 (-r.1) else r.1)) else none
    else
      let neg := c = 45
      let r := parseDigits (if neg then rest else c :: rest) 0 false
      if r.2 then some (wrapInt32 (if neg then wrapInt64 (-r.1) else r.1)) else none

/-- `ExtractIntField` (xtream_client.cpp:534); `none` when it returns false (the
caller's variable is then left as it was). -/
def ExtractIntField (obj key : Bytes) : Option Int :=
  match FindKeyPos obj key with
  | none => none
  | some pos =>
    match find obj [58] pos with
    | none => none
    | some pos => ParseIntAt obj (pos + 1)

/-- `ExtractBoolField` (xtream_client.cpp:545); `none` when it returns false. -/
def ExtractBoolField (obj key : Bytes) : Option Bool :=
  match FindKeyPos obj key with
  | none => none
  | some pos =>
    match find obj [58] pos with
    | none => none
    | some pos =>
      match obj.drop (skipSpaces obj (pos + 1)) with
      | [] => none
      | c :: rest =>
        if (c :: rest).take 4 = [116, 114, 117, 101] then some true
        else if (c :: rest).take 5 = [102, 97, 108, 115, 101] then some false
        else if c = 49 then some true
        else if c = 48 then some false
        else if c = 34 then
          match rest with
          | [] => none
          | d :: _ => if d = 49 then some true else if d = 48 then some false else none
        else none

/-- The lambda `hexVal` of `ExtractStringField`: `-1` for a non-hex byte. -/
def hexVal (ch : Nat) : Int :=
  if 48 ≤ ch ∧ ch ≤ 57 then (ch : Int) - 48
  else if 97 ≤ ch ∧ ch ≤ 102 then 10 + ((ch : Int) - 97)
  else if 65 ≤ ch ∧ ch ≤ 70 then 10 + ((ch : Int) - 65)
  else -1

/-- The lambda `appendUtf8` of `ExtractStringField`: the bytes pushed for code
point `cp` (`uint32_t`). -/
def appendUtf8 (cp : Nat) : Bytes :=
  if cp ≤ 0x7F then [cp % 256]
  else if cp ≤ 0x7FF then
    [0xC0 ||| ((cp >>> 6) &&& 0x1F), 0x80 ||| (cp &&& 0x3F)]
  else if cp ≤ 0xFFFF then
    [0xE0 ||| ((cp >>> 12) &&& 0x0F), 0x80 ||| ((cp >>> 6) &&& 0x3F), 0x80 ||| (cp &&& 0x3F)]
  else
    [0xF0 ||| ((cp >>> 18) &&& 0x07), 0x80 ||| ((cp >>> 12) &&& 0x3F),
     0x80 ||| ((cp >>> 6) &&& 0x3F), 0x80 ||| (cp &&& 0x3F)]

/-- The code unit `(h1 << 12) | (h2 << 8) | (h3 << 4) | h4` of four hex digit
values. -/
def codeUnit (h1 h2 h3 h4 : Int) : Nat :=
  (h1.toNat <<< 12) ||| (h2.toNat <<< 8) ||| (h3.toNat <<< 4) ||| h4.toNat

/-- The `case 'u'` branch of the escape switch, on the bytes that follow the
`u`: the bytes pushed to `s` and by how much `pos` is advanced (0, 4 or 10). -/
def unicodeEscape (rest : Bytes) : Bytes × Nat :=
  match rest with
  | h1 :: h2 :: h3 :: h4 :: more =>
    if 0 ≤ hexVal h1 ∧ 0 ≤ hexVal h2 ∧ 0 ≤ hexVal h3 ∧ 0 ≤ hexVal h4 then
      let cu := codeUnit (hexVal h1) (hexVal h2) (hexVal h3) (hexVal h4)
      let lone := if 0xD800 ≤ cu ∧ cu ≤ 0xDFFF then appendUtf8 0xFFFD else appendUtf8 cu
      if 0xD800 ≤ cu ∧ cu ≤ 0xDBFF then
        match more with
        | b :: u :: l1 :: l2 :: l3 :: l4 :: _ =>
          let lo :=
            if 0 ≤ hexVal l1 ∧ 0 ≤ hexVal l2 ∧ 0 ≤ hexVal l3 ∧ 0 ≤ hexVal l4 then
              codeUnit (hexVal l1) (hexVal l2) (hexVal l3) (hexVal l4)
            else 0
          if b = 92 ∧ u = 117 ∧ 0xDC00 ≤ lo ∧ lo ≤ 0xDFFF then
            (appendUtf8 (0x10000 + (((cu - 0xD800) <<< 10) ||| (lo - 0xDC00))), 10)
          else (lone, 4)
        | _ => (lone, 4)
      else (lone, 4)
    else ([117], 0)
  | _ => ([117], 0)

/-- The decoding loop of `ExtractStringField` (xtream_client.cpp:623-761) on the
bytes from `pos` on; `skip` is the number of bytes by which `pos` was advanced
inside the body, `escape2` the flag and `s` the buffer; `none` when the loop
runs off the end (the function returns false). -/
def decodeString : Bytes → Nat → Bool → Bytes → Option Bytes
  | [], _, _, _ => none
  | _ :: rest, skip + 1, escape2, s => decodeString rest skip escape2 s
  | c :: rest, 0, true, s =>
    if c = 34 ∨ c = 92 ∨ c = 47 then decodeString rest 0 false (s ++ [c])
    else if c = 98 then decodeString rest 0 false (s ++ [8])
    else if c = 102 then decodeString rest 0 false (s ++ [12])
    else if c = 110 then decodeString rest 0 false (s ++ [10])
    else if c = 114 then decodeString rest 0 false (s ++ [13])
    else if c = 116 then decodeString rest 0 false (s ++ [9])
    else if c = 117 then
      decodeString rest (unicodeEscape rest).2 false (s ++ (unicodeEscape rest).1)
    else decodeString rest 0 false (s ++ [c])
  | c :: rest, 0, false, s =>
    if c = 92 then decodeString rest 0 true s
    else if c = 34 then some s
    else decodeString rest 0 false (s ++ [c])

/-- `ExtractStringField` (xtream_client.cpp:605); `none` when it returns false. -/
def ExtractStringField (obj key : Bytes) : Option Bytes :=
  match FindKeyPos obj key with
  | none => none
  | some pos =>
    match find obj [58] pos with
    | none => none
    | some pos =>
      match obj.drop (skipSpaces obj (pos + 1)) with
      | [] => none
      | c :: rest => if c = 34 then decodeString rest 0 false [] else none

/-! ### Live catalog fetcher (xtream_client.cpp:907-945) -/

/-- `xtream::LiveStream` (xtream_client.h:39). -/
structure LiveStream where
  id : Int := 0
  categoryId : Int := 0
  number : Int := 0
  name : Bytes := []
  icon : Bytes := []
  epgChannelId : Bytes := []
  tvArchive : Bool := false
  tvArchiveDuration : Int := 0
deriving DecidableEq, Repr

/-- `xtream::LiveCategory` (xtream_client.h:33). -/
structure LiveCategory where
  id : Int := 0
  name : Bytes := []
deriving DecidableEq, Repr

/-- `xtream::FetchResult` (xtream_client.h:79). -/
structure FetchResult where
  ok : Bool := false
  details : Bytes := []
deriving DecidableEq, Repr

/-- `HttpResult` (xtream_client.cpp:280): what the transport collaborator
`HttpGet` returned. -/
structure HttpResult where
  ok : Bool := false
  protocol : Bytes := []
  body : Bytes := []
deriving DecidableEq, Repr

/-- The callback of `FetchLiveStreams` on one span: the record pushed to `out`,
or `none` when the lambda returns early (no `stream_id`). A field whose
extractor returns false keeps its default. -/
def liveStreamOfSpan (body : Bytes) (span : Nat × Nat) : Option LiveStream :=
  let obj := slice body span
  match ExtractIntField obj (ascii "stream_id") with
  | none => none
  | some id =>
    some { id := id
           categoryId := (ExtractIntField obj (ascii "category_id")).getD 0
           number := (ExtractIntField obj (ascii "num")).getD 0
           name := (ExtractStringField obj (ascii "name")).getD []
           icon := (ExtractStringField obj (ascii "stream_icon")).getD []
           epgChannelId := (ExtractStringField obj (ascii "epg_channel_id")).getD []
           tvArchive := (ExtractBoolField obj (ascii "tv_archive")).getD false
           tvArchiveDuration := (ExtractIntField obj (ascii "tv_archive_duration")).getD 0 }

/-- `FetchLiveStreams` (xtream_client.cpp:907), given the request URL it built
and the response of `HttpGet` for it: the result and the final content of `out`. -/
def FetchLiveStreams (url : Bytes) (http : HttpResult) : FetchResult × List LiveStream :=
  if url.isEmpty then ({ ok := false, details := ascii "Failed to build streams URL" }, [])
  else if !http.ok then
    ({ ok := false
       details := if http.protocol.isEmpty then ascii "Failed to fetch streams" else http.protocol },
     [])
  else
    let r := ForEachTopLevelObjectSpan http.body
    let out := r.2.filterMap (liveStreamOfSpan http.body)
    if !r.1 then ({ ok := false, details := ascii "Streams response was not a JSON array" }, out)
    else if out.isEmpty then ({ ok := false, details := ascii "No streams parsed" }, out)
    else ({ ok := true, details := if http.protocol.isEmpty then ascii "OK" else http.protocol },
          out)

/-- The callback of `FetchLiveCategories` on one span. -/
def liveCategoryOfSpan (body : Bytes) (span : Nat × Nat) : Option LiveCategory :=
  let obj := slice body span
  match ExtractIntField obj (ascii "category_id") with
  | none => none
  | some id => some { id := id, name := (ExtractStringField obj (ascii "category_name")).getD [] }

/-- `FetchLiveCategories` (xtream_client.cpp:878), given the request URL and the
response of `HttpGet` for it. -/
def FetchLiveCategories (url : Bytes) (http : HttpResult) : FetchResult × List LiveCategory :=
  if url.isEmpty then ({ ok := false, details := ascii "Failed to build categories URL" }, [])
  else if !http.ok then
    ({ ok := false
       details :=
         if http.protocol.isEmpty then ascii "Failed to fetch categories" else http.protocol },
     [])
  else
    let r := ForEachTopLevelObjectSpan http.body
    let out := r.2.filterMap (liveCategoryOfSpan http.body)
    if !r.1 then
      ({ ok := false, details := ascii "Categories response was not a JSON array" }, out)
    else if out.isEmpty then ({ ok := false, details := ascii "No categories parsed" }, out)
    else ({ ok := true, details := if http.protocol.isEmpty then ascii "OK" else http.protocol },
          out)

/-- Written from the claim, not from the scanner: the brace nesting of a buffer
outside string literals. `none` when some closing brace has no matching opening
brace; otherwise the number of braces opened and never closed. Arguments: the
remaining bytes, whether a string literal is open, whether the previous byte
was an escaping backslash, and the current nesting. -/
def braceNesting : Bytes → Bool → Bool → Nat → Option Nat
  | [], _, _, d => some d
  | _ :: cs, true, true, d => braceNesting cs true false d
  | c :: cs, true, false, d =>
    if c = 92 then braceNesting cs true true d
    else if c = 34 then braceNesting cs false false d
    else braceNesting cs true false d
  | c :: cs, false, _, d =>
    if c = 34 then braceNesting cs true false d
    else if c = 123 then braceNesting cs false false (d + 1)
    else if c = 125 then (if d = 0 then none else braceNesting cs false false (d - 1))
    else braceNesting cs false false d

/-- Written from the claim: the braces outside string literals are balanced
(every closing brace matches an opening one and no object stays open). -/
def bracesBalanced (json : Bytes) : Bool := braceNesting json false false 0 = some 0

/-- Buffer of the C5 counterexample: one complete object, then an object that
is opened and never closed. -/
def unbalancedBuffer : Bytes := ascii "[\x7b\"stream_id\":7\x7d,\x7b"

/-- The object `{"stream_id":7}` as an element of a top-level array, without
whitespace. -/
def streamSevenElem : JTopElem :=
  { pre := [], ws := []
    members :=
      .cons [] [.raw 115, .raw 116, .raw 114, .raw 101, .raw 97, .raw 109, .raw 95, .raw 105,
        .raw 100] [] [] (.num ⟨false, [55], none, none⟩) [] .nil
    post := [] }

/-- Example text for C4: `  [{"a":{"b":[1,"}{"]}}, {"c":"\""}]`. -/
def nestedArrayExample : JTopArray :=
  { lead := [.space, .space]
    elems :=
      [ { pre := [], ws := []
          members :=
            .cons [] [.raw 97] [] []
              (.obj [] (.cons [] [.raw 98] [] []
                (.arr [] (.cons [] (.num ⟨false, [49], none, none⟩) []
                  (.cons [] (.str [.raw 125, .raw 123]) [] .nil))) [] .nil)) [] .nil
          post := [] },
        { pre := [.space], ws := []
          members := .cons [] [.raw 99] [] [] (.str [.esc 34]) [] .nil
          post := [] } ]
    trail := [] }

/-! ### String encoding used to state the decoding round trip (C7)

Written from the claim: the UTF-8 encoding of Unicode scalar values and the
JSON string encoding `E`. -/

/-- UTF-8 encoding of the scalar value `v` (Unicode Standard, table 3-6); it
agrees with the encoder of the Lean core library (`utf8EncodeScalar_eq_core`). -/
def utf8EncodeScalar (v : Nat) : Bytes :=
  if v < 0x80 then [v]
  else if v < 0x800 then [0xC0 + v / 64, 0x80 + v % 64]
  else if v < 0x10000 then [0xE0 + v / 4096, 0x80 + v / 64 % 64, 0x80 + v % 64]
  else [0xF0 + v / 262144, 0x80 + v / 4096 % 64, 0x80 + v / 64 % 64, 0x80 + v % 64]

/-- UTF-8 bytes of a Unicode string. -/
def utf8Bytes (s : List Char) : Bytes := s.flatMap (fun c => utf8EncodeScalar c.toNat)

/-- Hexadecimal digit of value `d < 16`, upper or lower case. -/
def hexDigit (upper : Bool) (d : Nat) : Nat :=
  if d < 10 then 48 + d else if upper then 55 + d else 87 + d

/-- The text `\uXXXX` for a 16-bit code unit; `upper i` chooses the case of the
i-th digit. -/
def unicodeEscapeText (upper : Nat → Bool) (u : Nat) : Bytes :=
  [92, 117, hexDigit (upper 0) (u / 4096 % 16), hexDigit (upper 1) (u / 256 % 16),
   hexDigit (upper 2) (u / 16 % 16), hexDigit (upper 3) (u % 16)]

/-- How the encoder writes one character that needs no escaping. -/
inductive CharStyle where
  /-- Raw, as its UTF-8 bytes. -/
  | raw
  /-- As `\uXXXX` (a surrogate pair of two escapes above U+FFFF); the two
  functions choose the case of each hex digit. -/
  | escaped (upper1 upper2 : Nat → Bool)

/-- The encoding `E` of one character: the quote and the backslash are escaped
with a backslash, any other character is written in the chosen style. -/
def encodeChar (c : Char) (style : CharStyle) : Bytes :=
  if c.toNat = 34 ∨ c.toNat = 92 then [92, c.toNat]
  else
    match style with
    | .raw => utf8EncodeScalar c.toNat
    | .escaped upper1 upper2 =>
      if c.toNat < 0x10000 then unicodeEscapeText upper1 c.toNat
      else
        unicodeEscapeText upper1 (0xD800 + (c.toNat - 0x10000) / 1024)
          ++ unicodeEscapeText upper2 (0xDC00 + (c.toNat - 0x10000) % 1024)

/-- The encoding `E` of a string, one style per character. -/
def encodeString (s : List (Char × CharStyle)) : Bytes :=
  s.flatMap (fun p => encodeChar p.1 p.2)

/-- The object text `{"k":"v"}` for key bytes `k` and encoded value bytes `v`. -/
def singleFieldObject (k v : Bytes) : Bytes := 123 :: 34 :: (k ++ 34 :: 58 :: 34 :: (v ++ [34, 125]))

/-! ### XMLTV parser and channel correlation (xtream_client.cpp:54-103, 1098-1377) -/

/-- `std::unordered_map::find`: the value stored under `k`, if any. -/
def mapFind {κ ν : Type} [DecidableEq κ] (m : List (κ × ν)) (k : κ) : Option ν :=
  match m with
  | [] => none
  | (k', v) :: rest => if k' = k then some v else mapFind rest k

/-- `m[k] = v`: overwrite the value under `k`, or insert the pair. -/
def mapSet {κ ν : Type} [DecidableEq κ] (m : List (κ × ν)) (k : κ) (v : ν) : List (κ × ν) :=
  match m with
  | [] => [(k, v)]
  | (k', v') :: rest => if k' = k then (k, v) :: rest else (k', v') :: mapSet rest k v

/-- `m[k].push_back(x)` on a map of vectors. -/
def mapPush {κ ν : Type} [DecidableEq κ] (m : List (κ × List ν)) (k : κ) (x : ν) :
    List (κ × List ν) :=
  mapSet m k ((mapFind m k).getD [] ++ [x])

/-- The lambda `replace_all` for a non-empty pattern `a`: `n` bounds the number
of loop steps (the length of the text is enough). -/
def replaceAllAux (a b : Bytes) : Nat → Bytes → Bytes
  | 0, t => t
  | _ + 1, [] => []
  | n + 1, c :: cs =>
    if a.isPrefixOf (c :: cs) then b ++ replaceAllAux a b n ((c :: cs).drop a.length)
    else c :: replaceAllAux a b n cs

/-- `replace_all(t, from, to)` (xtream_client.cpp:62). -/
def replaceAll (t a b : Bytes) : Bytes := replaceAllAux a b t.length t

/-- The whitespace-collapsing loop (xtream_client.cpp:78-92) with its flag
`prevSpace`. -/
def collapseSpaces : Bytes → Bool → Bytes
  | [], _ => []
  | ch :: rest, prevSpace =>
    if isSpace ch then (if prevSpace then [] else [32]) ++ collapseSpaces rest true
    else ch :: collapseSpaces rest false

/-- `hay.rfind(needle)`: the greatest index at which `needle` occurs. -/
def rfind (hay needle : Bytes) : Option Nat :=
  ((List.range (hay.length + 1)).filter (fun i => needle.isPrefixOf (hay.drop i))).getLast?

/-- `NormalizeChannelNameForEpg` (xtream_client.cpp:54). -/
def NormalizeChannelNameForEpg (name : Bytes) : Bytes :=
  let s := Trim name
  if s.isEmpty then s
  else
    let s := replaceAll s (ascii "&amp;") (ascii "&")
    let s := replaceAll s (ascii "&quot;") [34]
    let s := replaceAll s (ascii "&#039;") [39]
    let s := replaceAll s (ascii "&lt;") (ascii "<")
    let s := replaceAll s (ascii "&gt;") (ascii ">")
    let collapsed := Trim (collapseSpaces s false)
    match rfind collapsed (ascii " | ") with
    | some pos => if pos + 3 < collapsed.length then Trim (collapsed.drop (pos + 3)) else collapsed
    | none => collapsed

/-- Decimal digits of `n` put in front of `acc`; `fuel` bounds the number of
digits. -/
def natToStringAux : Nat → Nat → Bytes → Bytes
  | 0, _, acc => acc
  | fuel + 1, n, acc =>
    if n < 10 then (48 + n) :: acc else natToStringAux fuel (n / 10) ((48 + n % 10) :: acc)

/-- Decimal digits of a natural number, most significant first (`"0"` for 0). -/
def natToString (n : Nat) : Bytes := natToStringAux (n + 1) n []

/-- `std::to_string(int)`. -/
def intToString (v : Int) : Bytes :=
  if v < 0 then 45 :: natToString v.natAbs else natToString v.natAbs

/-- Value of a run of decimal digits read left to right, starting from `acc`. -/
def digitsValue (ds : Bytes) (acc : Nat) : Nat := ds.foldl (fun a c => a * 10 + (c - 48)) acc

/-- `std::strtol(s, &end, 10)` for a 64-bit `long` (C standard, 7.22.1.4): the
value and the unparsed rest `end`. Leading whitespace and one sign are
accepted; without digits no conversion is made and `end` is the whole input;
the value is clamped to the range of `long`. -/
def strtol (s : Bytes) : Int × Bytes :=
  let s1 := s.dropWhile isSpace
  let neg := s1.head? = some 45
  let s2 := if s1.head? = some 45 ∨ s1.head? = some 43 then s1.drop 1 else s1
  let ds := s2.takeWhile isDigit
  if ds.isEmpty then (0, s)
  else
    let v : Int := if neg then -(digitsValue ds 0 : Int) else (digitsValue ds 0 : Int)
    (max (-9223372036854775808) (min v 9223372036854775807), s2.dropWhile isDigit)

/-- `xtream::EpgEntry` (xtream_client.h:53). -/
structure EpgEntry where
  channelId : Bytes := []
  startTime : Int := 0
  endTime : Int := 0
  title : Bytes := []
  description : Bytes := []
  episodeName : Bytes := []
  iconPath : Bytes := []
  genreString : Bytes := []
  genreType : Int := 0
  genreSubType : Int := 0
  year : Int := 0
  starRating : Int := 0
  seasonNumber : Int := -1
  episodeNumber : Int := -1
deriving DecidableEq, Repr

/-- `xtream::ChannelEpg` (xtream_client.h:71); `entries` is the `std::map` keyed
by start time, kept in key order. -/
structure ChannelEpg where
  id : Bytes := []
  displayName : Bytes := []
  iconPath : Bytes := []
  entries : List (Int × EpgEntry) := []
deriving DecidableEq, Repr

/-- `entries[k] = e` on the `std::map<time_t, EpgEntry>`: ordered insertion,
overwriting an equal key. -/
def entriesSet (m : List (Int × EpgEntry)) (k : Int) (e : EpgEntry) : List (Int × EpgEntry) :=
  match m with
  | [] => [(k, e)]
  | (k', e') :: rest =>
    if k < k' then (k, e) :: (k', e') :: rest
    else if k = k' then (k, e) :: rest
    else (k', e') :: entriesSet rest k e

/-- A `<channel>` child of `<tv>` as the XML tree collaborator presents it:
the `id` attribute (empty when absent), the text of the first `display-name`
child and the `src` attribute of the first `icon` child (`none` when there is
no such child). -/
structure XmlChannel where
  id : Bytes := []
  displayName : Option Bytes := none
  iconSrc : Option Bytes := none
deriving DecidableEq, Repr

/-- A `<programme>` child of `<tv>`: attributes (empty when absent) and the
text of the first child of each kind. -/
structure XmlProgramme where
  channel : Bytes := []
  start : Bytes := []
  stop : Bytes := []
  title : Option Bytes := none
  desc : Option Bytes := none
  subTitle : Option Bytes := none
  iconSrc : Option Bytes := none
  category : Option Bytes := none
deriving DecidableEq, Repr

/-- The `<tv>` root as parsed by the XML tree collaborator: its `channel` and
`programme` children in document order. -/
structure XmlTv where
  channels : List XmlChannel := []
  programmes : List XmlProgramme := []
deriving DecidableEq, Repr

/-- The three lookup maps built from the catalog (xtream_client.cpp:1131-1146). -/
structure StreamIndex where
  streamIdToName : List (Int × Bytes) := []
  streamNameToIds : List (Bytes × List Int) := []
  xmltvIdToStreamIds : List (Bytes × List Int) := []
deriving DecidableEq, Repr

/-- One iteration of the index-building loop. -/
def indexStream (idx : StreamIndex) (stream : LiveStream) : StreamIndex :=
  if 0 < stream.id then
    let normName := NormalizeChannelNameForEpg stream.name
    { streamIdToName := mapSet idx.streamIdToName stream.id stream.name
      streamNameToIds :=
        if normName.isEmpty then idx.streamNameToIds
        else mapPush idx.streamNameToIds (ToLower normName) stream.id
      xmltvIdToStreamIds :=
        if stream.epgChannelId.isEmpty then idx.xmltvIdToStreamIds
        else mapPush idx.xmltvIdToStreamIds stream.epgChannelId stream.id }
  else idx

/-- The index-building loop over the catalog. -/
def buildIndex (streams : List LiveStream) : StreamIndex := streams.foldl indexStream {}

/-- The resolution of one `<channel>` (xtream_client.cpp:1185-1222): the vector
`mappedIds` for XMLTV id `xmltvId` and normalized display name
`displayNameNormalized`. -/
def resolveChannel (idx : StreamIndex) (xmltvId displayNameNormalized : Bytes) : List Bytes :=
  let byEpgId := (mapFind idx.xmltvIdToStreamIds xmltvId).getD []
  if !byEpgId.isEmpty then byEpgId.map intToString
  else
    let r := strtol xmltvId
    let streamId := wrapInt32 r.1
    if r.2.isEmpty ∧ 0 < r.1 ∧ (mapFind idx.streamIdToName streamId).isSome then
      [intToString streamId]
    else
      let byName := (mapFind idx.streamNameToIds (ToLower displayNameNormalized)).getD []
      if !displayNameNormalized.isEmpty ∧ !byName.isEmpty then byName.map intToString
      else []

/-- Normalized display name of a `<channel>`: empty when it has no
`display-name` child. -/
def XmlChannel.displayNameNormalized (ch : XmlChannel) : Bytes :=
  match ch.displayName with
  | some d => NormalizeChannelNameForEpg d
  | none => []

/-! #### Programme timestamps (xtream_client.cpp:1270-1320) -/

/-- A `%Nd` conversion of `sscanf` (C standard, 7.21.6.2): leading whitespace is
skipped, then at most `width` bytes are read: an optional sign and decimal
digits. `none` when no digit could be read (matching or input failure);
otherwise the value and the unread rest. -/
def scanInt (width : Nat) (s : Bytes) : Option (Int × Bytes) :=
  let s1 := s.dropWhile isSpace
  let signed := s1.head? = some 45 ∨ s1.head? = some 43
  let neg := s1.head? = some 45
  let s2 := if signed ∧ 0 < width then s1.drop 1 else s1
  let w := if signed ∧ 0 < width then width - 1 else width
  let ds := (s2.take w).takeWhile isDigit
  if ds.isEmpty then none
  else some (if neg then -(digitsValue ds 0 : Int) else (digitsValue ds 0 : Int), s2.drop ds.length)

/-- The fields of `struct tm` that `timegm` reads. -/
structure Tm where
  tm_year : Int := 0
  tm_mon : Int := 0
  tm_mday : Int := 0
  tm_hour : Int := 0
  tm_min : Int := 0
  tm_sec : Int := 0
deriving DecidableEq, Repr

/-- Gregorian leap year. -/
def isLeapYear (y : Int) : Bool := (y % 4 = 0 ∧ y % 100 ≠ 0) ∨ y % 400 = 0

/-- Days from 1970-01-01 to January 1st of year `y` (proleptic Gregorian). -/
def daysBeforeYear (y : Int) : Int :=
  365 * (y - 1970) + ((y - 1) / 4 - (y - 1) / 100 + (y - 1) / 400) - 477

/-- Days from January 1st to the first day of month `m` (0 = January) of year `y`. -/
def daysBeforeMonth (y : Int) (m : Int) : Int :=
  [0, 31, 59, 90, 120, 151, 181, 212, 243, 273, 304, 334].getD m.toNat 0
    + (if isLeapYear y ∧ 2 ≤ m then 1 else 0)

/-- `timegm` (libc; `_mkgmtime` on Windows): seconds since the epoch of the
broken-down UTC time, with `tm_mon` outside 0..11 carried into the year and
the other fields added linearly, as POSIX `mktime` normalisation does. -/
def timegm (tm : Tm) : Int :=
  let y := tm.tm_year + 1900 + tm.tm_mon / 12
  let m := tm.tm_mon % 12
  (daysBeforeYear y + daysBeforeMonth y m + (tm.tm_mday - 1)) * 86400
    + tm.tm_hour * 3600 + tm.tm_min * 60 + tm.tm_sec

/-- The conversions of `sscanf(attr, "%4d%2d%2d%2d%2d%2d %c%2d%2d", ...)` that
follow the sixth field: the values left in `tzSign`, `tzHours`, `tzMins`
(initialised to `'+'`, 0, 0) on the rest of the input. -/
def scanZone (rest : Bytes) : Nat × Int × Int :=
  match rest.dropWhile isSpace with
  | [] => (43, 0, 0)
  | c :: r =>
    match scanInt 2 r with
    | none => (c, 0, 0)
    | some (h, r2) =>
      match scanInt 2 r2 with
      | none => (c, h, 0)
      | some (m, _) => (c, h, m)

/-- The timestamp block of `ParseXMLTV` (xtream_client.cpp:1274-1298, and
1301-1319 for `stop`): the value assigned to `entry.startTime`; `none` when the
attribute is empty or `sscanf` converts fewer than 6 fields, in which case the
entry keeps 0. -/
def parseXmltvTime (attr : Bytes) : Option Int :=
  if attr.isEmpty then none
  else
    match scanInt 4 attr with
    | none => none
    | some (year, r1) =>
    match scanInt 2 r1 with
    | none => none
    | some (mon, r2) =>
    match scanInt 2 r2 with
    | none => none
    | some (mday, r3) =>
    match scanInt 2 r3 with
    | none => none
    | some (hour, r4) =>
    match scanInt 2 r4 with
    | none => none
    | some (min, r5) =>
    match scanInt 2 r5 with
    | none => none
    | some (sec, r6) =>
      let z := scanZone r6
      let t := timegm { tm_year := year - 1900, tm_mon := mon - 1, tm_mday := mday,
                        tm_hour := hour, tm_min := min, tm_sec := sec }
      let tzOffsetSeconds := z.2.1 * 3600 + z.2.2 * 60
      some (t - (if z.1 = 45 then -tzOffsetSeconds else tzOffsetSeconds))

/-! #### The two passes of `ParseXMLTV` -/

/-- The maps filled by the first pass. -/
structure ChannelPass where
  epgMap : List (Bytes × ChannelEpg) := []
  xmltvIdToMappedIds : List (Bytes × List Bytes) := []
deriving DecidableEq, Repr

/-- Body of the loop over `mappedIds` (xtream_client.cpp:1237-1246):
`epgMap[mappedId]` is created if needed and its empty fields are filled. -/
def mergeTarget (epg : ChannelEpg) (epgMap : List (Bytes × ChannelEpg)) (mappedId : Bytes) :
    List (Bytes × ChannelEpg) :=
  let target := (mapFind epgMap mappedId).getD {}
  mapSet epgMap mappedId
    { target with
      id := if target.id.isEmpty then mappedId else target.id
      displayName := if target.displayName.isEmpty then epg.displayName else target.displayName
      iconPath := if target.iconPath.isEmpty then epg.iconPath else target.iconPath }

/-- Body of the first-pass loop over `<channel>` elements
(xtream_client.cpp:1157-1247). -/
def channelStep (idx : StreamIndex) (st : ChannelPass) (ch : XmlChannel) : ChannelPass :=
  if ch.id.isEmpty then st
  else
    let epg : ChannelEpg :=
      { displayName := ch.displayName.getD [], iconPath := ch.iconSrc.getD [] }
    let mappedIds := resolveChannel idx ch.id ch.displayNameNormalized
    if mappedIds.isEmpty then
      { epgMap := mapSet st.epgMap ch.id { epg with id := ch.id }
        xmltvIdToMappedIds := mapSet st.xmltvIdToMappedIds ch.id [ch.id] }
    else
      { epgMap := mappedIds.foldl (mergeTarget epg) st.epgMap
        xmltvIdToMappedIds := mapSet st.xmltvIdToMappedIds ch.id mappedIds }

/-- The entry built from a `<programme>` (xtream_client.cpp:1267-1353); `none`
when it is skipped by the check `startTime == 0 || endTime == 0 ||
endTime <= startTime`. -/
def programmeEntry (p : XmlProgramme) : Option EpgEntry :=
  let startTime := (parseXmltvTime p.start).getD 0
  let endTime := (parseXmltvTime p.stop).getD 0
  if startTime = 0 ∨ endTime = 0 ∨ endTime ≤ startTime then none
  else
    some { channelId := p.channel, startTime := startTime, endTime := endTime
           title := p.title.getD [], description := p.desc.getD []
           episodeName := p.subTitle.getD [], iconPath := p.iconSrc.getD []
           genreString := p.category.getD [] }

/-- Body of the attach loop (xtream_client.cpp:1356-1363). -/
def attachEntry (entry : EpgEntry) (epgMap : List (Bytes × ChannelEpg)) (mappedId : Bytes) :
    List (Bytes × ChannelEpg) :=
  match mapFind epgMap mappedId with
  | none => epgMap
  | some target =>
    mapSet epgMap mappedId
      { target with entries := entriesSet target.entries entry.startTime entry }

/-- Body of the second-pass loop over `<programme>` elements
(xtream_client.cpp:1256-1364). -/
def programmeStep (xmltvIdToMappedIds : List (Bytes × List Bytes))
    (epgMap : List (Bytes × ChannelEpg)) (p : XmlProgramme) : List (Bytes × ChannelEpg) :=
  if p.channel.isEmpty then epgMap
  else
    match mapFind xmltvIdToMappedIds p.channel with
    | none => epgMap
    | some mapped =>
      if mapped.isEmpty then epgMap
      else
        match programmeEntry p with
        | none => epgMap
        | some entry => mapped.foldl (attachEntry entry) epgMap

/-- `ParseXMLTV` (xtream_client.cpp:1098): the returned flag and `channelEpgs`.
`parsed` is what the XML tree collaborator made of `xmltvData`: `none` when
parsing failed or there is no `<tv>` root. The order of `channelEpgs` (iteration
order of an `unordered_map`) is not specified by the source; the model lists
them in order of first insertion. -/
def ParseXMLTV (xmltvData : Bytes) (parsed : Option XmlTv) (streams : List LiveStream) :
    Bool × List ChannelEpg :=
  if xmltvData.isEmpty then (false, [])
  else
    match parsed with
    | none => (false, [])
    | some tv =>
      let idx := buildIndex streams
      let pass1 := tv.channels.foldl (channelStep idx) {}
      let epgMap := tv.programmes.foldl (programmeStep pass1.xmltvIdToMappedIds) pass1.epgMap
      let channelEpgs := (epgMap.filter (fun kv => !kv.2.entries.isEmpty)).map (·.2)
      (!channelEpgs.isEmpty, channelEpgs)

/-- Two decimal digits of `n < 100`. -/
def pad2 (n : Nat) : Bytes := [48 + n / 10, 48 + n % 10]

/-- Four decimal digits of `n < 10000`. -/
def pad4 (n : Nat) : Bytes := [48 + n / 1000, 48 + n / 100 % 10, 48 + n / 10 % 10, 48 + n % 10]

/-- Calendar validity of date and time fields (Gregorian, 24-hour clock). -/
def validCalendarFields (y mo d h mi s : Nat) : Bool :=
  y < 10000 && 1 ≤ mo && mo ≤ 12 && 1 ≤ d
    && d ≤ (if mo = 2 then (if isLeapYear y then 29 else 28)
            else if mo = 4 ∨ mo = 6 ∨ mo = 9 ∨ mo = 11 then 30 else 31)
    && h < 24 && mi < 60 && s < 60

/-- Catalog of the C8 counterexample: one stream, id 0, named `BBC`. -/
def zeroIdCatalog : List LiveStream := [{ id := 0, name := ascii "BBC" }]

/-- Second catalog of the C8 counterexample: stream 1, whose name is blank. -/
def blankNameCatalog : List LiveStream := [{ id := 1, name := ascii "  " }]

/-- Document of the C9 counterexample: a channel `abc` that no rule resolves,
with one valid programme. -/
def unresolvedChannelDoc : XmlTv :=
  { channels := [{ id := ascii "abc", displayName := some (ascii "Nowhere TV") }]
    programmes := [{ channel := ascii "abc", start := ascii "20260121200000 +0100"
                     stop := ascii "20260121210000 +0100", title := some (ascii "News") }] }

/-! #### Resolution rules, written from the claim (C8) -/

/-- The ids the catalog lists under XMLTV id `x`: streams with a positive id
whose `epgChannelId` is `x`, in catalog order. -/
def idsByEpgChannelId (streams : List LiveStream) (x : Bytes) : List Int :=
  (streams.filter (fun s => 0 < s.id ∧ s.epgChannelId = x)).map (·.id)

/-- The ids the catalog lists under normalized display name `dn`: streams with
a positive id and a non-empty normalized name whose lowercase form equals the
lowercase form of `dn`, in catalog order. -/
def idsByName (streams : List LiveStream) (dn : Bytes) : List Int :=
  (streams.filter (fun s => 0 < s.id ∧ NormalizeChannelNameForEpg s.name ≠ []
      ∧ ToLower (NormalizeChannelNameForEpg s.name) = ToLower dn)).map (·.id)

/-- Catalog of the C8 witness: stream 5 named `BBC` and stream 6 named
`UK | bbc` with epg channel id `x`. -/
def epgIdCatalog : List LiveStream :=
  [{ id := 5, name := ascii "BBC" }, { id := 6, name := ascii "UK | bbc", epgChannelId := ascii "x" }]

/-- The EPG map holds, under key `x`, a record whose id is `x` and whose entry
map has every key of `keys`. -/
def HasSlot (epgMap : List (Bytes × ChannelEpg)) (x : Bytes) (keys : List Int) : Prop :=
  ∃ t, mapFind epgMap x = some t ∧ t.id = x ∧ ∀ k ∈ keys, ∃ e, (k, e) ∈ t.entries

/-! ### Request URLs (xtream_client.cpp:105-207, 1068-1096) -/

/-- `xtream::Settings` (xtream_client.h:10). -/
structure Settings where
  server : Bytes := []
  port : Int := 80
  username : Bytes := []
  password : Bytes := []
  dispatcharrPassword : Bytes := []
  timeoutSeconds : Int := 30
  enableUserAgentSpoofing : Bool := false
  customUserAgent : Bytes := []
  catchupStartOffsetHours : Int := 0
  enablePlayFromStart : Bool := true
  useFFmpegDirect : Bool := false
deriving DecidableEq, Repr

/-- `IsUnreserved` (xtream_client.cpp:105). -/
def IsUnreserved (c : Nat) : Bool :=
  (65 ≤ c && c ≤ 90) || (97 ≤ c && c ≤ 122) || (48 ≤ c && c ≤ 57)
    || c == 45 || c == 95 || c == 46 || c == 126

/-- The digit `kHex[v]` of `"0123456789ABCDEF"`. -/
def upperHexDigit (v : Nat) : Nat := if v < 10 then 48 + v else 55 + v

/-- `UrlEncode` (xtream_client.cpp:121). -/
def UrlEncode (s : Bytes) : Bytes :=
  s.flatMap (fun c =>
    if IsUnreserved c then [c] else [37, upperHexDigit ((c >>> 4) &&& 0xF), upperHexDigit (c &&& 0xF)])

/-- The loop `while (!s.empty() && s.back() == '/') s.pop_back();`. -/
def dropTrailingSlashes (s : Bytes) : Bytes := (s.reverse.dropWhile (· == 47)).reverse

/-- `NormalizeServer` (xtream_client.cpp:140). -/
def NormalizeServer (raw : Bytes) : Bytes := dropTrailingSlashes (Trim raw)

/-- `BuildBaseUrl` (xtream_client.cpp:148); the empty list is the empty string. -/
def BuildBaseUrl (settings : Settings) : Bytes :=
  let server := NormalizeServer settings.server
  if server.isEmpty then []
  else if (ascii "http://").isPrefixOf server ∨ (ascii "https://").isPrefixOf server then
    let hostPart :=
      match find server (ascii "://") 0 with
      | none => server
      | some schemePos => server.drop (schemePos + 3)
    if (find hostPart [58] 0).isSome then server
    else if 0 < settings.port then server ++ 58 :: intToString settings.port
    else server
  else if 0 < settings.port then ascii "http://" ++ server ++ 58 :: intToString settings.port
  else ascii "http://" ++ server

/-- `BuildPlayerApiUrl` (xtream_client.cpp:174). -/
def BuildPlayerApiUrl (settings : Settings) : Bytes :=
  let base := BuildBaseUrl settings
  if base.isEmpty then []
  else base ++ ascii "/player_api.php?username=" ++ UrlEncode settings.username
    ++ ascii "&password=" ++ UrlEncode settings.password

/-- `BuildPlayerApiUrlWithAction` (xtream_client.cpp:184). -/
def BuildPlayerApiUrlWithAction (settings : Settings) (action : Bytes) : Bytes :=
  let base := BuildPlayerApiUrl settings
  if base.isEmpty then [] else base ++ ascii "&action=" ++ UrlEncode action

/-- The URL requested by `FetchLiveCategories`. -/
def categoriesUrl (settings : Settings) : Bytes :=
  BuildPlayerApiUrlWithAction settings (ascii "get_live_categories")

/-- The URL requested by `FetchLiveStreams(settings, categoryId, out)`
(xtream_client.cpp:911-918). -/
def streamsUrl (settings : Settings) (categoryId : Int) : Bytes :=
  let url := BuildPlayerApiUrlWithAction settings (ascii "get_live_streams")
  if url.isEmpty then []
  else if 0 < categoryId then url ++ ascii "&category_id=" ++ intToString categoryId
  else url

/-- `FetchXMLTVEpg` (xtream_client.cpp:1068), given the response of `HttpGet` for
the URL it built, if it could build one: the result and `xmltvData`. -/
def FetchXMLTVEpg (settings : Settings) (http : HttpResult) : FetchResult × Bytes :=
  if (BuildBaseUrl settings).isEmpty then
    ({ ok := false, details := ascii "Failed to build base URL" }, [])
  else if !http.ok then
    ({ ok := false
       details := if http.protocol.isEmpty then ascii "Failed to fetch XMLTV" else http.protocol },
     [])
  else if http.body.isEmpty then
    ({ ok := false, details := ascii "XMLTV response is empty" }, http.body)
  else if (find http.body (ascii "<?xml") 0).isNone ∧ (find http.body (ascii "<tv") 0).isNone then
    ({ ok := false, details := ascii "XMLTV response doesn't appear to be XML" }, http.body)
  else ({ ok := true, details := if http.protocol.isEmpty then ascii "OK" else http.protocol },
        http.body)

/-- The URL requested by `FetchXMLTVEpg`. -/
def xmltvUrl (settings : Settings) : Bytes :=
  BuildBaseUrl settings ++ ascii "/xmltv.php?username=" ++ UrlEncode settings.username
    ++ ascii "&password=" ++ UrlEncode settings.password

/-! ### Channel filters (addon.cpp:244-340) -/

/-- The loop of `SplitPatterns` with the pending piece `cur`. -/
def splitPatternsAux : Bytes → Bytes → List Bytes
  | [], cur => if (Trim cur).isEmpty then [] else [ToLower (Trim cur)]
  | c :: rest, cur =>
    if c = 44 ∨ c = 10 ∨ c = 13 then
      (if (Trim cur).isEmpty then [] else [ToLower (Trim cur)]) ++ splitPatternsAux rest []
    else splitPatternsAux rest (cur ++ [c])

/-- `SplitPatterns` (addon.cpp:244). -/
def SplitPatterns (raw : Bytes) : List Bytes := splitPatternsAux raw []

/-- The loop of `LooksLikeChannelSeparator` with the counter `run`. -/
def separatorRun : Bytes → Nat → Bool
  | [], _ => false
  | ch :: rest, run =>
    if ch = 35 then (if 4 ≤ run + 1 then true else separatorRun rest (run + 1))
    else separatorRun rest 0

/-- `LooksLikeChannelSeparator` (addon.cpp:266). -/
def LooksLikeChannelSeparator (name : Bytes) : Bool := separatorRun name 0

/-- The first loop of `WildcardMatchLower` (addon.cpp:290-311) from the state
`(p, t, star, match)`, running at most `fuel` iterations: `some r` when the loop
ends within the bound, `r` being `none` for `return false` and `some p` for
normal termination with index `p`. -/
def wildcardLoop (pattern text : Bytes) : Nat → Nat → Nat → Option Nat → Nat → Option (Option Nat)
  | 0, _, _, _, _ => none
  | fuel + 1, p, t, star, mtch =>
    if t < text.length then
      if p < pattern.length ∧ pattern.getD p 0 = text.getD t 0 then
        wildcardLoop pattern text fuel (p + 1) (t + 1) star mtch
      else if p < pattern.length ∧ pattern.getD p 0 = 42 then
        wildcardLoop pattern text fuel (p + 1) t (some p) t
      else
        match star with
        | some s => wildcardLoop pattern text fuel (s + 1) (mtch + 1) star (mtch + 1)
        | none => some none
    else some (some p)

/-- Number of loop iterations allowed to `wildcardLoop` by `WildcardMatchLower`. -/
def wildcardFuel (pattern text : Bytes) : Nat :=
  (pattern.length + 1) * (text.length + 1) * (text.length + 1) + 1

/-- `WildcardMatchLower` (addon.cpp:284). -/
def WildcardMatchLower (patternLower textLower : Bytes) : Bool :=
  match wildcardLoop patternLower textLower (wildcardFuel patternLower textLower) 0 0 none 0 with
  | some (some p) => (patternLower.drop p).all (· == 42)
  | _ => false

/-- `PatternMatchesLower` (addon.cpp:317). -/
def PatternMatchesLower (patternLower textLower : Bytes) : Bool :=
  if patternLower.isEmpty then false
  else if (find patternLower [42] 0).isSome then WildcardMatchLower patternLower textLower
  else (find textLower patternLower 0).isSome

/-- `ShouldFilterOut` (addon.cpp:327). -/
def ShouldFilterOut (patternsLower : List Bytes) (name : Bytes) : Bool :=
  if patternsLower.isEmpty then false
  else patternsLower.any (fun pat => !pat.isEmpty && PatternMatchesLower pat (ToLower name))

/-! ### Refresh worker (addon.cpp:1621-2060) -/

/-- Whether the bytes after a backslash are `u` and four hex digits
(addon.cpp:1852-1858). -/
def escapeAfterBackslash (rest : Bytes) : Bool :=
  match rest with
  | u :: a :: b :: c :: d :: _ =>
    u == 117 && decide (0 ≤ hexVal a) && decide (0 ≤ hexVal b) && decide (0 ≤ hexVal c)
      && decide (0 ≤ hexVal d)
  | _ => false

/-- Whether the bytes after a `u` are four hex digits (addon.cpp:1864-1870). -/
def escapeAfterU (rest : Bytes) : Bool :=
  match rest with
  | a :: b :: c :: d :: _ =>
    decide (0 ≤ hexVal a) && decide (0 ≤ hexVal b) && decide (0 ≤ hexVal c)
      && decide (0 ≤ hexVal d)
  | _ => false

/-- The loop that strips literal `\uXXXX` and `uXXXX` text (addon.cpp:1850-1878);
`skip` is the number of bytes by which `i` was advanced beyond the current one. -/
def stripEscapeText : Bytes → Nat → Bytes
  | [], _ => []
  | _ :: rest, skip + 1 => stripEscapeText rest skip
  | c :: rest, 0 =>
    if c = 92 ∧ escapeAfterBackslash rest then stripEscapeText rest 5
    else if c = 117 ∧ escapeAfterU rest then stripEscapeText rest 4
    else c :: stripEscapeText rest 0

/-- The lambda `SanitizeChannelName` (addon.cpp:1801). -/
def SanitizeChannelName (name : Bytes) : Bytes :=
  let s := Trim name
  let s := replaceAll s (ascii "&amp;") (ascii "&")
  let s := replaceAll s (ascii "&quot;") [34]
  let s := replaceAll s (ascii "&#039;") [39]
  let s := replaceAll s (ascii "&lt;") (ascii "<")
  let s := replaceAll s (ascii "&gt;") (ascii ">")
  Trim (collapseSpaces (stripEscapeText s 0) false)

/-- The fields of `kodi::addon::PVRChannel` that the worker sets. -/
structure PVRChannel where
  uniqueId : Nat := 0
  isRadio : Bool := false
  channelName : Bytes := []
  channelNumber : Int := 0
  iconPath : Bytes := []
deriving DecidableEq, Repr

/-- `GroupMember` (addon.cpp:1427). -/
structure GroupMember where
  channelUid : Nat := 0
  channelNumber : Nat := 0
  subChannelNumber : Nat := 0
deriving DecidableEq, Repr

/-- `CacheChannel` (addon.cpp:1434). -/
structure CacheChannel where
  uid : Nat := 0
  categoryId : Int := 0
  channelNumber : Nat := 0
  name : Bytes := []
deriving DecidableEq, Repr

/-- `m.emplace(k, v)`: insert unless the key is present. -/
def mapEmplace {κ ν : Type} [DecidableEq κ] (m : List (κ × ν)) (k : κ) (v : ν) : List (κ × ν) :=
  match mapFind m k with
  | some _ => m
  | none => m ++ [(k, v)]

/-- The settings the worker copies under the lock at the start of a cycle
(addon.cpp:1658-1665). -/
structure Captured where
  gen : Nat := 0
  settings : Settings := {}
  streamFormat : Bytes := []
  channelNumbering : Bytes := []
  filterRaw : Bytes := []
  categoryFilterMode : Bytes := []
  categoryFilterRaw : Bytes := []
  filterChannelSeparators : Bool := true
deriving DecidableEq, Repr

/-- The map `categoryIdToName` (addon.cpp:1788-1797). -/
def categoryIdToName (categories : List LiveCategory) : List (Int × Bytes) :=
  categories.foldl
    (fun m c => if c.id ≤ 0 then m else if c.name.isEmpty then m else mapEmplace m c.id c.name) []

/-- The collections filled by the channel loop (addon.cpp:1900-1983). -/
structure Built where
  channels : List PVRChannel := []
  uidToStreamId : List (Nat × Int) := []
  groupMembers : List (Bytes × List GroupMember) := []
  groupNamesOrdered : List Bytes := []
  cacheChannels : List CacheChannel := []
  sequentialChannelNumber : Int := 1
  totalValid : Nat := 0
deriving DecidableEq, Repr

/-- The unsigned 32-bit value of `static_cast<unsigned int>(v)`. -/
def toUInt32 (v : Int) : Nat := (v % 4294967296).toNat

/-- Body of the channel loop (addon.cpp:1916-1983) for one stream. -/
def channelLoopStep (cap : Captured) (catNames : List (Int × Bytes)) (allowIcons : Bool)
    (b : Built) (s : LiveStream) : Built :=
  let patterns := SplitPatterns cap.filterRaw
  let categoryPatterns := SplitPatterns cap.categoryFilterRaw
  let categoryModeLower := ToLower cap.categoryFilterMode
  if s.id ≤ 0 then b
  else if s.name.isEmpty then b
  else if cap.filterChannelSeparators ∧ LooksLikeChannelSeparator s.name then b
  else
    let b := { b with totalValid := b.totalValid + 1 }
    let categoryName :=
      let n := (mapFind catNames s.categoryId).getD []
      if n.isEmpty then ascii "Uncategorized" else n
    let categoryMatches := ShouldFilterOut categoryPatterns categoryName
    if !categoryPatterns.isEmpty
        ∧ (categoryModeLower = ascii "include" ∨ categoryModeLower = ascii "exclude")
        ∧ ((categoryModeLower = ascii "include" ∧ !categoryMatches)
            ∨ (categoryModeLower = ascii "exclude" ∧ categoryMatches)) then b
    else if ShouldFilterOut patterns s.name then b
    else
      let chName := SanitizeChannelName s.name
      let channelNumber :=
        if ToLower cap.channelNumbering = ascii "provider" ∧ 0 < s.number then s.number
        else b.sequentialChannelNumber
      let ch : PVRChannel :=
        { uniqueId := toUInt32 s.id, isRadio := false, channelName := chName
          channelNumber := channelNumber
          iconPath := if allowIcons ∧ !s.icon.isEmpty then s.icon else [] }
      let cc : CacheChannel :=
        { uid := toUInt32 s.id, categoryId := s.categoryId
          channelNumber := toUInt32 channelNumber, name := chName }
      { b with
        channels := b.channels ++ [ch]
        uidToStreamId := mapEmplace b.uidToStreamId (toUInt32 s.id) s.id
        cacheChannels := b.cacheChannels ++ [cc]
        groupMembers :=
          match mapFind catNames s.categoryId with
          | some name =>
            mapPush b.groupMembers name
              { channelUid := toUInt32 s.id, channelNumber := toUInt32 channelNumber
                subChannelNumber := 0 }
          | none => b.groupMembers
        sequentialChannelNumber := b.sequentialChannelNumber + 1 }

/-- The loop that adds category-based groups (addon.cpp:1986-1995). -/
def groupNamesFor (categories : List LiveCategory) (catNames : List (Int × Bytes))
    (groupMembers : List (Bytes × List GroupMember)) : List Bytes :=
  categories.filterMap (fun c =>
    match mapFind catNames c.id with
    | none => none
    | some name =>
      match mapFind groupMembers name with
      | none => none
      | some members => if members.isEmpty then none else some name)

/-- The transform phase of a cycle (addon.cpp:1788-1995): the collections built
from the fetched categories and streams. -/
def buildCollections (cap : Captured) (categories : List LiveCategory)
    (streams : List LiveStream) : Built :=
  let catNames := categoryIdToName categories
  let allowIcons : Bool := streams.length ≤ 800
  let b := streams.foldl (channelLoopStep cap catNames allowIcons) {}
  { b with groupNamesOrdered := groupNamesFor categories catNames b.groupMembers }

/-- The shared state of `CXtreamCodesPVRClient` that the worker reads or writes
(addon.cpp:2247-2276). A null `shared_ptr` is `none`. -/
structure ClientState where
  stopRequested : Bool := false
  generation : Nat := 0
  workRequested : Bool := false
  loading : Bool := false
  dataLoaded : Bool := false
  groupsReady : Bool := false
  settingsSignature : Bytes := []
  xtreamSettings : Settings := {}
  streamFormat : Bytes := []
  channelNumbering : Bytes := []
  filterPatternsRaw : Bytes := []
  categoryFilterMode : Bytes := []
  categoryFilterPatternsRaw : Bytes := []
  filterChannelSeparators : Bool := true
  channels : Option (List PVRChannel) := none
  uidToStreamId : Option (List (Nat × Int)) := none
  groupNamesOrdered : Option (List Bytes) := none
  groupMembers : Option (List (Bytes × List GroupMember)) := none
  epgData : Option (List ChannelEpg) := none
  streams : Option (List LiveStream) := none
deriving DecidableEq, Repr

/-- What a worker cycle observes of the world outside its own thread: the
responses of the transport collaborator `HttpGet` (to the n-th request of the
cycle, for the given URL), the result of the XML tree collaborator on a
document, and the values of the atomics `m_stopRequested` and `m_generation`
(which other threads write) at the moments the cycle looks at them: index 0 is
the check after the categories fetch (addon.cpp:1676), 1 the check after the
streams fetch (1785), 2 the check under the lock before publishing (2002), and 3
the moment of the EPG swap (2027), where the source reads neither. -/
structure CycleEnv where
  httpGet : Nat → Bytes → HttpResult
  xmlParse : Bytes → Option XmlTv
  stopAt : Nat → Bool
  generationAt : Nat → Nat

/-- The copy made under the lock at wake-up (addon.cpp:1658-1665). -/
def capture (st : ClientState) : Captured :=
  { gen := st.generation, settings := st.xtreamSettings, streamFormat := st.streamFormat
    channelNumbering := st.channelNumbering, filterRaw := st.filterPatternsRaw
    categoryFilterMode := st.categoryFilterMode
    categoryFilterRaw := st.categoryFilterPatternsRaw
    filterChannelSeparators := st.filterChannelSeparators }

/-- The writes of the lambda `failLoad` (addon.cpp:1700), also made when the
categories request fails (addon.cpp:1681-1686). -/
def failLoad (st : ClientState) : ClientState :=
  { st with loading := false, dataLoaded := false, workRequested := false }

/-- How the stream fetch phase (addon.cpp:1712-1780) ends. -/
inductive StreamFetch where
  /-- The statement `continue`, after `failLoad`: the cycle is over. -/
  | aborted (st : ClientState)
  /-- Control reaches the label `fetched` with the vector `streams`; the last
  component is the number of requests issued so far in the cycle. -/
  | proceed (st : ClientState) (streams : List LiveStream) (requests : Nat)
deriving Repr

/-- The vector `keepCatIds` (addon.cpp:1726-1743). -/
def keepCatIds (categoryPatterns : List Bytes) (categoryModeLower : Bytes)
    (categories : List LiveCategory) : List Int :=
  categories.filterMap (fun c =>
    if c.id ≤ 0 ∨ c.name.isEmpty then none
    else if categoryModeLower = ascii "include" then
      (if ShouldFilterOut categoryPatterns c.name then some c.id else none)
    else if categoryModeLower = ascii "exclude" then
      (if ShouldFilterOut categoryPatterns c.name then none else some c.id)
    else none)

/-- The per-category loop (addon.cpp:1761-1778): `n` requests were issued
before, `acc` is `streams` so far. -/
def perCategoryLoop (env : CycleEnv) (settings : Settings) (st : ClientState) :
    List Int → Nat → List LiveStream → StreamFetch
  | [], n, acc => .proceed st acc n
  | catId :: rest, n, acc =>
    let sRes := FetchLiveStreams (streamsUrl settings catId) (env.httpGet n (streamsUrl settings catId))
    if !sRes.1.ok then
      let sRes2 :=
        FetchLiveStreams (streamsUrl settings 0) (env.httpGet (n + 1) (streamsUrl settings 0))
      if !sRes2.1.ok then .proceed (failLoad st) sRes2.2 (n + 2)
      else .proceed st sRes2.2 (n + 2)
    else perCategoryLoop env settings st rest (n + 1) (acc ++ sRes.2)

/-- The stream fetch phase (addon.cpp:1693-1780); the categories request was
request 0. -/
def fetchStreams (env : CycleEnv) (cap : Captured) (categories : List LiveCategory)
    (st : ClientState) : StreamFetch :=
  let categoryPatterns := SplitPatterns cap.categoryFilterRaw
  let categoryModeLower := ToLower cap.categoryFilterMode
  let wantsUncategorized : Bool :=
    !categoryPatterns.isEmpty
      ∧ (categoryModeLower = ascii "include" ∨ categoryModeLower = ascii "exclude")
      ∧ ShouldFilterOut categoryPatterns (ascii "Uncategorized")
  let bulk : StreamFetch :=
    let sRes := FetchLiveStreams (streamsUrl cap.settings 0) (env.httpGet 1 (streamsUrl cap.settings 0))
    if !sRes.1.ok then .aborted (failLoad st) else .proceed st sRes.2 2
  if categoryPatterns.isEmpty ∨ categoryModeLower = ascii "all" ∨ wantsUncategorized then bulk
  else
    let keep := keepCatIds categoryPatterns categoryModeLower categories
    let totalCats := categories.length
    let usePerCategory : Bool := keep.length ≤ 20 ∨ (0 < totalCats ∧ keep.length * 4 ≤ totalCats)
    if !usePerCategory then bulk
    else perCategoryLoop env cap.settings st keep 1 []

/-- The effects of one cycle of the worker loop beside the shared state: the
arguments of the call to `SaveCache`, if it was reached, and whether Kodi was
told to reload channels and groups. -/
structure CycleResult where
  state : ClientState
  savedCache : Option (Bytes × List LiveCategory × List CacheChannel) := none
  triggeredUpdate : Bool := false
deriving Repr

/-- The publish step under the lock (addon.cpp:2005-2015). -/
def publish (st : ClientState) (cap : Captured) (b : Built) (streams : List LiveStream) :
    ClientState :=
  { st with
    channels := some b.channels
    uidToStreamId := some b.uidToStreamId
    groupMembers := some b.groupMembers
    groupNamesOrdered := some b.groupNamesOrdered
    streams := some streams
    xtreamSettings := cap.settings
    streamFormat := cap.streamFormat
    loading := false
    dataLoaded := true
    groupsReady := true }

/-- The EPG step (addon.cpp:2018-2042): request number `n` of the cycle. -/
def epgStep (env : CycleEnv) (cap : Captured) (streams : List LiveStream) (n : Nat)
    (st : ClientState) : ClientState :=
  let epgResult := FetchXMLTVEpg cap.settings (env.httpGet n (xmltvUrl cap.settings))
  if epgResult.1.ok then
    let parsed := ParseXMLTV epgResult.2 (env.xmlParse epgResult.2) streams
    if parsed.1 then { st with epgData := some parsed.2 } else st
  else st

/-- The part of a cycle that follows the wake-up block (addon.cpp:1668-2057), in
the state `st` left by that block. -/
def runCycle (env : CycleEnv) (st : ClientState) : CycleResult :=
  let cap := capture st
  let catsRes :=
    FetchLiveCategories (categoriesUrl cap.settings) (env.httpGet 0 (categoriesUrl cap.settings))
  if env.stopAt 0 ∨ cap.gen ≠ env.generationAt 0 then { state := st }
  else if !catsRes.1.ok then { state := failLoad st }
  else
    match fetchStreams env cap catsRes.2 st with
    | .aborted st => { state := st }
    | .proceed st streams n =>
      if env.stopAt 1 ∨ cap.gen ≠ env.generationAt 1 then { state := st }
      else
        let b := buildCollections cap catsRes.2 streams
        if env.stopAt 2 ∨ cap.gen ≠ env.generationAt 2 then { state := st }
        else
          let st := epgStep env cap streams n (publish st cap b streams)
          { state := st
            savedCache := some (st.settingsSignature, catsRes.2, b.cacheChannels)
            triggeredUpdate := true }

/-- One iteration of the `while (true)` loop of the worker thread
(addon.cpp:1637-2058), started in shared state `st`. When a stop is requested
the thread returns, and without a work request it keeps waiting: both leave the
state as it is. Otherwise the work request is consumed and the cycle runs. -/
def workerCycle (env : CycleEnv) (st : ClientState) : CycleResult :=
  if st.stopRequested then { state := st }
  else if !st.workRequested then { state := st }
  else runCycle env { st with workRequested := false }

/-- The published snapshot the claims speak of: channel list, uid index, group
membership, ordered group names and the retained stream list. -/
structure Published where
  channels : Option (List PVRChannel)
  uidToStreamId : Option (List (Nat × Int))
  groupMembers : Option (List (Bytes × List GroupMember))
  groupNamesOrdered : Option (List Bytes)
  streams : Option (List LiveStream)
deriving DecidableEq, Repr

/-- The published snapshot of a state. -/
def ClientState.published (st : ClientState) : Published :=
  { channels := st.channels, uidToStreamId := st.uidToStreamId
    groupMembers := st.groupMembers, groupNamesOrdered := st.groupNamesOrdered
    streams := st.streams }

/-- The published snapshot carried by the outcome of the stream fetch phase. -/
def StreamFetch.published : StreamFetch → Published
  | .aborted st => st.published
  | .proceed st _ _ => st.published

/-! #### Example cycles (inputs of the theorems for C1, C2 and C3) -/

/-- A state with a published snapshot (channel 11) in which a settings change
has raised the generation to 7 and requested work; the category filter keeps
the categories matching `news`. -/
def staleFilterState : ClientState :=
  { generation := 7, workRequested := true, loading := true
    settingsSignature := ascii "sig"
    xtreamSettings := { server := ascii "tv.example", username := ascii "u", password := ascii "p" }
    streamFormat := ascii "ts", channelNumbering := ascii "sequential"
    categoryFilterMode := ascii "include", categoryFilterPatternsRaw := ascii "news"
    channels := some [{ uniqueId := 11, channelName := ascii "Old One", channelNumber := 1 }]
    uidToStreamId := some [(11, 11)]
    groupNamesOrdered := some [ascii "News"]
    groupMembers := some [(ascii "News", [{ channelUid := 11, channelNumber := 1 }])]
    epgData := some [{ id := ascii "11", entries := [(100, { startTime := 100, endTime := 200 })] }]
    streams := some [{ id := 11, categoryId := 3, name := ascii "Old One" }] }

/-- A successful HTTP response with the given body. -/
def okResponse (body : Bytes) : HttpResult :=
  { ok := true, protocol := ascii "HTTP/1.1 200 OK", body := body }

/-- The categories request succeeds with one category `News` (id 3); every
later request fails; the generation stays at 7 and no stop is requested. -/
def streamsDownEnv : CycleEnv :=
  { httpGet := fun n _ =>
      if n = 0 then okResponse (ascii "[\x7b\"category_id\":3,\"category_name\":\"News\"\x7d]")
      else { ok := false, protocol := ascii "HTTP/1.1 503 Service Unavailable" }
    xmlParse := fun _ => none
    stopAt := fun _ => false
    generationAt := fun _ => 7 }

/-- The same state as `staleFilterState` with the category filter off. -/
def staleState : ClientState :=
  { staleFilterState with categoryFilterMode := ascii "all", categoryFilterPatternsRaw := [] }

/-- The XMLTV document served in `lateGenerationEnv`: channel `bbc.uk` with one
programme. -/
def bbcDoc : XmlTv :=
  { channels := [{ id := ascii "bbc.uk", displayName := some (ascii "BBC") }]
    programmes := [{ channel := ascii "bbc.uk", start := ascii "20260121200000 +0100"
                     stop := ascii "20260121210000 +0100", title := some (ascii "News") }] }

/-- All three requests succeed (one category, one stream 5 with epg id
`bbc.uk`, an XMLTV document); the generation is still 7 at the three checks of
the cycle and has advanced to 8 by the time of the EPG swap. -/
def lateGenerationEnv : CycleEnv :=
  { httpGet := fun n _ =>
      if n = 0 then okResponse (ascii "[\x7b\"category_id\":3,\"category_name\":\"News\"\x7d]")
      else if n = 1 then
        okResponse (ascii
          "[\x7b\"stream_id\":5,\"category_id\":3,\"name\":\"BBC\",\"epg_channel_id\":\"bbc.uk\"\x7d]")
      else okResponse (ascii "<tv>...</tv>")
    xmlParse := fun _ => some bbcDoc
    stopAt := fun _ => false
    generationAt := fun i => if i < 3 then 7 else 8 }

/-- Like `lateGenerationEnv`, but the generation has already advanced to 8 when
the streams fetch returns. -/
def earlyGenerationEnv : CycleEnv :=
  { lateGenerationEnv with generationAt := fun i => if i < 1 then 7 else 8 }

/-! #### Calendar arithmetic used to state C10 -/

/-- Length of year `y` in days. -/
def daysInYear (y : Int) : Int := if isLeapYear y then 366 else 365

/-- Length of month `m` (1 = January) of year `y` in days. -/
def daysInMonth (y : Int) (m : Nat) : Int :=
  if m = 2 then (if isLeapYear y then 29 else 28)
  else if m = 4 ∨ m = 6 ∨ m = 9 ∨ m = 11 then 30 else 31

/-- Days from 0000-01-01 to January 1st of year `y`, counted year by year. -/
def daysUpToYear : Nat → Int
  | 0 => 0
  | y + 1 => daysUpToYear y + daysInYear y

/-- Days from January 1st of year `y` to the first day of the month after month
`m`, counted month by month. -/
def daysUpToMonth (y : Int) : Nat → Int
  | 0 => 0
  | m + 1 => daysUpToMonth y m + daysInMonth y (m + 1)

/-- Written from the claim: the epoch seconds of calendar fields read as UTC
wall-clock time, by counting the days from 1970-01-01 (which is
`daysUpToYear 1970 = 719528` days after 0000-01-01). -/
def utcEpochSeconds (y mo d h mi s : Nat) : Int :=
  (daysUpToYear y - 719528 + daysUpToMonth y (mo - 1) + ((d : Int) - 1)) * 86400
    + (h : Int) * 3600 + (mi : Int) * 60 + (s : Int)


/-- Every stored entry lies under its own start time and ends after it starts. -/
def EntriesValid (epgMap : List (Bytes × ChannelEpg)) : Prop :=
  ∀ kv ∈ epgMap, ∀ ke ∈ kv.2.entries, ke.1 = ke.2.startTime ∧ ke.2.startTime < ke.2.endTime

/-- No channel record holds an entry. -/
def EntriesEmpty (epgMap : List (Bytes × ChannelEpg)) : Prop :=
  ∀ kv ∈ epgMap, kv.2.entries = []

/-- Document for the witness of C11: the programme of `bbcDoc` preceded by one
whose `stop` is not after its `start`. -/
def reversedTimesProgramme : XmlProgramme :=
  { channel := ascii "bbc.uk", start := ascii "20260121210000 +0100"
    stop := ascii "20260121200000 +0100", title := some (ascii "Late") }

/-! #### Attached programmes (C12) -/

/-- The maps left by the first pass of `ParseXMLTV` over the `<channel>`
elements of a document (xtream_client.cpp:1157-1247). -/
def firstPass (streams : List LiveStream) (tv : XmlTv) : ChannelPass :=
  tv.channels.foldl (channelStep (buildIndex streams)) {}

/-- The entry stored for target id `m` under key `k`: `epgMap[m].entries[k]`. -/
def storedAt (epgMap : List (Bytes × ChannelEpg)) (m : Bytes) (k : Int) : Option EpgEntry :=
  match mapFind epgMap m with
  | none => none
  | some t => mapFind t.entries k

/-- Written from the claim: the entry programme `p` attaches to target id `m`
under key `k`, if `p` is a valid programme that starts at `k` and whose channel is
resolved to a list of ids that contains `m`. -/
def contribution (ids : List (Bytes × List Bytes)) (m : Bytes) (k : Int) (p : XmlProgramme) :
    Option EpgEntry :=
  if p.channel.isEmpty then none
  else
    match mapFind ids p.channel with
    | none => none
    | some mapped =>
      if m ∈ mapped then
        match programmeEntry p with
        | none => none
        | some e => if e.startTime = k then some e else none
      else none

/-- Written from the claim: the entry of the last programme, in document order,
that is attached to target id `m` under key `k`. -/
def lastContribution (ids : List (Bytes × List Bytes)) (m : Bytes) (k : Int)
    (ps : List XmlProgramme) : Option EpgEntry :=
  (ps.filterMap (contribution ids m k)).getLast?

/-- Catalog of the C12 example: stream 5, `BBC`, with XMLTV id `bbc.uk`. -/
def bbcCatalog : List LiveStream :=
  [{ id := 5, name := ascii "BBC", epgChannelId := ascii "bbc.uk" }]

/-- Document of the C12 counterexample: the channels `bbc.uk` and `5` are both
resolved to stream 5 and each has a programme starting at the same time. -/
def twoChannelsOneStreamDoc : XmlTv :=
  { channels := [{ id := ascii "bbc.uk", displayName := some (ascii "BBC") },
                 { id := ascii "5", displayName := some (ascii "Five") }]
    programmes := [{ channel := ascii "bbc.uk", start := ascii "20260121200000 +0100"
                     stop := ascii "20260121210000 +0100", title := some (ascii "News") },
                   { channel := ascii "5", start := ascii "20260121200000 +0100"
                     stop := ascii "20260121210000 +0100", title := some (ascii "Film") }] }

/-- Each record of the map carries its key as `id`. -/
def KeysAreIds (epgMap : List (Bytes × ChannelEpg)) : Prop :=
  ∀ k t, mapFind epgMap k = some t → t.id = k

/-- Every id a channel is mapped to has a record in the map. -/
def Covered (st : ChannelPass) : Prop :=
  ∀ x mapped, mapFind st.xmltvIdToMappedIds x = some mapped →
    ∀ s ∈ mapped, (mapFind st.epgMap s).isSome = true

/-! ### Disk cache codec (addon.cpp:115-167, 1447-1620)

`size_t` offsets are natural numbers: an offset never exceeds the length of the
buffer by more than a 32-bit length field, so the sums `off + 4`, `off + 8` and
`off + nameLen` cannot wrap a 64-bit `size_t`. The reading steps are in
`decodeCache`; the `reserve` calls made with the declared record counts
(addon.cpp:1479, 1497-1501) can end a run by an exception and are in
`decodeCacheReserving`, which returns what `decodeCache` computes whenever they
return. -/

/-- `kCacheMagic` (addon.cpp:115): `XTC1`, little-endian. -/
def kCacheMagic : Nat := 0x31435458

/-- `AppendU32` (addon.cpp:117): the four bytes of a `uint32_t`, low byte
first. -/
def AppendU32 (out : Bytes) (v : Nat) : Bytes :=
  out ++ [v &&& 0xFF, (v >>> 8) &&& 0xFF, (v >>> 16) &&& 0xFF, (v >>> 24) &&& 0xFF]

/-- `AppendI32` (addon.cpp:125). -/
def AppendI32 (out : Bytes) (v : Int) : Bytes := AppendU32 out (toUInt32 v)

/-- `AppendU64` (addon.cpp:130). -/
def AppendU64 (out : Bytes) (v : Nat) : Bytes :=
  out ++ (List.range 8).map (fun i => (v >>> (8 * i)) &&& 0xFF)

/-- Outcome of a step of the cache reader. `miss` is `return false`; `fault`
marks an access outside the buffer (an index at or beyond the end, or a
`substr` position beyond it), which the reader must never perform. -/
inductive Outcome (α : Type) where
  | fault : Outcome α
  | miss : Outcome α
  | ok : α → Outcome α
deriving DecidableEq, Repr

/-- Sequencing: the first step that does not succeed decides the outcome. -/
def Outcome.bind {α β : Type} (x : Outcome α) (f : α → Outcome β) : Outcome β :=
  match x with
  | .fault => .fault
  | .miss => .miss
  | .ok a => f a

/-- `static_cast<unsigned char>(in[i])`, with the index checked. -/
def byteAt (inp : Bytes) (i : Nat) : Outcome Nat :=
  match inp[i]? with
  | some b => .ok (b % 256)
  | none => .fault

/-- `ReadU32` (addon.cpp:136): the value read and the advanced offset. -/
def ReadU32 (inp : Bytes) (off : Nat) : Outcome (Nat × Nat) :=
  if off + 4 > inp.length then .miss
  else
    (byteAt inp off).bind fun b0 =>
    (byteAt inp (off + 1)).bind fun b1 =>
    (byteAt inp (off + 2)).bind fun b2 =>
    (byteAt inp (off + 3)).bind fun b3 =>
    .ok (b0 ||| (b1 <<< 8) ||| (b2 <<< 16) ||| (b3 <<< 24), off + 4)

/-- `ReadI32` (addon.cpp:148). -/
def ReadI32 (inp : Bytes) (off : Nat) : Outcome (Int × Nat) :=
  (ReadU32 inp off).bind fun r => .ok (wrapInt32 r.1, r.2)

/-- `ReadU64` (addon.cpp:157). -/
def ReadU64 (inp : Bytes) (off : Nat) : Outcome (Nat × Nat) :=
  if off + 8 > inp.length then .miss
  else
    ((List.range 8).foldl
      (fun (acc : Outcome Nat) i =>
        acc.bind fun v => (byteAt inp (off + i)).bind fun b => Outcome.ok (v ||| (b <<< (8 * i))))
      (Outcome.ok 0)).bind fun v => .ok (v, off + 8)

/-- `in.substr(pos, n)`: a position beyond the end throws `std::out_of_range`. -/
def substr (inp : Bytes) (pos n : Nat) : Outcome Bytes :=
  if pos > inp.length then .fault else .ok ((inp.drop pos).take n)

/-- The category loop of `TryLoadCacheForSignature` (addon.cpp:1480-1490) with
`n` records still to read: the map built and the final offset. -/
def readCategories (blob : Bytes) :
    Nat → Nat → List (Int × Bytes) → Outcome (List (Int × Bytes) × Nat)
  | 0, off, acc => .ok (acc, off)
  | n + 1, off, acc =>
    (ReadI32 blob off).bind fun id =>
    (ReadU32 blob id.2).bind fun nameLen =>
    if nameLen.2 + nameLen.1 > blob.length then .miss
    else
      (substr blob nameLen.2 nameLen.1).bind fun name =>
      readCategories blob n (nameLen.2 + nameLen.1)
        (if 0 < id.1 ∧ !name.isEmpty then mapEmplace acc id.1 name else acc)

/-- The three collections filled by the channel loop. -/
structure CachedChannels where
  channels : List PVRChannel := []
  uidToStreamId : List (Nat × Int) := []
  channelCategoryIds : List Int := []
deriving DecidableEq, Repr

/-- The channel loop of `TryLoadCacheForSignature` (addon.cpp:1503-1525) with
`n` records still to read. -/
def readChannels (blob : Bytes) : Nat → Nat → CachedChannels → Outcome (CachedChannels × Nat)
  | 0, off, acc => .ok (acc, off)
  | n + 1, off, acc =>
    (ReadU32 blob off).bind fun uid =>
    (ReadI32 blob uid.2).bind fun catId =>
    (ReadU32 blob catId.2).bind fun chNum =>
    (ReadU32 blob chNum.2).bind fun nameLen =>
    if nameLen.2 + nameLen.1 > blob.length then .miss
    else
      (substr blob nameLen.2 nameLen.1).bind fun name =>
      readChannels blob n (nameLen.2 + nameLen.1)
        (if uid.1 = 0 ∨ name.isEmpty then acc
         else
          { channels := acc.channels ++
              [{ uniqueId := uid.1, isRadio := false, channelName := name
                 channelNumber := wrapInt32 chNum.1 }]
            uidToStreamId := mapEmplace acc.uidToStreamId uid.1 (wrapInt32 uid.1)
            channelCategoryIds := acc.channelCategoryIds ++ [catId.1] })

/-- Body of the loop that rebuilds group membership (addon.cpp:1528-1541) for
channel `x.1` with category id `x.2`. -/
def cacheGroupStep (categoryIdToName : List (Int × Bytes))
    (groupMembers : List (Bytes × List GroupMember)) (x : PVRChannel × Int) :
    List (Bytes × List GroupMember) :=
  match mapFind categoryIdToName x.2 with
  | none => groupMembers
  | some name =>
    mapPush groupMembers name
      { channelUid := x.1.uniqueId, channelNumber := toUInt32 x.1.channelNumber
        subChannelNumber := 0 }

/-- The ordered group names (addon.cpp:1543-1557): categories sorted by id, kept
when the group has a member. -/
def cacheGroupNames (categoryIdToName : List (Int × Bytes))
    (groupMembers : List (Bytes × List GroupMember)) : List Bytes :=
  (categoryIdToName.insertionSort (fun a b => a.1 ≤ b.1)).filterMap (fun kv =>
    match mapFind groupMembers kv.2 with
    | none => none
    | some members => if members.isEmpty then none else some kv.2)

/-- The local variables of `TryLoadCacheForSignature` when the blob has been
decoded (addon.cpp:1457-1557); `off` is the final read offset. -/
structure Decoded where
  ts : Nat := 0
  catCount : Nat := 0
  chCount : Nat := 0
  categoryIdToName : List (Int × Bytes) := []
  channels : List PVRChannel := []
  uidToStreamId : List (Nat × Int) := []
  channelCategoryIds : List Int := []
  groupMembers : List (Bytes × List GroupMember) := []
  groupNamesOrdered : List Bytes := []
  off : Nat := 0
deriving DecidableEq, Repr

/-- The decoding part of `TryLoadCacheForSignature` (addon.cpp:1457-1557) in a
run in which its four `reserve` calls return; `decodeCacheReserving` is the
same code with the calls. -/
def decodeCache (blob signature : Bytes) : Outcome Decoded :=
  (ReadU32 blob 0).bind fun magic =>
  if magic.1 ≠ kCacheMagic then .miss
  else
    (ReadU32 blob magic.2).bind fun sigLen =>
    if sigLen.2 + sigLen.1 > blob.length then .miss
    else
      (substr blob sigLen.2 sigLen.1).bind fun sigOnDisk =>
      if sigOnDisk ≠ signature then .miss
      else
        (ReadU64 blob (sigLen.2 + sigLen.1)).bind fun ts =>
        (ReadU32 blob ts.2).bind fun catCount =>
        (readCategories blob catCount.1 catCount.2 []).bind fun cats =>
        (ReadU32 blob cats.2).bind fun chCount =>
        (readChannels blob chCount.1 chCount.2 {}).bind fun chans =>
        let groupMembers :=
          (chans.1.channels.zip chans.1.channelCategoryIds).foldl (cacheGroupStep cats.1) []
        .ok { ts := ts.1, catCount := catCount.1, chCount := chCount.1
              categoryIdToName := cats.1
              channels := chans.1.channels
              uidToStreamId := chans.1.uidToStreamId
              channelCategoryIds := chans.1.channelCategoryIds
              groupMembers := groupMembers
              groupNamesOrdered := cacheGroupNames cats.1 groupMembers
              off := chans.2 }

/-- `TryLoadCacheForSignature` (addon.cpp:1447): the returned flag and the
state. `file` is the content of the cache file, `none` when the cache path is
empty or the file cannot be read (`ReadFileToString` fails, also on an empty
file). The `reserve` calls of the decoding part are taken to return (see
`decodeCacheReserving`). -/
def TryLoadCacheForSignature (file : Option Bytes) (signature : Bytes) (st : ClientState) :
    Bool × ClientState :=
  match file with
  | none => (false, st)
  | some blob =>
    if blob.isEmpty then (false, st)
    else
      match decodeCache blob signature with
      | .ok d =>
        if (match st.channels with
            | some channels => !channels.isEmpty
            | none => false) then (false, st)
        else
          (true, { st with
            channels := some d.channels
            uidToStreamId := some d.uidToStreamId
            groupMembers := some d.groupMembers
            groupNamesOrdered := some d.groupNamesOrdered })
      | _ => (false, st)

/-- The blob `SaveCache` writes (addon.cpp:1576); `now` is the clock reading in
seconds since the epoch. -/
def SaveCache (now : Nat) (signature : Bytes) (categories : List LiveCategory)
    (cacheChannels : List CacheChannel) : Bytes :=
  let blob := AppendU32 [] kCacheMagic
  let blob := AppendU32 blob (signature.length % 4294967296)
  let blob := blob ++ signature
  let blob := AppendU64 blob (now % 18446744073709551616)
  let cats := (categories.filter (fun c => ¬ (c.id ≤ 0 ∨ c.name.isEmpty))).map
    (fun c => (c.id, c.name))
  let blob := AppendU32 blob (cats.length % 4294967296)
  let blob := cats.foldl
    (fun blob kv => AppendU32 (AppendI32 blob kv.1) (kv.2.length % 4294967296) ++ kv.2)
    blob
  let blob := AppendU32 blob (cacheChannels.length % 4294967296)
  cacheChannels.foldl
    (fun blob c =>
      AppendU32 (AppendU32 (AppendI32 (AppendU32 blob (c.uid % 4294967296)) c.categoryId)
        (c.channelNumber % 4294967296)) (c.name.length % 4294967296) ++ c.name)
    blob

/-! #### Reading steps (used to state and prove C13, C14 and C15) -/

/-- A reading step: from the buffer and an offset to a value and the advanced
offset. -/
abbrev Step (α : Type) := Bytes → Nat → Outcome (α × Nat)

/-- A step is exact when, started inside the buffer, it never faults and, when
it succeeds, it ends inside the buffer and depends only on the bytes before its
final offset: on the buffer cut at `m` it gives the same result if `m` is at
least the final offset and a miss if it is less. -/
def Step.Exact {α : Type} (F : Step α) : Prop :=
  ∀ inp off, off ≤ inp.length →
    F inp off ≠ .fault ∧
    ∀ a off', F inp off = .ok (a, off') →
      off ≤ off' ∧ off' ≤ inp.length ∧
      ∀ m, off ≤ m →
        (off' ≤ m → F (inp.take m) off = .ok (a, off')) ∧ (m < off' → F (inp.take m) off = .miss)

/-- The little-endian 32-bit value at an offset (each element taken as a byte). -/
def rd32 (inp : Bytes) (off : Nat) : Nat :=
  (inp.getD off 0 % 256) ||| ((inp.getD (off + 1) 0 % 256) <<< 8)
    ||| ((inp.getD (off + 2) 0 % 256) <<< 16) ||| ((inp.getD (off + 3) 0 % 256) <<< 24)

/-- The little-endian 64-bit value at an offset. -/
def rd64 (inp : Bytes) (off : Nat) : Nat :=
  (List.range 8).foldl (fun v i => v ||| ((inp.getD (off + i) 0 % 256) <<< (8 * i))) 0

/-- The check `off + n > in.size()` followed by `in.substr(off, n)`, as a step. -/
def readBytes (n : Nat) : Step Bytes := fun inp off =>
  if off + n > inp.length then .miss
  else (substr inp off n).bind fun s => .ok (s, off + n)

/-- The decoder started at an offset, as a step; `decodeCache` is this step
started at offset 0. -/
def decodeFrom (signature : Bytes) : Step Decoded := fun blob off =>
  (ReadU32 blob off).bind fun magic =>
  if magic.1 ≠ kCacheMagic then .miss
  else
    (ReadU32 blob magic.2).bind fun sigLen =>
    (readBytes sigLen.1 blob sigLen.2).bind fun sigOnDisk =>
    if sigOnDisk.1 ≠ signature then .miss
    else
      (ReadU64 blob sigOnDisk.2).bind fun ts =>
      (ReadU32 blob ts.2).bind fun catCount =>
      (readCategories blob catCount.1 catCount.2 []).bind fun cats =>
      (ReadU32 blob cats.2).bind fun chCount =>
      (readChannels blob chCount.1 chCount.2 {}).bind fun chans =>
      .ok ({ ts := ts.1, catCount := catCount.1, chCount := chCount.1
             categoryIdToName := cats.1
             channels := chans.1.channels
             uidToStreamId := chans.1.uidToStreamId
             channelCategoryIds := chans.1.channelCategoryIds
             groupMembers :=
               (chans.1.channels.zip chans.1.channelCategoryIds).foldl (cacheGroupStep cats.1) []
             groupNamesOrdered := cacheGroupNames cats.1
               ((chans.1.channels.zip chans.1.channelCategoryIds).foldl (cacheGroupStep cats.1) [])
             off := chans.2 }, chans.2)

/-- The reader stands at offset `off` of `inp` with `rest` still to read. -/
def At (inp : Bytes) (off : Nat) (rest : Bytes) : Prop :=
  off ≤ inp.length ∧ inp.drop off = rest

/-- The bytes `SaveCache` writes for one category (addon.cpp:1604-1606). -/
def encCat (kv : Int × Bytes) : Bytes :=
  AppendU32 (AppendI32 [] kv.1) (kv.2.length % 4294967296) ++ kv.2

/-- The bytes `SaveCache` writes for one channel (addon.cpp:1612-1616). -/
def encCh (c : CacheChannel) : Bytes :=
  AppendU32 (AppendU32 (AppendI32 (AppendU32 [] (c.uid % 4294967296)) c.categoryId)
    (c.channelNumber % 4294967296)) (c.name.length % 4294967296) ++ c.name

/-- The categories `SaveCache` writes (addon.cpp:1595-1600). -/
def savedCategories (categories : List LiveCategory) : List (Int × Bytes) :=
  (categories.filter (fun c => ¬ (c.id ≤ 0 ∨ c.name.isEmpty))).map (fun c => (c.id, c.name))

/-- What the category loop of the reader makes of a written category. -/
def decCat (acc : List (Int × Bytes)) (kv : Int × Bytes) : List (Int × Bytes) :=
  if 0 < wrapInt32 kv.1 ∧ !kv.2.isEmpty then mapEmplace acc (wrapInt32 kv.1) kv.2 else acc

/-- What the channel loop of the reader makes of a written channel. -/
def decCh (acc : CachedChannels) (c : CacheChannel) : CachedChannels :=
  if c.uid % 4294967296 = 0 ∨ c.name.isEmpty then acc
  else
    { channels := acc.channels ++
        [{ uniqueId := c.uid % 4294967296, isRadio := false, channelName := c.name
           channelNumber := wrapInt32 ((c.channelNumber % 4294967296 : Nat) : Int) }]
      uidToStreamId := mapEmplace acc.uidToStreamId (c.uid % 4294967296)
        (wrapInt32 ((c.uid % 4294967296 : Nat) : Int))
      channelCategoryIds := acc.channelCategoryIds ++ [wrapInt32 c.categoryId] }

/-- Categories of the cache examples: `News` (3) and `Film` (1). -/
def cacheExampleCategories : List LiveCategory :=
  [{ id := 3, name := ascii "News" }, { id := 1, name := ascii "Film" }]

/-- Channels of the cache examples: `BBC` in category 3 and `X`, whose category
id is negative and whose channel number is above `2^31`. -/
def cacheExampleChannels : List CacheChannel :=
  [{ uid := 5, categoryId := 3, channelNumber := 1, name := ascii "BBC" },
   { uid := 7, categoryId := -1, channelNumber := 4000000000, name := ascii "X" }]

/-- The blob written for the example categories and channels under signature
`sig`. -/
def cacheExampleBlob : Bytes :=
  SaveCache 1700000000 (ascii "sig") cacheExampleCategories cacheExampleChannels

/-- A signature of `2^32 + 1` bytes: the byte `x` followed by `2^32` zero
bytes. -/
def longSignature : Bytes := 120 :: List.replicate 4294967296 0

/-- `DeterministicHash64` (addon.cpp:56): FNV-1a on 64 bits. -/
def DeterministicHash64 (s : Bytes) : Nat :=
  s.foldl (fun h c => ((h ^^^ (c % 256)) * 1099511628211) % 18446744073709551616)
    14695981039346656037

/-- `HashHex` (addon.cpp:70): the hash printed with `%016llx`. -/
def HashHex (s : Bytes) : Bytes :=
  (List.range 16).map (fun i => hexDigit false ((DeterministicHash64 s >>> (4 * (15 - i))) &&& 0xF))

/-- `ExtractSettingValue` (addon.cpp:219): `none` is `return false`, `some out`
is `return true` with the value left in `out`. -/
def ExtractSettingValue (xml id : Bytes) : Option Bytes :=
  let needle := ascii "<setting id=\"" ++ id ++ [34]
  match find xml needle 0 with
  | none => none
  | some pos =>
    match find xml [62] pos with
    | none => none
    | some pos =>
      let pos := pos + 1
      if pos < xml.length ∧ xml.getD (pos - 1) 0 = 47 ∧ xml.getD pos 0 = 62 then some []
      else
        match find xml (ascii "</setting>") pos with
        | none => none
        | some stop => some (Trim ((xml.drop pos).take (stop - pos)))

/-- What one call of `EnsureLoaded` reads from outside the object: the override
fields (written by other methods), the result of `xtream::LoadSettings()`, the
add-on settings as returned by the Kodi getters, the text of `settings.xml`
(`none` when it cannot be opened) and the content of the cache file (`none`
when the path is empty or the file cannot be read). -/
structure EnsureEnv where
  hasSettingsOverride : Bool := false
  settingsOverride : Settings := {}
  loadSettings : Settings := {}
  streamFormat : Bytes := []
  channelNumbering : Bytes := []
  filterRaw : Bytes := []
  filterChannelSeparators : Bool := true
  categoryFilterMode : Bytes := []
  categoryFilterRaw : Bytes := []
  settingsXml : Option Bytes := none
  cacheFile : Option Bytes := none
deriving DecidableEq, Repr

/-- The state `EnsureLoaded` works on: the shared client state and the two
fields only it uses, `m_warnedMissingCreds` and `m_cacheSignatureAttempted`. -/
structure LoaderState where
  client : ClientState := {}
  warnedMissingCreds : Bool := false
  cacheSignatureAttempted : Bytes := []
deriving DecidableEq, Repr

/-- The local `xt` (addon.cpp:2094-2101). -/
def EnsureEnv.xt (env : EnsureEnv) : Settings :=
  if env.hasSettingsOverride then env.settingsOverride else env.loadSettings

/-- The local `haveCreds` (addon.cpp:2103). -/
def EnsureEnv.haveCreds (env : EnsureEnv) : Bool :=
  !(Trim env.xt.server).isEmpty && !(Trim env.xt.username).isEmpty
    && !(Trim env.xt.password).isEmpty && (0 < env.xt.port && env.xt.port ≤ 65535)

/-- The five setting values after the defaults and the `settings.xml` fallback
(addon.cpp:2130-2183). -/
structure ResolvedSettings where
  streamFormat : Bytes
  channelNumbering : Bytes
  filterRaw : Bytes
  categoryFilterMode : Bytes
  categoryFilterRaw : Bytes
deriving DecidableEq, Repr

/-- The defaults and the `settings.xml` fallback (addon.cpp:2130-2183). -/
def EnsureEnv.resolved (env : EnsureEnv) : ResolvedSettings :=
  let streamFormat := if env.streamFormat.isEmpty then ascii "ts" else env.streamFormat
  let channelNumbering :=
    if env.channelNumbering.isEmpty then ascii "sequential" else env.channelNumbering
  let filterRaw := env.filterRaw
  let categoryFilterMode :=
    if env.categoryFilterMode.isEmpty then ascii "all" else env.categoryFilterMode
  let categoryFilterRaw := env.categoryFilterRaw
  let looksLikeDefaults : Bool := ToLower categoryFilterMode = ascii "all"
    ∧ (Trim categoryFilterRaw).isEmpty ∧ (Trim filterRaw).isEmpty
  let r : ResolvedSettings :=
    match (if looksLikeDefaults then env.settingsXml else none) with
    | none =>
      { streamFormat := streamFormat, channelNumbering := channelNumbering
        filterRaw := filterRaw, categoryFilterMode := categoryFilterMode
        categoryFilterRaw := categoryFilterRaw }
    | some xml =>
      { streamFormat :=
          match ExtractSettingValue xml (ascii "stream_format") with
          | some tmp => if tmp.isEmpty then streamFormat else tmp
          | none => streamFormat
        channelNumbering :=
          match ExtractSettingValue xml (ascii "channel_numbering") with
          | some tmp => if tmp.isEmpty then channelNumbering else tmp
          | none => channelNumbering
        filterRaw := (ExtractSettingValue xml (ascii "channel_filter_patterns")).getD filterRaw
        categoryFilterMode :=
          match ExtractSettingValue xml (ascii "category_filter_mode") with
          | some tmp => if tmp.isEmpty then categoryFilterMode else tmp
          | none => categoryFilterMode
        categoryFilterRaw :=
          (ExtractSettingValue xml (ascii "category_filter_patterns")).getD categoryFilterRaw }
  { r with
    categoryFilterMode := if r.categoryFilterMode.isEmpty then ascii "all" else r.categoryFilterMode }

/-- The local `sig` (addon.cpp:2185-2189). -/
def EnsureEnv.sig (env : EnsureEnv) : Bytes :=
  env.xt.server ++ ascii ":" ++ intToString env.xt.port ++ ascii "/" ++ env.xt.username
    ++ ascii "/" ++ HashHex env.xt.password ++ ascii "|fmt=" ++ ToLower env.resolved.streamFormat
    ++ ascii "|num=" ++ ToLower env.resolved.channelNumbering ++ ascii "|flt="
    ++ HashHex env.resolved.filterRaw ++ ascii "|catmode="
    ++ ToLower env.resolved.categoryFilterMode ++ ascii "|catflt="
    ++ HashHex env.resolved.categoryFilterRaw ++ ascii "|sep="
    ++ (if env.filterChannelSeparators then ascii "1" else ascii "0")

/-- What a call of `EnsureLoaded` did: the state it left, the signature it
passed to `TryLoadCacheForSignature` (`none` when the cache was not read),
whether it queued the credentials warning and whether it woke the worker. -/
structure EnsureResult where
  state : LoaderState
  cacheRead : Option Bytes := none
  warned : Bool := false
  shouldStart : Bool := false
deriving DecidableEq, Repr

/-- `EnsureLoaded` (addon.cpp:2089). -/
def EnsureLoaded (env : EnsureEnv) (st : LoaderState) : EnsureResult :=
  if !env.haveCreds then
    { state := { st with warnedMissingCreds := true }, warned := !st.warnedMissingCreds }
  else
    let st := { st with warnedMissingCreds := false }
    let sig := env.sig
    let cacheRead : Option Bytes := if st.cacheSignatureAttempted ≠ sig then some sig else none
    let st : LoaderState :=
      if st.cacheSignatureAttempted ≠ sig then
        { st with
          cacheSignatureAttempted := sig
          client := (TryLoadCacheForSignature env.cacheFile sig st.client).2 }
      else st
    let c := st.client
    if c.dataLoaded ∧ sig = c.settingsSignature ∧ !c.loading then
      { state := st, cacheRead := cacheRead }
    else if c.loading ∧ sig = c.settingsSignature then
      { state := st, cacheRead := cacheRead }
    else
      { state :=
          { st with
            client :=
              { c with
                settingsSignature := sig
                loading := true
                dataLoaded := false
                groupsReady := false
                xtreamSettings := env.xt
                streamFormat := ToLower env.resolved.streamFormat
                channelNumbering := ToLower env.resolved.channelNumbering
                filterPatternsRaw := env.resolved.filterRaw
                categoryFilterMode := ToLower env.resolved.categoryFilterMode
                categoryFilterPatternsRaw := env.resolved.categoryFilterRaw
                filterChannelSeparators := env.filterChannelSeparators
                generation := (c.generation + 1) % 18446744073709551616
                workRequested := true } }
        cacheRead := cacheRead
        shouldStart := true }

/-- The signatures with which a sequence of `EnsureLoaded` calls reads the disk
cache, in order. -/
def cacheReads : List EnsureEnv → LoaderState → List Bytes
  | [], _ => []
  | env :: rest, st =>
    (EnsureLoaded env st).cacheRead.toList ++ cacheReads rest (EnsureLoaded env st).state

/-- Written from the claim: the signature a call computes, when it gets as far
as the cache (the credentials are usable). -/
def callSignature (env : EnsureEnv) : Option Bytes :=
  if env.haveCreds then some env.sig else none

/-- A call with server `h`, user `u`, password `p` and the given stream
format. -/
def callWithFormat (fmt : Bytes) : EnsureEnv :=
  { loadSettings := { server := ascii "h", username := ascii "u", password := ascii "p" }
    streamFormat := fmt }

/-! ### Catchup URL (xtream_client.cpp:192-207, 1001-1046)

`time_t` is a signed 64-bit integer and `int` a signed 32-bit integer (LP64).
Signed arithmetic that leaves the range of its type is undefined in the source;
the model wraps it, and the theorems about `BuildCatchupUrl` name the inputs on
which nothing wraps. -/

/-- `kDefaultAddonUserAgent` (xtream_client.cpp:33). -/
def kDefaultAddonUserAgent : Bytes := ascii "DispatcharrKodiAddon"

/-- `EffectiveUserAgent` (xtream_client.cpp:192). -/
def EffectiveUserAgent (settings : Settings) : Bytes :=
  if !settings.enableUserAgentSpoofing then []
  else
    let ua := Trim settings.customUserAgent
    if ua.isEmpty then kDefaultAddonUserAgent else ua

/-- `AppendUserAgentHeader` (xtream_client.cpp:201). -/
def AppendUserAgentHeader (url : Bytes) (settings : Settings) : Bytes :=
  let ua := EffectiveUserAgent settings
  if ua.isEmpty then url else url ++ ascii "|User-Agent=" ++ UrlEncode ua

/-- The year search of `gmtime`: starting from a year that begins on or before
day `days`, step forward while the next year also begins on or before it. -/
def yearLoop (days : Int) : Nat → Int → Int
  | 0, y => y
  | fuel + 1, y => if daysBeforeYear (y + 1) ≤ days then yearLoop days fuel (y + 1) else y

/-- The year that contains day `days` (days since 1970-01-01). -/
def yearOfDay (days : Int) : Int :=
  if 0 ≤ days then yearLoop days (days / 365 - days / 366 + 1).toNat (1970 + days / 366)
  else yearLoop days (days / 366 - days / 365 + 1).toNat (1970 + days / 365)

/-- The month (0 = January) that contains day `doy` (0 = January 1st) of a year,
leap or not. -/
def monthOfYearDay (leap : Bool) (doy : Int) : Int :=
  let l : Int := if leap then 1 else 0
  if doy < 31 then 0
  else if doy < 59 + l then 1
  else if doy < 90 + l then 2
  else if doy < 120 + l then 3
  else if doy < 151 + l then 4
  else if doy < 181 + l then 5
  else if doy < 212 + l then 6
  else if doy < 243 + l then 7
  else if doy < 273 + l then 8
  else if doy < 304 + l then 9
  else if doy < 334 + l then 10
  else 11

/-- `gmtime_r` (POSIX): the broken-down UTC time of `t` seconds since the epoch,
the inverse of `timegm`; `none` (a null pointer, `EOVERFLOW`) when the year does
not fit `tm_year`. -/
def gmtime (t : Int) : Option Tm :=
  let days := t / 86400
  let rem := t % 86400
  let y := yearOfDay days
  let doy := days - daysBeforeYear y
  let m := monthOfYearDay (isLeapYear y) doy
  if y - 1900 < -2147483648 ∨ 2147483647 < y - 1900 then none
  else
    some { tm_year := y - 1900, tm_mon := m, tm_mday := doy - daysBeforeMonth y m + 1
           tm_hour := rem / 3600, tm_min := rem % 3600 / 60, tm_sec := rem % 60 }

/-- A `%0Nd` conversion of `printf` (C standard, 7.21.6.1): the decimal digits
padded with zeros on the left to `width` characters, the sign counted. -/
def fmtZeroPadded (width : Nat) (v : Int) : Bytes :=
  let ds := natToString v.natAbs
  if v < 0 then 45 :: (List.replicate (width - 1 - ds.length) 48 ++ ds)
  else List.replicate (width - ds.length) 48 ++ ds

/-- The text `snprintf(timeBuffer, 32, "%04d-%02d-%02d:%02d-%02d", ...)` leaves
in `timeBuffer` (xtream_client.cpp:1031): at most 31 characters. -/
def catchupTimeText (tm : Tm) : Bytes :=
  (fmtZeroPadded 4 (tm.tm_year + 1900) ++ [45] ++ fmtZeroPadded 2 (tm.tm_mon + 1) ++ [45]
    ++ fmtZeroPadded 2 tm.tm_mday ++ [58] ++ fmtZeroPadded 2 tm.tm_hour ++ [45]
    ++ fmtZeroPadded 2 tm.tm_min).take 31

/-- The local `adjustedStartTime` of `BuildCatchupUrl` (xtream_client.cpp:1007-1014). -/
def adjustedStart (settings : Settings) (startTime : Int) : Int :=
  let offsetHours :=
    if settings.catchupStartOffsetHours < 0 then 0 else settings.catchupStartOffsetHours
  wrapInt64 (startTime + wrapInt32 (offsetHours * 3600))

/-- The local `durationMinutes` of `BuildCatchupUrl` (xtream_client.cpp:1017):
a 64-bit division that truncates toward zero, narrowed to `int`. -/
def durationMinutes (settings : Settings) (startTime endTime : Int) : Int :=
  wrapInt32 (Int.tdiv (wrapInt64 (endTime - adjustedStart settings startTime)) 60)

/-- `BuildCatchupUrl` (xtream_client.cpp:1001); the empty list is the empty
string. -/
def BuildCatchupUrl (settings : Settings) (streamId startTime endTime : Int)
    (streamFormat : Bytes) : Bytes :=
  let base := BuildBaseUrl settings
  if base.isEmpty ∨ streamId ≤ 0 ∨ startTime ≤ 0 ∨ endTime ≤ startTime then []
  else if durationMinutes settings startTime endTime ≤ 0 then []
  else
    match gmtime (adjustedStart settings startTime) with
    | none => []
    | some tm =>
      let ext := if ToLower streamFormat = ascii "hls" then ascii ".m3u8" else ascii ".ts"
      AppendUserAgentHeader
        (base ++ ascii "/timeshift/" ++ UrlEncode settings.username ++ ascii "/"
          ++ UrlEncode settings.password ++ ascii "/"
          ++ intToString (durationMinutes settings startTime endTime) ++ ascii "/"
          ++ catchupTimeText tm ++ ascii "/" ++ intToString streamId ++ ext)
        settings

/-- Written from the claim: the catchup offset in seconds,
`3600 * max(offsetHours, 0)`. -/
def catchupOffsetSeconds (settings : Settings) : Int :=
  3600 * max settings.catchupStartOffsetHours 0

/-- Written from the claim: the duration in minutes,
`floor((end - (start + 3600 * max(offsetHours, 0))) / 60)`. -/
def catchupDuration (settings : Settings) (startTime endTime : Int) : Int :=
  (endTime - (startTime + catchupOffsetSeconds settings)) / 60

/-- The inputs on which the arithmetic of `BuildCatchupUrl` stays within its
types (no signed overflow): the two times are `time_t` values, the offset in
seconds fits `int`, and the adjusted start fits `time_t`. -/
def catchupInRange (settings : Settings) (startTime endTime : Int) : Bool :=
  decide (-9223372036854775808 ≤ startTime) && decide (startTime < 9223372036854775808)
    && decide (-9223372036854775808 ≤ endTime) && decide (endTime < 9223372036854775808)
    && decide (catchupOffsetSeconds settings < 2147483648)
    && decide (startTime + catchupOffsetSeconds settings < 9223372036854775808)

/-- The text `YYYY-MM-DD:HH-MM` of calendar fields, zero-padded. -/
def dateTimeSegment (y mo d h mi : Nat) : Bytes :=
  pad4 y ++ [45] ++ pad2 mo ++ [45] ++ pad2 d ++ [58] ++ pad2 h ++ [45] ++ pad2 mi

/-- The `|User-Agent=` suffix `AppendUserAgentHeader` adds, empty when user-agent
spoofing is off. -/
def userAgentSuffix (settings : Settings) : Bytes :=
  if (EffectiveUserAgent settings).isEmpty then []
  else ascii "|User-Agent=" ++ UrlEncode (EffectiveUserAgent settings)

/-- Settings of the catchup examples: server `h`, user `u`, password `p`. -/
def catchupExampleSettings : Settings :=
  { server := ascii "h", username := ascii "u", password := ascii "p" }

/-! ### Catchup URL template (xtream_client.cpp:1048-1066) -/

/-- The placeholder text that `BuildCatchupUrlTemplate` puts where
`BuildCatchupUrl` puts the formatted start time. -/
def catchupPlaceholder : Bytes := ascii "\x7bY\x7d-\x7bm\x7d-\x7bd\x7d:\x7bH\x7d-\x7bM\x7d"

/-- `BuildCatchupUrlTemplate` (xtream_client.cpp:1048); the empty list is the
empty string. The literal `"{Y}-{m}-{d}:{H}-{M}/"` is the placeholder followed
by a slash. -/
def BuildCatchupUrlTemplate (settings : Settings) (streamId durationMinutes : Int)
    (streamFormat : Bytes) : Bytes :=
  let base := BuildBaseUrl settings
  if base.isEmpty ∨ streamId ≤ 0 ∨ durationMinutes ≤ 0 then []
  else
    let ext := if ToLower streamFormat = ascii "hls" then ascii ".m3u8" else ascii ".ts"
    AppendUserAgentHeader
      (base ++ ascii "/timeshift/" ++ UrlEncode settings.username ++ ascii "/"
        ++ UrlEncode settings.password ++ ascii "/"
        ++ intToString durationMinutes ++ ascii "/"
        ++ (catchupPlaceholder ++ ascii "/") ++ intToString streamId ++ ext)
      settings

/-! ### Category filter of the channel loop (addon.cpp:1916-1946) -/

/-- A state waiting for a cycle with the category filter in `exclude` mode on the
pattern `news`. -/
def excludeNewsState : ClientState :=
  { generation := 7, workRequested := true, loading := true
    settingsSignature := ascii "sig"
    xtreamSettings := { server := ascii "tv.example", username := ascii "u", password := ascii "p" }
    streamFormat := ascii "ts", channelNumbering := ascii "sequential"
    categoryFilterMode := ascii "exclude", categoryFilterPatternsRaw := ascii "news" }

/-- A provider with the categories `News` (3) and `Sport` (4) and one stream in
each, plus one stream without a category; the generation stays 7. -/
def twoCategoriesEnv : CycleEnv :=
  { httpGet := fun n _ =>
      if n = 0 then
        okResponse (ascii "[\x7b\"category_id\":3,\"category_name\":\"News\"\x7d,\x7b\"category_id\":4,\"category_name\":\"Sport\"\x7d]")
      else if n = 1 then
        okResponse (ascii "[\x7b\"stream_id\":11,\"name\":\"N1\",\"category_id\":3\x7d,\x7b\"stream_id\":12,\"name\":\"S1\",\"category_id\":4\x7d,\x7b\"stream_id\":13,\"name\":\"U1\"\x7d]")
      else { ok := false, protocol := ascii "HTTP/1.1 503 Service Unavailable" }
    xmlParse := fun _ => none
    stopAt := fun _ => false
    generationAt := fun _ => 7 }

/-! ### Stream requests of a cycle (addon.cpp:1693-1780) -/

/-- The category ids passed to `FetchLiveStreams` by the per-category loop
(addon.cpp:1761-1778), in order; `n` requests were issued before. The id 0 is
the unfiltered fallback request after a failed per-category request. -/
def perCategoryRequests (env : CycleEnv) (settings : Settings) : List Int → Nat → List Int
  | [], _ => []
  | catId :: rest, n =>
    let sRes := FetchLiveStreams (streamsUrl settings catId) (env.httpGet n (streamsUrl settings catId))
    if !sRes.1.ok then [catId, 0]
    else catId :: perCategoryRequests env settings rest (n + 1)

/-- The category ids passed to `FetchLiveStreams` by the stream fetch phase
(addon.cpp:1712-1780), in order: 0 is the unfiltered request. -/
def streamRequests (env : CycleEnv) (cap : Captured) (categories : List LiveCategory) : List Int :=
  let categoryPatterns := SplitPatterns cap.categoryFilterRaw
  let categoryModeLower := ToLower cap.categoryFilterMode
  let wantsUncategorized : Bool :=
    !categoryPatterns.isEmpty
      ∧ (categoryModeLower = ascii "include" ∨ categoryModeLower = ascii "exclude")
      ∧ ShouldFilterOut categoryPatterns (ascii "Uncategorized")
  if categoryPatterns.isEmpty ∨ categoryModeLower = ascii "all" ∨ wantsUncategorized then [0]
  else
    let keep := keepCatIds categoryPatterns categoryModeLower categories
    let totalCats := categories.length
    let usePerCategory : Bool := keep.length ≤ 20 ∨ (0 < totalCats ∧ keep.length * 4 ≤ totalCats)
    if !usePerCategory then [0]
    else perCategoryRequests env cap.settings keep 1

/-- Written from the claim: the category filter is active when the mode is
`include` or `exclude` and the pattern list is not empty. -/
def categoryFilterActive (cap : Captured) : Bool :=
  !(SplitPatterns cap.categoryFilterRaw).isEmpty
    && (decide (ToLower cap.categoryFilterMode = ascii "include")
        || decide (ToLower cap.categoryFilterMode = ascii "exclude"))

/-- A state waiting for a cycle whose category filter mode is the text `off`,
with the pattern `news` still stored. -/
def unknownModeState : ClientState :=
  { generation := 7, workRequested := true, loading := true
    settingsSignature := ascii "sig"
    xtreamSettings := { server := ascii "tv.example", username := ascii "u", password := ascii "p" }
    streamFormat := ascii "ts", channelNumbering := ascii "sequential"
    categoryFilterMode := ascii "off", categoryFilterPatternsRaw := ascii "news" }

/-! ### Throttled refresh (addon.cpp:402-414) -/

/-- What a call of `TriggerKodiRefreshThrottled` leaves and does: the value of
`m_lastRefreshTriggerMs` after the call and whether `TriggerChannelUpdate` and
`TriggerChannelGroupsUpdate` were called. -/
structure RefreshResult where
  lastRefreshTriggerMs : Int
  channelUpdate : Bool
  groupsUpdate : Bool
deriving DecidableEq, Repr

/-- `TriggerKodiRefreshThrottled` (addon.cpp:402): `ms` is the reading of the
steady clock in milliseconds, `last` the stored `m_lastRefreshTriggerMs`; both
are `int64_t` and so is their difference. -/
def TriggerKodiRefreshThrottled (ms last : Int) : RefreshResult :=
  if last ≠ 0 ∧ wrapInt64 (ms - last) < 2000 then
    { lastRefreshTriggerMs := last, channelUpdate := false, groupsUpdate := false }
  else
    { lastRefreshTriggerMs := ms, channelUpdate := true, groupsUpdate := true }

/-- The results of calls made one after the other at the clock readings of the
list, starting with the stored value `last`. -/
def throttledCalls : Int → List Int → List RefreshResult
  | _, [] => []
  | last, t :: ts =>
    TriggerKodiRefreshThrottled t last
      :: throttledCalls (TriggerKodiRefreshThrottled t last).lastRefreshTriggerMs ts

/-! ### Generation counter (addon.cpp:2185-2241) -/

/-- A loader state whose client has published under another signature. -/
def loadedOtherSignature : LoaderState :=
  { client := { generation := 4, dataLoaded := true, groupsReady := true
                settingsSignature := ascii "old", channels := some [] } }

/-! ### Stream properties and pending catchup (addon.cpp:958-1108, 1293-1423)

The two callbacks read the steady clock (`nowMs`, milliseconds, `int64_t`) and
the wall clock (`nowTs`, `std::time`, seconds); both readings are arguments of
the model. The names of the stream properties are either macros of the Kodi
headers, kept apart as constructors, or string literals of the source. -/

/-- `xtream::BuildLiveStreamUrl` (xtream_client.cpp:986); the empty list is the
empty string. -/
def BuildLiveStreamUrl (settings : Settings) (streamId : Int) (streamFormat : Bytes) : Bytes :=
  let base := BuildBaseUrl settings
  if base.isEmpty ∨ streamId ≤ 0 then []
  else
    let ext := if ToLower streamFormat = ascii "hls" then ascii ".m3u8" else ascii ".ts"
    AppendUserAgentHeader
      (base ++ ascii "/live/" ++ UrlEncode settings.username ++ ascii "/"
        ++ UrlEncode settings.password ++ ascii "/" ++ intToString streamId ++ ext)
      settings

/-- The return values of the callbacks. -/
inductive PvrError where
  /-- The value `PVR_ERROR_NO_ERROR`. -/
  | noError
  /-- The value `PVR_ERROR_UNKNOWN`. -/
  | unknown
  /-- The value `PVR_ERROR_FAILED`. -/
  | failed
  /-- The value `PVR_ERROR_SERVER_ERROR`. -/
  | serverError
deriving DecidableEq, Repr

/-- The name of a stream property. -/
inductive PropName where
  /-- The macro `PVR_STREAM_PROPERTY_STREAMURL`. -/
  | streamUrl
  /-- The macro `PVR_STREAM_PROPERTY_ISREALTIMESTREAM`. -/
  | isRealtimeStream
  /-- The macro `PVR_STREAM_PROPERTY_EPGPLAYBACKASLIVE`. -/
  | epgPlaybackAsLive
  /-- The macro `PVR_STREAM_PROPERTY_MIMETYPE`. -/
  | mimeType
  /-- The macro `PVR_STREAM_PROPERTY_INPUTSTREAM`. -/
  | inputStream
  /-- A name written as a string literal. -/
  | text (name : Bytes)
deriving DecidableEq, Repr

/-- `PendingCatchup` (addon.cpp:2279). -/
structure PendingCatchup where
  url : Bytes := []
  expiresAtMs : Int := 0
  programStart : Int := 0
  programEnd : Int := 0
deriving DecidableEq, Repr

/-- The state the two callbacks read and write: the loader state and the
catchup members (addon.cpp:2286-2290). -/
structure PvrState where
  loader : LoaderState := {}
  pendingCatchupByChannel : List (Nat × PendingCatchup) := []
  activeCatchup : PendingCatchup := {}
  activeCatchupChannelUid : Nat := 0
deriving DecidableEq, Repr

/-- `m.erase(it)` for the entry under `k`. -/
def mapErase {κ ν : Type} [DecidableEq κ] (m : List (κ × ν)) (k : κ) : List (κ × ν) :=
  m.filter (fun kv => decide (kv.1 ≠ k))

/-- The local `streamMimeType` (addon.cpp:1001, 1360). -/
def streamMimeType (streamFormat : Bytes) : Bytes :=
  if ToLower streamFormat = ascii "hls" then ascii "application/vnd.apple.mpegurl"
  else ascii "video/mp2t"

/-- The properties added under `if (settings.useFFmpegDirect)` on the live path
(addon.cpp:1031-1100). -/
def ffmpegDirectLiveProperties (streams : Option (List LiveStream)) (settings : Settings)
    (streamFormat : Bytes) (nowTs : Int) (streamId : Int) (url : Bytes) :
    List (PropName × Bytes) :=
  let channelStream : Option LiveStream :=
    match streams with
    | some l => l.find? (fun stream => decide (stream.id = streamId))
    | none => none
  let dflt : List (PropName × Bytes) :=
    [(.text (ascii "inputstream.ffmpegdirect.stream_mode"), ascii "default"),
     (.text (ascii "inputstream.ffmpegdirect.is_realtime_stream"), ascii "true")]
  (.inputStream, ascii "inputstream.ffmpegdirect") ::
    match channelStream with
    | none => dflt
    | some cs =>
      if cs.tvArchive ∧ 0 < cs.tvArchiveDuration then
        let offsetHours :=
          if settings.catchupStartOffsetHours < 0 then 0 else settings.catchupStartOffsetHours
        let offsetSeconds := wrapInt32 (offsetHours * 3600)
        let archiveStart :=
          wrapInt64 (wrapInt64 (nowTs - wrapInt32 (cs.tvArchiveDuration * 3600)) + offsetSeconds)
        let archiveEnd := nowTs
        let archiveDurationMinutes :=
          wrapInt32 (Int.tdiv (wrapInt64 (archiveEnd - archiveStart)) 60)
        let catchupTemplate :=
          BuildCatchupUrlTemplate settings streamId archiveDurationMinutes streamFormat
        if !catchupTemplate.isEmpty then
          [(.text (ascii "inputstream.ffmpegdirect.stream_mode"), ascii "catchup"),
           (.text (ascii "inputstream.ffmpegdirect.default_url"), url),
           (.text (ascii "inputstream.ffmpegdirect.catchup_url_format_string"), catchupTemplate),
           (.text (ascii "inputstream.ffmpegdirect.catchup_buffer_start_time"),
              intToString archiveStart),
           (.text (ascii "inputstream.ffmpegdirect.catchup_buffer_end_time"),
              intToString archiveEnd),
           (.text (ascii "inputstream.ffmpegdirect.catchup_terminates"), ascii "false"),
           (.text (ascii "inputstream.ffmpegdirect.is_realtime_stream"), ascii "true"),
           (.text (ascii "inputstream.ffmpegdirect.timezone_shift"), ascii "0")]
        else dflt
      else dflt

/-- The live path of `GetChannelStreamProperties` (addon.cpp:1016-1107): the
return value and the properties. -/
def liveStreamProperties (uidToStream : List (Nat × Int)) (streams : Option (List LiveStream))
    (settings : Settings) (streamFormat : Bytes) (nowTs : Int) (uid : Nat) :
    PvrError × List (PropName × Bytes) :=
  match mapFind uidToStream uid with
  | none => (.unknown, [])
  | some streamId =>
    let url := BuildLiveStreamUrl settings streamId streamFormat
    if url.isEmpty then (.unknown, [])
    else
      (.noError,
        (if settings.useFFmpegDirect then
            ffmpegDirectLiveProperties streams settings streamFormat nowTs streamId url
          else [])
          ++ [(.streamUrl, url), (.isRealtimeStream, ascii "true"),
              (.mimeType, streamMimeType streamFormat)])

/-- What a call of `GetChannelStreamProperties` leaves and returns; `usedCatchup`
tells that the branch `if (!pendingCatchupUrl.empty())` was taken (the call
logs `using CATCHUP URL`). -/
structure ChannelResult where
  state : PvrState
  error : PvrError
  properties : List (PropName × Bytes) := []
  usedCatchup : Bool := false
deriving DecidableEq, Repr

/-- `GetChannelStreamProperties` (addon.cpp:958) for the channel with unique id
`channelUid`, on an empty property vector. -/
def GetChannelStreamProperties (env : EnsureEnv) (nowMs nowTs : Int) (channelUid : Nat)
    (st : PvrState) : ChannelResult :=
  let loader := (EnsureLoaded env st.loader).state
  let c := loader.client
  let pendingCatchupUrl : Bytes :=
    match mapFind st.pendingCatchupByChannel channelUid with
    | some p => if nowMs ≤ p.expiresAtMs ∧ !p.url.isEmpty then p.url else []
    | none => []
  let st' : PvrState :=
    match mapFind st.pendingCatchupByChannel channelUid with
    | some p =>
      if nowMs ≤ p.expiresAtMs ∧ !p.url.isEmpty then
        { loader := loader
          pendingCatchupByChannel := mapErase st.pendingCatchupByChannel channelUid
          activeCatchup := p, activeCatchupChannelUid := channelUid }
      else
        { loader := loader
          pendingCatchupByChannel := mapErase st.pendingCatchupByChannel channelUid
          activeCatchup := st.activeCatchup
          activeCatchupChannelUid := st.activeCatchupChannelUid }
    | none =>
      { loader := loader, pendingCatchupByChannel := st.pendingCatchupByChannel
        activeCatchup := {}, activeCatchupChannelUid := 0 }
  match c.uidToStreamId with
  | none => { state := st', error := .unknown }
  | some uidToStream =>
    if !pendingCatchupUrl.isEmpty then
      { state := st', error := .noError
        properties :=
          [(.streamUrl, pendingCatchupUrl), (.isRealtimeStream, ascii "false"),
           (.epgPlaybackAsLive, ascii "false"), (.mimeType, streamMimeType c.streamFormat)]
        usedCatchup := true }
    else
      { state := st'
        error := (liveStreamProperties uidToStream c.streams c.xtreamSettings c.streamFormat
          nowTs channelUid).1
        properties := (liveStreamProperties uidToStream c.streams c.xtreamSettings c.streamFormat
          nowTs channelUid).2 }

/-- What a call of `GetEPGTagStreamProperties` leaves and returns. -/
structure EpgTagResult where
  state : PvrState
  error : PvrError
  properties : List (PropName × Bytes) := []
deriving DecidableEq, Repr

/-- `GetEPGTagStreamProperties` (addon.cpp:1293) for a tag with the given
channel uid, start time and end time, on an empty property vector. -/
def GetEPGTagStreamProperties (env : EnsureEnv) (nowMs nowTs : Int) (channelUid : Nat)
    (startTime endTime : Int) (st : PvrState) : EpgTagResult :=
  let loader := (EnsureLoaded env st.loader).state
  let c := loader.client
  let st1 : PvrState := { st with loader := loader }
  let settings := c.xtreamSettings
  let streamFormat := c.streamFormat
  match c.streams with
  | none => { state := st1, error := .unknown }
  | some streams =>
    match streams.find? (fun stream => decide (toUInt32 stream.id = channelUid)) with
    | none => { state := st1, error := .unknown }
    | some stream =>
      if !stream.tvArchive then { state := st1, error := .unknown }
      else if nowTs < startTime then { state := st1, error := .unknown }
      else
        let effectiveEnd := if nowTs < endTime then nowTs else endTime
        let url := BuildCatchupUrl settings stream.id startTime effectiveEnd streamFormat
        if url.isEmpty then { state := st1, error := .unknown }
        else
          let st2 : PvrState :=
            { st1 with
              pendingCatchupByChannel :=
                mapSet st1.pendingCatchupByChannel channelUid
                  { url := url, expiresAtMs := wrapInt64 (nowMs + 30000)
                    programStart := startTime, programEnd := endTime } }
          let tail : List (PropName × Bytes) :=
            [(.isRealtimeStream, ascii "false"), (.epgPlaybackAsLive, ascii "false"),
             (.mimeType, streamMimeType streamFormat)]
          if settings.useFFmpegDirect then
            let offsetHours :=
              if settings.catchupStartOffsetHours < 0 then 0 else settings.catchupStartOffsetHours
            let offsetSeconds := wrapInt32 (offsetHours * 3600)
            let adjustedStartTime := wrapInt64 (startTime + offsetSeconds)
            let programDurationMinutes :=
              wrapInt32 (Int.tdiv (wrapInt64 (effectiveEnd - adjustedStartTime)) 60)
            let templateUrl :=
              BuildCatchupUrlTemplate settings stream.id programDurationMinutes streamFormat
            if templateUrl.isEmpty then { state := st2, error := .unknown }
            else
              { state := st2, error := .noError
                properties :=
                  [(.inputStream, ascii "inputstream.ffmpegdirect"),
                   (.text (ascii "inputstream.ffmpegdirect.stream_mode"), ascii "catchup"),
                   (.text (ascii "inputstream.ffmpegdirect.default_url"), url),
                   (.text (ascii "inputstream.ffmpegdirect.catchup_url_format_string"),
                      templateUrl),
                   (.text (ascii "inputstream.ffmpegdirect.catchup_buffer_start_time"),
                      intToString adjustedStartTime),
                   (.text (ascii "inputstream.ffmpegdirect.catchup_buffer_end_time"),
                      intToString effectiveEnd),
                   (.text (ascii "inputstream.ffmpegdirect.catchup_terminates"), ascii "true"),
                   (.text (ascii "inputstream.ffmpegdirect.is_realtime_stream"), ascii "false"),
                   (.text (ascii "inputstream.ffmpegdirect.timezone_shift"), ascii "0"),
                   (.streamUrl, url)] ++ tail }
          else { state := st2, error := .noError, properties := (.streamUrl, url) :: tail }

/-- The arguments of one call of `GetChannelStreamProperties`. -/
structure ChannelCall where
  env : EnsureEnv
  nowMs : Int
  nowTs : Int
  channelUid : Nat

/-- Calls of `GetChannelStreamProperties` made one after the other: each call
with its result. -/
def channelCalls : List ChannelCall → PvrState → List (ChannelCall × ChannelResult)
  | [], _ => []
  | k :: rest, st =>
    (k, GetChannelStreamProperties k.env k.nowMs k.nowTs k.channelUid st)
      :: channelCalls rest (GetChannelStreamProperties k.env k.nowMs k.nowTs k.channelUid st).state

/-- A state with one published stream, 7, which has an archive; the settings
are those of `callWithFormat`. -/
def catchupExampleState : PvrState :=
  { loader :=
      { client :=
          { dataLoaded := true, groupsReady := true
            settingsSignature := (callWithFormat (ascii "ts")).sig
            xtreamSettings := catchupExampleSettings, streamFormat := ascii "ts"
            channels := some [{ uniqueId := 7, channelName := ascii "Seven", channelNumber := 1 }]
            uidToStreamId := some [(7, 7)]
            streams := some [{ id := 7, name := ascii "Seven", tvArchive := true
                               tvArchiveDuration := 24 }] }
        cacheSignatureAttempted := (callWithFormat (ascii "ts")).sig } }

/-! ### Objects with one member (C27, C28) -/

/-- The object text `{"k":` `ws` `v` `}` for key bytes `k`, the bytes `ws` that
follow the colon and the value text `v`. -/
def memberObject (k ws v : Bytes) : Bytes := 123 :: 34 :: (k ++ 34 :: 58 :: (ws ++ (v ++ [125])))

/-! ### Extractors with their output parameter (xtream_client.cpp:483-764, 925-938)

The extractors return `bool` and write the value through a reference. The
definitions below thread that variable: the flag returned and the content of the
variable after the call. -/

/-- `ParseIntAt` (xtream_client.cpp:483) with the variable `out`. -/
def ParseIntAtInto (obj : Bytes) (pos : Nat) (out : Int) : Bool × Int :=
  match obj.drop (skipSpaces obj pos) with
  | [] => (false, out)
  | c :: rest =>
    if c = 34 then
      let neg := rest.head? = some 45
      let r := parseDigits (if neg then rest.drop 1 else rest) 0 false
      if !r.2 then (false, out)
      else (true, wrapInt32 (if neg then wrapInt64 (-r.1) else r.1))
    else
      let neg := c = 45
      let r := parseDigits (if neg then rest else c :: rest) 0 false
      if !r.2 then (false, out)
      else (true, wrapInt32 (if neg then wrapInt64 (-r.1) else r.1))

/-- `ExtractIntField` (xtream_client.cpp:534) with the variable `out`. -/
def ExtractIntFieldInto (obj key : Bytes) (out : Int) : Bool × Int :=
  match FindKeyPos obj key with
  | none => (false, out)
  | some pos =>
    match find obj [58] pos with
    | none => (false, out)
    | some pos => ParseIntAtInto obj (pos + 1) out

/-- `ExtractBoolField` (xtream_client.cpp:545) with the variable `out`. -/
def ExtractBoolFieldInto (obj key : Bytes) (out : Bool) : Bool × Bool :=
  match FindKeyPos obj key with
  | none => (false, out)
  | some pos =>
    match find obj [58] pos with
    | none => (false, out)
    | some pos =>
      match obj.drop (skipSpaces obj (pos + 1)) with
      | [] => (false, out)
      | c :: rest =>
        if (c :: rest).take 4 = [116, 114, 117, 101] then (true, true)
        else if (c :: rest).take 5 = [102, 97, 108, 115, 101] then (true, false)
        else if c = 49 then (true, true)
        else if c = 48 then (true, false)
        else if c = 34 then
          match rest with
          | [] => (false, out)
          | d :: _ =>
            if d = 49 then (true, true) else if d = 48 then (true, false) else (false, out)
        else (false, out)

/-- `ExtractStringField` (xtream_client.cpp:605) with the variable `out`: the
loop fills the local `s`, which is assigned to `out` at the closing quote. -/
def ExtractStringFieldInto (obj key : Bytes) (out : Bytes) : Bool × Bytes :=
  match FindKeyPos obj key with
  | none => (false, out)
  | some pos =>
    match find obj [58] pos with
    | none => (false, out)
    | some pos =>
      match obj.drop (skipSpaces obj (pos + 1)) with
      | [] => (false, out)
      | c :: rest =>
        if c = 34 then
          match decodeString rest 0 false [] with
          | some s => (true, s)
          | none => (false, out)
        else (false, out)

/-- The lambda passed to `ForEachTopLevelObjectSpan` by `FetchLiveStreams`
(xtream_client.cpp:925-938) on one span: the vector `out` after the call. -/
def liveStreamCallback (body : Bytes) (span : Nat × Nat) (out : List LiveStream) :
    List LiveStream :=
  let obj := slice body span
  let s : LiveStream := {}
  let r := ExtractIntFieldInto obj (ascii "stream_id") s.id
  if !r.1 then out
  else
    let s := { s with id := r.2 }
    let s := { s with categoryId := (ExtractIntFieldInto obj (ascii "category_id") s.categoryId).2 }
    let s := { s with number := (ExtractIntFieldInto obj (ascii "num") s.number).2 }
    let s := { s with name := (ExtractStringFieldInto obj (ascii "name") s.name).2 }
    let s := { s with icon := (ExtractStringFieldInto obj (ascii "stream_icon") s.icon).2 }
    let s :=
      { s with epgChannelId := (ExtractStringFieldInto obj (ascii "epg_channel_id") s.epgChannelId).2 }
    let s := { s with tvArchive := (ExtractBoolFieldInto obj (ascii "tv_archive") s.tvArchive).2 }
    let s :=
      { s with
        tvArchiveDuration :=
          (ExtractIntFieldInto obj (ascii "tv_archive_duration") s.tvArchiveDuration).2 }
    out ++ [s]

/-- A streams response with one record whose `num` and `tv_archive` are
malformed and whose other optional fields are missing. -/
def malformedFieldsBody : Bytes :=
  ascii "[\x7b\"stream_id\":7,\"name\":\"A\",\"num\":\"x\",\"tv_archive\":\"yes\"\x7d]"

/-! ### Lone surrogate escapes (C30) -/

/-- Written from the claim: the text starts with an escape `\uDC00`..`\uDFFF`,
that is a backslash, `u` and four hex digits of a value in that range. -/
def startsWithLowSurrogateEscape (text : Bytes) : Bool :=
  match text with
  | b :: u :: l1 :: l2 :: l3 :: l4 :: _ =>
    b == 92 && u == 117
      && decide (0 ≤ hexVal l1 ∧ 0 ≤ hexVal l2 ∧ 0 ≤ hexVal l3 ∧ 0 ≤ hexVal l4)
      && decide (0xDC00 ≤ codeUnit (hexVal l1) (hexVal l2) (hexVal l3) (hexVal l4)
          ∧ codeUnit (hexVal l1) (hexVal l2) (hexVal l3) (hexVal l4) ≤ 0xDFFF)
  | _ => false

/-! ### Credential check and scheduling decision of `EnsureLoaded` (C32, C39) -/

/-- Written from the claim: the credentials are missing or invalid when server,
username or password is blank after trimming, or the port lies outside
1..65535. -/
def credentialsInvalid (s : Settings) : Prop :=
  Trim s.server = [] ∨ Trim s.username = [] ∨ Trim s.password = [] ∨ s.port < 1 ∨ 65535 < s.port

/-- The results of `EnsureLoaded` calls made one after the other. -/
def ensureCalls : List EnsureEnv → LoaderState → List EnsureResult
  | [], _ => []
  | env :: rest, st => EnsureLoaded env st :: ensureCalls rest (EnsureLoaded env st).state

/-- The state after `EnsureLoaded` calls made one after the other. -/
def ensureState : List EnsureEnv → LoaderState → LoaderState
  | [], st => st
  | env :: rest, st => ensureState rest (EnsureLoaded env st).state

/-- The members the scheduling decision of `EnsureLoaded` reads or writes
(addon.cpp:2197-2232): generation, stored signature, the flags `m_loading`,
`m_dataLoaded`, `m_groupsReady` and `m_workRequested`, and the captured
settings. -/
def ClientState.scheduling (c : ClientState) :
    Nat × Bytes × Bool × Bool × Bool × Bool × Settings × Bytes × Bytes × Bytes × Bytes × Bytes
      × Bool :=
  (c.generation, c.settingsSignature, c.loading, c.dataLoaded, c.groupsReady, c.workRequested,
    c.xtreamSettings, c.streamFormat, c.channelNumbering, c.filterPatternsRaw,
    c.categoryFilterMode, c.categoryFilterPatternsRaw, c.filterChannelSeparators)

/-- A call without a password. -/
def callWithoutPassword : EnsureEnv :=
  { loadSettings := { server := ascii "h", username := ascii "u", password := ascii "  " } }

/-- A loader state in which the data for the signature of
`callWithFormat "ts"` is loaded at generation 4. -/
def loadedSameSignature : LoaderState :=
  { client := { generation := 4, dataLoaded := true, groupsReady := true
                settingsSignature := (callWithFormat (ascii "ts")).sig
                streamFormat := ascii "ts", channels := some [] }
    cacheSignatureAttempted := (callWithFormat (ascii "ts")).sig }

/-! ### Channel names the sanitizer leaves alone (C35) -/

/-- No two whitespace bytes in a row. -/
def singleSpaces : Bytes → Bool
  | a :: b :: rest => !(isSpace a && isSpace b) && singleSpaces (b :: rest)
  | _ => true

/-- Written from the claim: a name is clean when it has no leading or trailing
whitespace, no whitespace other than single spaces, no `&` and no backslash. -/
def cleanName (n : Bytes) : Bool :=
  (match n.head? with
    | some c => !isSpace c
    | none => true)
  && (match n.getLast? with
    | some c => !isSpace c
    | none => true)
  && n.all (fun c => !isSpace c || c == 32)
  && singleSpaces n
  && !decide (38 ∈ n) && !decide (92 ∈ n)

/-- Whether the text holds a `u` followed by four hexadecimal digits
(`escapeAfterU` tells whether a text starts with four such digits). -/
def hasUHexText : Bytes → Bool
  | [] => false
  | c :: rest =>
    (c == 117 && escapeAfterU rest) || hasUHexText rest

/-! ### Timers: client indexes and deletion (C37) -/

/-- The struct `dispatcharr::SeriesRule`. -/
structure SeriesRule where
  tvgId : Bytes
  title : Bytes
  mode : Bytes
deriving DecidableEq, Repr

/-- The fields of `dispatcharr::RecurringRule` the timer callbacks read. -/
structure RecurringRule where
  id : Int
  channelId : Int
  name : Bytes
  enabled : Bool
deriving DecidableEq, Repr

/-- The fields of `dispatcharr::Recording` the timer callbacks read. -/
structure Recording where
  id : Int
  channelId : Int
  title : Bytes
  status : Bytes
  startTime : Int
  endTime : Int
deriving DecidableEq, Repr

/-- The timer states the callbacks set. -/
inductive TimerState where
  /-- The value `PVR_TIMER_STATE_SCHEDULED`. -/
  | scheduled
  /-- The value `PVR_TIMER_STATE_DISABLED`. -/
  | disabled
  /-- The value `PVR_TIMER_STATE_RECORDING`. -/
  | recording
deriving DecidableEq, Repr

/-- The fields of `kodi::addon::PVRTimer` written by `GetTimers`; a field the
callback does not set is `none`. The client index is an `unsigned int`. -/
structure PVRTimer where
  clientIndex : Nat
  title : Bytes
  timerType : Nat
  summary : Option Bytes
  state : TimerState
  clientChannelUid : Option Int
  startTime : Option Int
  endTime : Option Int
deriving DecidableEq, Repr

/-- What the Dispatcharr client answers to the timer callbacks: whether the
client object exists, the three fetches (`none` when the fetch fails), the
channel mapping and the outcome of each deletion request. -/
structure DvrEnv where
  hasClient : Bool
  series : Option (List SeriesRule)
  recurring : Option (List RecurringRule)
  recordings : Option (List Recording)
  kodiChannelUid : Int → Int
  deleteRecording : Int → Bool
  deleteRecurringRule : Int → Bool
  deleteSeriesRule : Bytes → Bool

/-- The timer `GetTimers` adds for a series rule when its counter reads
`seriesIdx`. -/
def seriesTimer (s : SeriesRule) (seriesIdx : Nat) : PVRTimer :=
  { clientIndex := (10000 + seriesIdx) % 4294967296
    title := if s.title.isEmpty then ascii "All Shows" else s.title
    timerType := 2
    summary := some (ascii "Mode: " ++ s.mode ++ ascii " (TVG: " ++ s.tvgId ++ ascii ")")
    state := .scheduled
    clientChannelUid := none
    startTime := none
    endTime := none }

/-- The loop of `GetTimers` over the series rules, with its `unsigned int`
counter. -/
def seriesTimers : List SeriesRule → Nat → List PVRTimer
  | [], _ => []
  | s :: rest, seriesIdx =>
      seriesTimer s seriesIdx :: seriesTimers rest ((seriesIdx + 1) % 4294967296)

/-- The timer `GetTimers` adds for a recurring rule; `nowTs` is the reading of
`time(nullptr)`. -/
def recurringTimer (env : DvrEnv) (nowTs : Int) (r : RecurringRule) : PVRTimer :=
  let kodiUid := env.kodiChannelUid r.channelId
  { clientIndex := toUInt32 (wrapInt32 (20000 + r.id))
    title := if r.name.isEmpty then ascii "Recurring" else r.name
    timerType := 3
    summary := none
    state := if r.enabled then .scheduled else .disabled
    clientChannelUid := if kodiUid > 0 then some kodiUid else none
    startTime := some (wrapInt64 (nowTs + 86400))
    endTime := none }

/-- The recordings `GetTimers` lists: the scheduled ones and those in
progress. -/
def isTimerRecording (r : Recording) : Bool :=
  !(decide (r.status ≠ ascii "scheduled") && decide (r.status ≠ ascii "recording"))

/-- The timer `GetTimers` adds for a scheduled recording. -/
def recordingTimer (env : DvrEnv) (r : Recording) : PVRTimer :=
  let kodiUid := env.kodiChannelUid r.channelId
  { clientIndex := toUInt32 (wrapInt32 (30000 + r.id))
    title := r.title
    timerType := 1
    summary := none
    state := if r.status = ascii "recording" then .recording else .scheduled
    clientChannelUid := if kodiUid > 0 then some kodiUid else none
    startTime := some r.startTime
    endTime := some r.endTime }

/-- The callback `GetTimers`: the return value and the timers added to the
result set, in order. -/
def GetTimers (env : DvrEnv) (nowTs : Int) : PvrError × List PVRTimer :=
  if !env.hasClient then (.serverError, [])
  else
    let fromSeries := match env.series with
      | some series => seriesTimers series 0
      | none => []
    let fromRecurring := match env.recurring with
      | some recurring => recurring.map (recurringTimer env nowTs)
      | none => []
    let fromRecordings := match env.recordings with
      | some recs => (recs.filter isTimerRecording).map (recordingTimer env)
      | none => []
    (.noError, fromSeries ++ fromRecurring ++ fromRecordings)

/-- A request `DeleteTimer` sends to the Dispatcharr client. -/
inductive DvrCall where
  /-- The call `DeleteRecording(id)`. -/
  | deleteRecording (id : Int)
  /-- The call `DeleteRecurringRule(id)`. -/
  | deleteRecurringRule (id : Int)
  /-- The call `FetchSeriesRules(series)`. -/
  | fetchSeriesRules
  /-- The call `DeleteSeriesRule(tvgId)`. -/
  | deleteSeriesRule (tvgId : Bytes)
deriving DecidableEq, Repr

/-- The outcome of `DeleteTimer`: the return value, the client calls made, in
order, and whether `TriggerTimerUpdate` ran. -/
structure DeleteResult where
  error : PvrError
  calls : List DvrCall
  triggeredUpdate : Bool
deriving DecidableEq, Repr

/-- The callback `DeleteTimer`. -/
def DeleteTimer (env : DvrEnv) (timer : PVRTimer) : DeleteResult :=
  if !env.hasClient then { error := .serverError, calls := [], triggeredUpdate := false }
  else
    let clientIndex := timer.clientIndex
    if clientIndex ≥ 30000 then
      let recId := wrapInt32 ((clientIndex - 30000 : Nat) : Int)
      if env.deleteRecording recId then
        { error := .noError, calls := [.deleteRecording recId], triggeredUpdate := true }
      else { error := .failed, calls := [.deleteRecording recId], triggeredUpdate := false }
    else if clientIndex ≥ 20000 then
      let ruleId := wrapInt32 ((clientIndex - 20000 : Nat) : Int)
      if env.deleteRecurringRule ruleId then
        { error := .noError, calls := [.deleteRecurringRule ruleId], triggeredUpdate := true }
      else { error := .failed, calls := [.deleteRecurringRule ruleId], triggeredUpdate := false }
    else if clientIndex ≥ 10000 then
      match env.series with
      | some series =>
          let idx := clientIndex - 10000
          match series.get? idx with
          | some s =>
              if env.deleteSeriesRule s.tvgId then
                { error := .noError, calls := [.fetchSeriesRules, .deleteSeriesRule s.tvgId],
                  triggeredUpdate := true }
              else
                { error := .failed, calls := [.fetchSeriesRules, .deleteSeriesRule s.tvgId],
                  triggeredUpdate := false }
          | none => { error := .failed, calls := [.fetchSeriesRules], triggeredUpdate := false }
      | none => { error := .failed, calls := [.fetchSeriesRules], triggeredUpdate := false }
    else { error := .failed, calls := [], triggeredUpdate := false }

/-- A server with one recurring rule of id 10000 and one scheduled recording of
id 0. -/
def collidingTimersEnv : DvrEnv :=
  { hasClient := true
    series := some []
    recurring := some [{ id := 10000, channelId := 1, name := ascii "News", enabled := true }]
    recordings := some [{ id := 0, channelId := 1, title := ascii "Film",
                          status := ascii "scheduled", startTime := 100, endTime := 200 }]
    kodiChannelUid := fun _ => -1
    deleteRecording := fun _ => true
    deleteRecurringRule := fun _ => true
    deleteSeriesRule := fun _ => true }

/-- A server with two series rules, one recurring rule and two recordings. -/
def timersExampleEnv : DvrEnv :=
  { hasClient := true
    series := some [{ tvgId := ascii "bbc1", title := [], mode := ascii "all" },
                    { tvgId := ascii "itv", title := ascii "Quiz", mode := ascii "new" }]
    recurring := some [{ id := 7, channelId := 4, name := ascii "News", enabled := true }]
    recordings := some [{ id := 12, channelId := 4, title := ascii "Film",
                          status := ascii "scheduled", startTime := 100, endTime := 200 },
                        { id := 13, channelId := 4, title := ascii "Old",
                          status := ascii "completed", startTime := 10, endTime := 20 }]
    kodiChannelUid := fun c => c + 100
    deleteRecording := fun _ => true
    deleteRecurringRule := fun _ => true
    deleteSeriesRule := fun _ => true }

/-! ### Glob matching (C34) -/

/-- Written from the claim: recursive glob matching with `*` (byte 42) as the
only metacharacter. A `*` stands for any, possibly empty, sequence of bytes, so
the rest of the pattern has to match some suffix of the text; every other byte
of the pattern has to equal the next byte of the text. -/
def globMatch : Bytes → Bytes → Bool
  | [], t => t.isEmpty
  | a :: p, t =>
    if a = 42 then t.tails.any (fun s => globMatch p s)
    else
      match t with
      | [] => false
      | c :: rest => a == c && globMatch p rest

/-! ### Field extractors on objects with several members (C36) -/

/-- Written from the claim: the value of a member of a flat object, an integer
or a string (with the way each of its characters is written). -/
inductive FlatValue where
  /-- An integer, written in decimal. -/
  | int (n : Int)
  /-- A string, written between quotes. -/
  | str (s : List (Char × CharStyle))

/-- The JSON text of a value. -/
def FlatValue.text : FlatValue → Bytes
  | .int n => intToString n
  | .str s => 34 :: (encodeString s ++ [34])

/-- Written from the claim: a member of a flat object, with the whitespace
written after its colon. -/
structure FlatMember where
  name : Bytes
  ws : Bytes
  value : FlatValue

/-- The JSON text `"name":ws value` of a member. -/
def FlatMember.text (m : FlatMember) : Bytes :=
  34 :: (m.name ++ 34 :: 58 :: (m.ws ++ m.value.text))

/-- The members after the first one, each preceded by a comma. -/
def membersTail (ms : List FlatMember) : Bytes := ms.flatMap (fun m => 44 :: m.text)

/-- Written from the claim: the JSON text of a flat object. -/
def flatObject (ms : List FlatMember) : Bytes :=
  match ms with
  | [] => [123, 125]
  | m :: rest => 123 :: (m.text ++ (membersTail rest ++ [125]))

/-- The text of a flat object in front of the member that follows the members
`before`. -/
def objectPrefix (before : List FlatMember) : Bytes :=
  match before with
  | [] => [123]
  | m :: rest => 123 :: (m.text ++ (membersTail rest ++ [44]))

/-- Whether `needle` occurs in `text`. -/
def occursIn (needle text : Bytes) : Bool := text.tails.any (fun s => needle.isPrefixOf s)

/-! ### HTTP status check (C33) -/

/-- `std::stoi(s)` (base 10): `none` when it throws, which it does when no
digits follow the optional whitespace and sign (`std::invalid_argument`) or
when the value does not fit `int` (`std::out_of_range`); what follows the
digits is ignored. -/
def stoi (s : Bytes) : Option Int :=
  let s1 := s.dropWhile isSpace
  let neg := s1.head? = some 45
  let s2 := if s1.head? = some 45 ∨ s1.head? = some 43 then s1.drop 1 else s1
  let ds := s2.takeWhile isDigit
  if ds.isEmpty then none
  else
    let v : Int := if neg then -(digitsValue ds 0 : Int) else (digitsValue ds 0 : Int)
    if v < -2147483648 ∨ 2147483647 < v then none else some v

/-- `IsHttpStatusOk` (xtream_client.cpp:258). -/
def IsHttpStatusOk (protocol : Bytes) : Bool :=
  match find protocol [32] 0 with
  | none => false
  | some firstSpace =>
    match find protocol [32] (firstSpace + 1) with
    | none => false
    | some secondSpace =>
      if secondSpace ≤ firstSpace + 1 then false
      else
        let codeStr := (protocol.drop (firstSpace + 1)).take (secondSpace - firstSpace - 1)
        match stoi codeStr with
        | some code => decide (code ≥ 200 ∧ code < 300)
        | none => false

/-- The constant `kMaxHttpBodyBytes` (xtream_client.cpp:34). -/
def kMaxHttpBodyBytes : Nat := 50 * 1024 * 1024

/-- The loop of `ReadAll` (xtream_client.cpp:236) over the chunks the file hands
out; a read that returns `n <= 0` is the end of the list or an empty chunk.
The result is the return value and the content of `out`. -/
def ReadAll : List Bytes → Bytes → Nat → Bool × Bytes
  | [], out, _ => (true, out)
  | chunk :: rest, out, maxBytes =>
    if chunk.isEmpty then (true, out)
    else if (out ++ chunk).length > maxBytes then (false, out ++ chunk)
    else ReadAll rest (out ++ chunk) maxBytes

/-- What the file layer answers to `HttpGet`: whether `CURLOpen` succeeds, the
response protocol property and the chunks of the body. -/
structure Transport where
  opens : Bool
  protocol : Bytes
  chunks : List Bytes

/-- `HttpGet` (xtream_client.cpp:362), given the answers of the file layer. -/
def HttpGet (t : Transport) : HttpResult :=
  if !t.opens then { ok := false, protocol := [], body := [] }
  else
    let r := ReadAll t.chunks [] kMaxHttpBodyBytes
    if !r.1 then
      { ok := false
        protocol := if t.protocol.isEmpty then ascii "Body too large" else t.protocol
        body := r.2 }
    else
      let looksHttpOk := IsHttpStatusOk t.protocol
      { ok := looksHttpOk
        protocol :=
          if !looksHttpOk && t.protocol.isEmpty then
            (if r.2.isEmpty then ascii "Empty response" else ascii "Unexpected response")
          else t.protocol
        body := r.2 }

/-- Written from the claim: a status line `version SP code SP reason`, the code
in decimal. -/
def statusLine (version : Bytes) (code : Nat) (reason : Bytes) : Bytes :=
  version ++ 32 :: (natToString code ++ 32 :: reason)

/-! ### Redaction of credentials in logged URLs (C40) -/

/-- The loop of the lambda `redactParam` of `RedactUrlCredentials`
(xtream_client.cpp:214-227) on the state `(out, pos)`, running at most `fuel`
iterations; `none` when the bound is reached before the loop returns. -/
def redactLoop (needle : Bytes) : Nat → Bytes → Nat → Option Bytes
  | 0, _, _ => none
  | fuel + 1, out, pos =>
    match find out needle pos with
    | none => some out
    | some p =>
      let valueStart := p + needle.length
      let valueEnd :=
        match find out [38] valueStart with
        | some e => e
        | none => out.length
      redactLoop needle fuel (out.take valueStart ++ (ascii "***" ++ out.drop valueEnd))
        (valueStart + 3)

/-- The lambda `redactParam` applied to `out`; each iteration leaves fewer bytes
after `pos`, so `out.length + 1` iterations are allowed. -/
def redactParam (key : Bytes) (out : Bytes) : Option Bytes :=
  redactLoop (key ++ [61]) (out.length + 1) out 0

/-- `RedactUrlCredentials` (xtream_client.cpp:209). -/
def RedactUrlCredentials (url : Bytes) : Option Bytes :=
  (redactParam (ascii "username") url).bind (redactParam (ascii "password"))

/-- Settings with a username and a password that need percent-encoding. -/
def redactExampleSettings : Settings :=
  { server := ascii "tv.example.org", port := 8080, username := ascii "me&you",
    password := ascii "p=ss word" }

/-! ### Consistency of the published collections (C38) -/

/-- Written from the claim: the collections of a snapshot are consistent when
the keys of the uid index are the uids of the channel list, every key is
mapped to the stream id `streamIdOf key`, every group member carries the uid
and the channel number of some channel of the list, and every name of the
ordered group list has a non-empty member list. -/
def snapshotConsistent (streamIdOf : Nat → Int) (channels : List PVRChannel)
    (uidToStreamId : List (Nat × Int)) (groupMembers : List (Bytes × List GroupMember))
    (groupNamesOrdered : List Bytes) : Prop :=
  (∀ uid, uid ∈ uidToStreamId.map Prod.fst ↔ uid ∈ channels.map (fun ch => ch.uniqueId))
    ∧ (∀ kv ∈ uidToStreamId, kv.2 = streamIdOf kv.1)
    ∧ (∀ g ∈ groupMembers, ∀ m ∈ g.2, ∃ ch ∈ channels,
        m.channelUid = ch.uniqueId ∧ m.channelNumber = toUInt32 ch.channelNumber)
    ∧ (∀ name ∈ groupNamesOrdered, ∃ members,
        mapFind groupMembers name = some members ∧ members ≠ [])

/-- The part of `snapshotConsistent` that the channel loops maintain. -/
def collectionsConsistent (streamIdOf : Nat → Int) (channels : List PVRChannel)
    (uidToStreamId : List (Nat × Int)) (groupMembers : List (Bytes × List GroupMember)) : Prop :=
  (∀ uid, uid ∈ uidToStreamId.map Prod.fst ↔ uid ∈ channels.map (fun ch => ch.uniqueId))
    ∧ (∀ kv ∈ uidToStreamId, kv.2 = streamIdOf kv.1)
    ∧ (∀ g ∈ groupMembers, ∀ m ∈ g.2, ∃ ch ∈ channels,
        m.channelUid = ch.uniqueId ∧ m.channelNumber = toUInt32 ch.channelNumber)

/-- A cache blob for signature `sig` with no category and one channel, `A`,
whose uid is `0x80000000`: magic, signature, timestamp 0, 0 categories, 1
channel (uid, category id 0, number 1, name). -/
def highUidBlob : Bytes :=
  [88, 84, 67, 49, 3, 0, 0, 0, 115, 105, 103, 0, 0, 0, 0, 0, 0, 0, 0, 0, 0, 0, 0,
   1, 0, 0, 0, 0, 0, 0, 128, 0, 0, 0, 0, 1, 0, 0, 0, 1, 0, 0, 0, 65]

/-! ### Channel names normalized for the EPG lookup (C31) -/

/-- The five entities the claim names, each with the byte it stands for. -/
def entityTable : List (Bytes × Nat) :=
  [(ascii "&amp;", 38), (ascii "&quot;", 34), (ascii "&#039;", 39), (ascii "&lt;", 60),
   (ascii "&gt;", 62)]

/-- Written from the claim: one pass over the text, left to right, in which
every occurrence of one of the five entities is replaced by its byte; `n`
bounds the number of steps (the length of the text is enough). -/
def decodeEntitiesAux : Nat → Bytes → Bytes
  | 0, t => t
  | _ + 1, [] => []
  | n + 1, c :: cs =>
    match entityTable.find? (fun e => e.1.isPrefixOf (c :: cs)) with
    | some e => e.2 :: decodeEntitiesAux n ((c :: cs).drop e.1.length)
    | none => c :: decodeEntitiesAux n cs

/-- Written from the claim: the text with its entities decoded. -/
def decodeEntities (t : Bytes) : Bytes := decodeEntitiesAux t.length t

/-- Written from the claim: no leading and no trailing whitespace. -/
def cleanEnds (n : Bytes) : Bool :=
  (match n.head? with
    | some c => !isSpace c
    | none => true)
  && (match n.getLast? with
    | some c => !isSpace c
    | none => true)

/-- The last step of `NormalizeChannelNameForEpg` (xtream_client.cpp:96-100) on
the collapsed and trimmed text: what follows the rightmost ` | `. -/
def stripCategoryPrefix (collapsed : Bytes) : Bytes :=
  match rfind collapsed (ascii " | ") with
  | some pos => if pos + 3 < collapsed.length then Trim (collapsed.drop (pos + 3)) else collapsed
  | none => collapsed

/-- The five calls of `replace_all` in `NormalizeChannelNameForEpg`
(xtream_client.cpp:72-76), in their order. -/
def replaceEntities (s : Bytes) : Bytes :=
  replaceAll (replaceAll (replaceAll (replaceAll (replaceAll s (ascii "&amp;") (ascii "&"))
    (ascii "&quot;") [34]) (ascii "&#039;") [39]) (ascii "&lt;") (ascii "<")) (ascii "&gt;")
    (ascii ">")

/-! #### The `reserve` calls of the cache reader (addon.cpp:1479, 1497-1501)

`TryLoadCacheForSignature` passes the two record counts it has read to
`reserve` before it reads a record. Whether such a call returns depends on the
platform (the size of `size_t`, `max_size()` of the container, the memory
available), so it is a parameter of the model; a call that does not return
throws `std::length_error` or `std::bad_alloc`, which nothing in
`TryLoadCacheForSignature` or around its call in `EnsureLoaded`
(addon.cpp:2194) catches. The later `reserve` calls (addon.cpp:1544, 1550) take
the sizes of containers already built from the buffer, not a declared count. -/

/-- The four containers `TryLoadCacheForSignature` reserves room in, in the
order of the calls (addon.cpp:1479, 1497, 1499, 1501). -/
inductive ReserveSite where
  | categoryIdToName
  | channels
  | uidToStreamId
  | channelCategoryIds
deriving DecidableEq, Repr

/-- How a run of the cache reader leaves the function: by an exception thrown
by `reserve`, or by a return, with the outcome of the reading steps. -/
inductive Run (α : Type) where
  | threw : Run α
  | ended : Outcome α → Run α
deriving DecidableEq, Repr

/-- Sequencing of a reading step with the rest of the run. -/
def Outcome.andThen {α β : Type} (x : Outcome α) (f : α → Run β) : Run β :=
  match x with
  | .fault => .ended .fault
  | .miss => .ended .miss
  | .ok a => f a

/-- A platform on which `reserve(n)` returns exactly for `n ≤ limit`. -/
def reserveUpTo (limit : Nat) : ReserveSite → Nat → Bool := fun _ n => decide (n ≤ limit)

/-- The decoding part of `TryLoadCacheForSignature` (addon.cpp:1457-1557) with
its `reserve` calls: `canReserve site n` tells whether `reserve(n)` on the
container `site` returns. -/
def decodeCacheReserving (canReserve : ReserveSite → Nat → Bool) (blob signature : Bytes) :
    Run Decoded :=
  (ReadU32 blob 0).andThen fun magic =>
  if magic.1 ≠ kCacheMagic then .ended .miss
  else
    (ReadU32 blob magic.2).andThen fun sigLen =>
    if sigLen.2 + sigLen.1 > blob.length then .ended .miss
    else
      (substr blob sigLen.2 sigLen.1).andThen fun sigOnDisk =>
      if sigOnDisk ≠ signature then .ended .miss
      else
        (ReadU64 blob (sigLen.2 + sigLen.1)).andThen fun ts =>
        (ReadU32 blob ts.2).andThen fun catCount =>
        if canReserve .categoryIdToName catCount.1 = false then .threw
        else
          (readCategories blob catCount.1 catCount.2 []).andThen fun cats =>
          (ReadU32 blob cats.2).andThen fun chCount =>
          if canReserve .channels chCount.1 = false then .threw
          else if canReserve .uidToStreamId chCount.1 = false then .threw
          else if canReserve .channelCategoryIds chCount.1 = false then .threw
          else
            (readChannels blob chCount.1 chCount.2 {}).andThen fun chans =>
            let groupMembers :=
              (chans.1.channels.zip chans.1.channelCategoryIds).foldl (cacheGroupStep cats.1) []
            .ended (.ok { ts := ts.1, catCount := catCount.1, chCount := chCount.1
                          categoryIdToName := cats.1
                          channels := chans.1.channels
                          uidToStreamId := chans.1.uidToStreamId
                          channelCategoryIds := chans.1.channelCategoryIds
                          groupMembers := groupMembers
                          groupNamesOrdered := cacheGroupNames cats.1 groupMembers
                          off := chans.2 })

/-- A cache file of 23 bytes: the header `SaveCache` writes for the signature
`sig` (magic, signature, timestamp) followed by the category count
`0xFFFFFFFF` and nothing else. -/
def corruptCountBlob : Bytes :=
  AppendU32 (AppendU64 (AppendU32 (AppendU32 [] kCacheMagic) 3 ++ ascii "sig") 1700000000)
    4294967295

/-- A cache file that starts as `SaveCache` starts it for `signature` at clock
reading `now` (magic, signature length, signature, timestamp), then declares
`count` categories and goes on with the bytes `rest`. -/
def cacheDeclaringCategories (now : Nat) (signature : Bytes) (count : Nat) (rest : Bytes) :
    Bytes :=
  AppendU32
    (AppendU64 (AppendU32 (AppendU32 [] kCacheMagic) (signature.length % 4294967296) ++ signature)
      (now % 18446744073709551616))
    count ++ rest

/-- The example blob with its channel count (offset 47) overwritten by
`0xFFFFFFFF`. -/
def corruptChannelCountBlob : Bytes :=
  cacheExampleBlob.take 47 ++ [255, 255, 255, 255] ++ cacheExampleBlob.drop 51
/-! ## Theorems -/

/-! ### JSON span scanner -/

theorem scanLoop_append (xs ys : Bytes) (i : Nat) (st : ScanState) :
    scanLoop (xs ++ ys) i st = scanLoop ys (i + xs.length) (scanLoop xs i st) := by
  induction xs generalizing i st with
  | nil => simp [scanLoop]
  | cons x xs ih =>
    show scanLoop (xs ++ ys) (i + 1) (scanStep st i x) = _
    rw [ih, List.length_cons, scanLoop, show i + (xs.length + 1) = i + 1 + xs.length by omega]

theorem scanLoop_cons (c : Nat) (cs : Bytes) (i : Nat) (st : ScanState) :
    scanLoop (c :: cs) i st = scanLoop cs (i + 1) (scanStep st i c) := rfl


theorem scanStep_inert (st : ScanState) (i c : Nat) (hs : st.inString = false)
    (hc : inertByte c) : scanStep st i c = st := by
  obtain ⟨h1, h2, h3⟩ := hc
  simp [scanStep, hs, h1, h2, h3]

theorem scanLoop_inert (xs : Bytes) (i : Nat) (st : ScanState) (hs : st.inString = false)
    (hx : ∀ c ∈ xs, inertByte c) : scanLoop xs i st = st := by
  induction xs generalizing i with
  | nil => rfl
  | cons x xs ih =>
    rw [scanLoop_cons, scanStep_inert st i x hs (hx x (List.mem_cons_self _ _))]
    exact ih (i + 1) (fun c hc => hx c (List.mem_cons_of_mem _ hc))

theorem inert_renderWs (ws : List JWs) : ∀ c ∈ renderWs ws, inertByte c := by
  intro c hc
  simp only [renderWs, List.mem_map] at hc
  obtain ⟨w, _, rfl⟩ := hc
  cases w <;> simp [JWs.byte, inertByte]

theorem scanLoop_ws (ws : List JWs) (i : Nat) (st : ScanState) (hs : st.inString = false) :
    scanLoop (renderWs ws) i st = st :=
  scanLoop_inert _ i st hs (inert_renderWs ws)

theorem inert_of_isDigit (ds : List Nat) (h : ds.all isDigit = true) :
    ∀ c ∈ ds, inertByte c := by
  intro c hc
  have := List.all_eq_true.mp h c hc
  simp only [isDigit, Bool.and_eq_true, decide_eq_true_eq] at this
  simp only [inertByte]; omega

theorem inert_number (n : JNumber) (h : n.wf = true) : ∀ c ∈ n.render, inertByte c := by
  obtain ⟨neg, int, frac, exp⟩ := n
  simp only [JNumber.wf, Bool.and_eq_true] at h
  obtain ⟨⟨⟨⟨hint, -⟩, -⟩, hfrac⟩, hexp⟩ := h
  intro c hc
  simp only [JNumber.render, List.mem_append] at hc
  rcases hc with ((hc | hc) | hc) | hc
  · cases neg <;> simp at hc
    subst hc; simp [inertByte]
  · exact inert_of_isDigit int hint c hc
  · cases frac with
    | none => simp at hc
    | some f =>
      simp only [Bool.and_eq_true] at hfrac
      simp only [List.mem_cons] at hc
      rcases hc with rfl | hc
      · simp [inertByte]
      · exact inert_of_isDigit f hfrac.1 c hc
  · cases exp with
    | none => simp at hc
    | some t =>
      obtain ⟨e, sg, ds⟩ := t
      simp only [Bool.and_eq_true, Bool.or_eq_true, beq_iff_eq] at hexp
      obtain ⟨⟨⟨he, hsg⟩, hds⟩, -⟩ := hexp
      cases sg with
      | none =>
        simp only [List.mem_cons] at hc
        rcases hc with rfl | hc
        · rcases he with rfl | rfl <;> simp [inertByte]
        · exact inert_of_isDigit ds hds c hc
      | some s =>
        simp only [List.mem_cons] at hc
        rcases hc with rfl | rfl | hc
        · rcases he with rfl | rfl <;> simp [inertByte]
        · simp at hsg
          rcases hsg with rfl | rfl <;> simp [inertByte]
        · exact inert_of_isDigit ds hds c hc


theorem scanLoop_strItem (x : JChar) (hx : x.wf = true) (i : Nat)
    (st : ScanState) (h1 : st.inString = true) (h2 : st.escape = false) :
    scanLoop x.render i st = st := by
  cases x with
  | raw b =>
    simp only [JChar.wf, Bool.and_eq_true, decide_eq_true_eq, bne_iff_ne] at hx
    simp [JChar.render, scanLoop, scanStep, h1, h2, hx.1.2, hx.2]
  | esc c =>
    simp only [JChar.render, scanLoop, scanStep, h1, h2]
    simp
    cases st; simp_all
  | uni a b c d =>
    simp only [JChar.wf, Bool.and_eq_true, isHexDigit, Bool.or_eq_true, decide_eq_true_eq] at hx
    obtain ⟨⟨⟨ha, hb⟩, hc⟩, hd⟩ := hx
    have e1 : a ≠ 92 ∧ a ≠ 34 := by omega
    have e2 : b ≠ 92 ∧ b ≠ 34 := by omega
    have e3 : c ≠ 92 ∧ c ≠ 34 := by omega
    have e4 : d ≠ 92 ∧ d ≠ 34 := by omega
    simp [JChar.render, scanLoop, scanStep, h1, h2, e1, e2, e3, e4]
    cases st; simp_all

theorem scanLoop_strBody (s : List JChar) (hs : s.all JChar.wf = true) (i : Nat)
    (st : ScanState) (h1 : st.inString = true) (h2 : st.escape = false) :
    scanLoop (s.flatMap JChar.render) i st = st := by
  induction s generalizing i with
  | nil => rfl
  | cons x xs ih =>
    simp only [List.all_cons, Bool.and_eq_true] at hs
    rw [List.flatMap_cons, scanLoop_append, scanLoop_strItem x hs.1 i st h1 h2, ih hs.2]

theorem scanLoop_string (s : List JChar) (hs : s.all JChar.wf = true) (i : Nat)
    (st : ScanState) (hq : st.quiet) : scanLoop (renderString s) i st = st := by
  obtain ⟨h1, h2⟩ := hq
  have e : scanStep st i 34 = { st with inString := true } := by simp [scanStep, h1]
  have b := scanLoop_strBody s hs (i + 1) { st with inString := true } rfl h2
  rw [renderString, scanLoop_cons, scanLoop_append, e, b]
  simp only [scanLoop, scanStep]
  cases st
  simp_all

theorem scanLoop_lit (xs : Bytes) (hx : ∀ c ∈ xs, inertByte c) (i : Nat) (st : ScanState)
    (hq : st.quiet) : scanLoop xs i st = st := scanLoop_inert xs i st hq.1 hx

theorem scanStep_open_inner (st : ScanState) (i : Nat) (hq : st.quiet) (hd : 1 ≤ st.depth) :
    scanStep st i 123 = { st with depth := st.depth + 1 } := by
  have : st.depth ≠ 0 := by omega
  simp [scanStep, hq.1, this]

theorem scanStep_close_inner (st : ScanState) (i : Nat) (hq : st.quiet) (hd : 1 ≤ st.depth) :
    scanStep { st with depth := st.depth + 1 } i 125 = st := by
  have h0 : st.depth ≠ 0 := by omega
  obtain ⟨a, b, d, o, n, c⟩ := st
  obtain ⟨h1, h2⟩ := hq
  simp only at h1 h2 h0
  subst h1 h2
  cases o <;> simp [scanStep, h0]

mutual
theorem scanLoop_value (v : JValue) (hv : v.wf = true) (i : Nat) (st : ScanState)
    (hq : st.quiet) (hd : 1 ≤ st.depth) : scanLoop v.render i st = st := by
  cases v with
  | null => exact scanLoop_lit _ (by simp [JValue.render, inertByte]) i st hq
  | true => exact scanLoop_lit _ (by simp [JValue.render, inertByte]) i st hq
  | false => exact scanLoop_lit _ (by simp [JValue.render, inertByte]) i st hq
  | num n => exact scanLoop_inert _ i st hq.1 (inert_number n hv)
  | str s => exact scanLoop_string s hv i st hq
  | arr ws es =>
    have he := scanLoop_elems es hv
    rw [JValue.render, scanLoop_cons, scanStep_inert st i 91 hq.1 (by simp [inertByte]),
      scanLoop_append, scanLoop_ws ws _ st hq.1, scanLoop_append, he _ st hq hd]
    exact scanLoop_inert _ _ st hq.1 (by simp [inertByte])
  | obj ws ms =>
    have hm := scanLoop_members ms hv
    have hq1 : ({ st with depth := st.depth + 1 } : ScanState).quiet := hq
    rw [JValue.render, scanLoop_cons, scanStep_open_inner st i hq hd,
      scanLoop_append, scanLoop_ws ws _ _ hq1.1, scanLoop_append,
      hm _ _ hq1 (by show 1 ≤ st.depth + 1; omega), scanLoop_cons, scanStep_close_inner st _ hq hd]
    rfl
theorem scanLoop_elems (es : JElems) (he : es.wf = true) (i : Nat) (st : ScanState)
    (hq : st.quiet) (hd : 1 ≤ st.depth) : scanLoop es.render i st = st := by
  cases es with
  | nil => rfl
  | cons pre v post rest =>
    simp only [JElems.wf, Bool.and_eq_true] at he
    have hv := scanLoop_value v he.1
    have hr := scanLoop_elems rest he.2
    cases rest with
    | nil =>
      rw [JElems.render, scanLoop_append, scanLoop_ws pre _ st hq.1, scanLoop_append,
        hv _ st hq hd, scanLoop_ws post _ st hq.1]
    | cons p2 v2 q2 r2 =>
      rw [JElems.render]
      · rw [scanLoop_append, scanLoop_ws pre _ st hq.1, scanLoop_append,
          hv _ st hq hd, scanLoop_append, scanLoop_ws post _ st hq.1, scanLoop_cons,
          scanStep_inert st _ 44 hq.1 (by simp [inertByte])]
        exact hr _ st hq hd
      · intro h; cases h
theorem scanLoop_members (ms : JMembers) (hm : ms.wf = true) (i : Nat) (st : ScanState)
    (hq : st.quiet) (hd : 1 ≤ st.depth) : scanLoop ms.render i st = st := by
  cases ms with
  | nil => rfl
  | cons pre key mid pre2 v post rest =>
    simp only [JMembers.wf, Bool.and_eq_true] at hm
    have hv := scanLoop_value v hm.1.2
    have hr := scanLoop_members rest hm.2
    cases rest with
    | nil =>
      rw [JMembers.render, scanLoop_append, scanLoop_ws pre _ st hq.1, scanLoop_append,
        scanLoop_string key hm.1.1 _ st hq, scanLoop_append, scanLoop_ws mid _ st hq.1,
        scanLoop_cons, scanStep_inert st _ 58 hq.1 (by simp [inertByte]),
        scanLoop_append, scanLoop_ws pre2 _ st hq.1, scanLoop_append,
        hv _ st hq hd, scanLoop_ws post _ st hq.1]
    | cons p2 k2 m2 pp2 v2 q2 r2 =>
      rw [JMembers.render]
      · rw [scanLoop_append, scanLoop_ws pre _ st hq.1, scanLoop_append,
          scanLoop_string key hm.1.1 _ st hq, scanLoop_append, scanLoop_ws mid _ st hq.1,
          scanLoop_cons, scanStep_inert st _ 58 hq.1 (by simp [inertByte]),
          scanLoop_append, scanLoop_ws pre2 _ st hq.1, scanLoop_append,
          hv _ st hq hd, scanLoop_append, scanLoop_ws post _ st hq.1, scanLoop_cons,
          scanStep_inert st _ 44 hq.1 (by simp [inertByte])]
        exact hr _ st hq hd
      · intro h; cases h
end


theorem scanLoop_topObject (ws : List JWs) (ms : JMembers) (hm : ms.wf = true) (i : Nat)
    (st : ScanState) (hq : st.quiet) (hd : st.depth = 0) (ho : st.objStart = none) :
    scanLoop (JValue.obj ws ms).render i st
      = st.emit (i, i + (JValue.obj ws ms).render.length) := by
  obtain ⟨a, b, d, o, n, c⟩ := st
  obtain ⟨h1, h2⟩ := hq
  simp only at h1 h2 hd ho
  subst h1 h2 hd ho
  have e1 : scanStep ⟨false, false, 0, none, n, c⟩ i 123 = ⟨false, false, 1, some i, n, c⟩ := by
    simp [scanStep]
  rw [JValue.render, scanLoop_cons, e1, scanLoop_append, scanLoop_ws ws _ _ rfl, scanLoop_append,
    scanLoop_members ms hm _ _ ⟨rfl, rfl⟩ (by simp)]
  simp only [scanLoop, scanStep, List.length_cons, List.length_append, List.length_singleton,
    ScanState.emit]
  simp
  omega

theorem scanLoop_topElems (es : List JTopElem) (hes : es.all (fun e => e.members.wf) = true)
    (off : Nat) (st : ScanState) (hq : st.quiet) (hd : st.depth = 0) (ho : st.objStart = none) :
    scanLoop (renderTopElems es) off st
      = { st with any := st.any || !es.isEmpty, calls := st.calls ++ topSpans off es } := by
  induction es generalizing off st with
  | nil => cases st; simp [renderTopElems, scanLoop, topSpans]
  | cons e es ih =>
    simp only [List.all_cons, Bool.and_eq_true] at hes
    have hobj := scanLoop_topObject e.ws e.members hes.1
    have hq2 : ∀ sp, (st.emit sp).quiet := fun _ => hq
    cases es with
    | nil =>
      rw [renderTopElems, scanLoop_append, scanLoop_ws e.pre _ st hq.1, scanLoop_append,
        JTopElem.objText, hobj _ st hq hd ho, scanLoop_ws e.post _ _ (hq2 _).1]
      simp [topSpans, renderWs, JTopElem.objText, ScanState.emit]
    | cons e2 es2 =>
      rw [renderTopElems]
      · rw [scanLoop_append, scanLoop_ws e.pre _ st hq.1, scanLoop_append,
          JTopElem.objText, hobj _ st hq hd ho, scanLoop_append,
          scanLoop_ws e.post _ _ (hq2 _).1,
          scanLoop_cons, scanStep_inert _ _ 44 (hq2 _).1 (by simp [inertByte]),
          ih hes.2 _ _ (hq2 _) hd ho]
        simp only [topSpans, renderWs, JTopElem.objText, List.length_map, List.isEmpty_cons,
          Bool.not_false, Bool.or_true, List.append_assoc, List.singleton_append,
          ScanState.emit]
      · intro h; cases h

theorem isSpace_ws (w : JWs) : isSpace w.byte = true := by cases w <;> decide

theorem takeWhile_isSpace_ws (ws : List JWs) (c : Nat) (hc : isSpace c = false) (rest : Bytes) :
    (renderWs ws ++ c :: rest).takeWhile isSpace = renderWs ws := by
  induction ws with
  | nil => simp [renderWs, List.takeWhile, hc]
  | cons w ws ih =>
    simp only [renderWs] at ih
    show List.takeWhile isSpace (w.byte :: (List.map JWs.byte ws ++ c :: rest)) = _
    rw [List.takeWhile_cons, isSpace_ws, if_pos rfl, ih]
    rfl

theorem slice_append_mid (a b c : Bytes) :
    slice (a ++ (b ++ c)) (a.length, a.length + b.length) = b := by
  simp [slice]

theorem topSpans_slices (es : List JTopElem) (pre suf : Bytes) :
    (topSpans pre.length es).map (slice (pre ++ (renderTopElems es ++ suf)))
      = es.map JTopElem.objText := by
  induction es generalizing pre with
  | nil => rfl
  | cons e es ih =>
    cases es with
    | nil =>
      simp only [topSpans, List.map_cons, List.map_nil, renderTopElems, List.cons.injEq, and_true]
      have := slice_append_mid (pre ++ renderWs e.pre) e.objText (renderWs e.post ++ suf)
      simpa [renderWs, Nat.add_assoc] using this
    | cons e2 es2 =>
      rw [renderTopElems]
      · simp only [topSpans, List.map_cons, List.cons.injEq]
        constructor
        · have := slice_append_mid (pre ++ renderWs e.pre) e.objText
            (renderWs e.post ++ 44 :: (renderTopElems (e2 :: es2) ++ suf))
          simpa [renderWs, Nat.add_assoc] using this
        · have := ih (pre ++ (renderWs e.pre ++ (e.objText ++ (renderWs e.post ++ [44]))))
          simp only [List.length_append, renderWs, List.length_map, List.length_singleton,
            List.append_assoc, List.singleton_append, List.map_cons, topSpans] at this
          simp only [renderWs, List.append_assoc, List.cons_append, ← Nat.add_assoc]
          simpa [Nat.add_assoc] using this
      · intro h; cases h

theorem topSpans_length (off : Nat) (es : List JTopElem) : (topSpans off es).length = es.length := by
  induction es generalizing off with
  | nil => rfl
  | cons e es ih => simp [topSpans, ih]

/-- C4: on every well-formed JSON text that is an array of `N ≥ 1` objects (nested
objects and arrays, arbitrary string contents, arbitrary insignificant
whitespace), `ForEachTopLevelObjectSpan` returns true and calls back exactly `N`
times, in document order, the i-th span being exactly the text of the i-th
element, which starts with an opening brace and ends with its closing brace. -/
theorem C4_scanner_yields_each_object (a : JTopArray) (hwf : a.wf = true)
    (hn : 1 ≤ a.elems.length) :
    ForEachTopLevelObjectSpan a.render = (true, a.spans)
      ∧ a.spans.length = a.elems.length
      ∧ a.spans.map (slice a.render) = a.elems.map JTopElem.objText
      ∧ ∀ e ∈ a.elems, e.objText.head? = some 123 ∧ e.objText.getLast? = some 125 := by
  refine ⟨?_, topSpans_length _ _, ?_, ?_⟩
  · have htw : a.render.takeWhile isSpace = renderWs a.lead :=
      takeWhile_isSpace_ws a.lead 91 (by decide) _
    have hdrop : a.render.drop (renderWs a.lead).length
        = 91 :: (renderTopElems a.elems ++ 93 :: renderWs a.trail) := by
      simp [JTopArray.render]
    simp only [ForEachTopLevelObjectSpan, htw, hdrop]
    have hq : ScanState.init.quiet := ⟨rfl, rfl⟩
    rw [scanLoop_cons, scanStep_inert _ _ 91 rfl (by simp [inertByte]), scanLoop_append,
      scanLoop_topElems a.elems hwf _ _ hq rfl rfl, scanLoop_cons,
      scanStep_inert _ _ 93 rfl (by simp [inertByte]), scanLoop_ws _ _ _ rfl]
    have hne : a.elems.isEmpty = false := by
      cases h : a.elems with
      | nil => simp [h] at hn
      | cons _ _ => rfl
    simp [ScanState.init, hne, JTopArray.spans, renderWs]
  · have := topSpans_slices a.elems (renderWs a.lead ++ [91]) (93 :: renderWs a.trail)
    simpa [JTopArray.spans, JTopArray.render, renderWs] using this
  · intro e _
    refine ⟨by simp [JTopElem.objText, JValue.render], ?_⟩
    have : e.objText = (123 :: (renderWs e.ws ++ e.members.render)) ++ [125] := by
      simp [JTopElem.objText, JValue.render]
    rw [this, List.getLast?_append]
    rfl


theorem scanStep_any_iff (st : ScanState) (i c : Nat)
    (h : st.any = true ↔ st.calls ≠ []) :
    (scanStep st i c).any = true ↔ (scanStep st i c).calls ≠ [] := by
  obtain ⟨a, b, d, o, n, cl⟩ := st
  simp only at h
  cases o <;> simp only [scanStep] <;> split_ifs <;> simp_all

theorem scanLoop_any_iff (xs : Bytes) (i : Nat) (st : ScanState)
    (h : st.any = true ↔ st.calls ≠ []) :
    (scanLoop xs i st).any = true ↔ (scanLoop xs i st).calls ≠ [] := by
  induction xs generalizing i st with
  | nil => exact h
  | cons x xs ih => exact ih _ _ (scanStep_any_iff st i x h)

theorem drop_length_takeWhile (p : Nat → Bool) (xs : Bytes) :
    xs.drop (xs.takeWhile p).length = xs.dropWhile p := by
  induction xs with
  | nil => rfl
  | cons x xs ih =>
    by_cases hp : p x = true
    · simp [List.takeWhile_cons, List.dropWhile_cons, hp, ih]
    · simp [List.takeWhile_cons, List.dropWhile_cons, hp]

theorem forEach_cases (json : Bytes) :
    (firstNonSpace json ≠ some 91 ∧ ForEachTopLevelObjectSpan json = (false, []))
    ∨ (firstNonSpace json = some 91
        ∧ ((ForEachTopLevelObjectSpan json).1 = true ↔ (ForEachTopLevelObjectSpan json).2 ≠ [])) := by
  unfold ForEachTopLevelObjectSpan firstNonSpace
  simp only [drop_length_takeWhile]
  cases h : json.dropWhile isSpace with
  | nil => left; simp
  | cons c rest =>
    by_cases hc : c = 91
    · right
      subst hc
      refine ⟨rfl, ?_⟩
      simp only [ne_eq, not_true_eq_false, if_false]
      exact scanLoop_any_iff _ _ _ (by simp [ScanState.init])
    · left
      simp [hc]

/-- C6: `ForEachTopLevelObjectSpan` returns true exactly when the first
non-whitespace byte is an opening bracket and at least one span was passed to the
callback; when the first non-whitespace byte is not an opening bracket (or there is
none) the callback is never invoked; and the buffer `[]` returns false. -/
theorem C6_true_iff_array_and_span (json : Bytes) :
    ((ForEachTopLevelObjectSpan json).1 = true
        ↔ firstNonSpace json = some 91 ∧ (ForEachTopLevelObjectSpan json).2 ≠ [])
      ∧ (firstNonSpace json ≠ some 91 → (ForEachTopLevelObjectSpan json).2 = [])
      ∧ ForEachTopLevelObjectSpan (ascii "[]") = (false, []) := by
  refine ⟨?_, ?_, by decide⟩
  · rcases forEach_cases json with ⟨h1, h2⟩ | ⟨h1, h2⟩
    · simp [h1, h2]
    · simp [h1, h2]
  · intro h
    rcases forEach_cases json with ⟨_, h2⟩ | ⟨h1, _⟩
    · simp [h2]
    · exact absurd h1 h

/-- C5 (counterexample): the buffer `[{"stream_id":7},{` starts with an opening
bracket and its braces are unbalanced (the second object is never closed), yet
`ForEachTopLevelObjectSpan` returns true with one span, and `FetchLiveStreams`
succeeds and hands the caller the record of stream 7. -/
theorem C5_unbalanced_buffer_accepted :
    firstNonSpace unbalancedBuffer = some 91
      ∧ bracesBalanced unbalancedBuffer = false
      ∧ ForEachTopLevelObjectSpan unbalancedBuffer = (true, [(1, 16)])
      ∧ FetchLiveStreams (ascii "u") { ok := true, protocol := [], body := unbalancedBuffer }
          = ({ ok := true, details := ascii "OK" }, [{ id := 7 }]) := by
  decide

theorem scanLoop_never_closed (body : Bytes) (inStr esc : Bool) (d d' : Nat)
    (h : braceNesting body inStr esc d = some d') (i : Nat) (st : ScanState)
    (hin : st.inString = inStr) (hesc : st.escape = (inStr && esc)) (hd : st.depth = d + 1) :
    (scanLoop body i st).calls = st.calls ∧ (scanLoop body i st).any = st.any := by
  induction body generalizing inStr esc d i st with
  | nil => exact ⟨rfl, rfl⟩
  | cons c cs ih =>
    obtain ⟨a, b, dep, o, n, cl⟩ := st
    simp only at hin hesc hd
    subst hin hesc hd
    rw [scanLoop]
    cases a with
    | true =>
      cases esc with
      | true =>
        rw [braceNesting] at h
        have e : scanStep ⟨true, true && true, (d : Int) + 1, o, n, cl⟩ i c
            = ⟨true, false, (d : Int) + 1, o, n, cl⟩ := by simp [scanStep]
        rw [e]
        exact ih true false d h _ ⟨true, false, (d : Int) + 1, o, n, cl⟩ rfl rfl rfl
      | false =>
        rw [braceNesting] at h
        by_cases h92 : c = 92
        · rw [if_pos h92] at h
          have e : scanStep ⟨true, true && false, (d : Int) + 1, o, n, cl⟩ i c
              = ⟨true, true, (d : Int) + 1, o, n, cl⟩ := by simp [scanStep, h92]
          rw [e]
          exact ih true true d h _ ⟨true, true, (d : Int) + 1, o, n, cl⟩ rfl rfl rfl
        · rw [if_neg h92] at h
          by_cases h34 : c = 34
          · rw [if_pos h34] at h
            have e : scanStep ⟨true, true && false, (d : Int) + 1, o, n, cl⟩ i c
                = ⟨false, false, (d : Int) + 1, o, n, cl⟩ := by simp [scanStep, h34]
            rw [e]
            exact ih false false d h _ ⟨false, false, (d : Int) + 1, o, n, cl⟩ rfl rfl rfl
          · rw [if_neg h34] at h
            have e : scanStep ⟨true, true && false, (d : Int) + 1, o, n, cl⟩ i c
                = ⟨true, false, (d : Int) + 1, o, n, cl⟩ := by simp [scanStep, h34, h92]
            rw [e]
            exact ih true false d h _ ⟨true, false, (d : Int) + 1, o, n, cl⟩ rfl rfl rfl
    | false =>
      rw [braceNesting] at h
      by_cases h34 : c = 34
      · rw [if_pos h34] at h
        have e : scanStep ⟨false, false && esc, (d : Int) + 1, o, n, cl⟩ i c
            = ⟨true, false, (d : Int) + 1, o, n, cl⟩ := by simp [scanStep, h34]
        rw [e]
        exact ih true false d h _ ⟨true, false, (d : Int) + 1, o, n, cl⟩ rfl rfl rfl
      · rw [if_neg h34] at h
        by_cases h123 : c = 123
        · rw [if_pos h123] at h
          have hne : ¬ ((d : Int) + 1 = 0) := by omega
          have e : scanStep ⟨false, false && esc, (d : Int) + 1, o, n, cl⟩ i c
              = ⟨false, false, (d : Int) + 1 + 1, o, n, cl⟩ := by simp [scanStep, h123, hne]
          rw [e]
          exact ih false false (d + 1) h _ ⟨false, false, (d : Int) + 1 + 1, o, n, cl⟩ rfl rfl
            (by simp)
        · rw [if_neg h123] at h
          by_cases h125 : c = 125
          · rw [if_pos h125] at h
            by_cases hd0 : d = 0
            · rw [if_pos hd0] at h; exact Option.noConfusion h
            · rw [if_neg hd0] at h
              have hne : ¬ ((d : Int) + 1 - 1 = 0) := by omega
              have e : scanStep ⟨false, false && esc, (d : Int) + 1, o, n, cl⟩ i c
                  = ⟨false, false, (d : Int) + 1 - 1, o, n, cl⟩ := by
                cases o <;> simp [scanStep, h125, hne, hd0]
              rw [e]
              exact ih false false (d - 1) h _ ⟨false, false, (d : Int) + 1 - 1, o, n, cl⟩ rfl rfl
                (by simp; omega)
          · rw [if_neg h125] at h
            have e : scanStep ⟨false, false && esc, (d : Int) + 1, o, n, cl⟩ i c
                = ⟨false, false, (d : Int) + 1, o, n, cl⟩ := by
              simp [scanStep, h34, h123, h125]
            rw [e]
            exact ih false false d h _ ⟨false, false, (d : Int) + 1, o, n, cl⟩ rfl rfl rfl

theorem takeWhile_isSpace_prefix (ws : Bytes) (hws : ∀ c ∈ ws, isSpace c = true) (c : Nat)
    (hc : isSpace c = false) (rest : Bytes) :
    (ws ++ c :: rest).takeWhile isSpace = ws := by
  induction ws with
  | nil => simp [List.takeWhile, hc]
  | cons w ws ih =>
    rw [List.cons_append, List.takeWhile_cons, hws w (List.mem_cons_self _ _), if_pos rfl,
      ih (fun c hc => hws c (List.mem_cons_of_mem _ hc))]

theorem forEach_first_object_never_closed (ws pre body : Bytes)
    (hws : ∀ c ∈ ws, isSpace c = true) (hpre : ∀ c ∈ pre, inertByte c)
    (hopen : braceNesting body false false 0 ≠ none) :
    ForEachTopLevelObjectSpan (ws ++ 91 :: (pre ++ 123 :: body)) = (false, []) := by
  obtain ⟨d', hd'⟩ := Option.ne_none_iff_exists'.mp hopen
  have htw := takeWhile_isSpace_prefix ws hws 91 (by decide) (pre ++ 123 :: body)
  have hdrop : (ws ++ 91 :: (pre ++ 123 :: body)).drop ws.length = 91 :: (pre ++ 123 :: body) := by
    simp
  simp only [ForEachTopLevelObjectSpan, htw, hdrop, ne_eq, not_true_eq_false, if_false]
  rw [scanLoop_cons, scanStep_inert _ _ 91 rfl (by simp [inertByte]), scanLoop_append,
    scanLoop_inert pre _ _ rfl hpre, scanLoop_cons]
  have e : scanStep ScanState.init (ws.length + 1 + pre.length) 123
      = ⟨false, false, 1, some (ws.length + 1 + pre.length), false, []⟩ := by
    simp [scanStep, ScanState.init]
  rw [e]
  have := scanLoop_never_closed body false false 0 d' hd' (ws.length + 1 + pre.length + 1)
    ⟨false, false, 1, some (ws.length + 1 + pre.length), false, []⟩ rfl rfl rfl
  simp only at this
  rw [this.1, this.2]

theorem scanStep_extends (st : ScanState) (i c : Nat) :
    (∃ more, (scanStep st i c).calls = st.calls ++ more)
      ∧ (st.any = true → (scanStep st i c).any = true) := by
  obtain ⟨a, b, d, o, n, cl⟩ := st
  cases o <;> simp only [scanStep] <;> split_ifs <;> simp_all

theorem scanLoop_extends (xs : Bytes) (i : Nat) (st : ScanState) :
    (∃ more, (scanLoop xs i st).calls = st.calls ++ more)
      ∧ (st.any = true → (scanLoop xs i st).any = true) := by
  induction xs generalizing i st with
  | nil => exact ⟨⟨[], (List.append_nil _).symm⟩, fun h => h⟩
  | cons x xs ih =>
    obtain ⟨⟨m1, h1⟩, a1⟩ := scanStep_extends st i x
    obtain ⟨⟨m2, h2⟩, a2⟩ := ih (i + 1) (scanStep st i x)
    rw [scanLoop]
    refine ⟨⟨m1 ++ m2, ?_⟩, fun h => a2 (a1 h)⟩
    rw [h2, h1, List.append_assoc]

/-- Complete objects at the head of the array are delivered whatever follows
them. -/
theorem forEach_objects_then_tail (lead : List JWs) (es : List JTopElem) (tail : Bytes)
    (hne : es ≠ []) (hwf : es.all (fun e => e.members.wf) = true) :
    ∃ more, ForEachTopLevelObjectSpan (renderWs lead ++ 91 :: (renderTopElems es ++ tail))
      = (true, topSpans (lead.length + 1) es ++ more) := by
  have htw : (renderWs lead ++ 91 :: (renderTopElems es ++ tail)).takeWhile isSpace
      = renderWs lead := takeWhile_isSpace_ws lead 91 (by decide) _
  have hdrop : (renderWs lead ++ 91 :: (renderTopElems es ++ tail)).drop (renderWs lead).length
      = 91 :: (renderTopElems es ++ tail) := by simp
  simp only [ForEachTopLevelObjectSpan, htw, hdrop, ne_eq, not_true_eq_false, if_false]
  have hq : ScanState.init.quiet := ⟨rfl, rfl⟩
  rw [scanLoop_cons, scanStep_inert _ _ 91 rfl (by simp [inertByte]), scanLoop_append,
    scanLoop_topElems es hwf _ _ hq rfl rfl]
  have hemp : es.isEmpty = false := by
    cases es with
    | nil => exact absurd rfl hne
    | cons _ _ => rfl
  have hlen : (renderWs lead).length = lead.length := by simp [renderWs]
  generalize hst : ({ ScanState.init with
      any := ScanState.init.any || !es.isEmpty
      calls := ScanState.init.calls ++ topSpans ((renderWs lead).length + 1) es } : ScanState) = S
  have hS1 : S.calls = topSpans (lead.length + 1) es := by
    rw [← hst, hlen]; rfl
  have hS2 : S.any = true := by
    rw [← hst]; simp [hemp]
  obtain ⟨⟨more, hm⟩, ha⟩ := scanLoop_extends tail
    ((renderWs lead).length + 1 + (renderTopElems es).length) S
  refine ⟨more, ?_⟩
  rw [ha hS2, hm, hS1]

theorem isSpace_inert (c : Nat) (h : isSpace c = true) : inertByte c := by
  refine ⟨?_, ?_, ?_⟩ <;> rintro rfl <;> exact absurd h (by decide)

theorem braceNesting_skip (l rest : Bytes) (hl : ∀ c ∈ l, inertByte c) (d : Nat) :
    braceNesting (l ++ rest) false false d = braceNesting rest false false d := by
  induction l with
  | nil => rfl
  | cons c cs ih =>
    obtain ⟨h1, h2, h3⟩ := hl c (List.mem_cons_self _ _)
    rw [List.cons_append, braceNesting, if_neg h1, if_neg h2, if_neg h3]
    exact ih (fun x hx => hl x (List.mem_cons_of_mem _ hx))

theorem braceNesting_shift (body : Bytes) (s e : Bool) (d k : Nat)
    (h : braceNesting body s e d = some k) : braceNesting body s e (d + 1) = some (k + 1) := by
  induction body generalizing s e d k with
  | nil =>
    rw [braceNesting] at h ⊢
    rw [← Option.some.inj h]
  | cons c cs ih =>
    cases s with
    | true =>
      cases e with
      | true =>
        rw [braceNesting] at h ⊢
        exact ih _ _ _ _ h
      | false =>
        rw [braceNesting] at h ⊢
        by_cases h92 : c = 92
        · rw [if_pos h92] at h ⊢; exact ih _ _ _ _ h
        · rw [if_neg h92] at h ⊢
          by_cases h34 : c = 34
          · rw [if_pos h34] at h ⊢; exact ih _ _ _ _ h
          · rw [if_neg h34] at h ⊢; exact ih _ _ _ _ h
    | false =>
      rw [braceNesting] at h ⊢
      by_cases h34 : c = 34
      · rw [if_pos h34] at h ⊢; exact ih _ _ _ _ h
      · rw [if_neg h34] at h ⊢
        by_cases h123 : c = 123
        · rw [if_pos h123] at h ⊢; exact ih _ _ _ _ h
        · rw [if_neg h123] at h ⊢
          by_cases h125 : c = 125
          · rw [if_pos h125] at h ⊢
            by_cases hd0 : d = 0
            · rw [if_pos hd0] at h; exact Option.noConfusion h
            · rw [if_neg hd0] at h
              rw [if_neg (Nat.succ_ne_zero d), Nat.add_sub_cancel]
              have := ih _ _ _ _ h
              rwa [Nat.sub_add_cancel (Nat.pos_of_ne_zero hd0)] at this
          · rw [if_neg h125] at h ⊢; exact ih _ _ _ _ h

/-- A buffer whose first object is opened after bytes without quote or brace
and never closed has unbalanced braces. -/
theorem first_object_never_closed_unbalanced (ws pre body : Bytes)
    (hws : ∀ c ∈ ws, isSpace c = true) (hpre : ∀ c ∈ pre, inertByte c)
    (hopen : braceNesting body false false 0 ≠ none) :
    bracesBalanced (ws ++ 91 :: (pre ++ 123 :: body)) = false := by
  obtain ⟨k, hk⟩ := Option.ne_none_iff_exists'.mp hopen
  have e : ws ++ 91 :: (pre ++ 123 :: body) = (ws ++ 91 :: pre) ++ 123 :: body := by simp
  have hin : ∀ c ∈ ws ++ 91 :: pre, inertByte c := by
    intro c hc
    rcases List.mem_append.mp hc with h | h
    · exact isSpace_inert c (hws c h)
    · rcases List.mem_cons.mp h with h | h
      · subst h; simp [inertByte]
      · exact hpre c h
  unfold bracesBalanced
  rw [e, braceNesting_skip _ _ hin, braceNesting, if_neg (by decide), if_pos rfl,
    braceNesting_shift body false false 0 k hk]
  simp

theorem FetchLiveStreams_of_scan (url protocol json : Bytes) (hurl : url ≠ []) :
    (FetchLiveStreams url { ok := true, protocol := protocol, body := json }).2
        = (ForEachTopLevelObjectSpan json).2.filterMap (liveStreamOfSpan json)
      ∧ ((FetchLiveStreams url { ok := true, protocol := protocol, body := json }).1.ok = true
          ↔ (ForEachTopLevelObjectSpan json).1 = true
            ∧ (ForEachTopLevelObjectSpan json).2.filterMap (liveStreamOfSpan json) ≠ []) := by
  have hu : url.isEmpty = false := by cases url <;> simp_all
  unfold FetchLiveStreams
  simp only [hu, Bool.false_eq_true, if_false, Bool.not_true]
  cases h1 : (ForEachTopLevelObjectSpan json).1 with
  | false => simp
  | true =>
    cases h2 : ((ForEachTopLevelObjectSpan json).2.filterMap (liveStreamOfSpan json)) with
    | nil => simp
    | cons x xs => simp

theorem firstNonSpace_bracket (ws rest : Bytes) (hws : ∀ c ∈ ws, isSpace c = true) :
    firstNonSpace (ws ++ 91 :: rest) = some 91 := by
  unfold firstNonSpace
  induction ws with
  | nil => rfl
  | cons w ws ih =>
    rw [List.cons_append, List.dropWhile_cons, hws w (List.mem_cons_self _ _), if_pos rfl]
    exact ih (fun c hc => hws c (List.mem_cons_of_mem _ hc))

theorem isSpace_renderWs (lead : List JWs) : ∀ c ∈ renderWs lead, isSpace c = true := by
  intro c hc
  unfold renderWs at hc
  obtain ⟨w, -, rfl⟩ := List.mem_map.mp hc
  exact isSpace_ws w

/-- C5 (amended): unbalanced braces do not by themselves make
`ForEachTopLevelObjectSpan` fail. For every buffer, balanced or not, it returns
false exactly when it delivered no span to the callback. The caller
`FetchLiveStreams` (non-empty URL, successful response with this body) receives
exactly the records the callback extracts from the delivered spans and succeeds
exactly when the scan returned true and at least one record was extracted; when
the scan returns false it fails with "Streams response was not a JSON array"
and no records. If the buffer is `ws [ pre { body` with whitespace `ws`, no
quote and no brace in `pre`, and no closing brace of `body` outside string
literals left unmatched inside `body` (the first object is opened and never
closed), then its first non-whitespace byte is the bracket, its braces are
unbalanced, and the scan returns false and delivers nothing. If the buffer is
`ws [ e1 , ... , en tail` with `n ≥ 1` well-formed JSON objects and any bytes
`tail` after them (an object that is never closed, a closing brace without an
opening one), then the scan returns true and the spans delivered begin with the
`n` spans whose texts are `e1`, ..., `en`. -/
theorem C5_scan_fails_iff_no_span_delivered (json : Bytes) :
    ((ForEachTopLevelObjectSpan json).1 = false ↔ (ForEachTopLevelObjectSpan json).2 = [])
      ∧ (∀ (url protocol : Bytes), url ≠ [] →
          (FetchLiveStreams url { ok := true, protocol := protocol, body := json }).2
              = (ForEachTopLevelObjectSpan json).2.filterMap (liveStreamOfSpan json)
            ∧ ((FetchLiveStreams url { ok := true, protocol := protocol, body := json }).1.ok
                  = true
                ↔ (ForEachTopLevelObjectSpan json).1 = true
                  ∧ (ForEachTopLevelObjectSpan json).2.filterMap (liveStreamOfSpan json) ≠ [])
            ∧ ((ForEachTopLevelObjectSpan json).1 = false →
                FetchLiveStreams url { ok := true, protocol := protocol, body := json }
                  = ({ ok := false, details := ascii "Streams response was not a JSON array" },
                     [])))
      ∧ (∀ (ws pre body : Bytes), json = ws ++ 91 :: (pre ++ 123 :: body) →
          (∀ c ∈ ws, isSpace c = true) → (∀ c ∈ pre, inertByte c) →
          braceNesting body false false 0 ≠ none →
          firstNonSpace json = some 91 ∧ bracesBalanced json = false
            ∧ ForEachTopLevelObjectSpan json = (false, []))
      ∧ (∀ (lead : List JWs) (es : List JTopElem) (tail : Bytes),
          json = renderWs lead ++ 91 :: (renderTopElems es ++ tail) → es ≠ [] →
          es.all (fun e => e.members.wf) = true →
          firstNonSpace json = some 91
            ∧ (topSpans (lead.length + 1) es).map (slice json) = es.map JTopElem.objText
            ∧ ∃ more, ForEachTopLevelObjectSpan json
                = (true, topSpans (lead.length + 1) es ++ more)) := by
  have hiff : (ForEachTopLevelObjectSpan json).1 = false
      ↔ (ForEachTopLevelObjectSpan json).2 = [] := by
    rcases forEach_cases json with ⟨_, h2⟩ | ⟨_, h2⟩
    · rw [h2]
      exact ⟨fun _ => rfl, fun _ => rfl⟩
    · constructor
      · intro h
        by_contra hne
        rw [h2.mpr hne] at h
        exact Bool.noConfusion h
      · intro h
        cases hb : (ForEachTopLevelObjectSpan json).1 with
        | false => rfl
        | true => exact absurd h (h2.mp hb)
  refine ⟨hiff, ?_, ?_, ?_⟩
  · intro url protocol hurl
    refine ⟨(FetchLiveStreams_of_scan url protocol json hurl).1,
      (FetchLiveStreams_of_scan url protocol json hurl).2, ?_⟩
    intro hf
    have hcalls := hiff.mp hf
    have hu : url.isEmpty = false := by cases url <;> simp_all
    simp [FetchLiveStreams, hu, hf, hcalls]
  · intro ws pre body hj hws hpre hopen
    rw [hj]
    exact ⟨firstNonSpace_bracket ws _ hws,
      first_object_never_closed_unbalanced ws pre body hws hpre hopen,
      forEach_first_object_never_closed ws pre body hws hpre hopen⟩
  · intro lead es tail hj hne hwf
    rw [hj]
    refine ⟨firstNonSpace_bracket _ _ (isSpace_renderWs lead), ?_,
      forEach_objects_then_tail lead es tail hne hwf⟩
    have h := topSpans_slices es (renderWs lead ++ [91]) tail
    have hl : (renderWs lead ++ [91]).length = lead.length + 1 := by simp [renderWs]
    rw [hl] at h
    have e : renderWs lead ++ [91] ++ (renderTopElems es ++ tail)
        = renderWs lead ++ 91 :: (renderTopElems es ++ tail) := by simp
    rw [e] at h
    exact h

set_option maxRecDepth 1000000 in
/-- Witness for `C5_scan_fails_iff_no_span_delivered`: the buffer
`[{"stream_id":7},{`, one complete object followed by an object that is never
closed; the buffer `[{"a":1`, whose only object is never closed; and the buffer
`[{"a":1},{`, on which the scan returns true but no record is extracted. -/
theorem C5_scan_fails_iff_no_span_delivered_witness :
    unbalancedBuffer = renderWs [] ++ 91 :: (renderTopElems [streamSevenElem] ++ ascii ",\x7b")
      ∧ bracesBalanced unbalancedBuffer = false
      ∧ (topSpans 1 [streamSevenElem]).map (slice unbalancedBuffer)
          = [ascii "\x7b\"stream_id\":7\x7d"]
      ∧ (∃ more, ForEachTopLevelObjectSpan unbalancedBuffer
          = (true, topSpans 1 [streamSevenElem] ++ more))
      ∧ (bracesBalanced (ascii "[\x7b\"a\":1") = false
          ∧ ForEachTopLevelObjectSpan (ascii "[\x7b\"a\":1") = (false, []))
      ∧ ForEachTopLevelObjectSpan (ascii "[\x7b\"a\":1\x7d,\x7b") = (true, [(1, 8)])
      ∧ FetchLiveStreams (ascii "u")
            { ok := true, protocol := [], body := ascii "[\x7b\"a\":1\x7d,\x7b" }
          = ({ ok := false, details := ascii "No streams parsed" }, []) :=
  have h := (C5_scan_fails_iff_no_span_delivered unbalancedBuffer).2.2.2 [] [streamSevenElem]
    (ascii ",\x7b") (by decide) (by simp) (by decide)
  ⟨by decide, by decide, h.2.1, h.2.2,
    ((C5_scan_fails_iff_no_span_delivered (ascii "[\x7b\"a\":1")).2.2.1
      [] [] (ascii "\"a\":1") (by decide) (by simp) (by simp) (by decide)).2,
    by decide, by decide⟩


/-- Witness for `C4_scanner_yields_each_object`: the text
`  [{"a":{"b":[1,"}{"]}}, {"c":"\\""}]` has two objects, at bytes 3..23 and 25..35. -/
theorem C4_scanner_yields_each_object_witness :
    nestedArrayExample.wf = true
      ∧ 1 ≤ nestedArrayExample.elems.length
      ∧ nestedArrayExample.render
          = ascii "  [\x7b\"a\":\x7b\"b\":[1,\"\x7d\x7b\"]\x7d\x7d, \x7b\"c\":\"\\\"\"\x7d]"
      ∧ ForEachTopLevelObjectSpan nestedArrayExample.render = (true, [(3, 23), (25, 35)]) :=
  ⟨by decide, by decide, by decide,
    (C4_scanner_yields_each_object nestedArrayExample (by decide) (by decide)).1⟩

/-! ### String field decoding -/

theorem char_scalar (c : Char) :
    c.toNat < 0xD800 ∨ (0xDFFF < c.toNat ∧ c.toNat < 0x110000) := c.valid

theorem or_eq_add (i hi lo : Nat) (h : lo < 2 ^ i) : (2 ^ i * hi) ||| lo = 2 ^ i * hi + lo :=
  (Nat.mul_add_lt_is_or h hi).symm

theorem hexVal_hexDigit (up : Bool) (d : Nat) (hd : d < 16) : hexVal (hexDigit up d) = (d : Int) := by
  interval_cases d <;> cases up <;> rfl

theorem codeUnit_digits (a b c d : Nat) (_ha : a < 16) (hb : b < 16) (hc : c < 16) (hd : d < 16) :
    codeUnit (a : Int) (b : Int) (c : Int) (d : Int) = a * 4096 + b * 256 + c * 16 + d := by
  simp only [codeUnit, Int.toNat_ofNat, Nat.shiftLeft_eq, Nat.reducePow]
  have e1 : a * 4096 ||| b * 256 = a * 4096 + b * 256 := by
    have := or_eq_add 12 a (b * 256) (by omega)
    rw [Nat.mul_comm (2 ^ 12) a] at this
    simpa using this
  have e2 : (a * 4096 + b * 256) ||| c * 16 = a * 4096 + b * 256 + c * 16 := by
    have := or_eq_add 8 (a * 16 + b) (c * 16) (by omega)
    have e : 2 ^ 8 * (a * 16 + b) = a * 4096 + b * 256 := by ring
    rw [e] at this
    exact this
  have e3 : (a * 4096 + b * 256 + c * 16) ||| d = a * 4096 + b * 256 + c * 16 + d := by
    have := or_eq_add 4 (a * 256 + b * 16 + c) d (by omega)
    have e : 2 ^ 4 * (a * 256 + b * 16 + c) = a * 4096 + b * 256 + c * 16 := by ring
    rw [e] at this
    exact this
  rw [e1, e2, e3]

theorem codeUnit_of (u : Nat) (hu : u < 65536) :
    codeUnit ((u / 4096 % 16 : Nat) : Int) ((u / 256 % 16 : Nat) : Int)
      ((u / 16 % 16 : Nat) : Int) ((u % 16 : Nat) : Int) = u := by
  rw [codeUnit_digits _ _ _ _ (Nat.mod_lt _ (by decide)) (Nat.mod_lt _ (by decide))
    (Nat.mod_lt _ (by decide)) (Nat.mod_lt _ (by decide))]
  omega

theorem and_mask (x i : Nat) : x &&& (2 ^ i - 1) = x % 2 ^ i := Nat.and_pow_two_sub_one_eq_mod x i

theorem appendUtf8_eq (v : Nat) (hv : v < 0x110000) : appendUtf8 v = utf8EncodeScalar v := by
  have m5 : ∀ x, x &&& 0x1F = x % 32 := fun x => and_mask x 5
  have m6 : ∀ x, x &&& 0x3F = x % 64 := fun x => and_mask x 6
  have m4 : ∀ x, x &&& 0x0F = x % 16 := fun x => and_mask x 4
  have m3 : ∀ x, x &&& 0x07 = x % 8 := fun x => and_mask x 3
  have o80 : ∀ x, x < 64 → 0x80 ||| x = 0x80 + x := fun x hx => by
    have := or_eq_add 6 2 x (by omega); simpa using this
  have oC0 : ∀ x, x < 64 → 0xC0 ||| x = 0xC0 + x := fun x hx => by
    have := or_eq_add 6 3 x (by omega); simpa using this
  have oE0 : ∀ x, x < 32 → 0xE0 ||| x = 0xE0 + x := fun x hx => by
    have := or_eq_add 5 7 x (by omega); simpa using this
  have oF0 : ∀ x, x < 16 → 0xF0 ||| x = 0xF0 + x := fun x hx => by
    have := or_eq_add 4 15 x (by omega); simpa using this
  unfold appendUtf8 utf8EncodeScalar
  simp only [Nat.shiftRight_eq_div_pow, m5, m6, m4, m3, Nat.reducePow]
  split_ifs <;> try omega
  · congr 1; omega
  · rw [oC0 _ (by omega), o80 _ (by omega)]; congr 2; omega
  · rw [oE0 _ (by omega), o80 _ (by omega), o80 _ (by omega)]; congr 2; omega
  · rw [oF0 _ (by omega), o80 _ (by omega), o80 _ (by omega), o80 _ (by omega)]
    congr 2; omega


theorem u8_or_toNat (a b : UInt8) : (a ||| b).toNat = a.toNat ||| b.toNat := by
  show (a.toBitVec ||| b.toBitVec).toNat = _
  exact BitVec.toNat_or ..

theorem u32_toUInt8_toNat (v : UInt32) : v.toUInt8.toNat = v.toNat % 256 := by
  show (BitVec.ofNat 8 v.toNat).toNat = _
  simp [BitVec.toNat_ofNat]

theorem u32_shr_toNat (v : UInt32) (n : Nat) (hn : n < 32) :
    (v >>> (UInt32.ofNat n)).toNat = v.toNat / 2 ^ n := by
  show (v.toBitVec >>> (UInt32.mod (UInt32.ofNat n) 32).toBitVec).toNat = _
  have : (UInt32.mod (UInt32.ofNat n) 32).toBitVec.toNat = n := by
    show ((BitVec.ofNat 32 n) % (BitVec.ofNat 32 32)).toNat = n
    simp [BitVec.toNat_ofNat]
    omega
  rw [BitVec.ushiftRight_eq', BitVec.toNat_ushiftRight, this, Nat.shiftRight_eq_div_pow]
  rfl

theorem u8_lit_toNat (n : Nat) (h : n < 256) : (UInt8.ofNat n).toNat = n := by
  show (BitVec.ofNat 8 n).toNat = n
  simp [BitVec.toNat_ofNat]; omega

/-- The bytes of `utf8EncodeScalar` are those of the UTF-8 encoder of the Lean
core library, for every Unicode scalar value. -/
theorem utf8EncodeScalar_eq_core (c : Char) :
    (String.utf8EncodeChar c).map UInt8.toNat = utf8EncodeScalar c.toNat := by
  have hc := char_scalar c
  have hv : c.val.toNat = c.toNat := rfl
  have o80 : ∀ x, x < 64 → x ||| 0x80 = 0x80 + x := fun x hx => by
    have := or_eq_add 6 2 x (by omega); rw [Nat.lor_comm]; simpa using this
  have oC0 : ∀ x, x < 64 → x ||| 0xC0 = 0xC0 + x := fun x hx => by
    have := or_eq_add 6 3 x (by omega); rw [Nat.lor_comm]; simpa using this
  have oE0 : ∀ x, x < 32 → x ||| 0xE0 = 0xE0 + x := fun x hx => by
    have := or_eq_add 5 7 x (by omega); rw [Nat.lor_comm]; simpa using this
  have oF0 : ∀ x, x < 16 → x ||| 0xF0 = 0xF0 + x := fun x hx => by
    have := or_eq_add 4 15 x (by omega); rw [Nat.lor_comm]; simpa using this
  have m5 : ∀ x, x &&& 0x1F = x % 32 := fun x => and_mask x 5
  have m6 : ∀ x, x &&& 0x3F = x % 64 := fun x => and_mask x 6
  have m4 : ∀ x, x &&& 0x0F = x % 16 := fun x => and_mask x 4
  have m3 : ∀ x, x &&& 0x07 = x % 8 := fun x => and_mask x 3
  have s6 := u32_shr_toNat c.val 6 (by omega)
  have s12 := u32_shr_toNat c.val 12 (by omega)
  have s18 := u32_shr_toNat c.val 18 (by omega)
  unfold String.utf8EncodeChar utf8EncodeScalar
  simp only []
  have l1 : (c.val ≤ 0x7f) ↔ c.toNat ≤ 0x7f := by rw [← hv]; exact UInt32.le_def
  have l2 : (c.val ≤ 0x7ff) ↔ c.toNat ≤ 0x7ff := by rw [← hv]; exact UInt32.le_def
  have l3 : (c.val ≤ 0xffff) ↔ c.toNat ≤ 0xffff := by rw [← hv]; exact UInt32.le_def
  have t8 : c.val.toUInt8.toNat = c.toNat % 256 := u32_toUInt8_toNat c.val
  have t6 : (c.val >>> 6).toUInt8.toNat = (c.toNat / 64) % 256 := by
    rw [u32_toUInt8_toNat]; exact congrArg (· % 256) s6
  have t12 : (c.val >>> 12).toUInt8.toNat = (c.toNat / 4096) % 256 := by
    rw [u32_toUInt8_toNat]; exact congrArg (· % 256) s12
  have t18 : (c.val >>> 18).toUInt8.toNat = (c.toNat / 262144) % 256 := by
    rw [u32_toUInt8_toNat]; exact congrArg (· % 256) s18
  have k1f : (0x1f : UInt8).toNat = 0x1F := rfl
  have k3f : (0x3f : UInt8).toNat = 0x3F := rfl
  have k0f : (0x0f : UInt8).toNat = 0x0F := rfl
  have k07 : (0x07 : UInt8).toNat = 0x07 := rfl
  have k80 : (0x80 : UInt8).toNat = 0x80 := rfl
  have kc0 : (0xc0 : UInt8).toNat = 0xC0 := rfl
  have ke0 : (0xe0 : UInt8).toNat = 0xE0 := rfl
  have kf0 : (0xf0 : UInt8).toNat = 0xF0 := rfl
  clear s6 s12 s18
  by_cases h1 : c.toNat ≤ 0x7f
  · rw [if_pos (l1.mpr h1), if_pos (show c.toNat < 0x80 by omega)]
    simp only [List.map_cons, List.map_nil, t8, List.cons.injEq, and_true]
    omega
  rw [if_neg (fun h => h1 (l1.mp h)), if_neg (show ¬ c.toNat < 0x80 by omega)]
  by_cases h2 : c.toNat ≤ 0x7ff
  · rw [if_pos (l2.mpr h2), if_pos (show c.toNat < 0x800 by omega)]
    simp only [List.map_cons, List.map_nil, u8_or_toNat, UInt8.and_toNat, t8, t6, k1f, k3f, k80,
      kc0, m5, m6]
    rw [oC0 _ (by omega), o80 _ (by omega)]
    simp only [List.cons.injEq, and_true]
    omega
  rw [if_neg (fun h => h2 (l2.mp h)), if_neg (show ¬ c.toNat < 0x800 by omega)]
  by_cases h3 : c.toNat ≤ 0xffff
  · rw [if_pos (l3.mpr h3), if_pos (show c.toNat < 0x10000 by omega)]
    simp only [List.map_cons, List.map_nil, u8_or_toNat, UInt8.and_toNat, t8, t6, t12, k0f, k3f,
      k80, ke0, m4, m6]
    rw [oE0 _ (by omega), o80 _ (by omega), o80 _ (by omega)]
    simp only [List.cons.injEq, and_true]
    omega
  rw [if_neg (fun h => h3 (l3.mp h)), if_neg (show ¬ c.toNat < 0x10000 by omega)]
  simp only [List.map_cons, List.map_nil, u8_or_toNat, UInt8.and_toNat, t8, t6, t12, t18, k07,
    k3f, k80, kf0, m3, m6]
  rw [oF0 _ (by omega), o80 _ (by omega), o80 _ (by omega), o80 _ (by omega)]
  simp only [List.cons.injEq, and_true]
  omega

theorem decodeString_skip (xs rest : Bytes) (e : Bool) (s : Bytes) :
    decodeString (xs ++ rest) xs.length e s = decodeString rest 0 e s := by
  induction xs with
  | nil => rfl
  | cons x xs ih => simpa [decodeString] using ih

theorem decodeString_plain (bs rest acc : Bytes) (h : ∀ b ∈ bs, b ≠ 34 ∧ b ≠ 92) :
    decodeString (bs ++ rest) 0 false acc = decodeString rest 0 false (acc ++ bs) := by
  induction bs generalizing acc with
  | nil => simp
  | cons b bs ih =>
    have hb := h b (List.mem_cons_self _ _)
    rw [List.cons_append, decodeString, if_neg hb.2, if_neg hb.1,
      ih _ (fun c hc => h c (List.mem_cons_of_mem _ hc))]
    simp

theorem utf8EncodeScalar_plain (v : Nat) (h34 : v ≠ 34) (h92 : v ≠ 92) :
    ∀ b ∈ utf8EncodeScalar v, b ≠ 34 ∧ b ≠ 92 := by
  intro b hb
  unfold utf8EncodeScalar at hb
  split_ifs at hb <;> simp only [List.mem_cons, List.mem_singleton, List.not_mem_nil, or_false] at hb
  · subst hb; exact ⟨h34, h92⟩
  all_goals omega

theorem unicodeEscape_bmp (up : Nat → Bool) (u : Nat) (rest : Bytes) (hu : u < 65536)
    (hns : ¬ (0xD800 ≤ u ∧ u ≤ 0xDFFF)) :
    unicodeEscape (hexDigit (up 0) (u / 4096 % 16) :: hexDigit (up 1) (u / 256 % 16)
        :: hexDigit (up 2) (u / 16 % 16) :: hexDigit (up 3) (u % 16) :: rest)
      = (appendUtf8 u, 4) := by
  have d1 : u / 4096 % 16 < 16 := Nat.mod_lt _ (by decide)
  have d2 : u / 256 % 16 < 16 := Nat.mod_lt _ (by decide)
  have d3 : u / 16 % 16 < 16 := Nat.mod_lt _ (by decide)
  have d4 : u % 16 < 16 := Nat.mod_lt _ (by decide)
  have hns2 : ¬ (0xD800 ≤ u ∧ u ≤ 0xDBFF) := by omega
  simp only [unicodeEscape, hexVal_hexDigit _ _ d1, hexVal_hexDigit _ _ d2,
    hexVal_hexDigit _ _ d3, hexVal_hexDigit _ _ d4, codeUnit_of u hu, Int.natCast_nonneg,
    and_self, if_true, if_neg hns, if_neg hns2]

theorem unicodeEscape_pair (up1 up2 : Nat → Bool) (hi lo : Nat) (rest : Bytes)
    (hhi : 0xD800 ≤ hi ∧ hi ≤ 0xDBFF) (hlo : 0xDC00 ≤ lo ∧ lo ≤ 0xDFFF) :
    unicodeEscape (hexDigit (up1 0) (hi / 4096 % 16) :: hexDigit (up1 1) (hi / 256 % 16)
        :: hexDigit (up1 2) (hi / 16 % 16) :: hexDigit (up1 3) (hi % 16)
        :: (unicodeEscapeText up2 lo ++ rest))
      = (appendUtf8 (0x10000 + (hi - 0xD800) * 1024 + (lo - 0xDC00)), 10) := by
  have d1 : hi / 4096 % 16 < 16 := Nat.mod_lt _ (by decide)
  have d2 : hi / 256 % 16 < 16 := Nat.mod_lt _ (by decide)
  have d3 : hi / 16 % 16 < 16 := Nat.mod_lt _ (by decide)
  have d4 : hi % 16 < 16 := Nat.mod_lt _ (by decide)
  have l1 : lo / 4096 % 16 < 16 := Nat.mod_lt _ (by decide)
  have l2 : lo / 256 % 16 < 16 := Nat.mod_lt _ (by decide)
  have l3 : lo / 16 % 16 < 16 := Nat.mod_lt _ (by decide)
  have l4 : lo % 16 < 16 := Nat.mod_lt _ (by decide)
  have hor : ((hi - 0xD800) <<< 10) ||| (lo - 0xDC00) = (hi - 0xD800) * 1024 + (lo - 0xDC00) := by
    have := or_eq_add 10 (hi - 0xD800) (lo - 0xDC00) (by omega)
    rw [Nat.shiftLeft_eq, Nat.mul_comm]
    simpa using this
  simp only [unicodeEscape, unicodeEscapeText, List.cons_append, List.nil_append,
    hexVal_hexDigit _ _ d1, hexVal_hexDigit _ _ d2,
    hexVal_hexDigit _ _ d3, hexVal_hexDigit _ _ d4, hexVal_hexDigit _ _ l1, hexVal_hexDigit _ _ l2,
    hexVal_hexDigit _ _ l3, hexVal_hexDigit _ _ l4, codeUnit_of hi (by omega),
    codeUnit_of lo (by omega), Int.natCast_nonneg, and_self, if_true, if_pos hhi, hlo, hor,
    Nat.add_assoc]

theorem decodeString_char (c : Char) (style : CharStyle) (rest acc : Bytes) :
    decodeString (encodeChar c style ++ rest) 0 false acc
      = decodeString rest 0 false (acc ++ utf8EncodeScalar c.toNat) := by
  have hc := char_scalar c
  unfold encodeChar
  by_cases hq : c.toNat = 34 ∨ c.toNat = 92
  · rw [if_pos hq]
    have e : utf8EncodeScalar c.toNat = [c.toNat] := by
      unfold utf8EncodeScalar; rw [if_pos (by omega)]
    rw [e]
    rcases hq with h | h <;> simp [decodeString, h]
  · rw [if_neg hq]
    cases style with
    | raw =>
      exact decodeString_plain _ _ _ (utf8EncodeScalar_plain _ (by omega) (by omega))
    | escaped up1 up2 =>
      by_cases hb : c.toNat < 0x10000
      · simp only [if_pos hb, unicodeEscapeText, List.cons_append, List.nil_append]
        rw [decodeString, if_pos rfl, decodeString]
        simp only [show ¬ ((117 : Nat) = 34 ∨ (117 : Nat) = 92 ∨ (117 : Nat) = 47) by decide,
          if_false, show ¬ ((117 : Nat) = 98) by decide, show ¬ ((117 : Nat) = 102) by decide,
          show ¬ ((117 : Nat) = 110) by decide, show ¬ ((117 : Nat) = 114) by decide,
          show ¬ ((117 : Nat) = 116) by decide, if_true,
          unicodeEscape_bmp up1 c.toNat rest hb (by omega)]
        rw [appendUtf8_eq _ (by omega)]
        exact decodeString_skip [_, _, _, _] rest false _
      · simp only [if_neg hb]
        have hhi : 0xD800 ≤ 0xD800 + (c.toNat - 0x10000) / 1024
            ∧ 0xD800 + (c.toNat - 0x10000) / 1024 ≤ 0xDBFF := by omega
        have hlo : 0xDC00 ≤ 0xDC00 + (c.toNat - 0x10000) % 1024
            ∧ 0xDC00 + (c.toNat - 0x10000) % 1024 ≤ 0xDFFF := by omega
        have hp := unicodeEscape_pair up1 up2 _ _ rest hhi hlo
        have hv : 0x10000 + (0xD800 + (c.toNat - 0x10000) / 1024 - 0xD800) * 1024
            + (0xDC00 + (c.toNat - 0x10000) % 1024 - 0xDC00) = c.toNat := by omega
        rw [hv] at hp
        rw [List.append_assoc]
        generalize hlo_def : 0xDC00 + (c.toNat - 0x10000) % 1024 = lo at *
        generalize hhi_def : 0xD800 + (c.toNat - 0x10000) / 1024 = hi at *
        rw [show unicodeEscapeText up1 hi = [92, 117, hexDigit (up1 0) (hi / 4096 % 16),
          hexDigit (up1 1) (hi / 256 % 16), hexDigit (up1 2) (hi / 16 % 16),
          hexDigit (up1 3) (hi % 16)] from rfl]
        simp only [List.cons_append, List.nil_append]
        rw [decodeString, if_pos rfl, decodeString]
        simp only [show ¬ ((117 : Nat) = 34 ∨ (117 : Nat) = 92 ∨ (117 : Nat) = 47) by decide,
          if_false, show ¬ ((117 : Nat) = 98) by decide, show ¬ ((117 : Nat) = 102) by decide,
          show ¬ ((117 : Nat) = 110) by decide, show ¬ ((117 : Nat) = 114) by decide,
          show ¬ ((117 : Nat) = 116) by decide, if_true, hp]
        rw [appendUtf8_eq _ (by omega)]
        have := decodeString_skip
          ([hexDigit (up1 0) (hi / 4096 % 16), hexDigit (up1 1) (hi / 256 % 16),
            hexDigit (up1 2) (hi / 16 % 16), hexDigit (up1 3) (hi % 16)] ++ unicodeEscapeText up2 lo)
          rest false (acc ++ utf8EncodeScalar c.toNat)
        simpa [unicodeEscapeText] using this

theorem decodeString_encode (s : List (Char × CharStyle)) (rest acc : Bytes) :
    decodeString (encodeString s ++ 34 :: rest) 0 false acc
      = some (acc ++ utf8Bytes (s.map Prod.fst)) := by
  induction s generalizing acc with
  | nil => simp [encodeString, utf8Bytes, decodeString]
  | cons p ps ih =>
    have := ih (acc ++ utf8EncodeScalar p.1.toNat)
    simp only [encodeString, List.flatMap_cons, List.append_assoc] at this ⊢
    rw [decodeString_char, this]
    simp [utf8Bytes]

theorem findFrom_prefix (needle rest : Bytes) (i : Nat) :
    findFrom needle (needle ++ rest) i = some i := by
  cases h : needle ++ rest with
  | nil =>
    have : needle = [] := (List.append_eq_nil.mp h).1
    simp [findFrom, this]
  | cons c cs =>
    rw [findFrom, if_pos]
    rw [← h, List.isPrefixOf_iff_prefix]
    exact List.prefix_append _ _

theorem findFrom_char (c : Nat) (xs rest : Bytes) (i : Nat) (h : c ∉ xs) :
    findFrom [c] (xs ++ c :: rest) i = some (i + xs.length) := by
  induction xs generalizing i with
  | nil => simp [findFrom, List.isPrefixOf]
  | cons x xs ih =>
    have hx : x ≠ c := fun e => h (e ▸ List.mem_cons_self _ _)
    have hne : ¬ (c = x) := fun e => hx e.symm
    rw [List.cons_append, findFrom, if_neg (by simp [List.isPrefixOf, hne]),
      ih _ (fun hc => h (List.mem_cons_of_mem _ hc))]
    simp only [List.length_cons]
    congr 1
    omega

theorem FindKeyPos_singleField (k v : Bytes) : FindKeyPos (singleFieldObject k v) k = some 1 := by
  unfold FindKeyPos find singleFieldObject
  rw [if_pos (Nat.zero_le _), List.drop_zero, findFrom, if_neg (by simp [List.isPrefixOf])]
  have e : (34 :: (k ++ 34 :: 58 :: 34 :: (v ++ [34, 125])))
      = (34 :: (k ++ [34])) ++ (58 :: 34 :: (v ++ [34, 125])) := by simp
  rw [e]
  exact findFrom_prefix _ _ _

theorem findColon_singleField (k v : Bytes) (hk : 58 ∉ k) :
    find (singleFieldObject k v) [58] 1 = some (k.length + 3) := by
  unfold find singleFieldObject
  rw [if_pos (by simp)]
  have e : (123 :: 34 :: (k ++ 34 :: 58 :: 34 :: (v ++ [34, 125]))).drop 1
      = (34 :: (k ++ [34])) ++ 58 :: (34 :: (v ++ [34, 125])) := by simp
  rw [e, findFrom_char 58 _ _ 1 (by simp [hk])]
  simp only [List.length_cons, List.length_append, List.length_singleton, List.length_nil]
  congr 1
  omega

/-- C7 (amended): for every Unicode string `s`, every way `E` may write it (quote
and backslash escaped with a backslash; every other character raw as UTF-8 or
as a `\uXXXX` escape, a surrogate pair above U+FFFF, hex digits in either case)
and every key `k` that contains no colon, `ExtractStringField` applied to the
object `{"k":"E(s)"}` returns true and outputs exactly the UTF-8 bytes of `s`. -/
theorem C7_string_field_round_trip (k : Bytes) (s : List (Char × CharStyle)) (hk : 58 ∉ k) :
    ExtractStringField (singleFieldObject k (encodeString s)) k
      = some (utf8Bytes (s.map Prod.fst)) := by
  unfold ExtractStringField
  rw [FindKeyPos_singleField]
  simp only [findColon_singleField k _ hk]
  have hdrop : (singleFieldObject k (encodeString s)).drop (k.length + 3 + 1)
      = 34 :: (encodeString s ++ [34, 125]) := by
    unfold singleFieldObject
    have e : (123 :: 34 :: (k ++ 34 :: 58 :: 34 :: (encodeString s ++ [34, 125])))
        = (123 :: 34 :: (k ++ [34, 58])) ++ (34 :: (encodeString s ++ [34, 125])) := by simp
    rw [e, List.drop_append_of_le_length (by simp)]
    simp [List.drop_eq_nil_of_le]
  have hskip : skipSpaces (singleFieldObject k (encodeString s)) (k.length + 3 + 1)
      = k.length + 3 + 1 := by
    unfold skipSpaces
    rw [hdrop, List.takeWhile_cons, if_neg (by decide)]
    rfl
  rw [hskip, hdrop]
  simp only [if_true]
  have := decodeString_encode s [125] []
  simpa using this

/-- Witness for `C7_string_field_round_trip`: the value `a"\😀é` under key `name`,
with the non-BMP character written as an escaped surrogate pair. -/
theorem C7_string_field_round_trip_witness :
    58 ∉ ascii "name"
      ∧ ExtractStringField
          (singleFieldObject (ascii "name")
            (encodeString [('a', .raw), (Char.ofNat 34, .raw), (Char.ofNat 92, .raw),
              ('😀', .escaped (fun _ => true) (fun _ => false)), ('é', .raw)]))
          (ascii "name")
        = some (utf8Bytes ['a', Char.ofNat 34, Char.ofNat 92, '😀', 'é']) :=
  ⟨by decide, C7_string_field_round_trip (ascii "name") _ (by decide)⟩

/-- C7 (counterexample): the key `a:b` does not occur in the encoded value `x`,
yet `ExtractStringField` on `{"a:b":"x"}` returns false: the first colon after
the key position lies inside the key. -/
theorem C7_key_with_colon_fails :
    find (encodeString [('x', .raw)]) (ascii "a:b") 0 = none
      ∧ singleFieldObject (ascii "a:b") (encodeString [('x', .raw)]) = ascii "\x7b\"a:b\":\"x\"\x7d"
      ∧ ExtractStringField (singleFieldObject (ascii "a:b") (encodeString [('x', .raw)]))
          (ascii "a:b") = none := by
  decide


/-! ### Programme timestamps -/

theorem daysBeforeYear_succ (y : Int) :
    daysBeforeYear (y + 1) = daysBeforeYear y + daysInYear y := by
  unfold daysBeforeYear daysInYear isLeapYear
  simp only [Bool.decide_or, Bool.decide_and, Bool.or_eq_true, Bool.and_eq_true,
    decide_eq_true_eq, decide_not, Bool.not_eq_true', decide_eq_false_iff_not]
  split_ifs <;> omega

theorem daysBeforeYear_eq (y : Nat) : daysBeforeYear (y : Int) = daysUpToYear y - 719528 := by
  induction y with
  | zero => decide
  | succ n ih =>
    rw [daysUpToYear, Nat.cast_succ, daysBeforeYear_succ, ih]
    ring

theorem daysBeforeMonth_eq (y : Int) (mo : Nat) (h1 : 1 ≤ mo) (h2 : mo ≤ 12) :
    daysBeforeMonth y ((mo : Int) - 1) = daysUpToMonth y (mo - 1) := by
  interval_cases mo <;>
    (simp only [daysBeforeMonth, daysUpToMonth, daysInMonth]
     cases isLeapYear y <;> simp)

theorem timegm_eq_utcEpochSeconds (y mo d h mi s : Nat) (h1 : 1 ≤ mo) (h2 : mo ≤ 12) :
    timegm { tm_year := (y : Int) - 1900, tm_mon := (mo : Int) - 1, tm_mday := d,
             tm_hour := h, tm_min := mi, tm_sec := s }
      = utcEpochSeconds y mo d h mi s := by
  unfold timegm utcEpochSeconds
  have e1 : ((mo : Int) - 1) / 12 = 0 := by omega
  have e2 : ((mo : Int) - 1) % 12 = (mo : Int) - 1 := by omega
  simp only [e1, e2, add_zero, sub_add_cancel, daysBeforeYear_eq, daysBeforeMonth_eq _ mo h1 h2]


theorem mapFind_mapSet {κ ν : Type} [DecidableEq κ] (m : List (κ × ν)) (k k' : κ) (v : ν) :
    mapFind (mapSet m k v) k' = if k = k' then some v else mapFind m k' := by
  induction m with
  | nil => simp [mapSet, mapFind]
  | cons p rest ih =>
    obtain ⟨a, b⟩ := p
    by_cases hak : a = k
    · subst hak
      by_cases h : a = k' <;> simp [mapSet, mapFind, h]
    · simp only [mapSet, if_neg hak, mapFind]
      by_cases h : a = k'
      · have hkk : ¬ k = k' := fun e => hak (h.trans e.symm)
        simp [h, hkk]
      · simp [h, ih]

theorem mapFind_mapPush {κ ν : Type} [DecidableEq κ] (m : List (κ × List ν)) (k k' : κ) (x : ν) :
    (mapFind (mapPush m k x) k').getD []
      = (mapFind m k').getD [] ++ (if k = k' then [x] else []) := by
  unfold mapPush
  rw [mapFind_mapSet]
  by_cases h : k = k'
  · subst h; simp
  · simp [h]

theorem isEmpty_eq_false_iff {α : Type} (l : List α) : l.isEmpty = false ↔ l ≠ [] := by
  cases l <;> simp

theorem foldl_index_epgId (streams : List LiveStream) (idx : StreamIndex) (x : Bytes)
    (hx : x ≠ []) :
    (mapFind (streams.foldl indexStream idx).xmltvIdToStreamIds x).getD []
      = (mapFind idx.xmltvIdToStreamIds x).getD [] ++ idsByEpgChannelId streams x := by
  induction streams generalizing idx with
  | nil => simp [idsByEpgChannelId]
  | cons s rest ih =>
    rw [List.foldl_cons, ih]
    unfold indexStream
    by_cases hid : 0 < s.id
    · by_cases he : s.epgChannelId = []
      · have hne : ¬ s.epgChannelId = x := fun h => hx (h ▸ he)
        simp [hid, he, idsByEpgChannelId, List.filter_cons, hx]
      · have hie : s.epgChannelId.isEmpty = false := (isEmpty_eq_false_iff _).mpr he
        simp only [hid, if_true, hie, Bool.false_eq_true, if_false, mapFind_mapPush]
        by_cases hk : s.epgChannelId = x
        · simp [idsByEpgChannelId, List.filter_cons, hid, hk]
        · simp [idsByEpgChannelId, List.filter_cons, hid, hk]
    · simp [hid, idsByEpgChannelId, List.filter_cons]

theorem foldl_index_name (streams : List LiveStream) (idx : StreamIndex) (dn : Bytes) :
    (mapFind (streams.foldl indexStream idx).streamNameToIds (ToLower dn)).getD []
      = (mapFind idx.streamNameToIds (ToLower dn)).getD [] ++ idsByName streams dn := by
  induction streams generalizing idx with
  | nil => simp [idsByName]
  | cons s rest ih =>
    rw [List.foldl_cons, ih]
    unfold indexStream
    by_cases hid : 0 < s.id
    · by_cases he : NormalizeChannelNameForEpg s.name = []
      · simp [hid, he, idsByName, List.filter_cons]
      · have hie : (NormalizeChannelNameForEpg s.name).isEmpty = false :=
          (isEmpty_eq_false_iff _).mpr he
        simp only [hid, if_true, hie, Bool.false_eq_true, if_false, mapFind_mapPush]
        by_cases hk : ToLower (NormalizeChannelNameForEpg s.name) = ToLower dn
        · simp [idsByName, List.filter_cons, hid, hk, he]
        · simp [idsByName, List.filter_cons, hid, hk]
    · simp [hid, idsByName, List.filter_cons]

theorem foldl_index_known (streams : List LiveStream) (idx : StreamIndex) (v : Int) :
    (mapFind (streams.foldl indexStream idx).streamIdToName v).isSome = true
      ↔ (mapFind idx.streamIdToName v).isSome = true ∨ ∃ s ∈ streams, 0 < s.id ∧ s.id = v := by
  induction streams generalizing idx with
  | nil => simp
  | cons s rest ih =>
    rw [List.foldl_cons, ih]
    unfold indexStream
    by_cases hid : 0 < s.id
    · simp only [hid, if_true, mapFind_mapSet]
      by_cases hk : s.id = v
      · subst hk; simp [hid]
      · simp [hk]
    · simp only [hid, if_false]
      constructor
      · rintro (h | ⟨t, ht, h⟩)
        · exact Or.inl h
        · exact Or.inr ⟨t, List.mem_cons_of_mem _ ht, h⟩
      · rintro (h | ⟨t, ht, h1, h2⟩)
        · exact Or.inl h
        · rcases List.mem_cons.mp ht with rfl | ht'
          · exact absurd h1 hid
          · exact Or.inr ⟨t, ht', h1, h2⟩

theorem wrapInt32_of_range (v : Int) (h0 : 0 ≤ v) (h1 : v < 2147483648) : wrapInt32 v = v := by
  unfold wrapInt32; omega


theorem natToStringAux_append (fuel n : Nat) (acc : Bytes) :
    natToStringAux fuel n acc = natToStringAux fuel n [] ++ acc := by
  induction fuel generalizing n acc with
  | zero => rfl
  | succ f ih =>
    unfold natToStringAux
    split_ifs
    · rfl
    · rw [ih (n / 10) ((48 + n % 10) :: acc), ih (n / 10) [48 + n % 10]]
      simp

theorem natToStringAux_digits (fuel n : Nat) :
    ∀ c ∈ natToStringAux fuel n [], isDigit c = true := by
  induction fuel generalizing n with
  | zero => simp [natToStringAux]
  | succ f ih =>
    unfold natToStringAux
    split_ifs with h
    · intro c hc
      simp only [List.mem_singleton] at hc
      subst hc
      simp [isDigit]; omega
    · rw [natToStringAux_append]
      intro c hc
      rcases List.mem_append.mp hc with hc | hc
      · exact ih _ c hc
      · simp only [List.mem_singleton] at hc
        subst hc
        simp [isDigit]; omega

theorem digitsValue_append (a b : Bytes) (v : Nat) :
    digitsValue (a ++ b) v = digitsValue b (digitsValue a v) := by
  simp [digitsValue, List.foldl_append]

theorem natToStringAux_value (fuel n : Nat) (h : n < 10 ^ fuel) :
    digitsValue (natToStringAux fuel n []) 0 = n := by
  induction fuel generalizing n with
  | zero => simp at h; subst h; rfl
  | succ f ih =>
    unfold natToStringAux
    split_ifs with h10
    · simp [digitsValue]
    · rw [natToStringAux_append, digitsValue_append, ih (n / 10) (by
        rw [pow_succ] at h; omega)]
      simp [digitsValue]
      omega

theorem natToStringAux_ne_nil (fuel n : Nat) : natToStringAux (fuel + 1) n [] ≠ [] := by
  unfold natToStringAux
  split_ifs
  · simp
  · rw [natToStringAux_append]; simp

theorem takeWhile_all (p : Nat → Bool) (l : Bytes) (h : ∀ c ∈ l, p c = true) :
    l.takeWhile p = l := by
  induction l with
  | nil => rfl
  | cons x xs ih =>
    rw [List.takeWhile_cons, h x (List.mem_cons_self _ _), if_pos rfl,
      ih (fun c hc => h c (List.mem_cons_of_mem _ hc))]

theorem dropWhile_all (p : Nat → Bool) (l : Bytes) (h : ∀ c ∈ l, p c = true) :
    l.dropWhile p = [] := by
  induction l with
  | nil => rfl
  | cons x xs ih =>
    rw [List.dropWhile_cons, h x (List.mem_cons_self _ _), if_pos rfl,
      ih (fun c hc => h c (List.mem_cons_of_mem _ hc))]

/-- The decimal text of a positive `long` value is read back by `strtol` in
full. -/
theorem strtol_intToString (v : Int) (h0 : 0 < v) (h1 : v < 9223372036854775808) :
    strtol (intToString v) = (v, []) := by
  have hn : ¬ v < 0 := by omega
  unfold intToString
  rw [if_neg hn]
  have hdig := natToStringAux_digits (v.natAbs + 1) v.natAbs
  have hval := natToStringAux_value (v.natAbs + 1) v.natAbs
    (lt_of_lt_of_le (Nat.lt_pow_self (by decide) _) (Nat.pow_le_pow_right (by decide) (by omega)))
  have hne := natToStringAux_ne_nil v.natAbs v.natAbs
  unfold natToString
  generalize natToStringAux (v.natAbs + 1) v.natAbs [] = s at hdig hval hne
  cases s with
  | nil => exact absurd rfl hne
  | cons c cs =>
    have hc := hdig c (List.mem_cons_self _ _)
    have hsp : isSpace c = false := by
      simp only [isDigit, Bool.and_eq_true, decide_eq_true_eq] at hc
      simp [isSpace]; omega
    have h45 : c ≠ 45 := by
      simp only [isDigit, Bool.and_eq_true, decide_eq_true_eq] at hc; omega
    have h43 : c ≠ 43 := by
      simp only [isDigit, Bool.and_eq_true, decide_eq_true_eq] at hc; omega
    unfold strtol
    simp only [List.dropWhile_cons, hsp, Bool.false_eq_true, if_false, List.head?_cons,
      Option.some.injEq, h45, h43, or_self, takeWhile_all isDigit (c :: cs) hdig,
      dropWhile_all isDigit (c :: cs) hdig, List.isEmpty_cons, hval]
    have : ((v.natAbs : Nat) : Int) = v := by omega
    rw [this]
    congr 1
    omega

/-- C8 (amended): the stream ids resolved for a `<channel>` with non-empty id `x`
are those of the first rule that matches and nothing from a later rule is
added: (a) if some stream with id > 0 has `epgChannelId` equal to `x`, exactly
the ids of all such streams; (b) otherwise, if `x` is a decimal number (as
`strtol` reads it) whose value is in the `int` range and is a known positive
stream id, exactly that id (so for `x` the decimal text of a known positive
id); (c) otherwise (`x` is no positive decimal number,
or its value is in the `int` range and is no known id) the ids of all streams
with id > 0 and a non-empty normalized name whose lowercase form equals that of
the normalized display name. -/
theorem C8_first_matching_rule (streams : List LiveStream) (ch : XmlChannel)
    (hx : ch.id ≠ []) :
    (idsByEpgChannelId streams ch.id ≠ [] →
        resolveChannel (buildIndex streams) ch.id ch.displayNameNormalized
          = (idsByEpgChannelId streams ch.id).map intToString)
      ∧ (idsByEpgChannelId streams ch.id = [] →
          ∀ v : Int, strtol ch.id = (v, []) → 0 < v → v < 2147483648 →
            (∃ s ∈ streams, s.id = v) →
            resolveChannel (buildIndex streams) ch.id ch.displayNameNormalized = [intToString v])
      ∧ (idsByEpgChannelId streams ch.id = [] →
          ∀ s ∈ streams, 0 < s.id → s.id < 2147483648 → ch.id = intToString s.id →
            resolveChannel (buildIndex streams) ch.id ch.displayNameNormalized = [ch.id])
      ∧ (idsByEpgChannelId streams ch.id = [] →
          ((strtol ch.id).2 ≠ [] ∨ (strtol ch.id).1 ≤ 0
            ∨ ((strtol ch.id).1 < 2147483648 ∧ ¬ ∃ s ∈ streams, s.id = (strtol ch.id).1)) →
          resolveChannel (buildIndex streams) ch.id ch.displayNameNormalized
            = (idsByName streams ch.displayNameNormalized).map intToString) := by
  have hepg := foldl_index_epgId streams {} ch.id hx
  have hname := foldl_index_name streams {} ch.displayNameNormalized
  have hknown := fun v => foldl_index_known streams {} v
  simp only [mapFind, Option.getD_none, List.nil_append, Option.isSome_none, Bool.false_eq_true,
    false_or] at hepg hname hknown
  have hb : idsByEpgChannelId streams ch.id = [] →
      ∀ v : Int, strtol ch.id = (v, []) → 0 < v → v < 2147483648 →
        (∃ s ∈ streams, s.id = v) →
        resolveChannel (buildIndex streams) ch.id ch.displayNameNormalized = [intToString v] := by
    intro hA v hv h0 h1 ⟨s, hs, hsv⟩
    unfold resolveChannel buildIndex
    simp only [hepg, hA, hv, wrapInt32_of_range v (le_of_lt h0) h1]
    have hk : (mapFind (List.foldl indexStream {} streams).streamIdToName v).isSome = true :=
      (hknown v).mpr ⟨s, hs, hsv ▸ h0, hsv⟩
    simp [h0, hk]
  refine ⟨?_, hb, ?_, ?_⟩
  · intro hA
    unfold resolveChannel buildIndex
    simp only [hepg]
    rw [if_pos]
    simpa [isEmpty_eq_false_iff] using hA
  · intro hA s hs h0 h1 hx'
    have := hb hA s.id (by rw [hx']; exact strtol_intToString s.id h0 (by omega)) h0 h1
      ⟨s, hs, rfl⟩
    rw [this, hx']
  · intro hA hB
    unfold resolveChannel buildIndex
    simp only [hepg, hA, hname]
    have hcond : ¬ ((strtol ch.id).2.isEmpty = true ∧ 0 < (strtol ch.id).1
        ∧ (mapFind (List.foldl indexStream {} streams).streamIdToName
            (wrapInt32 (strtol ch.id).1)).isSome = true) := by
      rintro ⟨h1, h2, h3⟩
      rcases hB with hB | hB | ⟨hB1, hB2⟩
      · exact hB (by simpa using h1)
      · omega
      · rw [wrapInt32_of_range _ (le_of_lt h2) hB1] at h3
        obtain ⟨s, hs, -, hsv⟩ := (hknown _).mp h3
        exact hB2 ⟨s, hs, hsv⟩
    simp only [List.isEmpty_nil, Bool.not_true, Bool.false_eq_true, if_false, hcond]
    by_cases hd : ch.displayNameNormalized = []
    · have : idsByName streams ch.displayNameNormalized = [] := by
        unfold idsByName
        rw [hd]
        simp only [List.map_eq_nil_iff, List.filter_eq_nil_iff, decide_eq_true_eq, not_and]
        intro s _ _ hne hl
        apply hne
        simpa [ToLower] using hl
      rw [hd] at this
      simp [hd, this]
    · by_cases hn : idsByName streams ch.displayNameNormalized = []
      · simp [hn]
      · have h1 : ch.displayNameNormalized.isEmpty = false := (isEmpty_eq_false_iff _).mpr hd
        have h2 : (idsByName streams ch.displayNameNormalized).isEmpty = false :=
          (isEmpty_eq_false_iff _).mpr hn
        simp [h1, h2]

/-- Witness for `C8_first_matching_rule`: with streams 5 (`BBC`) and 6
(`UK | bbc`, epg id `x`), the channel `x` named `BBC` resolves to stream 6 only. -/
theorem C8_first_matching_rule_witness :
    (ascii "x" ≠ [])
      ∧ idsByEpgChannelId epgIdCatalog (ascii "x") = [6]
      ∧ idsByName epgIdCatalog (NormalizeChannelNameForEpg (ascii "BBC")) = [5, 6]
      ∧ resolveChannel (buildIndex epgIdCatalog) (ascii "x")
          (NormalizeChannelNameForEpg (ascii "BBC")) = [intToString 6] :=
  ⟨by decide, by decide, by decide,
    (C8_first_matching_rule epgIdCatalog
      { id := ascii "x", displayName := some (ascii "BBC") } (by decide)).1 (by decide)⟩

/-- C8 (counterexample): in the catalog whose only stream has id 0 and name `BBC`,
the channel `bbc.uk` named `BBC` matches neither rule (a) nor rule (b), and the
stream's normalized lowercase name equals that of the display name, so rule (c)
as stated yields id 0; the code resolves nothing. Likewise a stream 1 with a
blank name has the same (empty) normalized name as a channel `abc` with an empty
display name, and the code resolves nothing. -/
theorem C8_name_rule_skips_nonpositive_id :
    (zeroIdCatalog.filter (fun s => 0 < s.id ∧ s.epgChannelId = ascii "bbc.uk")) = []
      ∧ strtol (ascii "bbc.uk") = (0, ascii "bbc.uk")
      ∧ (zeroIdCatalog.filter (fun s =>
            ToLower (NormalizeChannelNameForEpg s.name)
              = ToLower (NormalizeChannelNameForEpg (ascii "BBC")))).map (·.id) = [0]
      ∧ resolveChannel (buildIndex zeroIdCatalog) (ascii "bbc.uk")
          (NormalizeChannelNameForEpg (ascii "BBC")) = []
      ∧ (blankNameCatalog.filter (fun s =>
            ToLower (NormalizeChannelNameForEpg s.name)
              = ToLower (NormalizeChannelNameForEpg []))).map (·.id) = [1]
      ∧ resolveChannel (buildIndex blankNameCatalog) (ascii "abc")
          (NormalizeChannelNameForEpg []) = [] := by
  decide

/-- With a 64-bit `long`, an XMLTV id that is a number beyond the `int` range is
cast to `int` before the lookup: the id `4294967301` resolves to stream 5,
although no stream has that id. -/
theorem resolveChannel_casts_long_id :
    strtol (ascii "4294967301") = (4294967301, [])
      ∧ resolveChannel (buildIndex [{ id := 5, name := ascii "BBC" }]) (ascii "4294967301") []
          = [ascii "5"] := by
  decide

/-! ### Unresolved channels -/

theorem mapFind_mem {κ ν : Type} [DecidableEq κ] (m : List (κ × ν)) (k : κ) (v : ν)
    (h : mapFind m k = some v) : (k, v) ∈ m := by
  induction m with
  | nil => simp [mapFind] at h
  | cons p rest ih =>
    obtain ⟨a, b⟩ := p
    by_cases hak : a = k
    · subst hak
      simp only [mapFind, if_true, Option.some.injEq] at h
      subst h
      exact List.mem_cons_self _ _
    · simp only [mapFind, if_neg hak] at h
      exact List.mem_cons_of_mem _ (ih h)

theorem entriesSet_self (m : List (Int × EpgEntry)) (k : Int) (e : EpgEntry) :
    (k, e) ∈ entriesSet m k e := by
  induction m with
  | nil => simp [entriesSet]
  | cons p rest ih =>
    obtain ⟨a, b⟩ := p
    unfold entriesSet
    split_ifs <;> simp [ih]

theorem entriesSet_keeps (m : List (Int × EpgEntry)) (k k' : Int) (e : EpgEntry)
    (h : ∃ e', (k', e') ∈ m) : ∃ e', (k', e') ∈ entriesSet m k e := by
  induction m with
  | nil => simp at h
  | cons p rest ih =>
    obtain ⟨a, b⟩ := p
    obtain ⟨e', he'⟩ := h
    unfold entriesSet
    split_ifs with h1 h2
    · exact ⟨e', List.mem_cons_of_mem _ he'⟩
    · subst h2
      rcases List.mem_cons.mp he' with heq | hmem
      · exact ⟨e, by simp [(Prod.mk.inj heq).1]⟩
      · exact ⟨e', List.mem_cons_of_mem _ hmem⟩
    · rcases List.mem_cons.mp he' with heq | hmem
      · exact ⟨e', by simp [heq]⟩
      · obtain ⟨e'', h''⟩ := ih ⟨e', hmem⟩
        exact ⟨e'', List.mem_cons_of_mem _ h''⟩

theorem mergeTarget_slot (epg : ChannelEpg) (m : List (Bytes × ChannelEpg)) (x mappedId : Bytes)
    (keys : List Int) (hx : x ≠ []) (h : HasSlot m x keys) :
    HasSlot (mergeTarget epg m mappedId) x keys := by
  obtain ⟨t, ht, hid, hk⟩ := h
  unfold mergeTarget HasSlot
  rw [mapFind_mapSet]
  by_cases hm : mappedId = x
  · subst hm
    have hne : t.id.isEmpty = false := by rw [hid]; cases mappedId <;> simp_all
    simp only [if_true, ht, Option.getD_some, hne, Bool.false_eq_true, if_false]
    exact ⟨_, rfl, hid, hk⟩
  · simp only [if_neg hm]
    exact ⟨t, ht, hid, hk⟩

theorem foldl_mergeTarget_slot (epg : ChannelEpg) (ids : List Bytes)
    (m : List (Bytes × ChannelEpg)) (x : Bytes) (keys : List Int) (hx : x ≠ [])
    (h : HasSlot m x keys) : HasSlot (ids.foldl (mergeTarget epg) m) x keys := by
  induction ids generalizing m with
  | nil => exact h
  | cons i rest ih => exact ih _ (mergeTarget_slot epg m x i keys hx h)

theorem channelStep_other (idx : StreamIndex) (st : ChannelPass) (c : XmlChannel) (x : Bytes)
    (hx : x ≠ []) (hc : c.id ≠ x)
    (h : mapFind st.xmltvIdToMappedIds x = some [x] ∧ HasSlot st.epgMap x []) :
    mapFind (channelStep idx st c).xmltvIdToMappedIds x = some [x]
      ∧ HasSlot (channelStep idx st c).epgMap x [] := by
  by_cases h1 : c.id.isEmpty = true
  · simp only [channelStep, h1, if_true]
    exact h
  · by_cases h2 : (resolveChannel idx c.id c.displayNameNormalized).isEmpty = true
    · simp only [channelStep, h1, h2, if_true, Bool.false_eq_true, if_false]
      refine ⟨by simp [mapFind_mapSet, hc, h.1], ?_⟩
      obtain ⟨t, ht, hid, hk⟩ := h.2
      exact ⟨t, by simp [mapFind_mapSet, hc, ht], hid, hk⟩
    · simp only [channelStep, h1, h2, Bool.false_eq_true, if_false]
      refine ⟨by simp [mapFind_mapSet, hc, h.1], ?_⟩
      exact foldl_mergeTarget_slot _ _ _ x [] hx h.2

theorem channelStep_unresolved (idx : StreamIndex) (st : ChannelPass) (c : XmlChannel)
    (hid : c.id ≠ []) (hun : resolveChannel idx c.id c.displayNameNormalized = []) :
    mapFind (channelStep idx st c).xmltvIdToMappedIds c.id = some [c.id]
      ∧ HasSlot (channelStep idx st c).epgMap c.id [] := by
  have h1 : c.id.isEmpty = false := by cases h : c.id <;> simp_all
  unfold channelStep
  simp only [h1, Bool.false_eq_true, if_false, hun, List.isEmpty_nil, if_true]
  refine ⟨by simp [mapFind_mapSet], ?_⟩
  exact ⟨{ id := c.id, displayName := c.displayName.getD [], iconPath := c.iconSrc.getD [] },
    by simp [mapFind_mapSet], rfl, by simp⟩

theorem foldl_channelStep_other (idx : StreamIndex) (post : List XmlChannel) (st : ChannelPass)
    (x : Bytes) (hx : x ≠ []) (hpost : ∀ c ∈ post, c.id ≠ x)
    (h : mapFind st.xmltvIdToMappedIds x = some [x] ∧ HasSlot st.epgMap x []) :
    mapFind (post.foldl (channelStep idx) st).xmltvIdToMappedIds x = some [x]
      ∧ HasSlot (post.foldl (channelStep idx) st).epgMap x [] := by
  induction post generalizing st with
  | nil => exact h
  | cons c rest ih =>
    exact ih _ (fun c' hc' => hpost c' (List.mem_cons_of_mem _ hc'))
      (channelStep_other idx st c x hx (hpost c (List.mem_cons_self _ _)) h)

theorem attachEntry_slot (entry : EpgEntry) (m : List (Bytes × ChannelEpg)) (x mappedId : Bytes)
    (keys : List Int) (h : HasSlot m x keys) : HasSlot (attachEntry entry m mappedId) x keys := by
  unfold attachEntry
  cases hf : mapFind m mappedId with
  | none => exact h
  | some target =>
    obtain ⟨t, ht, hid, hk⟩ := h
    simp only
    unfold HasSlot
    rw [mapFind_mapSet]
    by_cases hm : mappedId = x
    · subst hm
      rw [ht] at hf
      cases hf
      simp only [if_true]
      exact ⟨_, rfl, hid, fun k hkm => entriesSet_keeps _ _ _ _ (hk k hkm)⟩
    · simp only [if_neg hm]
      exact ⟨t, ht, hid, hk⟩

theorem foldl_attachEntry_slot (entry : EpgEntry) (ids : List Bytes)
    (m : List (Bytes × ChannelEpg)) (x : Bytes) (keys : List Int) (h : HasSlot m x keys) :
    HasSlot (ids.foldl (attachEntry entry) m) x keys := by
  induction ids generalizing m with
  | nil => exact h
  | cons i rest ih => exact ih _ (attachEntry_slot entry m x i keys h)

theorem programmeStep_slot (ids : List (Bytes × List Bytes)) (m : List (Bytes × ChannelEpg))
    (q : XmlProgramme) (x : Bytes) (keys : List Int) (h : HasSlot m x keys) :
    HasSlot (programmeStep ids m q) x keys := by
  unfold programmeStep
  split_ifs
  · exact h
  · cases mapFind ids q.channel with
    | none => exact h
    | some mapped =>
      simp only
      split_ifs
      · exact h
      · cases programmeEntry q with
        | none => exact h
        | some entry => exact foldl_attachEntry_slot entry mapped m x keys h

theorem foldl_programmeStep_slot (ids : List (Bytes × List Bytes)) (qs : List XmlProgramme)
    (m : List (Bytes × ChannelEpg)) (x : Bytes) (keys : List Int) (h : HasSlot m x keys) :
    HasSlot (qs.foldl (programmeStep ids) m) x keys := by
  induction qs generalizing m with
  | nil => exact h
  | cons q rest ih => exact ih _ (programmeStep_slot ids m q x keys h)

theorem programmeStep_attaches (ids : List (Bytes × List Bytes)) (m : List (Bytes × ChannelEpg))
    (p : XmlProgramme) (e : EpgEntry) (x : Bytes) (hx : x ≠ []) (hpc : p.channel = x)
    (hids : mapFind ids x = some [x]) (hpe : programmeEntry p = some e) (h : HasSlot m x []) :
    HasSlot (programmeStep ids m p) x [e.startTime] := by
  have h1 : p.channel.isEmpty = false := by rw [hpc]; cases x <;> simp_all
  have h2 : x.isEmpty = false := by cases x <;> simp_all
  obtain ⟨t, ht, hid, -⟩ := h
  unfold programmeStep
  simp only [h1, h2, Bool.false_eq_true, if_false, hpc, hids, List.isEmpty_cons, hpe,
    List.foldl_cons, List.foldl_nil, attachEntry, ht]
  refine ⟨{ t with entries := entriesSet t.entries e.startTime e },
    by rw [mapFind_mapSet, if_pos rfl], hid, ?_⟩
  intro k hk
  simp only [List.mem_singleton] at hk
  subst hk
  exact ⟨e, entriesSet_self _ _ _⟩

/-- C9 (amended): a `<channel>` that no rule resolves to a stream id (the last
`<channel>` element carrying its id) is kept under its own XMLTV id and does
receive programmes: for every `<programme>` that refers to it and has valid
times, `ParseXMLTV` returns true and the returned list holds a `ChannelEpg`
whose id is that XMLTV id and whose entry map has the programme's start time as
a key. -/
theorem C9_unresolved_channel_keeps_programmes (xmltvData : Bytes) (streams : List LiveStream)
    (pre post : List XmlChannel) (ch : XmlChannel) (before after : List XmlProgramme)
    (p : XmlProgramme) (e : EpgEntry)
    (hdata : xmltvData ≠ []) (hid : ch.id ≠ []) (hlast : ∀ c ∈ post, c.id ≠ ch.id)
    (hun : resolveChannel (buildIndex streams) ch.id ch.displayNameNormalized = [])
    (hpc : p.channel = ch.id) (hpe : programmeEntry p = some e) :
    (ParseXMLTV xmltvData
        (some { channels := pre ++ ch :: post, programmes := before ++ p :: after }) streams).1
        = true
      ∧ ∃ c ∈ (ParseXMLTV xmltvData
          (some { channels := pre ++ ch :: post, programmes := before ++ p :: after }) streams).2,
          c.id = ch.id ∧ ∃ e', (e.startTime, e') ∈ c.entries := by
  have hd : xmltvData.isEmpty = false := by cases xmltvData <;> simp_all
  -- first pass
  have hpass1 := foldl_channelStep_other (buildIndex streams) post
    (channelStep (buildIndex streams) (pre.foldl (channelStep (buildIndex streams)) {}) ch)
    ch.id hid hlast (channelStep_unresolved _ _ ch hid hun)
  rw [← List.foldl_cons, ← List.foldl_append] at hpass1
  -- second pass
  generalize hP : List.foldl (channelStep (buildIndex streams)) {} (pre ++ ch :: post) = pass1
    at hpass1
  have h1 := foldl_programmeStep_slot pass1.xmltvIdToMappedIds before _ ch.id [] hpass1.2
  have h2 := programmeStep_attaches pass1.xmltvIdToMappedIds _ p e ch.id hid hpc hpass1.1 hpe h1
  have h3 := foldl_programmeStep_slot pass1.xmltvIdToMappedIds after _ ch.id [e.startTime] h2
  rw [← List.foldl_cons, ← List.foldl_append] at h3
  obtain ⟨t, ht, htid, hkeys⟩ := h3
  obtain ⟨e', he'⟩ := hkeys e.startTime (List.mem_singleton_self _)
  have hne : t.entries.isEmpty = false := by
    cases h : t.entries with
    | nil => rw [h] at he'; simp at he'
    | cons _ _ => rfl
  have hmem : t ∈ (ParseXMLTV xmltvData
      (some { channels := pre ++ ch :: post, programmes := before ++ p :: after }) streams).2 := by
    simp only [ParseXMLTV, hd, Bool.false_eq_true, if_false, List.mem_map, List.mem_filter, hP]
    exact ⟨(ch.id, t), ⟨mapFind_mem _ _ _ ht, by simp [hne]⟩, rfl⟩
  refine ⟨?_, t, hmem, htid, e', he'⟩
  have hne2 : (ParseXMLTV xmltvData
      (some { channels := pre ++ ch :: post, programmes := before ++ p :: after }) streams).2
      ≠ [] := List.ne_nil_of_mem hmem
  simp only [ParseXMLTV, hd, Bool.false_eq_true, if_false, hP] at hne2 ⊢
  simpa [isEmpty_eq_false_iff] using hne2

/-- C9 (counterexample): with catalog stream 5 (`BBC`), the channel `abc`
(`Nowhere TV`) is resolved by no rule, yet its programme is stored and the
channel is returned in `channelEpgs` under id `abc`. -/
theorem C9_unresolved_channel_is_emitted :
    resolveChannel (buildIndex [{ id := 5, name := ascii "BBC" }]) (ascii "abc")
        (NormalizeChannelNameForEpg (ascii "Nowhere TV")) = []
      ∧ ParseXMLTV (ascii "<tv>") (some unresolvedChannelDoc) [{ id := 5, name := ascii "BBC" }]
        = (true,
            [{ id := ascii "abc", displayName := ascii "Nowhere TV"
               entries := [(1769022000,
                 { channelId := ascii "abc", startTime := 1769022000, endTime := 1769025600
                   title := ascii "News" })] }]) := by
  decide

/-- Witness for `C9_unresolved_channel_keeps_programmes`, on the document of the
counterexample. -/
theorem C9_unresolved_channel_keeps_programmes_witness :
    (ParseXMLTV (ascii "<tv>") (some unresolvedChannelDoc) [{ id := 5, name := ascii "BBC" }]).1
        = true
      ∧ ∃ c ∈ (ParseXMLTV (ascii "<tv>") (some unresolvedChannelDoc)
          [{ id := 5, name := ascii "BBC" }]).2,
          c.id = ascii "abc" ∧ ∃ e', ((1769022000 : Int), e') ∈ c.entries :=
  C9_unresolved_channel_keeps_programmes (ascii "<tv>") [{ id := 5, name := ascii "BBC" }]
    [] [] { id := ascii "abc", displayName := some (ascii "Nowhere TV") } [] []
    { channel := ascii "abc", start := ascii "20260121200000 +0100"
      stop := ascii "20260121210000 +0100", title := some (ascii "News") }
    { channelId := ascii "abc", startTime := 1769022000, endTime := 1769025600
      title := ascii "News" }
    (by decide) (by decide) (by simp) (by decide) (by decide) (by decide)


/-! ### Refresh worker -/

theorem failLoad_published (st : ClientState) : (failLoad st).published = st.published := rfl

theorem perCategoryLoop_published (env : CycleEnv) (settings : Settings) (st : ClientState)
    (ids : List Int) (n : Nat) (acc : List LiveStream) :
    (perCategoryLoop env settings st ids n acc).published = st.published := by
  induction ids generalizing n acc with
  | nil => rfl
  | cons i rest ih =>
    unfold perCategoryLoop
    simp only
    split_ifs
    · rfl
    · rfl
    · exact ih _ _

theorem fetchStreams_published (env : CycleEnv) (cap : Captured) (cats : List LiveCategory)
    (st : ClientState) : (fetchStreams env cap cats st).published = st.published := by
  unfold fetchStreams
  simp only
  split_ifs <;> first | rfl | exact perCategoryLoop_published _ _ _ _ _ _

theorem runCycle_stale (env : CycleEnv) (st : ClientState)
    (h : env.generationAt 0 ≠ st.generation ∨ env.generationAt 1 ≠ st.generation
      ∨ env.generationAt 2 ≠ st.generation) :
    (runCycle env st).state.published = st.published := by
  unfold runCycle
  simp only []
  have hg : (capture st).gen = st.generation := rfl
  rw [hg]
  by_cases h0 : env.stopAt 0 = true ∨ st.generation ≠ env.generationAt 0
  · rw [if_pos h0]
  rw [if_neg h0]
  by_cases hc : (!(FetchLiveCategories (categoriesUrl (capture st).settings)
      (env.httpGet 0 (categoriesUrl (capture st).settings))).1.ok) = true
  · rw [if_pos hc]; rfl
  rw [if_neg hc]
  have hf := fetchStreams_published env (capture st)
      (FetchLiveCategories (categoriesUrl (capture st).settings)
        (env.httpGet 0 (categoriesUrl (capture st).settings))).2 st
  split
  · rename_i st' heq
    rw [heq] at hf
    exact hf
  · rename_i st' streams n heq
    rw [heq] at hf
    by_cases h1 : env.stopAt 1 = true ∨ st.generation ≠ env.generationAt 1
    · rw [if_pos h1]; exact hf
    rw [if_neg h1]
    by_cases h2 : env.stopAt 2 = true ∨ st.generation ≠ env.generationAt 2
    · rw [if_pos h2]; exact hf
    exfalso
    rcases h with h | h | h
    · exact h0 (Or.inr (fun e => h e.symm))
    · exact h1 (Or.inr (fun e => h e.symm))
    · exact h2 (Or.inr (fun e => h e.symm))

/-- A cycle whose categories request fails leaves the published snapshot as it
was. -/
theorem runCycle_categories_failed (env : CycleEnv) (st : ClientState)
    (h : (FetchLiveCategories (categoriesUrl st.xtreamSettings)
      (env.httpGet 0 (categoriesUrl st.xtreamSettings))).1.ok = false) :
    (runCycle env st).state.published = st.published := by
  have hc : (!(FetchLiveCategories (categoriesUrl (capture st).settings)
      (env.httpGet 0 (categoriesUrl (capture st).settings))).1.ok) = true := by
    rw [show (capture st).settings = st.xtreamSettings from rfl, h]; rfl
  unfold runCycle
  simp only []
  by_cases h0 : env.stopAt 0 = true ∨ (capture st).gen ≠ env.generationAt 0
  · rw [if_pos h0]
  · rw [if_neg h0, if_pos hc]; rfl

/-- A cycle whose stream fetch phase ends with `continue` (the bulk request
failed) leaves the published snapshot as it was. -/
theorem runCycle_bulk_failed (env : CycleEnv) (st st' : ClientState)
    (h : fetchStreams env (capture st)
      (FetchLiveCategories (categoriesUrl (capture st).settings)
        (env.httpGet 0 (categoriesUrl (capture st).settings))).2 st = .aborted st') :
    (runCycle env st).state.published = st.published := by
  have hf := fetchStreams_published env (capture st)
      (FetchLiveCategories (categoriesUrl (capture st).settings)
        (env.httpGet 0 (categoriesUrl (capture st).settings))).2 st
  rw [h] at hf
  unfold runCycle
  simp only []
  by_cases h0 : env.stopAt 0 = true ∨ (capture st).gen ≠ env.generationAt 0
  · rw [if_pos h0]
  rw [if_neg h0]
  by_cases hc : (!(FetchLiveCategories (categoriesUrl (capture st).settings)
      (env.httpGet 0 (categoriesUrl (capture st).settings))).1.ok) = true
  · rw [if_pos hc]; rfl
  rw [if_neg hc, h]
  exact hf

/-- C2: if the live generation differs from the generation captured at the start
of the cycle at any of the three checks (after the categories fetch, after the
streams fetch, at the locked publish step), the cycle replaces none of the
published channel list, uid index, group membership, ordered group names and
retained stream list. -/
theorem C2_stale_generation_not_published (env : CycleEnv) (st : ClientState)
    (h : env.generationAt 0 ≠ st.generation ∨ env.generationAt 1 ≠ st.generation
      ∨ env.generationAt 2 ≠ st.generation) :
    (workerCycle env st).state.published = st.published := by
  unfold workerCycle
  split_ifs
  · rfl
  · rfl
  · exact runCycle_stale env { st with workRequested := false } h

set_option maxRecDepth 1000000 in
/-- Witness for `C2_stale_generation_not_published`: the generation advances from
7 to 8 while the streams are fetched; the fetched catalog is dropped. -/
theorem C2_stale_generation_not_published_witness :
    earlyGenerationEnv.generationAt 1 ≠ staleState.generation
      ∧ (workerCycle earlyGenerationEnv staleState).state.published = staleState.published :=
  ⟨by decide,
    C2_stale_generation_not_published earlyGenerationEnv staleState (Or.inr (Or.inl (by decide)))⟩

set_option maxRecDepth 1000000 in
/-- C1 (the code at the failing input): the categories request succeeds, the
per-category streams request for the one kept category fails and the bulk
fallback request fails too, while the generation is unchanged. The cycle then
falls through to the publish step: the published channel list, uid index, group
membership, group names and stream list are replaced by empty ones, the data is
flagged as loaded, and `SaveCache` is called with an empty channel list. -/
theorem C1_failed_fallback_publishes_empty :
    (FetchLiveStreams (streamsUrl staleFilterState.xtreamSettings 3)
        (streamsDownEnv.httpGet 1 (streamsUrl staleFilterState.xtreamSettings 3))).1.ok = false
      ∧ (FetchLiveStreams (streamsUrl staleFilterState.xtreamSettings 0)
        (streamsDownEnv.httpGet 2 (streamsUrl staleFilterState.xtreamSettings 0))).1.ok = false
      ∧ staleFilterState.published.channels
          = some [{ uniqueId := 11, channelName := ascii "Old One", channelNumber := 1 }]
      ∧ (workerCycle streamsDownEnv staleFilterState).state.published
          = { channels := some [], uidToStreamId := some [], groupMembers := some []
              groupNamesOrdered := some [], streams := some [] }
      ∧ (workerCycle streamsDownEnv staleFilterState).state.dataLoaded = true
      ∧ (workerCycle streamsDownEnv staleFilterState).savedCache
          = some (ascii "sig", [{ id := 3, name := ascii "News" }], []) := by
  decide

set_option maxRecDepth 1000000 in
/-- C3 (the code at the failing input): all requests succeed and the generation
still equals the captured one (7) at the three checks, but has advanced to 8 by
the time of the EPG swap. The swap is made all the same: the published EPG
snapshot is replaced by the result of the stale cycle. -/
theorem C3_stale_epg_is_swapped :
    lateGenerationEnv.generationAt 3 ≠ staleState.generation
      ∧ staleState.epgData
          = some [{ id := ascii "11", entries := [(100, { startTime := 100, endTime := 200 })] }]
      ∧ (workerCycle lateGenerationEnv staleState).state.epgData
          = some [{ id := ascii "5", displayName := ascii "BBC"
                    entries := [(1769022000,
                      { channelId := ascii "bbc.uk", startTime := 1769022000
                        endTime := 1769025600, title := ascii "News" })] }] := by
  decide

/-! ### Stored entries (C11, C12) -/

theorem mem_mapSet {κ ν : Type} [DecidableEq κ] (m : List (κ × ν)) (k : κ) (v : ν) (p : κ × ν)
    (h : p ∈ mapSet m k v) : p = (k, v) ∨ p ∈ m := by
  induction m with
  | nil => simpa [mapSet] using h
  | cons q rest ih =>
    obtain ⟨a, b⟩ := q
    unfold mapSet at h
    by_cases hak : a = k
    · rw [if_pos hak] at h
      rcases List.mem_cons.mp h with h1 | h1
      · exact Or.inl h1
      · exact Or.inr (List.mem_cons_of_mem _ h1)
    · rw [if_neg hak] at h
      rcases List.mem_cons.mp h with h1 | h1
      · exact Or.inr (by rw [h1]; exact List.mem_cons_self _ _)
      · rcases ih h1 with h2 | h2
        · exact Or.inl h2
        · exact Or.inr (List.mem_cons_of_mem _ h2)

theorem mem_entriesSet (m : List (Int × EpgEntry)) (k : Int) (e : EpgEntry) (p : Int × EpgEntry)
    (h : p ∈ entriesSet m k e) : p = (k, e) ∨ p ∈ m := by
  induction m with
  | nil => simpa [entriesSet] using h
  | cons q rest ih =>
    obtain ⟨a, b⟩ := q
    unfold entriesSet at h
    by_cases h1 : k < a
    · rw [if_pos h1] at h
      rcases List.mem_cons.mp h with h2 | h2
      · exact Or.inl h2
      · exact Or.inr h2
    · rw [if_neg h1] at h
      by_cases h3 : k = a
      · rw [if_pos h3] at h
        rcases List.mem_cons.mp h with h2 | h2
        · exact Or.inl h2
        · exact Or.inr (List.mem_cons_of_mem _ h2)
      · rw [if_neg h3] at h
        rcases List.mem_cons.mp h with h2 | h2
        · exact Or.inr (by rw [h2]; exact List.mem_cons_self _ _)
        · rcases ih h2 with h4 | h4
          · exact Or.inl h4
          · exact Or.inr (List.mem_cons_of_mem _ h4)

theorem mergeTarget_entriesEmpty (epg : ChannelEpg) (m : List (Bytes × ChannelEpg)) (x : Bytes)
    (h : EntriesEmpty m) : EntriesEmpty (mergeTarget epg m x) := by
  intro kv hkv
  unfold mergeTarget at hkv
  rcases mem_mapSet _ _ _ _ hkv with h1 | h1
  · rw [h1]
    cases hf : mapFind m x with
    | none => simp
    | some t => simpa using h _ (mapFind_mem _ _ _ hf)
  · exact h _ h1

theorem foldl_mergeTarget_entriesEmpty (epg : ChannelEpg) (ids : List Bytes)
    (m : List (Bytes × ChannelEpg)) (h : EntriesEmpty m) :
    EntriesEmpty (ids.foldl (mergeTarget epg) m) := by
  induction ids generalizing m with
  | nil => exact h
  | cons x rest ih => exact ih _ (mergeTarget_entriesEmpty epg m x h)

theorem channelStep_entriesEmpty (idx : StreamIndex) (st : ChannelPass) (c : XmlChannel)
    (h : EntriesEmpty st.epgMap) : EntriesEmpty (channelStep idx st c).epgMap := by
  unfold channelStep
  by_cases h1 : c.id.isEmpty = true
  · rw [if_pos h1]; exact h
  · rw [if_neg h1]
    by_cases h2 : (resolveChannel idx c.id c.displayNameNormalized).isEmpty = true
    · simp only [h2, if_true]
      intro kv hkv
      rcases mem_mapSet _ _ _ _ hkv with h3 | h3
      · rw [h3]
      · exact h _ h3
    · simp only [h2, Bool.false_eq_true, if_false]
      exact foldl_mergeTarget_entriesEmpty _ _ _ h

theorem foldl_channelStep_entriesEmpty (idx : StreamIndex) (cs : List XmlChannel)
    (st : ChannelPass) (h : EntriesEmpty st.epgMap) :
    EntriesEmpty (cs.foldl (channelStep idx) st).epgMap := by
  induction cs generalizing st with
  | nil => exact h
  | cons c rest ih => exact ih _ (channelStep_entriesEmpty idx st c h)

theorem programmeEntry_some (p : XmlProgramme) (e : EpgEntry) (h : programmeEntry p = some e) :
    e.startTime = (parseXmltvTime p.start).getD 0 ∧ e.endTime = (parseXmltvTime p.stop).getD 0
      ∧ e.startTime ≠ 0 ∧ e.endTime ≠ 0 ∧ e.startTime < e.endTime := by
  unfold programmeEntry at h
  simp only at h
  split_ifs at h with hc
  cases h
  simp only [not_or, not_le] at hc
  exact ⟨rfl, rfl, hc.1, hc.2.1, hc.2.2⟩

theorem attachEntry_entriesValid (e : EpgEntry) (m : List (Bytes × ChannelEpg)) (x : Bytes)
    (he : e.startTime < e.endTime) (h : EntriesValid m) : EntriesValid (attachEntry e m x) := by
  unfold attachEntry
  cases hf : mapFind m x with
  | none => exact h
  | some t =>
    intro kv hkv ke hke
    rcases mem_mapSet _ _ _ _ hkv with h1 | h1
    · rw [h1] at hke
      rcases mem_entriesSet _ _ _ _ hke with h2 | h2
      · rw [h2]; exact ⟨rfl, he⟩
      · exact h _ (mapFind_mem _ _ _ hf) _ h2
    · exact h _ h1 _ hke

theorem foldl_attachEntry_entriesValid (e : EpgEntry) (ids : List Bytes)
    (m : List (Bytes × ChannelEpg)) (he : e.startTime < e.endTime) (h : EntriesValid m) :
    EntriesValid (ids.foldl (attachEntry e) m) := by
  induction ids generalizing m with
  | nil => exact h
  | cons x rest ih => exact ih _ (attachEntry_entriesValid e m x he h)

theorem programmeStep_entriesValid (ids : List (Bytes × List Bytes))
    (m : List (Bytes × ChannelEpg)) (p : XmlProgramme) (h : EntriesValid m) :
    EntriesValid (programmeStep ids m p) := by
  unfold programmeStep
  by_cases h1 : p.channel.isEmpty = true
  · rw [if_pos h1]; exact h
  · rw [if_neg h1]
    cases mapFind ids p.channel with
    | none => exact h
    | some mapped =>
      simp only
      by_cases h2 : mapped.isEmpty = true
      · rw [if_pos h2]; exact h
      · rw [if_neg h2]
        cases hpe : programmeEntry p with
        | none => exact h
        | some e =>
          exact foldl_attachEntry_entriesValid e mapped m (programmeEntry_some p e hpe).2.2.2.2 h

theorem foldl_programmeStep_entriesValid (ids : List (Bytes × List Bytes))
    (ps : List XmlProgramme) (m : List (Bytes × ChannelEpg)) (h : EntriesValid m) :
    EntriesValid (ps.foldl (programmeStep ids) m) := by
  induction ps generalizing m with
  | nil => exact h
  | cons p rest ih => exact ih _ (programmeStep_entriesValid ids m p h)

/-- A programme whose times are rejected leaves the map as it is. -/
theorem programmeStep_rejected (ids : List (Bytes × List Bytes)) (m : List (Bytes × ChannelEpg))
    (p : XmlProgramme) (h : programmeEntry p = none) : programmeStep ids m p = m := by
  unfold programmeStep
  by_cases h1 : p.channel.isEmpty = true
  · rw [if_pos h1]
  · rw [if_neg h1]
    cases mapFind ids p.channel with
    | none => rfl
    | some mapped =>
      simp only [h]
      split_ifs <;> rfl

theorem programmeEntry_rejected (p : XmlProgramme)
    (h : parseXmltvTime p.start = none ∨ parseXmltvTime p.stop = none
      ∨ (parseXmltvTime p.stop).getD 0 ≤ (parseXmltvTime p.start).getD 0) :
    programmeEntry p = none := by
  unfold programmeEntry
  simp only
  rw [if_pos]
  rcases h with h | h | h
  · exact Or.inl (by rw [h]; rfl)
  · exact Or.inr (Or.inl (by rw [h]; rfl))
  · exact Or.inr (Or.inr h)

theorem parseXmltvTime_nil : parseXmltvTime [] = none := by
  simp [parseXmltvTime]

/-- C11: every entry of every `ChannelEpg` returned by `ParseXMLTV` ends after
it starts and is stored under the key equal to its own start time; and a
programme whose `start` or `stop` attribute is missing (empty) or does not
parse, or whose end is not after its start, is stored nowhere: the result is
the one obtained from the document without that programme. -/
theorem C11_entries_end_after_start (xmltvData : Bytes) (parsed : Option XmlTv)
    (streams : List LiveStream) :
    (∀ ce ∈ (ParseXMLTV xmltvData parsed streams).2, ∀ ke ∈ ce.entries,
        ke.2.endTime > ke.2.startTime ∧ ke.1 = ke.2.startTime)
      ∧ (∀ (channels : List XmlChannel) (pre post : List XmlProgramme) (p : XmlProgramme),
          parsed = some { channels := channels, programmes := pre ++ p :: post } →
          (p.start = [] ∨ p.stop = [] ∨ parseXmltvTime p.start = none
            ∨ parseXmltvTime p.stop = none
            ∨ (parseXmltvTime p.stop).getD 0 ≤ (parseXmltvTime p.start).getD 0) →
          ParseXMLTV xmltvData parsed streams
            = ParseXMLTV xmltvData (some { channels := channels, programmes := pre ++ post })
                streams) := by
  constructor
  · intro ce hce ke hke
    unfold ParseXMLTV at hce
    by_cases h0 : xmltvData.isEmpty = true
    · rw [if_pos h0] at hce; simp at hce
    · rw [if_neg h0] at hce
      cases parsed with
      | none => simp at hce
      | some tv =>
        simp only [List.mem_map, List.mem_filter] at hce
        obtain ⟨kv, ⟨hkv, -⟩, rfl⟩ := hce
        have hv : EntriesValid (tv.programmes.foldl
            (programmeStep (tv.channels.foldl (channelStep (buildIndex streams)) {}).xmltvIdToMappedIds)
            (tv.channels.foldl (channelStep (buildIndex streams)) {}).epgMap) := by
          apply foldl_programmeStep_entriesValid
          intro kv hkv ke hke
          have := foldl_channelStep_entriesEmpty (buildIndex streams) tv.channels {}
            (by intro kv hkv; simp at hkv) kv hkv
          rw [this] at hke
          simp at hke
        have := hv kv hkv ke hke
        exact ⟨this.2, this.1⟩
  · intro channels pre post p hp hbad
    have hrej : programmeEntry p = none := by
      apply programmeEntry_rejected
      rcases hbad with h | h | h | h | h
      · exact Or.inl (by rw [h]; exact parseXmltvTime_nil)
      · exact Or.inr (Or.inl (by rw [h]; exact parseXmltvTime_nil))
      · exact Or.inl h
      · exact Or.inr (Or.inl h)
      · exact Or.inr (Or.inr h)
    subst hp
    unfold ParseXMLTV
    simp only [List.foldl_append, List.foldl_cons, programmeStep_rejected _ _ p hrej]

set_option maxRecDepth 1000000 in
/-- Witness for `C11_entries_end_after_start`: a programme that stops an hour
before it starts is dropped from the document of `bbcDoc`. -/
theorem C11_entries_end_after_start_witness :
    (parseXmltvTime reversedTimesProgramme.stop).getD 0
        ≤ (parseXmltvTime reversedTimesProgramme.start).getD 0
      ∧ ParseXMLTV (ascii "<tv/>")
          (some { channels := bbcDoc.channels
                  programmes := [] ++ reversedTimesProgramme :: bbcDoc.programmes })
          [{ id := 5, name := ascii "BBC", epgChannelId := ascii "bbc.uk" }]
        = ParseXMLTV (ascii "<tv/>")
            (some { channels := bbcDoc.channels, programmes := [] ++ bbcDoc.programmes })
            [{ id := 5, name := ascii "BBC", epgChannelId := ascii "bbc.uk" }] :=
  ⟨by decide,
    (C11_entries_end_after_start (ascii "<tv/>") _
      [{ id := 5, name := ascii "BBC", epgChannelId := ascii "bbc.uk" }]).2
      bbcDoc.channels [] bbcDoc.programmes reversedTimesProgramme rfl
      (Or.inr (Or.inr (Or.inr (Or.inr (by decide)))))⟩

theorem mapFind_entriesSet (m : List (Int × EpgEntry)) (k k' : Int) (e : EpgEntry) :
    mapFind (entriesSet m k e) k' = if k = k' then some e else mapFind m k' := by
  induction m with
  | nil => simp [entriesSet, mapFind]
  | cons q rest ih =>
    obtain ⟨a, b⟩ := q
    unfold entriesSet
    by_cases h1 : k < a
    · rw [if_pos h1]
      conv_lhs => unfold mapFind
    · rw [if_neg h1]
      by_cases h2 : k = a
      · rw [if_pos h2]
        subst h2
        by_cases h3 : k = k'
        · simp [mapFind, h3]
        · simp [mapFind, h3]
      · rw [if_neg h2]
        unfold mapFind
        rw [ih]
        by_cases h3 : a = k'
        · subst h3
          simp [h2]
        · simp [h3]

theorem mergeTarget_find (epg : ChannelEpg) (m : List (Bytes × ChannelEpg)) (x k : Bytes) :
    (x = k → (mapFind (mergeTarget epg m x) k).isSome = true)
      ∧ (x ≠ k → mapFind (mergeTarget epg m x) k = mapFind m k) := by
  unfold mergeTarget
  simp only [mapFind_mapSet]
  constructor
  · intro h; simp [h]
  · intro h; simp [h]

theorem mergeTarget_present (epg : ChannelEpg) (m : List (Bytes × ChannelEpg)) (x k : Bytes)
    (h : (mapFind m k).isSome = true) : (mapFind (mergeTarget epg m x) k).isSome = true := by
  by_cases hx : x = k
  · exact (mergeTarget_find epg m x k).1 hx
  · rw [(mergeTarget_find epg m x k).2 hx]; exact h

theorem mergeTarget_keysAreIds (epg : ChannelEpg) (m : List (Bytes × ChannelEpg)) (x : Bytes)
    (h : KeysAreIds m) : KeysAreIds (mergeTarget epg m x) := by
  intro k t hk
  by_cases hx : x = k
  · subst hx
    unfold mergeTarget at hk
    simp only [mapFind_mapSet, if_true, Option.some.injEq] at hk
    subst hk
    cases hf : mapFind m x with
    | none => simp
    | some t0 =>
      have := h x t0 hf
      simp only [Option.getD_some, this]
      split_ifs <;> rfl
  · rw [(mergeTarget_find epg m x k).2 hx] at hk
    exact h k t hk

theorem foldl_mergeTarget_present (epg : ChannelEpg) (ids : List Bytes)
    (m : List (Bytes × ChannelEpg)) (k : Bytes)
    (h : (mapFind m k).isSome = true ∨ k ∈ ids) :
    (mapFind (ids.foldl (mergeTarget epg) m) k).isSome = true := by
  induction ids generalizing m with
  | nil => simpa using h
  | cons x rest ih =>
    apply ih
    rcases h with h | h
    · exact Or.inl (mergeTarget_present epg m x k h)
    · rcases List.mem_cons.mp h with h1 | h1
      · exact Or.inl ((mergeTarget_find epg m x k).1 h1.symm)
      · exact Or.inr h1

theorem foldl_mergeTarget_keysAreIds (epg : ChannelEpg) (ids : List Bytes)
    (m : List (Bytes × ChannelEpg)) (h : KeysAreIds m) :
    KeysAreIds (ids.foldl (mergeTarget epg) m) := by
  induction ids generalizing m with
  | nil => exact h
  | cons x rest ih => exact ih _ (mergeTarget_keysAreIds epg m x h)

theorem channelStep_epgMap_present (idx : StreamIndex) (st : ChannelPass) (c : XmlChannel)
    (k : Bytes) (h : (mapFind st.epgMap k).isSome = true) :
    (mapFind (channelStep idx st c).epgMap k).isSome = true := by
  unfold channelStep
  by_cases h1 : c.id.isEmpty = true
  · rw [if_pos h1]; exact h
  · rw [if_neg h1]
    by_cases h2 : (resolveChannel idx c.id c.displayNameNormalized).isEmpty = true
    · simp only [h2, if_true, mapFind_mapSet]
      split_ifs
      · rfl
      · exact h
    · simp only [h2, Bool.false_eq_true, if_false]
      exact foldl_mergeTarget_present _ _ _ _ (Or.inl h)

theorem channelStep_keysAreIds (idx : StreamIndex) (st : ChannelPass) (c : XmlChannel)
    (h : KeysAreIds st.epgMap) : KeysAreIds (channelStep idx st c).epgMap := by
  unfold channelStep
  by_cases h1 : c.id.isEmpty = true
  · rw [if_pos h1]; exact h
  · rw [if_neg h1]
    by_cases h2 : (resolveChannel idx c.id c.displayNameNormalized).isEmpty = true
    · simp only [h2, if_true]
      intro k t hk
      rw [mapFind_mapSet] at hk
      by_cases h3 : c.id = k
      · rw [if_pos h3] at hk
        cases hk
        exact h3
      · rw [if_neg h3] at hk
        exact h k t hk
    · simp only [h2, Bool.false_eq_true, if_false]
      exact foldl_mergeTarget_keysAreIds _ _ _ h

/-- What the first pass records for the channel it is processing. -/
theorem channelStep_ids_self (idx : StreamIndex) (st : ChannelPass) (c : XmlChannel)
    (hid : c.id ≠ []) (hres : resolveChannel idx c.id c.displayNameNormalized ≠ []) :
    mapFind (channelStep idx st c).xmltvIdToMappedIds c.id
      = some (resolveChannel idx c.id c.displayNameNormalized) := by
  have h1 : c.id.isEmpty = false := by cases h : c.id <;> simp_all
  have h2 : (resolveChannel idx c.id c.displayNameNormalized).isEmpty = false := by
    cases h : resolveChannel idx c.id c.displayNameNormalized <;> simp_all
  unfold channelStep
  simp only [h1, h2, Bool.false_eq_true, if_false, mapFind_mapSet, if_true]

/-- Another channel does not change what is recorded for id `x`. -/
theorem channelStep_ids_other (idx : StreamIndex) (st : ChannelPass) (c : XmlChannel)
    (x : Bytes) (hc : c.id ≠ x) :
    mapFind (channelStep idx st c).xmltvIdToMappedIds x = mapFind st.xmltvIdToMappedIds x := by
  unfold channelStep
  by_cases h1 : c.id.isEmpty = true
  · rw [if_pos h1]
  · rw [if_neg h1]
    by_cases h2 : (resolveChannel idx c.id c.displayNameNormalized).isEmpty = true
    · simp only [h2, if_true, mapFind_mapSet, if_neg hc]
    · simp only [h2, Bool.false_eq_true, if_false, mapFind_mapSet, if_neg hc]

theorem foldl_channelStep_ids_other (idx : StreamIndex) (cs : List XmlChannel) (st : ChannelPass)
    (x : Bytes) (hc : ∀ c ∈ cs, c.id ≠ x) :
    mapFind (cs.foldl (channelStep idx) st).xmltvIdToMappedIds x
      = mapFind st.xmltvIdToMappedIds x := by
  induction cs generalizing st with
  | nil => rfl
  | cons c rest ih =>
    rw [List.foldl_cons, ih _ (fun c' hc' => hc c' (List.mem_cons_of_mem _ hc')),
      channelStep_ids_other idx st c x (hc c (List.mem_cons_self _ _))]

theorem channelStep_covered (idx : StreamIndex) (st : ChannelPass) (c : XmlChannel)
    (h : Covered st) : Covered (channelStep idx st c) := by
  intro x mapped hx s hs
  by_cases h1 : c.id.isEmpty = true
  · simp only [channelStep, h1, if_true] at hx ⊢
    exact h x mapped hx s hs
  · by_cases h2 : (resolveChannel idx c.id c.displayNameNormalized).isEmpty = true
    · simp only [channelStep, h1, h2, if_true, Bool.false_eq_true, if_false,
        mapFind_mapSet] at hx ⊢
      by_cases h3 : c.id = x
      · rw [if_pos h3] at hx
        cases hx
        simp only [List.mem_singleton] at hs
        simp [hs]
      · rw [if_neg h3] at hx
        have := h x mapped hx s hs
        split_ifs
        · rfl
        · exact this
    · simp only [channelStep, h1, h2, Bool.false_eq_true, if_false, mapFind_mapSet] at hx ⊢
      apply foldl_mergeTarget_present
      by_cases h3 : c.id = x
      · rw [if_pos h3] at hx
        cases hx
        exact Or.inr hs
      · rw [if_neg h3] at hx
        exact Or.inl (h x mapped hx s hs)

theorem foldl_channelStep_invariants (idx : StreamIndex) (cs : List XmlChannel) (st : ChannelPass)
    (h1 : Covered st) (h2 : KeysAreIds st.epgMap) :
    Covered (cs.foldl (channelStep idx) st) ∧ KeysAreIds (cs.foldl (channelStep idx) st).epgMap := by
  induction cs generalizing st with
  | nil => exact ⟨h1, h2⟩
  | cons c rest ih =>
    exact ih _ (channelStep_covered idx st c h1) (channelStep_keysAreIds idx st c h2)

theorem attachEntry_find (e : EpgEntry) (m : List (Bytes × ChannelEpg)) (x k : Bytes) :
    mapFind (attachEntry e m x) k
      = if x = k then (mapFind m k).map
          (fun t => { t with entries := entriesSet t.entries e.startTime e })
        else mapFind m k := by
  unfold attachEntry
  by_cases hx : x = k
  · subst hx
    cases hf : mapFind m x with
    | none => simp [hf]
    | some t => simp [mapFind_mapSet]
  · cases hf : mapFind m x with
    | none => simp [hx]
    | some t => simp [mapFind_mapSet, hx]

theorem attachEntry_storedAt (e : EpgEntry) (m : List (Bytes × ChannelEpg)) (x s : Bytes)
    (k : Int) (hs : (mapFind m s).isSome = true) :
    storedAt (attachEntry e m x) s k
      = if x = s ∧ e.startTime = k then some e else storedAt m s k := by
  unfold storedAt
  rw [attachEntry_find]
  obtain ⟨t, ht⟩ := Option.isSome_iff_exists.mp hs
  by_cases hx : x = s
  · subst hx
    simp only [ht, Option.map_some', if_true, true_and, mapFind_entriesSet]
  · simp [hx]

theorem attachEntry_present (e : EpgEntry) (m : List (Bytes × ChannelEpg)) (x s : Bytes) :
    (mapFind (attachEntry e m x) s).isSome = (mapFind m s).isSome := by
  rw [attachEntry_find]
  split_ifs <;> simp

theorem attachEntry_keysAreIds (e : EpgEntry) (m : List (Bytes × ChannelEpg)) (x : Bytes)
    (h : KeysAreIds m) : KeysAreIds (attachEntry e m x) := by
  intro k t hk
  rw [attachEntry_find] at hk
  by_cases hx : x = k
  · rw [if_pos hx] at hk
    cases hf : mapFind m k with
    | none => simp [hf] at hk
    | some t0 =>
      simp only [hf, Option.map_some', Option.some.injEq] at hk
      subst hk
      exact h k t0 hf
  · rw [if_neg hx] at hk
    exact h k t hk

theorem foldl_attachEntry (e : EpgEntry) (ids : List Bytes) (m : List (Bytes × ChannelEpg))
    (s : Bytes) (k : Int) (hs : (mapFind m s).isSome = true) (hk : KeysAreIds m) :
    storedAt (ids.foldl (attachEntry e) m) s k
        = (if s ∈ ids ∧ e.startTime = k then some e else storedAt m s k)
      ∧ (mapFind (ids.foldl (attachEntry e) m) s).isSome = true
      ∧ KeysAreIds (ids.foldl (attachEntry e) m) := by
  induction ids generalizing m with
  | nil => simp [hs, hk]
  | cons x rest ih =>
    have hs1 : (mapFind (attachEntry e m x) s).isSome = true := by
      rw [attachEntry_present]; exact hs
    obtain ⟨h1, h2, h3⟩ := ih (attachEntry e m x) hs1 (attachEntry_keysAreIds e m x hk)
    refine ⟨?_, h2, h3⟩
    rw [List.foldl_cons, h1, attachEntry_storedAt e m x s k hs]
    by_cases hk' : e.startTime = k
    · by_cases hr : s ∈ rest
      · simp [hr, hk']
      · by_cases hx : x = s
        · simp [hx, hk']
        · have : ¬ s = x := fun h => hx h.symm
          simp [hr, hx, this, hk']
    · simp [hk']

theorem programmeStep_storedAt (ids : List (Bytes × List Bytes)) (m : List (Bytes × ChannelEpg))
    (p : XmlProgramme) (s : Bytes) (k : Int) (hs : (mapFind m s).isSome = true)
    (hk : KeysAreIds m) :
    storedAt (programmeStep ids m p) s k
        = (match contribution ids s k p with
           | some e => some e
           | none => storedAt m s k)
      ∧ (mapFind (programmeStep ids m p) s).isSome = true
      ∧ KeysAreIds (programmeStep ids m p) := by
  unfold programmeStep contribution
  by_cases h1 : p.channel.isEmpty = true
  · simp only [h1, if_true]
    exact ⟨trivial, hs, hk⟩
  · simp only [h1, Bool.false_eq_true, if_false]
    cases mapFind ids p.channel with
    | none => exact ⟨rfl, hs, hk⟩
    | some mapped =>
      simp only
      by_cases h2 : mapped.isEmpty = true
      · have : mapped = [] := by simpa using h2
        subst this
        simp only [List.isEmpty_nil, if_true, List.not_mem_nil, if_false]
        exact ⟨trivial, hs, hk⟩
      · rw [if_neg h2]
        cases hpe : programmeEntry p with
        | none =>
          simp only
          refine ⟨?_, hs, hk⟩
          split_ifs <;> rfl
        | some e =>
          simp only
          obtain ⟨h3, h4, h5⟩ := foldl_attachEntry e mapped m s k hs hk
          refine ⟨?_, h4, h5⟩
          rw [h3]
          by_cases hm : s ∈ mapped
          · by_cases he : e.startTime = k
            · simp [hm, he]
            · simp [hm, he]
          · simp [hm]

theorem getLast?_cons_or {α : Type} (a : α) (l : List α) :
    (a :: l).getLast? = (l.getLast?).or (some a) := by
  cases l with
  | nil => rfl
  | cons b r =>
    rw [List.getLast?_cons_cons]
    cases h : (b :: r).getLast? with
    | none => simp at h
    | some x => rfl

theorem foldl_programmeStep_storedAt (ids : List (Bytes × List Bytes)) (ps : List XmlProgramme)
    (m : List (Bytes × ChannelEpg)) (s : Bytes) (k : Int) (hs : (mapFind m s).isSome = true)
    (hk : KeysAreIds m) :
    storedAt (ps.foldl (programmeStep ids) m) s k
        = (lastContribution ids s k ps).or (storedAt m s k)
      ∧ (mapFind (ps.foldl (programmeStep ids) m) s).isSome = true
      ∧ KeysAreIds (ps.foldl (programmeStep ids) m) := by
  induction ps generalizing m with
  | nil => exact ⟨by simp [lastContribution], hs, hk⟩
  | cons p rest ih =>
    obtain ⟨h1, h2, h3⟩ := programmeStep_storedAt ids m p s k hs hk
    obtain ⟨h4, h5, h6⟩ := ih (programmeStep ids m p) h2 h3
    refine ⟨?_, h5, h6⟩
    rw [List.foldl_cons, h4, h1]
    unfold lastContribution
    cases hc : contribution ids s k p with
    | none => simp [List.filterMap_cons, hc]
    | some e =>
      simp only [List.filterMap_cons, hc, getLast?_cons_or]
      cases (List.filterMap (contribution ids s k) rest).getLast? <;> rfl

set_option maxRecDepth 1000000 in
/-- C12 (as stated, refuted): the channels `bbc.uk` and `5` are both resolved to
stream 5; the programme `News` of channel `bbc.uk` is valid and no other
programme of its channel starts at the same time, yet the record returned for
stream 5 holds, under that start time, the programme `Film` of channel `5`. -/
theorem C12_other_channel_overwrites :
    (firstPass bbcCatalog twoChannelsOneStreamDoc).xmltvIdToMappedIds
        = [(ascii "bbc.uk", [ascii "5"]), (ascii "5", [ascii "5"])]
      ∧ twoChannelsOneStreamDoc.programmes.map (fun p => (programmeEntry p).map (·.startTime))
          = [some 1769022000, some 1769022000]
      ∧ twoChannelsOneStreamDoc.programmes.map (·.channel) = [ascii "bbc.uk", ascii "5"]
      ∧ (ParseXMLTV (ascii "<tv/>") (some twoChannelsOneStreamDoc) bbcCatalog).2.map
          (fun ce => (ce.id, ce.entries.map (fun ke => (ke.1, ke.2.title))))
          = [(ascii "5", [(1769022000, ascii "Film")])] := by
  decide

/-- C12 (amended): for every valid programme `p` whose channel attribute names a
`<channel>` (the last one with that id in the document) resolved to a non-empty
list of stream ids, and for every id `sid` of that list, a record with id `sid`
is returned, and the entry it holds under `p`'s start time is the entry of the
last programme in document order that is valid, starts at that time and belongs
to a channel resolved to `sid` (`lastContribution`); it is `p`'s own entry when
no later programme is attached to `sid` at that start time. -/
theorem C12_last_attached_programme_wins (xmltvData : Bytes) (streams : List LiveStream)
    (cpre cpost : List XmlChannel) (ch : XmlChannel) (pre post : List XmlProgramme)
    (p : XmlProgramme) (e : EpgEntry) (sid : Bytes)
    (hdata : xmltvData ≠ []) (hid : ch.id ≠ []) (hlast : ∀ c ∈ cpost, c.id ≠ ch.id)
    (hsid : sid ∈ resolveChannel (buildIndex streams) ch.id ch.displayNameNormalized)
    (hp : p.channel = ch.id) (hvalid : programmeEntry p = some e) :
    ∃ ce ∈ (ParseXMLTV xmltvData
        (some { channels := cpre ++ ch :: cpost, programmes := pre ++ p :: post }) streams).2,
      ce.id = sid
        ∧ mapFind ce.entries e.startTime
            = lastContribution
                (firstPass streams
                  { channels := cpre ++ ch :: cpost, programmes := pre ++ p :: post }).xmltvIdToMappedIds
                sid e.startTime (pre ++ p :: post)
        ∧ ((∀ q ∈ post,
              contribution
                (firstPass streams
                  { channels := cpre ++ ch :: cpost, programmes := pre ++ p :: post }).xmltvIdToMappedIds
                sid e.startTime q = none)
            → mapFind ce.entries e.startTime = some e) := by
  generalize hP : firstPass streams
    { channels := cpre ++ ch :: cpost, programmes := pre ++ p :: post } = pass1
  have hres : resolveChannel (buildIndex streams) ch.id ch.displayNameNormalized ≠ [] := by
    intro h; rw [h] at hsid; simp at hsid
  -- what the first pass recorded
  have hids : mapFind pass1.xmltvIdToMappedIds ch.id
      = some (resolveChannel (buildIndex streams) ch.id ch.displayNameNormalized) := by
    rw [← hP]
    show mapFind (List.foldl (channelStep (buildIndex streams)) {} (cpre ++ ch :: cpost)).xmltvIdToMappedIds
      ch.id = _
    rw [List.foldl_append, List.foldl_cons, foldl_channelStep_ids_other _ _ _ _ hlast,
      channelStep_ids_self _ _ _ hid hres]
  have hinv : Covered pass1 ∧ KeysAreIds pass1.epgMap := by
    rw [← hP]
    exact foldl_channelStep_invariants (buildIndex streams) _ {}
      (by intro x mapped hx; simp [mapFind] at hx) (by intro k t hk; simp [mapFind] at hk)
  have hempty : EntriesEmpty pass1.epgMap := by
    rw [← hP]
    exact foldl_channelStep_entriesEmpty (buildIndex streams) _ {} (by intro kv hkv; simp at hkv)
  have hpres : (mapFind pass1.epgMap sid).isSome = true := hinv.1 ch.id _ hids sid hsid
  have hinit : ∀ k, storedAt pass1.epgMap sid k = none := by
    intro k
    obtain ⟨t, ht⟩ := Option.isSome_iff_exists.mp hpres
    have := hempty _ (mapFind_mem _ _ _ ht)
    simp only at this
    simp [storedAt, ht, this, mapFind]
  obtain ⟨h1, h2, h3⟩ := foldl_programmeStep_storedAt pass1.xmltvIdToMappedIds (pre ++ p :: post)
    pass1.epgMap sid e.startTime hpres hinv.2
  rw [hinit, Option.or_none] at h1
  -- the contribution of `p` itself
  have hne : p.channel.isEmpty = false := by rw [hp]; cases h : ch.id <;> simp_all
  have hcp : contribution pass1.xmltvIdToMappedIds sid e.startTime p = some e := by
    unfold contribution
    rw [hne, hp, hids]
    simp [hsid, hvalid]
  have hsome : ∃ e', lastContribution pass1.xmltvIdToMappedIds sid e.startTime (pre ++ p :: post)
      = some e' := by
    unfold lastContribution
    rw [List.filterMap_append, List.filterMap_cons, hcp]
    cases hl : (List.filterMap (contribution pass1.xmltvIdToMappedIds sid e.startTime) pre
        ++ e :: List.filterMap (contribution pass1.xmltvIdToMappedIds sid e.startTime) post).getLast? with
    | none => simp at hl
    | some e' => exact ⟨e', rfl⟩
  obtain ⟨t, ht⟩ := Option.isSome_iff_exists.mp h2
  have hst : mapFind t.entries e.startTime
      = lastContribution pass1.xmltvIdToMappedIds sid e.startTime (pre ++ p :: post) := by
    rw [← h1]; unfold storedAt; rw [ht]
  have hnonempty : t.entries ≠ [] := by
    intro h
    obtain ⟨e', he'⟩ := hsome
    rw [h, he'] at hst
    simp [mapFind] at hst
  refine ⟨t, ?_, h3 sid t ht, hst, ?_⟩
  · have hd : xmltvData.isEmpty = false := by cases xmltvData <;> simp_all
    unfold ParseXMLTV
    simp only [hd, Bool.false_eq_true, if_false, List.mem_map, List.mem_filter]
    refine ⟨(sid, t), ⟨?_, ?_⟩, rfl⟩
    · have := mapFind_mem _ _ _ ht
      rw [← hP] at this
      exact this
    · cases hte : t.entries with
      | nil => exact absurd hte hnonempty
      | cons a r => simp
  · intro hpost
    rw [hst]
    unfold lastContribution
    have : List.filterMap (contribution pass1.xmltvIdToMappedIds sid e.startTime) post = [] := by
      rw [List.filterMap_eq_nil_iff]
      exact hpost
    rw [List.filterMap_append, List.filterMap_cons, hcp, this]
    simp

set_option maxRecDepth 1000000 in
/-- Witness for `C12_last_attached_programme_wins`: the single programme of
`bbcDoc` is stored in the record of stream 5. -/
theorem C12_last_attached_programme_wins_witness :
    (ascii "5") ∈ resolveChannel (buildIndex bbcCatalog) (ascii "bbc.uk") (ascii "BBC")
      ∧ ∃ ce ∈ (ParseXMLTV (ascii "<tv/>") (some bbcDoc) bbcCatalog).2,
          ce.id = ascii "5" ∧ (mapFind ce.entries 1769022000).map (·.title) = some (ascii "News") := by
  refine ⟨by decide, ?_⟩
  obtain ⟨ce, hce, hid, -, hown⟩ :=
    C12_last_attached_programme_wins (ascii "<tv/>") bbcCatalog [] []
      { id := ascii "bbc.uk", displayName := some (ascii "BBC") } [] []
      { channel := ascii "bbc.uk", start := ascii "20260121200000 +0100"
        stop := ascii "20260121210000 +0100", title := some (ascii "News") }
      { channelId := ascii "bbc.uk", startTime := 1769022000, endTime := 1769025600
        title := ascii "News" }
      (ascii "5") (by decide) (by decide) (by simp) (by decide) rfl (by decide)
  refine ⟨ce, hce, hid, ?_⟩
  rw [hown (by simp)]
  rfl

/-! ### Disk cache codec -/

@[simp] theorem Outcome.bind_ok {α β : Type} (a : α) (f : α → Outcome β) :
    (Outcome.ok a).bind f = f a := rfl

@[simp] theorem Outcome.bind_miss {α β : Type} (f : α → Outcome β) :
    (Outcome.miss : Outcome α).bind f = .miss := rfl

@[simp] theorem Outcome.bind_fault {α β : Type} (f : α → Outcome β) :
    (Outcome.fault : Outcome α).bind f = .fault := rfl

theorem Outcome.bind_eq_ok {α β : Type} (x : Outcome α) (f : α → Outcome β) (b : β) :
    x.bind f = .ok b ↔ ∃ a, x = .ok a ∧ f a = .ok b := by
  cases x <;> simp [Outcome.bind]

theorem byteAt_lt (inp : Bytes) (i : Nat) (h : i < inp.length) :
    byteAt inp i = .ok (inp.getD i 0 % 256) := by
  unfold byteAt
  rw [List.getD_eq_getElem?_getD, List.getElem?_eq_getElem h]
  rfl

theorem ReadU32_eq (inp : Bytes) (off : Nat) :
    ReadU32 inp off = if off + 4 ≤ inp.length then .ok (rd32 inp off, off + 4) else .miss := by
  unfold ReadU32
  by_cases h : off + 4 ≤ inp.length
  · rw [if_neg (by omega), if_pos h, byteAt_lt _ _ (by omega), byteAt_lt _ _ (by omega),
      byteAt_lt _ _ (by omega), byteAt_lt _ _ (by omega)]
    rfl
  · rw [if_pos (by omega), if_neg h]

theorem ReadI32_eq (inp : Bytes) (off : Nat) :
    ReadI32 inp off
      = if off + 4 ≤ inp.length then .ok (wrapInt32 (rd32 inp off), off + 4) else .miss := by
  unfold ReadI32
  rw [ReadU32_eq]
  split_ifs <;> rfl

theorem foldl_byteAt (inp : Bytes) (off : Nat) (is : List Nat) (v : Nat)
    (h : ∀ i ∈ is, off + i < inp.length) :
    is.foldl
        (fun (acc : Outcome Nat) i =>
          acc.bind fun v => (byteAt inp (off + i)).bind fun b => Outcome.ok (v ||| (b <<< (8 * i))))
        (Outcome.ok v)
      = .ok (is.foldl (fun v i => v ||| ((inp.getD (off + i) 0 % 256) <<< (8 * i))) v) := by
  induction is generalizing v with
  | nil => rfl
  | cons i rest ih =>
    rw [List.foldl_cons, List.foldl_cons, Outcome.bind_ok,
      byteAt_lt _ _ (h i (List.mem_cons_self _ _)), Outcome.bind_ok]
    exact ih _ (fun j hj => h j (List.mem_cons_of_mem _ hj))

theorem ReadU64_eq (inp : Bytes) (off : Nat) :
    ReadU64 inp off = if off + 8 ≤ inp.length then .ok (rd64 inp off, off + 8) else .miss := by
  unfold ReadU64
  by_cases h : off + 8 ≤ inp.length
  · rw [if_neg (by omega), if_pos h, foldl_byteAt]
    · rfl
    · intro i hi
      have := List.mem_range.mp hi
      omega
  · rw [if_pos (by omega), if_neg h]

theorem readBytes_eq (n : Nat) (inp : Bytes) (off : Nat) :
    readBytes n inp off
      = if off + n ≤ inp.length then .ok ((inp.drop off).take n, off + n) else .miss := by
  unfold readBytes substr
  by_cases h : off + n ≤ inp.length
  · rw [if_neg (by omega), if_pos h, if_neg (by omega)]
    rfl
  · rw [if_pos (by omega), if_neg h]

theorem getD_take (inp : Bytes) (m i : Nat) (h : i < m) : (inp.take m).getD i 0 = inp.getD i 0 := by
  rw [List.getD_eq_getElem?_getD, List.getD_eq_getElem?_getD, List.getElem?_take_of_lt h]

theorem rd32_take (inp : Bytes) (m off : Nat) (h : off + 4 ≤ m) :
    rd32 (inp.take m) off = rd32 inp off := by
  unfold rd32
  rw [getD_take _ _ _ (by omega), getD_take _ _ _ (by omega), getD_take _ _ _ (by omega),
    getD_take _ _ _ (by omega)]

theorem rd64_take (inp : Bytes) (m off : Nat) (h : off + 8 ≤ m) :
    rd64 (inp.take m) off = rd64 inp off := by
  unfold rd64
  apply List.foldl_ext
  intro v i hi
  have := List.mem_range.mp hi
  rw [getD_take _ _ _ (by omega)]

theorem take_drop_take (inp : Bytes) (m off n : Nat) (h : off + n ≤ m) :
    ((inp.take m).drop off).take n = (inp.drop off).take n := by
  rw [List.drop_take, List.take_take, Nat.min_eq_left (by omega)]

theorem exact_of_window {α : Type} (F : Step α) (n : Nat) (val : Bytes → Nat → α)
    (hF : ∀ inp off, F inp off = if off + n ≤ inp.length then .ok (val inp off, off + n) else .miss)
    (hval : ∀ inp m off, off + n ≤ m → val (inp.take m) off = val inp off) : F.Exact := by
  intro inp off _
  constructor
  · rw [hF]; split_ifs <;> simp
  · intro a off' h
    rw [hF] at h
    by_cases hn : off + n ≤ inp.length
    · rw [if_pos hn] at h
      cases h
      refine ⟨by omega, hn, ?_⟩
      intro m _
      constructor
      · intro hm
        rw [hF, if_pos (by rw [List.length_take]; omega), hval _ _ _ hm]
      · intro hm
        rw [hF, if_neg (by rw [List.length_take]; omega)]
    · rw [if_neg hn] at h
      cases h

theorem exact_ReadU32 : Step.Exact ReadU32 :=
  exact_of_window ReadU32 4 rd32 ReadU32_eq rd32_take

theorem exact_ReadI32 : Step.Exact ReadI32 :=
  exact_of_window ReadI32 4 (fun inp off => wrapInt32 (rd32 inp off)) ReadI32_eq
    (fun inp m off h => by simp only [rd32_take inp m off h])

theorem exact_ReadU64 : Step.Exact ReadU64 :=
  exact_of_window ReadU64 8 rd64 ReadU64_eq rd64_take

theorem exact_readBytes (n : Nat) : Step.Exact (readBytes n) :=
  exact_of_window (readBytes n) n (fun inp off => (inp.drop off).take n) (readBytes_eq n)
    (fun inp m off h => take_drop_take inp m off n h)

theorem exact_pure {α : Type} (a : α) : Step.Exact (fun _ off => Outcome.ok (a, off)) := by
  intro inp off hoff
  refine ⟨by simp, ?_⟩
  intro b off' h
  cases h
  refine ⟨le_refl _, hoff, ?_⟩
  intro m hm
  exact ⟨fun _ => rfl, fun h => absurd hm (by omega)⟩

theorem exact_miss {α : Type} : Step.Exact (fun _ _ => (Outcome.miss : Outcome (α × Nat))) := by
  intro inp off _
  refine ⟨by simp, ?_⟩
  intro b off' h
  cases h

theorem exact_bind {α β : Type} (F : Step α) (K : α × Nat → Bytes → Outcome (β × Nat))
    (hF : F.Exact) (hK : ∀ a, Step.Exact (fun inp off => K (a, off) inp)) :
    Step.Exact (fun inp off => (F inp off).bind fun r => K r inp) := by
  intro inp off hoff
  obtain ⟨hnf, hok⟩ := hF inp off hoff
  cases hr : F inp off with
  | fault => exact absurd hr hnf
  | miss =>
    refine ⟨by simp [hr], ?_⟩
    intro b off' h
    simp [hr] at h
  | ok r =>
    obtain ⟨a, o1⟩ := r
    obtain ⟨h1, h2, h3⟩ := hok a o1 hr
    obtain ⟨hnf2, hok2⟩ := hK a inp o1 h2
    refine ⟨by simpa [hr] using hnf2, ?_⟩
    intro b off' h
    simp only [hr, Outcome.bind_ok] at h
    obtain ⟨h4, h5, h6⟩ := hok2 b off' h
    refine ⟨by omega, h5, ?_⟩
    intro m hm
    constructor
    · intro hm'
      simp only [(h3 m hm).1 (by omega), Outcome.bind_ok]
      exact (h6 m (by omega)).1 hm'
    · intro hm'
      by_cases hm1 : m < o1
      · simp only [(h3 m hm).2 hm1, Outcome.bind_miss]
      · simp only [(h3 m hm).1 (by omega), Outcome.bind_ok]
        exact (h6 m (by omega)).2 hm'

theorem exact_guard {α : Type} (c : Prop) [Decidable c] (K : Step α) (hK : K.Exact) :
    Step.Exact (fun inp off => if c then Outcome.miss else K inp off) := by
  by_cases h : c
  · simp only [h, if_true]; exact exact_miss
  · simp only [h, if_false]; exact hK

theorem readCategories_succ (blob : Bytes) (n off : Nat) (acc : List (Int × Bytes)) :
    readCategories blob (n + 1) off acc
      = (ReadI32 blob off).bind fun id =>
        (ReadU32 blob id.2).bind fun nameLen =>
        (readBytes nameLen.1 blob nameLen.2).bind fun name =>
        readCategories blob n name.2
          (if 0 < id.1 ∧ !name.1.isEmpty then mapEmplace acc id.1 name.1 else acc) := by
  conv_lhs => unfold readCategories
  congr 1; funext id
  congr 1; funext nameLen
  unfold readBytes substr
  split_ifs <;> rfl

theorem exact_readCategories (n : Nat) (acc : List (Int × Bytes)) :
    Step.Exact (fun inp off => readCategories inp n off acc) := by
  induction n generalizing acc with
  | zero =>
    have : (fun inp off => readCategories inp 0 off acc) = fun _ off => Outcome.ok (acc, off) := by
      funext inp off; rfl
    rw [this]; exact exact_pure acc
  | succ n ih =>
    have : (fun inp off => readCategories inp (n + 1) off acc)
        = fun inp off => (ReadI32 inp off).bind fun id =>
            (ReadU32 inp id.2).bind fun nameLen =>
            (readBytes nameLen.1 inp nameLen.2).bind fun name =>
            readCategories inp n name.2
              (if 0 < id.1 ∧ !name.1.isEmpty then mapEmplace acc id.1 name.1 else acc) := by
      funext inp off; exact readCategories_succ inp n off acc
    rw [this]
    apply exact_bind _ _ exact_ReadI32
    intro id
    dsimp only
    apply exact_bind _ _ exact_ReadU32
    intro nameLen
    dsimp only
    apply exact_bind _ _ (exact_readBytes _)
    intro name
    dsimp only
    exact ih _

theorem readChannels_succ (blob : Bytes) (n off : Nat) (acc : CachedChannels) :
    readChannels blob (n + 1) off acc
      = (ReadU32 blob off).bind fun uid =>
        (ReadI32 blob uid.2).bind fun catId =>
        (ReadU32 blob catId.2).bind fun chNum =>
        (ReadU32 blob chNum.2).bind fun nameLen =>
        (readBytes nameLen.1 blob nameLen.2).bind fun name =>
        readChannels blob n name.2
          (if uid.1 = 0 ∨ name.1.isEmpty then acc
           else
            { channels := acc.channels ++
                [{ uniqueId := uid.1, isRadio := false, channelName := name.1
                   channelNumber := wrapInt32 chNum.1 }]
              uidToStreamId := mapEmplace acc.uidToStreamId uid.1 (wrapInt32 uid.1)
              channelCategoryIds := acc.channelCategoryIds ++ [catId.1] }) := by
  conv_lhs => unfold readChannels
  congr 1; funext uid
  congr 1; funext catId
  congr 1; funext chNum
  congr 1; funext nameLen
  unfold readBytes substr
  split_ifs <;> rfl

theorem exact_readChannels (n : Nat) (acc : CachedChannels) :
    Step.Exact (fun inp off => readChannels inp n off acc) := by
  induction n generalizing acc with
  | zero =>
    have : (fun inp off => readChannels inp 0 off acc) = fun _ off => Outcome.ok (acc, off) := by
      funext inp off; rfl
    rw [this]; exact exact_pure acc
  | succ n ih =>
    have : (fun inp off => readChannels inp (n + 1) off acc)
        = fun inp off => (ReadU32 inp off).bind fun uid =>
            (ReadI32 inp uid.2).bind fun catId =>
            (ReadU32 inp catId.2).bind fun chNum =>
            (ReadU32 inp chNum.2).bind fun nameLen =>
            (readBytes nameLen.1 inp nameLen.2).bind fun name =>
            readChannels inp n name.2
              (if uid.1 = 0 ∨ name.1.isEmpty then acc
               else
                { channels := acc.channels ++
                    [{ uniqueId := uid.1, isRadio := false, channelName := name.1
                       channelNumber := wrapInt32 chNum.1 }]
                  uidToStreamId := mapEmplace acc.uidToStreamId uid.1 (wrapInt32 uid.1)
                  channelCategoryIds := acc.channelCategoryIds ++ [catId.1] }) := by
      funext inp off; exact readChannels_succ inp n off acc
    rw [this]
    apply exact_bind _ _ exact_ReadU32
    intro uid
    dsimp only
    apply exact_bind _ _ exact_ReadI32
    intro catId
    dsimp only
    apply exact_bind _ _ exact_ReadU32
    intro chNum
    dsimp only
    apply exact_bind _ _ exact_ReadU32
    intro nameLen
    dsimp only
    apply exact_bind _ _ (exact_readBytes _)
    intro name
    dsimp only
    exact ih _

theorem exact_decodeFrom (signature : Bytes) : Step.Exact (decodeFrom signature) := by
  unfold decodeFrom
  apply exact_bind _ _ exact_ReadU32
  intro magic
  dsimp only
  apply exact_guard
  apply exact_bind _ _ exact_ReadU32
  intro sigLen
  dsimp only
  apply exact_bind _ _ (exact_readBytes _)
  intro sigOnDisk
  dsimp only
  apply exact_guard
  apply exact_bind _ _ exact_ReadU64
  intro ts
  dsimp only
  apply exact_bind _ _ exact_ReadU32
  intro catCount
  dsimp only
  apply exact_bind _ _ (exact_readCategories _ _)
  intro cats
  dsimp only
  apply exact_bind _ _ exact_ReadU32
  intro chCount
  dsimp only
  apply exact_bind _ _ (exact_readChannels _ _)
  intro chans
  dsimp only
  intro inp off hoff
  refine ⟨by simp, ?_⟩
  intro b off' h
  cases h
  refine ⟨le_refl _, hoff, ?_⟩
  intro m hm
  exact ⟨fun _ => rfl, fun h => absurd hm (by omega)⟩

/-- The decoder of `TryLoadCacheForSignature` is `decodeFrom` started at 0. -/
theorem decodeCache_eq (blob signature : Bytes) :
    decodeCache blob signature = (decodeFrom signature blob 0).bind fun r => .ok r.1 := by
  unfold decodeCache decodeFrom
  cases ReadU32 blob 0 with
  | fault => rfl
  | miss => rfl
  | ok magic =>
    simp only [Outcome.bind_ok]
    by_cases hm : magic.1 ≠ kCacheMagic
    · rw [if_pos hm, if_pos hm]; rfl
    · rw [if_neg hm, if_neg hm]
      cases ReadU32 blob magic.2 with
      | fault => rfl
      | miss => rfl
      | ok sigLen =>
        simp only [Outcome.bind_ok]
        unfold readBytes
        by_cases hl : sigLen.2 + sigLen.1 > blob.length
        · rw [if_pos hl, if_pos hl]; rfl
        · rw [if_neg hl, if_neg hl]
          cases substr blob sigLen.2 sigLen.1 with
          | fault => rfl
          | miss => rfl
          | ok sigOnDisk =>
            simp only [Outcome.bind_ok]
            by_cases hs : sigOnDisk ≠ signature
            · rw [if_pos hs, if_pos hs]; rfl
            · rw [if_neg hs, if_neg hs]
              cases ReadU64 blob (sigLen.2 + sigLen.1) with
              | fault => rfl
              | miss => rfl
              | ok ts =>
                simp only [Outcome.bind_ok]
                cases ReadU32 blob ts.2 with
                | fault => rfl
                | miss => rfl
                | ok catCount =>
                  simp only [Outcome.bind_ok]
                  cases readCategories blob catCount.1 catCount.2 [] with
                  | fault => rfl
                  | miss => rfl
                  | ok cats =>
                    simp only [Outcome.bind_ok]
                    cases ReadU32 blob cats.2 with
                    | fault => rfl
                    | miss => rfl
                    | ok chCount =>
                      simp only [Outcome.bind_ok]
                      cases readChannels blob chCount.1 chCount.2 {} with
                      | fault => rfl
                      | miss => rfl
                      | ok chans => rfl

theorem decodeFrom_off (signature blob : Bytes) (off : Nat) (d : Decoded) (off' : Nat)
    (h : decodeFrom signature blob off = .ok (d, off')) : d.off = off' := by
  unfold decodeFrom at h
  simp only [Outcome.bind_eq_ok] at h
  obtain ⟨magic, -, h⟩ := h
  split_ifs at h
  simp only [Outcome.bind_eq_ok] at h
  obtain ⟨sigLen, -, sigOnDisk, -, h⟩ := h
  split_ifs at h
  simp only [Outcome.bind_eq_ok] at h
  obtain ⟨ts, -, catCount, -, cats, -, chCount, -, chans, -, h⟩ := h
  cases h
  rfl

/-- What exactness gives for the decoder of `TryLoadCacheForSignature`. -/
theorem decodeCache_exact (blob signature : Bytes) :
    decodeCache blob signature ≠ .fault
      ∧ ∀ d, decodeCache blob signature = .ok d →
          d.off ≤ blob.length
            ∧ (∀ m, d.off ≤ m → decodeCache (blob.take m) signature = .ok d)
            ∧ (∀ m, m < d.off → decodeCache (blob.take m) signature = .miss) := by
  obtain ⟨hnf, hok⟩ := exact_decodeFrom signature blob 0 (Nat.zero_le _)
  constructor
  · rw [decodeCache_eq]
    cases hr : decodeFrom signature blob 0 with
    | fault => exact absurd hr hnf
    | miss => simp
    | ok r => simp
  · intro d hd
    rw [decodeCache_eq, Outcome.bind_eq_ok] at hd
    obtain ⟨r, hr, hd⟩ := hd
    obtain ⟨d', off'⟩ := r
    cases hd
    have hoff := decodeFrom_off signature blob 0 d' off' hr
    obtain ⟨-, h2, h3⟩ := hok d' off' hr
    simp only
    rw [hoff]
    refine ⟨h2, ?_, ?_⟩
    · intro m hm
      rw [decodeCache_eq, (h3 m (Nat.zero_le _)).1 hm]
      rfl
    · intro m hm
      rw [decodeCache_eq, (h3 m (Nat.zero_le _)).2 hm]
      rfl

/-! #### Reading what was written -/

theorem At.length_eq {inp : Bytes} {off : Nat} {rest : Bytes} (h : At inp off rest) :
    inp.length = off + rest.length := by
  obtain ⟨h1, h2⟩ := h
  rw [← h2, List.length_drop]
  omega

theorem At.advance {inp : Bytes} {off : Nat} {w rest : Bytes} (h : At inp off (w ++ rest)) :
    At inp (off + w.length) rest := by
  have hl := h.length_eq
  rw [List.length_append] at hl
  refine ⟨by omega, ?_⟩
  rw [← List.drop_drop, h.2, List.drop_left]

theorem At.getD {inp : Bytes} {off : Nat} {w rest : Bytes} (h : At inp off (w ++ rest)) (i : Nat)
    (hi : i < w.length) : inp.getD (off + i) 0 = w.getD i 0 := by
  rw [List.getD_eq_getElem?_getD, List.getD_eq_getElem?_getD, ← List.getElem?_drop, h.2,
    List.getElem?_append_left hi]

theorem at_end {inp : Bytes} {off : Nat} (h : At inp off []) : off = inp.length := by
  have := h.length_eq
  simp at this
  omega

theorem AppendU32_eq (out : Bytes) (v : Nat) :
    AppendU32 out v = out ++ [v % 256, v / 256 % 256, v / 65536 % 256, v / 16777216 % 256] := by
  unfold AppendU32
  have m : ∀ x, x &&& 0xFF = x % 256 := fun x => and_mask x 8
  simp only [m, Nat.shiftRight_eq_div_pow, Nat.reducePow]

theorem le32_value (v : Nat) :
    (v % 256 % 256) ||| ((v / 256 % 256 % 256) <<< 8) ||| ((v / 65536 % 256 % 256) <<< 16)
        ||| ((v / 16777216 % 256 % 256) <<< 24) = v % 4294967296 := by
  simp only [Nat.shiftLeft_eq, Nat.reducePow, Nat.mod_mod]
  have e1 : v % 256 ||| v / 256 % 256 * 256 = 256 * (v / 256 % 256) + v % 256 := by
    rw [Nat.lor_comm, Nat.mul_comm]
    exact or_eq_add 8 _ _ (by omega)
  have e2 : (256 * (v / 256 % 256) + v % 256) ||| v / 65536 % 256 * 65536
      = 65536 * (v / 65536 % 256) + (256 * (v / 256 % 256) + v % 256) := by
    rw [Nat.lor_comm, Nat.mul_comm]
    exact or_eq_add 16 _ _ (by omega)
  have e3 : (65536 * (v / 65536 % 256) + (256 * (v / 256 % 256) + v % 256))
        ||| v / 16777216 % 256 * 16777216
      = 16777216 * (v / 16777216 % 256)
          + (65536 * (v / 65536 % 256) + (256 * (v / 256 % 256) + v % 256)) := by
    rw [Nat.lor_comm, Nat.mul_comm]
    exact or_eq_add 24 _ _ (by omega)
  rw [e1, e2, e3]
  omega

theorem ReadU32_at {inp : Bytes} {off : Nat} {rest : Bytes} (v : Nat)
    (h : At inp off (AppendU32 [] v ++ rest)) :
    ReadU32 inp off = .ok (v % 4294967296, off + 4) ∧ At inp (off + 4) rest := by
  have hadv := h.advance
  have hlen : (AppendU32 [] v).length = 4 := by simp [AppendU32]
  rw [hlen] at hadv
  refine ⟨?_, hadv⟩
  rw [ReadU32_eq, if_pos hadv.1]
  have g0 := h.getD 0 (by omega)
  have g1 := h.getD 1 (by omega)
  have g2 := h.getD 2 (by omega)
  have g3 := h.getD 3 (by omega)
  rw [Nat.add_zero] at g0
  unfold rd32
  rw [g0, g1, g2, g3, AppendU32_eq]
  simp only [List.nil_append, List.getD_cons_zero, List.getD_cons_succ]
  rw [le32_value]

theorem wrapInt32_toUInt32 (x : Int) : wrapInt32 ((toUInt32 x % 4294967296 : Nat) : Int) = wrapInt32 x := by
  unfold wrapInt32 toUInt32
  omega

theorem ReadI32_at {inp : Bytes} {off : Nat} {rest : Bytes} (x : Int)
    (h : At inp off (AppendI32 [] x ++ rest)) :
    ReadI32 inp off = .ok (wrapInt32 x, off + 4) ∧ At inp (off + 4) rest := by
  obtain ⟨h1, h2⟩ := ReadU32_at (toUInt32 x) h
  refine ⟨?_, h2⟩
  unfold ReadI32
  rw [h1, Outcome.bind_ok]
  simp only [wrapInt32_toUInt32]

theorem readBytes_at {inp : Bytes} {off : Nat} {rest : Bytes} (s : Bytes)
    (h : At inp off (s ++ rest)) :
    readBytes s.length inp off = .ok (s, off + s.length) ∧ At inp (off + s.length) rest := by
  have hadv := h.advance
  refine ⟨?_, hadv⟩
  rw [readBytes_eq, if_pos hadv.1, h.2, List.take_left]

theorem ReadU64_at {inp : Bytes} {off : Nat} {rest : Bytes} (v : Nat)
    (h : At inp off (AppendU64 [] v ++ rest)) :
    (∃ ts, ReadU64 inp off = .ok (ts, off + 8)) ∧ At inp (off + 8) rest := by
  have hadv := h.advance
  have hlen : (AppendU64 [] v).length = 8 := by simp [AppendU64]
  rw [hlen] at hadv
  refine ⟨⟨rd64 inp off, ?_⟩, hadv⟩
  rw [ReadU64_eq, if_pos hadv.1]

theorem AppendU32_append (out : Bytes) (v : Nat) : AppendU32 out v = out ++ AppendU32 [] v := by
  simp [AppendU32]

theorem AppendI32_append (out : Bytes) (v : Int) : AppendI32 out v = out ++ AppendI32 [] v := by
  unfold AppendI32
  exact AppendU32_append out _

theorem AppendU64_append (out : Bytes) (v : Nat) : AppendU64 out v = out ++ AppendU64 [] v := by
  simp [AppendU64]

theorem encCat_eq (kv : Int × Bytes) :
    encCat kv = AppendI32 [] kv.1 ++ (AppendU32 [] (kv.2.length % 4294967296) ++ kv.2) := by
  unfold encCat
  rw [AppendU32_append, List.append_assoc]

theorem encCh_eq (c : CacheChannel) :
    encCh c = AppendU32 [] (c.uid % 4294967296) ++ (AppendI32 [] c.categoryId
      ++ (AppendU32 [] (c.channelNumber % 4294967296)
      ++ (AppendU32 [] (c.name.length % 4294967296) ++ c.name))) := by
  unfold encCh
  rw [AppendU32_append, AppendU32_append (AppendI32 _ _), AppendI32_append]
  simp only [List.append_assoc]

theorem foldl_append_enc {α : Type} (enc : α → Bytes) (f : Bytes → α → Bytes)
    (hf : ∀ b x, f b x = b ++ enc x) (l : List α) (blob : Bytes) :
    l.foldl f blob = blob ++ l.flatMap enc := by
  induction l generalizing blob with
  | nil => simp
  | cons x rest ih => rw [List.foldl_cons, ih, hf, List.flatMap_cons, List.append_assoc]

/-- The layout of the blob written by `SaveCache`. -/
theorem SaveCache_eq (now : Nat) (signature : Bytes) (categories : List LiveCategory)
    (cacheChannels : List CacheChannel) :
    SaveCache now signature categories cacheChannels
      = AppendU32 [] kCacheMagic ++ (AppendU32 [] (signature.length % 4294967296)
        ++ (signature ++ (AppendU64 [] (now % 18446744073709551616)
        ++ (AppendU32 [] ((savedCategories categories).length % 4294967296)
        ++ ((savedCategories categories).flatMap encCat
        ++ (AppendU32 [] (cacheChannels.length % 4294967296)
        ++ (cacheChannels.flatMap encCh ++ []))))))) := by
  unfold SaveCache
  simp only []
  rw [foldl_append_enc encCh _ (fun b c => by
        show AppendU32 (AppendU32 (AppendI32 (AppendU32 b _) _) _) _ ++ _ = _
        rw [encCh_eq, AppendU32_append, AppendU32_append (AppendI32 _ _), AppendI32_append,
          AppendU32_append b]
        simp only [List.append_assoc]),
    AppendU32_append,
    foldl_append_enc encCat _ (fun b kv => by
        show AppendU32 (AppendI32 b _) _ ++ _ = _
        rw [encCat_eq, AppendU32_append, AppendI32_append]
        simp only [List.append_assoc]),
    AppendU32_append, AppendU64_append, AppendU32_append (AppendU32 [] kCacheMagic)]
  simp only [List.append_assoc, List.append_nil, savedCategories]

theorem readCategories_at {inp : Bytes} (cats : List (Int × Bytes)) (rest : Bytes) (off : Nat)
    (acc : List (Int × Bytes)) (h : At inp off (cats.flatMap encCat ++ rest))
    (hlen : ∀ c ∈ cats, c.2.length < 4294967296) :
    ∃ off', readCategories inp cats.length off acc = .ok (cats.foldl decCat acc, off')
      ∧ At inp off' rest := by
  induction cats generalizing off acc with
  | nil => exact ⟨off, rfl, by simpa using h⟩
  | cons c cs ih =>
    rw [List.flatMap_cons, encCat_eq, List.append_assoc, List.append_assoc, List.append_assoc] at h
    obtain ⟨h1, a1⟩ := ReadI32_at _ h
    obtain ⟨h2, a2⟩ := ReadU32_at _ a1
    obtain ⟨h3, a3⟩ := readBytes_at _ a2
    have hc : c.2.length % 4294967296 = c.2.length :=
      Nat.mod_eq_of_lt (hlen c (List.mem_cons_self _ _))
    obtain ⟨off', h4, a4⟩ := ih (off + 4 + 4 + c.2.length)
      (decCat acc c) a3 (fun c' hc' => hlen c' (List.mem_cons_of_mem _ hc'))
    refine ⟨off', ?_, a4⟩
    rw [List.length_cons, readCategories_succ, h1, Outcome.bind_ok, h2, Outcome.bind_ok]
    simp only [Nat.mod_mod, hc, h3, Outcome.bind_ok, List.foldl_cons]
    exact h4

theorem readChannels_at {inp : Bytes} (chans : List CacheChannel) (rest : Bytes) (off : Nat)
    (acc : CachedChannels) (h : At inp off (chans.flatMap encCh ++ rest))
    (hlen : ∀ c ∈ chans, c.name.length < 4294967296) :
    ∃ off', readChannels inp chans.length off acc = .ok (chans.foldl decCh acc, off')
      ∧ At inp off' rest := by
  induction chans generalizing off acc with
  | nil => exact ⟨off, rfl, by simpa using h⟩
  | cons c cs ih =>
    rw [List.flatMap_cons, encCh_eq] at h
    simp only [List.append_assoc] at h
    obtain ⟨h1, a1⟩ := ReadU32_at _ h
    obtain ⟨h2, a2⟩ := ReadI32_at _ a1
    obtain ⟨h3, a3⟩ := ReadU32_at _ a2
    obtain ⟨h4, a4⟩ := ReadU32_at _ a3
    obtain ⟨h5, a5⟩ := readBytes_at _ a4
    have hc : c.name.length % 4294967296 = c.name.length :=
      Nat.mod_eq_of_lt (hlen c (List.mem_cons_self _ _))
    obtain ⟨off', h6, a6⟩ := ih (off + 4 + 4 + 4 + 4 + c.name.length)
      (decCh acc c) a5 (fun c' hc' => hlen c' (List.mem_cons_of_mem _ hc'))
    refine ⟨off', ?_, a6⟩
    rw [List.length_cons, readChannels_succ, h1, Outcome.bind_ok, h2, Outcome.bind_ok, h3,
      Outcome.bind_ok, h4, Outcome.bind_ok]
    simp only [Nat.mod_mod, hc, h5, Outcome.bind_ok, List.foldl_cons]
    exact h6

/-- Decoding the blob written by `SaveCache`, with the same signature: the
reader consumes the whole blob and rebuilds the records one by one. -/
theorem decodeCache_SaveCache (now : Nat) (signature : Bytes) (categories : List LiveCategory)
    (cacheChannels : List CacheChannel)
    (hsig : signature.length < 4294967296)
    (hcn : (savedCategories categories).length < 4294967296)
    (hcl : ∀ c ∈ savedCategories categories, c.2.length < 4294967296)
    (hchn : cacheChannels.length < 4294967296)
    (hchl : ∀ c ∈ cacheChannels, c.name.length < 4294967296) :
    ∃ d, decodeCache (SaveCache now signature categories cacheChannels) signature = .ok d
      ∧ d.off = (SaveCache now signature categories cacheChannels).length
      ∧ d.catCount = (savedCategories categories).length
      ∧ d.chCount = cacheChannels.length
      ∧ d.categoryIdToName = (savedCategories categories).foldl decCat []
      ∧ d.channels = (cacheChannels.foldl decCh {}).channels
      ∧ d.uidToStreamId = (cacheChannels.foldl decCh {}).uidToStreamId
      ∧ d.channelCategoryIds = (cacheChannels.foldl decCh {}).channelCategoryIds := by
  generalize hb : SaveCache now signature categories cacheChannels = blob
  have hlay := SaveCache_eq now signature categories cacheChannels
  rw [hb] at hlay
  have h0 : At blob 0 _ := ⟨Nat.zero_le _, hlay⟩
  obtain ⟨r1, a1⟩ := ReadU32_at _ h0
  obtain ⟨r2, a2⟩ := ReadU32_at _ a1
  obtain ⟨r3, a3⟩ := readBytes_at _ a2
  obtain ⟨⟨ts, r4⟩, a4⟩ := ReadU64_at _ a3
  obtain ⟨r5, a5⟩ := ReadU32_at _ a4
  obtain ⟨o6, r6, a6⟩ := readCategories_at _ _ _ [] a5 hcl
  obtain ⟨r7, a7⟩ := ReadU32_at _ a6
  obtain ⟨o8, r8, a8⟩ := readChannels_at _ _ _ {} a7 hchl
  have hend := at_end a8
  have e1 : kCacheMagic % 4294967296 = kCacheMagic := by decide
  have e2 : signature.length % 4294967296 = signature.length := Nat.mod_eq_of_lt hsig
  have e5 : (savedCategories categories).length % 4294967296
      = (savedCategories categories).length := Nat.mod_eq_of_lt hcn
  have e7 : cacheChannels.length % 4294967296 = cacheChannels.length := Nat.mod_eq_of_lt hchn
  rw [e1] at r1
  rw [Nat.mod_mod, e2] at r2
  rw [Nat.mod_mod, e5] at r5
  rw [Nat.mod_mod, e7] at r7
  have hd : decodeFrom signature blob 0 = .ok
      ({ ts := ts, catCount := (savedCategories categories).length
         chCount := cacheChannels.length
         categoryIdToName := (savedCategories categories).foldl decCat []
         channels := (cacheChannels.foldl decCh {}).channels
         uidToStreamId := (cacheChannels.foldl decCh {}).uidToStreamId
         channelCategoryIds := (cacheChannels.foldl decCh {}).channelCategoryIds
         groupMembers :=
           ((cacheChannels.foldl decCh {}).channels.zip
             (cacheChannels.foldl decCh {}).channelCategoryIds).foldl
             (cacheGroupStep ((savedCategories categories).foldl decCat [])) []
         groupNamesOrdered := cacheGroupNames ((savedCategories categories).foldl decCat [])
           (((cacheChannels.foldl decCh {}).channels.zip
             (cacheChannels.foldl decCh {}).channelCategoryIds).foldl
             (cacheGroupStep ((savedCategories categories).foldl decCat [])) [])
         off := o8 }, o8) := by
    unfold decodeFrom
    rw [r1]
    simp only [Outcome.bind_ok, ne_eq, not_true_eq_false, if_false, r2, r3, r4, r5, r6, r7, r8]
  refine ⟨_, by rw [decodeCache_eq, hd]; rfl, ?_, rfl, rfl, rfl, rfl, rfl, rfl⟩
  exact hend

theorem mapFind_none_of_not_mem {κ ν : Type} [DecidableEq κ] (m : List (κ × ν)) (k : κ)
    (h : k ∉ m.map Prod.fst) : mapFind m k = none := by
  induction m with
  | nil => rfl
  | cons p rest ih =>
    obtain ⟨a, b⟩ := p
    simp only [List.map_cons, List.mem_cons, not_or] at h
    unfold mapFind
    rw [if_neg (fun e => h.1 e.symm)]
    exact ih h.2

theorem foldl_decCat_distinct (cats acc : List (Int × Bytes))
    (hnd : ((acc ++ cats).map Prod.fst).Nodup)
    (hv : ∀ c ∈ cats, 0 < c.1 ∧ c.1 < 2147483648 ∧ c.2 ≠ []) :
    cats.foldl decCat acc = acc ++ cats := by
  induction cats generalizing acc with
  | nil => simp
  | cons c cs ih =>
    obtain ⟨h1, h2, h3⟩ := hv c (List.mem_cons_self _ _)
    have hw : wrapInt32 c.1 = c.1 := wrapInt32_of_range _ (le_of_lt h1) h2
    have hne : c.2.isEmpty = false := by cases h : c.2 <;> simp_all
    have hnot : c.1 ∉ acc.map Prod.fst := by
      intro hmem
      rw [List.map_append, List.map_cons] at hnd
      have := (List.nodup_append.mp hnd).2.2
      exact this hmem (List.mem_cons_self _ _)
    have hstep : decCat acc c = acc ++ [c] := by
      unfold decCat
      rw [hw, hne]
      simp only [h1, Bool.not_false, and_self, if_true]
      unfold mapEmplace
      rw [mapFind_none_of_not_mem _ _ hnot]
    rw [List.foldl_cons, hstep, ih (acc ++ [c]) (by simpa using hnd)
      (fun c' hc' => hv c' (List.mem_cons_of_mem _ hc'))]
    simp

theorem savedCategories_all (categories : List LiveCategory)
    (hv : ∀ c ∈ categories, 0 < c.id ∧ c.name ≠ []) :
    savedCategories categories = categories.map (fun c => (c.id, c.name)) := by
  unfold savedCategories
  rw [List.filter_eq_self.mpr]
  intro c hc
  obtain ⟨h1, h2⟩ := hv c hc
  have : c.name.isEmpty = false := by cases h : c.name <;> simp_all
  simp [this, h1]

theorem toUInt32_wrapInt32 (n : Nat) (h : n < 4294967296) : toUInt32 (wrapInt32 (n : Int)) = n := by
  unfold toUInt32 wrapInt32
  omega

theorem wrapInt32_id (v : Int) (h0 : -2147483648 ≤ v) (h1 : v < 2147483648) : wrapInt32 v = v := by
  unfold wrapInt32; omega

/-- The tuple `(uid, categoryId, channelNumber, name)` of a decoded channel. -/
theorem foldl_decCh_valid (chans : List CacheChannel) (acc : CachedChannels)
    (hv : ∀ c ∈ chans, c.uid ≠ 0 ∧ c.uid < 4294967296 ∧ c.name ≠ []
      ∧ -2147483648 ≤ c.categoryId ∧ c.categoryId < 2147483648 ∧ c.channelNumber < 4294967296) :
    (chans.foldl decCh acc).channels
        = acc.channels ++ chans.map (fun c =>
            { uniqueId := c.uid, isRadio := false, channelName := c.name
              channelNumber := wrapInt32 (c.channelNumber : Int) })
      ∧ (chans.foldl decCh acc).channelCategoryIds
        = acc.channelCategoryIds ++ chans.map (·.categoryId) := by
  induction chans generalizing acc with
  | nil => simp
  | cons c cs ih =>
    obtain ⟨h1, h2, h3, h4, h5, h6⟩ := hv c (List.mem_cons_self _ _)
    have hne : c.name.isEmpty = false := by cases h : c.name <;> simp_all
    have hu : c.uid % 4294967296 = c.uid := Nat.mod_eq_of_lt h2
    have hn : c.channelNumber % 4294967296 = c.channelNumber := Nat.mod_eq_of_lt h6
    have hstep : decCh acc c =
        { channels := acc.channels ++
            [{ uniqueId := c.uid, isRadio := false, channelName := c.name
               channelNumber := wrapInt32 (c.channelNumber : Int) }]
          uidToStreamId := mapEmplace acc.uidToStreamId c.uid (wrapInt32 (c.uid : Int))
          channelCategoryIds := acc.channelCategoryIds ++ [c.categoryId] } := by
      unfold decCh
      rw [hu, hn, hne, wrapInt32_id _ h4 h5]
      simp [h1]
    obtain ⟨i1, i2⟩ := ih (decCh acc c) (fun c' hc' => hv c' (List.mem_cons_of_mem _ hc'))
    rw [List.foldl_cons, i1, i2, hstep]
    simp

theorem SaveCache_ne_nil (now : Nat) (signature : Bytes) (categories : List LiveCategory)
    (cacheChannels : List CacheChannel) :
    (SaveCache now signature categories cacheChannels).isEmpty = false := by
  rw [SaveCache_eq]
  simp [AppendU32]

/-- C13: cache round trip. For every signature, every list of categories with
distinct positive ids and non-empty names and every list of channels with
non-zero uid and non-empty names (all lengths below `2^32`, the fields within
their 32-bit types), decoding the blob built by `SaveCache` with the identical
signature and with nothing published succeeds: `TryLoadCacheForSignature`
returns true and seeds the state from a decoded result whose category
id-to-name map is the list of written categories and whose channels are, in
order, the written tuples (uid, categoryId, channelNumber, name). -/
theorem C13_cache_round_trip (now : Nat) (signature : Bytes) (categories : List LiveCategory)
    (cacheChannels : List CacheChannel) (st : ClientState)
    (hsig : signature.length < 4294967296)
    (hcats : categories.length < 4294967296) (hchans : cacheChannels.length < 4294967296)
    (hcat : ∀ c ∈ categories,
      0 < c.id ∧ c.id < 2147483648 ∧ c.name ≠ [] ∧ c.name.length < 4294967296)
    (hdistinct : (categories.map (·.id)).Nodup)
    (hch : ∀ c ∈ cacheChannels,
      c.uid ≠ 0 ∧ c.uid < 4294967296 ∧ c.name ≠ [] ∧ c.name.length < 4294967296
        ∧ -2147483648 ≤ c.categoryId ∧ c.categoryId < 2147483648
        ∧ c.channelNumber < 4294967296)
    (hnone : st.channels = none ∨ st.channels = some []) :
    ∃ d, decodeCache (SaveCache now signature categories cacheChannels) signature = .ok d
      ∧ d.categoryIdToName = categories.map (fun c => (c.id, c.name))
      ∧ (d.channels.zip d.channelCategoryIds).map
            (fun x => (x.1.uniqueId, x.2, toUInt32 x.1.channelNumber, x.1.channelName))
          = cacheChannels.map (fun c => (c.uid, c.categoryId, c.channelNumber, c.name))
      ∧ TryLoadCacheForSignature (some (SaveCache now signature categories cacheChannels))
            signature st
          = (true, { st with
              channels := some d.channels
              uidToStreamId := some d.uidToStreamId
              groupMembers := some d.groupMembers
              groupNamesOrdered := some d.groupNamesOrdered }) := by
  have hsaved : savedCategories categories = categories.map (fun c => (c.id, c.name)) :=
    savedCategories_all categories (fun c hc => ⟨(hcat c hc).1, (hcat c hc).2.2.1⟩)
  obtain ⟨d, hd, -, -, -, hc1, hc2, -, hc3⟩ :=
    decodeCache_SaveCache now signature categories cacheChannels hsig
      (by rw [hsaved, List.length_map]; exact hcats)
      (by
        intro c hc
        rw [hsaved, List.mem_map] at hc
        obtain ⟨c', hc', rfl⟩ := hc
        exact (hcat c' hc').2.2.2)
      hchans (fun c hc => (hch c hc).2.2.2.1)
  have hcatsEq : d.categoryIdToName = categories.map (fun c => (c.id, c.name)) := by
    rw [hc1, hsaved, foldl_decCat_distinct _ [] (by simpa [List.map_map] using hdistinct)]
    · rfl
    · intro c hc
      rw [List.mem_map] at hc
      obtain ⟨c', hc', rfl⟩ := hc
      exact ⟨(hcat c' hc').1, (hcat c' hc').2.1, (hcat c' hc').2.2.1⟩
  obtain ⟨hv1, hv2⟩ := foldl_decCh_valid cacheChannels {}
    (fun c hc => ⟨(hch c hc).1, (hch c hc).2.1, (hch c hc).2.2.1, (hch c hc).2.2.2.2.1,
      (hch c hc).2.2.2.2.2.1, (hch c hc).2.2.2.2.2.2⟩)
  refine ⟨d, hd, hcatsEq, ?_, ?_⟩
  · rw [hc2, hc3, hv1, hv2]
    simp only [List.nil_append, List.zip_map', List.map_map]
    apply List.map_congr_left
    intro c hc
    simp only [Function.comp]
    rw [toUInt32_wrapInt32 _ (hch c hc).2.2.2.2.2.2]
  · unfold TryLoadCacheForSignature
    simp only [SaveCache_ne_nil, Bool.false_eq_true, if_false, hd]
    rcases hnone with h | h <;> simp [h]

set_option maxRecDepth 1000000 in
/-- Witness for `C13_cache_round_trip`: two categories and two channels, one of
them with a negative category id and a channel number above `2^31`. -/
theorem C13_cache_round_trip_witness :
    ∃ d, decodeCache cacheExampleBlob (ascii "sig") = .ok d
      ∧ d.categoryIdToName = [(3, ascii "News"), (1, ascii "Film")]
      ∧ (d.channels.zip d.channelCategoryIds).map
            (fun x => (x.1.uniqueId, x.2, toUInt32 x.1.channelNumber, x.1.channelName))
          = [(5, 3, 1, ascii "BBC"), (7, -1, 4000000000, ascii "X")]
      ∧ (TryLoadCacheForSignature (some cacheExampleBlob) (ascii "sig") {}).1 = true := by
  obtain ⟨d, h1, h2, h3, h4⟩ :=
    C13_cache_round_trip 1700000000 (ascii "sig") cacheExampleCategories cacheExampleChannels {}
      (by decide) (by decide) (by decide) (by decide) (by decide) (by decide) (Or.inl rfl)
  exact ⟨d, h1, h2, h3, by rw [show cacheExampleBlob = SaveCache 1700000000 (ascii "sig")
    cacheExampleCategories cacheExampleChannels from rfl, h4]⟩

/-! #### Signature and magic checks (C14) -/

theorem le32_bytes (b0 b1 b2 b3 : Nat) (h0 : b0 < 256) (h1 : b1 < 256) (h2 : b2 < 256)
    (h3 : b3 < 256) :
    (b0 % 256) ||| ((b1 % 256) <<< 8) ||| ((b2 % 256) <<< 16) ||| ((b3 % 256) <<< 24)
      = b0 + 256 * b1 + 65536 * b2 + 16777216 * b3 := by
  simp only [Nat.shiftLeft_eq, Nat.reducePow, Nat.mod_eq_of_lt h0, Nat.mod_eq_of_lt h1,
    Nat.mod_eq_of_lt h2, Nat.mod_eq_of_lt h3]
  have e1 : b0 ||| b1 * 256 = 256 * b1 + b0 := by
    rw [Nat.lor_comm, Nat.mul_comm]
    exact or_eq_add 8 _ _ (by omega)
  have e2 : (256 * b1 + b0) ||| b2 * 65536 = 65536 * b2 + (256 * b1 + b0) := by
    rw [Nat.lor_comm, Nat.mul_comm]
    exact or_eq_add 16 _ _ (by omega)
  have e3 : (65536 * b2 + (256 * b1 + b0)) ||| b3 * 16777216
      = 16777216 * b3 + (65536 * b2 + (256 * b1 + b0)) := by
    rw [Nat.lor_comm, Nat.mul_comm]
    exact or_eq_add 24 _ _ (by omega)
  rw [e1, e2, e3]
  omega

/-- A buffer that does not start with the bytes `58 54 43 31` is a miss. -/
theorem decodeCache_bad_magic (blob signature : Bytes) (hbytes : ∀ b ∈ blob.take 4, b < 256)
    (hmagic : blob.take 4 ≠ [0x58, 0x54, 0x43, 0x31]) : decodeCache blob signature = .miss := by
  unfold decodeCache
  rw [ReadU32_eq]
  by_cases hl : 0 + 4 ≤ blob.length
  · rw [if_pos hl, Outcome.bind_ok]
    rw [if_pos]
    match blob, hl, hbytes, hmagic with
    | b0 :: b1 :: b2 :: b3 :: rest, _, hbytes, hmagic =>
      simp only [List.take_succ_cons, List.take_zero, List.mem_cons, List.mem_singleton,
        forall_eq_or_imp, forall_eq, List.not_mem_nil, false_implies, implies_true,
        and_true] at hbytes
      obtain ⟨h0, h1, h2, h3⟩ := hbytes
      simp only [rd32, List.getD_cons_zero, List.getD_cons_succ, Nat.zero_add]
      rw [le32_bytes b0 b1 b2 b3 h0 h1 h2 h3]
      intro h
      apply hmagic
      have : kCacheMagic = 0x31435458 := rfl
      rw [this] at h
      have e0 : b0 = 0x58 := by omega
      have e1 : b1 = 0x54 := by omega
      have e2 : b2 = 0x43 := by omega
      have e3 : b3 = 0x31 := by omega
      simp [e0, e1, e2, e3]
  · rw [if_neg hl]; rfl

/-- A blob written under signature `S` is a miss for any other signature. -/
theorem decodeCache_other_signature (now : Nat) (signature other : Bytes)
    (categories : List LiveCategory) (cacheChannels : List CacheChannel)
    (hsig : signature.length < 4294967296) (hne : other ≠ signature) :
    decodeCache (SaveCache now signature categories cacheChannels) other = .miss := by
  generalize hb : SaveCache now signature categories cacheChannels = blob
  have hlay := SaveCache_eq now signature categories cacheChannels
  rw [hb] at hlay
  have h0 : At blob 0 _ := ⟨Nat.zero_le _, hlay⟩
  obtain ⟨r1, a1⟩ := ReadU32_at _ h0
  obtain ⟨r2, a2⟩ := ReadU32_at _ a1
  obtain ⟨r3, a3⟩ := readBytes_at _ a2
  have e1 : kCacheMagic % 4294967296 = kCacheMagic := by decide
  have e2 : signature.length % 4294967296 = signature.length := Nat.mod_eq_of_lt hsig
  rw [e1] at r1
  rw [Nat.mod_mod, e2] at r2
  rw [decodeCache_eq]
  unfold decodeFrom
  rw [r1]
  simp only [Outcome.bind_ok, ne_eq, not_true_eq_false, if_false, r2, r3]
  rw [if_pos (fun h => hne h.symm)]
  rfl

theorem TryLoad_of_miss (blob signature : Bytes) (st : ClientState)
    (h : decodeCache blob signature = .miss) :
    TryLoadCacheForSignature (some blob) signature st = (false, st) := by
  unfold TryLoadCacheForSignature
  simp only [h]
  split_ifs <;> rfl

/-- A blob whose signature field declares one byte `x` and is followed by
sixteen zero bytes (timestamp 0, no categories, no channels) decodes under the
signature `x`, whatever comes after. -/
theorem decodeCache_truncated_signature (tail : Bytes) (blob : Bytes)
    (h : blob = AppendU32 [] kCacheMagic ++ (AppendU32 [] 1 ++ ([120] ++ (AppendU64 [] 0
      ++ (AppendU32 [] 0 ++ (AppendU32 [] 0 ++ tail)))))) :
    ∃ d, decodeCache blob [120] = .ok d ∧ d.channels = [] := by
  have h0 : At blob 0 _ := ⟨Nat.zero_le _, h⟩
  obtain ⟨r1, a1⟩ := ReadU32_at _ h0
  obtain ⟨r2, a2⟩ := ReadU32_at _ a1
  obtain ⟨r3, a3⟩ := readBytes_at _ a2
  obtain ⟨⟨ts, r4⟩, a4⟩ := ReadU64_at _ a3
  obtain ⟨r5, a5⟩ := ReadU32_at _ a4
  obtain ⟨r6, a6⟩ := ReadU32_at _ a5
  have e1 : kCacheMagic % 4294967296 = kCacheMagic := by decide
  rw [e1] at r1
  simp only [Nat.one_mod, Nat.zero_mod, List.length_singleton] at r2 r3 r4 r5 r6
  have hd : ∃ d, decodeFrom [120] blob 0 = .ok d ∧ d.1.channels = [] := by
    unfold decodeFrom
    rw [r1]
    simp only [Outcome.bind_ok, ne_eq, not_true_eq_false, if_false, r2, r3, r4, r5, r6,
      readCategories, readChannels]
    exact ⟨_, rfl, rfl⟩
  obtain ⟨d, hd1, hd2⟩ := hd
  exact ⟨d.1, by rw [decodeCache_eq, hd1]; rfl, hd2⟩

theorem longSignature_length : longSignature.length = 4294967296 + 1 := by
  show (120 :: List.replicate 4294967296 0).length = _
  rw [List.length_cons, List.length_replicate]

theorem longSignature_eq :
    longSignature = [120] ++ (AppendU64 [] 0 ++ (AppendU32 [] 0 ++ (AppendU32 [] 0
      ++ List.replicate 4294967280 0))) := by
  have e : List.replicate 4294967296 (0 : Nat)
      = List.replicate 8 0 ++ (List.replicate 4 0 ++ (List.replicate 4 0
        ++ List.replicate 4294967280 0)) := by
    rw [← List.replicate_add, ← List.replicate_add, ← List.replicate_add]
  show 120 :: List.replicate 4294967296 0 = _
  rw [e]
  rfl

/-- C14 (as stated, refuted): the blob written under a signature `S` of
`2^32 + 1` bytes records the signature length 1, and `TryLoadCacheForSignature`
called with the one-byte signature `x`, a proper prefix of `S`, returns true and
publishes an (empty) channel list. -/
theorem C14_long_signature_prefix_hits :
    [120] ≠ longSignature
      ∧ [120] <+: longSignature
      ∧ (TryLoadCacheForSignature (some (SaveCache 0 longSignature [] [])) [120] {}).1 = true
      ∧ (TryLoadCacheForSignature (some (SaveCache 0 longSignature [] [])) [120] {}).2.channels
          = some [] := by
  have hblob : SaveCache 0 longSignature [] []
      = AppendU32 [] kCacheMagic ++ (AppendU32 [] 1 ++ ([120] ++ (AppendU64 [] 0
        ++ (AppendU32 [] 0 ++ (AppendU32 [] 0 ++ (List.replicate 4294967280 0
        ++ (AppendU64 [] 0 ++ (AppendU32 [] 0 ++ AppendU32 [] 0)))))))) := by
    rw [SaveCache_eq, longSignature_length]
    simp only [Nat.add_mod_left, Nat.one_mod, savedCategories, List.filter_nil, List.map_nil, List.length_nil, Nat.zero_mod,
      List.flatMap_nil, List.nil_append, List.append_nil]
    rw [longSignature_eq]
    simp only [List.append_assoc]
  obtain ⟨d, hd, hch⟩ := decodeCache_truncated_signature _ _ hblob
  refine ⟨?_, ?_, ?_, ?_⟩
  · intro h
    have := congrArg List.length h
    rw [longSignature_length] at this
    simp at this
  · exact ⟨List.replicate 4294967296 0, rfl⟩
  · unfold TryLoadCacheForSignature
    simp only [SaveCache_ne_nil, Bool.false_eq_true, if_false, hd]
  · unfold TryLoadCacheForSignature
    simp only [SaveCache_ne_nil, Bool.false_eq_true, if_false, hd]
    exact congrArg some hch

/-- C14 (amended): for every blob written by `SaveCache` with a signature `S`
shorter than `2^32` bytes and every signature different from `S` (a proper
prefix or an extension of `S` included), `TryLoadCacheForSignature` reports a
miss and leaves the state as it is; likewise every blob whose first four bytes
are not `58 54 43 31` (hex) is a miss. -/
theorem C14_other_signature_or_magic_is_miss (st : ClientState) :
    (∀ (now : Nat) (signature other : Bytes) (categories : List LiveCategory)
        (cacheChannels : List CacheChannel),
        signature.length < 4294967296 → other ≠ signature →
        TryLoadCacheForSignature (some (SaveCache now signature categories cacheChannels)) other st
          = (false, st))
      ∧ (∀ (blob signature : Bytes), (∀ b ∈ blob, b < 256) →
          blob.take 4 ≠ [0x58, 0x54, 0x43, 0x31] →
          TryLoadCacheForSignature (some blob) signature st = (false, st)) := by
  constructor
  · intro now signature other categories cacheChannels hsig hne
    exact TryLoad_of_miss _ _ _
      (decodeCache_other_signature now signature other categories cacheChannels hsig hne)
  · intro blob signature hbytes hmagic
    exact TryLoad_of_miss _ _ _
      (decodeCache_bad_magic blob signature (fun b hb => hbytes b (List.mem_of_mem_take hb)) hmagic)

set_option maxRecDepth 1000000 in
/-- Witness for `C14_other_signature_or_magic_is_miss`: the example blob, written
under `sig`, read with the prefix `si` and with the extension `sig2`, and the
same blob with its first byte changed. -/
theorem C14_other_signature_or_magic_is_miss_witness :
    TryLoadCacheForSignature (some cacheExampleBlob) (ascii "si") {} = (false, {})
      ∧ TryLoadCacheForSignature (some cacheExampleBlob) (ascii "sig2") {} = (false, {})
      ∧ TryLoadCacheForSignature (some (0x59 :: cacheExampleBlob.drop 1)) (ascii "sig") {}
          = (false, {}) :=
  ⟨(C14_other_signature_or_magic_is_miss {}).1 1700000000 (ascii "sig") (ascii "si")
      cacheExampleCategories cacheExampleChannels (by decide) (by decide),
   (C14_other_signature_or_magic_is_miss {}).1 1700000000 (ascii "sig") (ascii "sig2")
      cacheExampleCategories cacheExampleChannels (by decide) (by decide),
   (C14_other_signature_or_magic_is_miss {}).2 (0x59 :: cacheExampleBlob.drop 1) (ascii "sig")
      (by decide) (by decide)⟩

/-! #### Bounds of the reader (C15) -/

theorem ReadU32_ok (inp : Bytes) (off : Nat) (r : Nat × Nat) (h : ReadU32 inp off = .ok r) :
    r.2 = off + 4 := by
  rw [ReadU32_eq] at h
  split_ifs at h
  cases h
  rfl

theorem ReadI32_ok (inp : Bytes) (off : Nat) (r : Int × Nat) (h : ReadI32 inp off = .ok r) :
    r.2 = off + 4 := by
  rw [ReadI32_eq] at h
  split_ifs at h
  rw [← Outcome.ok.inj h]

theorem ReadU64_ok (inp : Bytes) (off : Nat) (r : Nat × Nat) (h : ReadU64 inp off = .ok r) :
    r.2 = off + 8 := by
  rw [ReadU64_eq] at h
  split_ifs at h
  cases h
  rfl

theorem readBytes_ok (n : Nat) (inp : Bytes) (off : Nat) (r : Bytes × Nat)
    (h : readBytes n inp off = .ok r) : r.2 = off + n ∧ r.1.length = n := by
  rw [readBytes_eq] at h
  split_ifs at h with hl
  cases h
  refine ⟨rfl, ?_⟩
  simp only [List.length_take, List.length_drop]
  omega

theorem readCategories_bound (inp : Bytes) (n off : Nat) (acc : List (Int × Bytes))
    (r : List (Int × Bytes) × Nat) (h : readCategories inp n off acc = .ok r) :
    off + 8 * n ≤ r.2 := by
  induction n generalizing off acc with
  | zero =>
    cases h
    simp
  | succ n ih =>
    rw [readCategories_succ] at h
    simp only [Outcome.bind_eq_ok] at h
    obtain ⟨id, h1, nameLen, h2, name, h3, h4⟩ := h
    have e1 := ReadI32_ok _ _ _ h1
    have e2 := ReadU32_ok _ _ _ h2
    have e3 := (readBytes_ok _ _ _ _ h3).1
    have := ih _ _ h4
    omega

theorem readChannels_bound (inp : Bytes) (n off : Nat) (acc : CachedChannels)
    (r : CachedChannels × Nat) (h : readChannels inp n off acc = .ok r) :
    off + 16 * n ≤ r.2 := by
  induction n generalizing off acc with
  | zero =>
    cases h
    simp
  | succ n ih =>
    rw [readChannels_succ] at h
    simp only [Outcome.bind_eq_ok] at h
    obtain ⟨uid, h1, catId, h2, chNum, h3, nameLen, h4, name, h5, h6⟩ := h
    have e1 := ReadU32_ok _ _ _ h1
    have e2 := ReadI32_ok _ _ _ h2
    have e3 := ReadU32_ok _ _ _ h3
    have e4 := ReadU32_ok _ _ _ h4
    have e5 := (readBytes_ok _ _ _ _ h5).1
    have := ih _ _ h6
    omega

/-- A decoded result accounts for the header, the signature and every declared
record. -/
theorem decodeCache_bound (blob signature : Bytes) (d : Decoded)
    (h : decodeCache blob signature = .ok d) :
    24 + signature.length + 8 * d.catCount + 16 * d.chCount ≤ d.off := by
  rw [decodeCache_eq, Outcome.bind_eq_ok] at h
  obtain ⟨r, h, hd⟩ := h
  cases hd
  unfold decodeFrom at h
  simp only [Outcome.bind_eq_ok] at h
  obtain ⟨magic, h1, h⟩ := h
  split_ifs at h
  simp only [Outcome.bind_eq_ok] at h
  obtain ⟨sigLen, h2, sigOnDisk, h3, h⟩ := h
  split_ifs at h with hs
  simp only [Outcome.bind_eq_ok] at h
  obtain ⟨ts, h4, catCount, h5, cats, h6, chCount, h7, chans, h8, h⟩ := h
  cases h
  have e1 := ReadU32_ok _ _ _ h1
  have e2 := ReadU32_ok _ _ _ h2
  have e3 := readBytes_ok _ _ _ _ h3
  have e4 := ReadU64_ok _ _ _ h4
  have e5 := ReadU32_ok _ _ _ h5
  have e6 := readCategories_bound _ _ _ _ _ h6
  have e7 := ReadU32_ok _ _ _ h7
  have e8 := readChannels_bound _ _ _ _ _ h8
  have e9 : sigOnDisk.1.length = signature.length := by
    rw [not_not.mp hs]
  simp only
  omega

/-- The reading steps stay in bounds: for every byte string `decodeCache`, the
decoder of a run in which the `reserve` calls return, ends with a miss or a
decoded result and never reads outside the buffer (it never faults); a decoded
result has consumed no more than the buffer and at least the header, the
signature and the minimum size of every declared record, so lengths or counts
that run past the end give a miss; cutting the buffer anywhere before the final
offset of a decoded result gives a miss; hence every proper prefix of a blob
written by `SaveCache` is a miss. -/
theorem decodeCache_stays_in_bounds (blob signature : Bytes) :
    decodeCache blob signature ≠ .fault
      ∧ (decodeCache blob signature = .miss ∨ ∃ d, decodeCache blob signature = .ok d)
      ∧ (∀ d, decodeCache blob signature = .ok d →
          d.off ≤ blob.length
            ∧ 24 + signature.length + 8 * d.catCount + 16 * d.chCount ≤ d.off
            ∧ ∀ m, m < d.off → decodeCache (blob.take m) signature = .miss)
      ∧ (∀ (now : Nat) (categories : List LiveCategory) (cacheChannels : List CacheChannel)
          (st : ClientState),
          blob = SaveCache now signature categories cacheChannels →
          signature.length < 4294967296 →
          categories.length < 4294967296 → cacheChannels.length < 4294967296 →
          (∀ c ∈ categories, c.name.length < 4294967296) →
          (∀ c ∈ cacheChannels, c.name.length < 4294967296) →
          ∀ m, m < blob.length →
            TryLoadCacheForSignature (some (blob.take m)) signature st = (false, st)) := by
  obtain ⟨hnf, hex⟩ := decodeCache_exact blob signature
  refine ⟨hnf, ?_, ?_, ?_⟩
  · cases h : decodeCache blob signature with
    | fault => exact absurd h hnf
    | miss => exact Or.inl rfl
    | ok d => exact Or.inr ⟨d, rfl⟩
  · intro d hd
    exact ⟨(hex d hd).1, decodeCache_bound blob signature d hd, (hex d hd).2.2⟩
  · intro now categories cacheChannels st hb hsig hcats hchans hcl hchl m hm
    subst hb
    obtain ⟨d, hd, hoff, -⟩ := decodeCache_SaveCache now signature categories cacheChannels hsig
      (lt_of_le_of_lt (by
        unfold savedCategories
        rw [List.length_map]
        exact List.length_filter_le _ _) hcats)
      (by
        intro c hc
        unfold savedCategories at hc
        rw [List.mem_map] at hc
        obtain ⟨c', hc', rfl⟩ := hc
        exact hcl c' (List.mem_of_mem_filter hc'))
      hchans hchl
    apply TryLoad_of_miss
    exact (decodeCache_exact _ signature).2 d hd |>.2.2 m (by rw [hoff]; exact hm)

set_option maxRecDepth 1000000 in
/-- Example for `decodeCache_stays_in_bounds`: the example blob cut one byte
short, and cut in the middle of the first channel name. -/
theorem decodeCache_stays_in_bounds_example :
    cacheExampleBlob.length = 87
      ∧ TryLoadCacheForSignature (some (cacheExampleBlob.take 86)) (ascii "sig") {} = (false, {})
      ∧ TryLoadCacheForSignature (some (cacheExampleBlob.take 70)) (ascii "sig") {} = (false, {}) :=
  ⟨by decide,
   (decodeCache_stays_in_bounds cacheExampleBlob (ascii "sig")).2.2.2 1700000000
      cacheExampleCategories cacheExampleChannels {} rfl (by decide) (by decide) (by decide)
      (by decide) (by decide) 86 (by decide),
   (decodeCache_stays_in_bounds cacheExampleBlob (ascii "sig")).2.2.2 1700000000
      cacheExampleCategories cacheExampleChannels {} rfl (by decide) (by decide) (by decide)
      (by decide) (by decide) 70 (by decide)⟩

/-- What one call does to the cache: it reads it exactly when the credentials
are usable and the signature differs from the one attempted last, which it then
records. -/
theorem EnsureLoaded_cache (env : EnsureEnv) (st : LoaderState) :
    (EnsureLoaded env st).cacheRead
        = (match callSignature env with
           | some s => if st.cacheSignatureAttempted ≠ s then some s else none
           | none => none)
      ∧ (EnsureLoaded env st).state.cacheSignatureAttempted
        = (match callSignature env with
           | some s => s
           | none => st.cacheSignatureAttempted) := by
  unfold EnsureLoaded callSignature
  by_cases hc : env.haveCreds = true
  · simp only [hc, Bool.not_true, Bool.false_eq_true, if_false, if_true]
    by_cases hs : st.cacheSignatureAttempted = env.sig
    · simp only [hs, ne_eq, not_true_eq_false, if_false]
      split_ifs <;> exact ⟨rfl, rfl⟩
    · simp only [ne_eq, hs, not_false_eq_true, if_true]
      split_ifs <;> exact ⟨rfl, rfl⟩
  · simp only [hc, Bool.not_false, if_true, Bool.false_eq_true, if_false]
    exact ⟨trivial, trivial⟩

theorem destutter_head_tail {α : Type} (R : α → α → Prop) [DecidableRel R] (l : List α) (a : α) :
    l.destutter' R a = a :: (l.destutter' R a).tail := by
  induction l generalizing a with
  | nil => rfl
  | cons b rest ih =>
    rw [List.destutter'_cons]
    split_ifs
    · rfl
    · exact ih a

theorem cacheReads_eq (envs : List EnsureEnv) (st : LoaderState) :
    cacheReads envs st
      = (List.destutter' (· ≠ ·) st.cacheSignatureAttempted (envs.filterMap callSignature)).tail := by
  induction envs generalizing st with
  | nil => rfl
  | cons env rest ih =>
    obtain ⟨h1, h2⟩ := EnsureLoaded_cache env st
    unfold cacheReads
    rw [ih, h1, h2]
    cases hcs : callSignature env with
    | none => simp [List.filterMap_cons, hcs]
    | some s =>
      simp only [List.filterMap_cons, hcs, List.destutter']
      by_cases hne : st.cacheSignatureAttempted ≠ s
      · rw [if_pos hne, if_pos hne]
        simp only [Option.toList_some, List.singleton_append, List.tail_cons]
        exact (destutter_head_tail _ _ _).symm
      · rw [if_neg hne, if_neg hne]
        rw [not_not] at hne
        rw [hne]
        rfl

set_option maxRecDepth 1000000 in
/-- C17 (as stated, refuted): three calls with stream format `ts`, then `hls`,
then `ts` again read the disk cache three times, twice with the same
signature. -/
theorem C17_returning_signature_read_again :
    cacheReads [callWithFormat (ascii "ts"), callWithFormat (ascii "hls"),
        callWithFormat (ascii "ts")] {}
        = [(callWithFormat (ascii "ts")).sig, (callWithFormat (ascii "hls")).sig,
            (callWithFormat (ascii "ts")).sig]
      ∧ ¬ (cacheReads [callWithFormat (ascii "ts"), callWithFormat (ascii "hls"),
            callWithFormat (ascii "ts")] {}).Nodup := by
  decide

/-- C17 (amended): in every sequence of `EnsureLoaded` calls, from any state,
the disk cache is read exactly at the calls with usable credentials whose
signature differs from the signature of the latest cache attempt (the list of
reads is the list of call signatures with repetitions of the previous one
dropped); so two consecutive reads never have the same signature, and a
sequence of calls that all compute one signature reads the cache at most
once. -/
theorem C17_cache_read_on_signature_change (envs : List EnsureEnv) (st : LoaderState) :
    cacheReads envs st
        = (List.destutter' (· ≠ ·) st.cacheSignatureAttempted
            (envs.filterMap callSignature)).tail
      ∧ (cacheReads envs st).Chain' (· ≠ ·)
      ∧ (∀ s, (∀ env ∈ envs, callSignature env = some s ∨ callSignature env = none) →
          (cacheReads envs st).length ≤ 1) := by
  refine ⟨cacheReads_eq envs st, ?_, ?_⟩
  · rw [cacheReads_eq]
    exact List.Chain'.tail (List.destutter'_is_chain' _ _ _)
  · intro s hs
    rw [cacheReads_eq]
    have hall : ∀ x ∈ envs.filterMap callSignature, x = s := by
      intro x hx
      rw [List.mem_filterMap] at hx
      obtain ⟨env, henv, hx⟩ := hx
      rcases hs env henv with h | h
      · rw [h] at hx; exact (Option.some.inj hx).symm
      · rw [h] at hx; cases hx
    generalize envs.filterMap callSignature = l at hall
    generalize st.cacheSignatureAttempted = a
    induction l generalizing a with
    | nil => simp
    | cons b rest ih =>
      have hb : b = s := hall b (List.mem_cons_self _ _)
      have hrest : ∀ x ∈ rest, x = s := fun x hx => hall x (List.mem_cons_of_mem _ hx)
      rw [List.destutter'_cons]
      split_ifs with hab
      · rw [List.tail_cons]
        have : List.destutter' (· ≠ ·) b rest = [b] := by
          clear ih hall hab
          induction rest with
          | nil => rfl
          | cons c r ih2 =>
            have hc : c = s := hrest c (List.mem_cons_self _ _)
            rw [List.destutter'_cons, if_neg (by rw [hb, hc]; simp)]
            exact ih2 (fun x hx => hrest x (List.mem_cons_of_mem _ hx))
        rw [this]
        simp
      · exact ih hrest a

set_option maxRecDepth 1000000 in
/-- Witness for `C17_cache_read_on_signature_change`: three calls with the same
settings read the cache once. -/
theorem C17_cache_read_on_signature_change_witness :
    (cacheReads [callWithFormat (ascii "ts"), callWithFormat (ascii "ts"),
        callWithFormat (ascii "ts")] {}).length ≤ 1 :=
  (C17_cache_read_on_signature_change
    [callWithFormat (ascii "ts"), callWithFormat (ascii "ts"), callWithFormat (ascii "ts")]
    {}).2.2 (callWithFormat (ascii "ts")).sig (by decide)

/-! ### Broken-down time (used for C18, C19 and C20) -/

theorem daysInYear_bounds (y : Int) : daysInYear y = 365 ∨ daysInYear y = 366 := by
  unfold daysInYear
  split_ifs
  · exact Or.inr rfl
  · exact Or.inl rfl

theorem daysBeforeYear_add (y : Int) (k : Nat) :
    daysBeforeYear y + 365 * (k : Int) ≤ daysBeforeYear (y + k)
      ∧ daysBeforeYear (y + k) ≤ daysBeforeYear y + 366 * (k : Int) := by
  induction k with
  | zero => simp
  | succ n ih =>
    have e : y + ((n + 1 : Nat) : Int) = (y + n) + 1 := by push_cast; ring
    rw [e, daysBeforeYear_succ]
    rcases daysInYear_bounds (y + n) with h | h <;> rw [h] <;> push_cast <;> omega

theorem daysBeforeYear_1970 : daysBeforeYear 1970 = 0 := by decide

theorem yearLoop_spec (days : Int) (fuel : Nat) (y : Int) (h1 : daysBeforeYear y ≤ days)
    (h2 : days < daysBeforeYear (y + fuel)) :
    daysBeforeYear (yearLoop days fuel y) ≤ days
      ∧ days < daysBeforeYear (yearLoop days fuel y + 1) := by
  induction fuel generalizing y with
  | zero =>
    simp only [Nat.cast_zero, add_zero] at h2
    omega
  | succ n ih =>
    unfold yearLoop
    by_cases hc : daysBeforeYear (y + 1) ≤ days
    · rw [if_pos hc]
      apply ih (y + 1) hc
      have e : y + 1 + (n : Int) = y + ((n + 1 : Nat) : Int) := by push_cast; ring
      rw [e]
      exact h2
    · rw [if_neg hc]
      exact ⟨h1, by omega⟩

theorem yearOfDay_spec (days : Int) :
    daysBeforeYear (yearOfDay days) ≤ days ∧ days < daysBeforeYear (yearOfDay days + 1) := by
  unfold yearOfDay
  by_cases h0 : 0 ≤ days
  · rw [if_pos h0]
    have hq : 0 ≤ days / 366 := Int.ediv_nonneg h0 (by decide)
    have hq5 : days / 366 ≤ days / 365 := by omega
    apply yearLoop_spec
    · have := (daysBeforeYear_add 1970 (days / 366).toNat).2
      rw [Int.toNat_of_nonneg hq, daysBeforeYear_1970] at this
      omega
    · rw [Int.toNat_of_nonneg (by omega)]
      have := (daysBeforeYear_add 1970 (days / 365 + 1).toNat).1
      rw [Int.toNat_of_nonneg (by omega), daysBeforeYear_1970] at this
      have e : (1970 : Int) + days / 366 + (days / 365 - days / 366 + 1)
          = 1970 + (days / 365 + 1) := by ring
      rw [e]
      omega
  · rw [if_neg h0]
    have hq : days / 365 ≤ -1 := by omega
    have hq6 : days / 365 ≤ days / 366 := by omega
    have hq66 : days / 366 ≤ -1 := by omega
    apply yearLoop_spec
    · have := (daysBeforeYear_add (1970 + days / 365) (-(days / 365)).toNat).1
      rw [Int.toNat_of_nonneg (by omega)] at this
      have e : (1970 : Int) + days / 365 + -(days / 365) = 1970 := by ring
      rw [e, daysBeforeYear_1970] at this
      omega
    · rw [Int.toNat_of_nonneg (by omega)]
      have := (daysBeforeYear_add (1970 + (days / 366 + 1)) (-(days / 366 + 1)).toNat).2
      rw [Int.toNat_of_nonneg (by omega)] at this
      have e : (1970 : Int) + (days / 366 + 1) + -(days / 366 + 1) = 1970 := by ring
      rw [e, daysBeforeYear_1970] at this
      have e2 : (1970 : Int) + days / 365 + (days / 366 - days / 365 + 1)
          = 1970 + (days / 366 + 1) := by ring
      rw [e2]
      omega

theorem monthTable (y : Int) (k : Nat) (hk : k ≤ 11) :
    daysBeforeMonth y (k : Int)
        = [0, 31, 59, 90, 120, 151, 181, 212, 243, 273, 304, 334].getD k 0
          + (if isLeapYear y = true ∧ 2 ≤ k then 1 else 0)
      ∧ daysInMonth y (k + 1)
        = [31, 28, 31, 30, 31, 30, 31, 31, 30, 31, 30, 31].getD k 0
          + (if isLeapYear y = true ∧ k = 1 then 1 else 0) := by
  interval_cases k <;> (cases hl : isLeapYear y <;> simp [daysBeforeMonth, daysInMonth, hl])

theorem monthOfYearDay_spec (y doy : Int) (h0 : 0 ≤ doy) (h1 : doy < daysInYear y) :
    ∃ k : Nat, k ≤ 11 ∧ monthOfYearDay (isLeapYear y) doy = (k : Int)
      ∧ daysBeforeMonth y (k : Int) ≤ doy
      ∧ doy < daysBeforeMonth y (k : Int) + daysInMonth y (k + 1) := by
  unfold daysInYear at h1
  have key : ∀ k : Nat, k ≤ 11 → monthOfYearDay (isLeapYear y) doy = (k : Int) →
      [0, 31, 59, 90, 120, 151, 181, 212, 243, 273, 304, 334].getD k 0
          + (if isLeapYear y = true ∧ 2 ≤ k then 1 else 0) ≤ doy →
      doy < [0, 31, 59, 90, 120, 151, 181, 212, 243, 273, 304, 334].getD k 0
          + (if isLeapYear y = true ∧ 2 ≤ k then 1 else 0)
          + ([31, 28, 31, 30, 31, 30, 31, 31, 30, 31, 30, 31].getD k 0
              + (if isLeapYear y = true ∧ k = 1 then 1 else 0)) →
      ∃ k : Nat, k ≤ 11 ∧ monthOfYearDay (isLeapYear y) doy = (k : Int)
        ∧ daysBeforeMonth y (k : Int) ≤ doy
        ∧ doy < daysBeforeMonth y (k : Int) + daysInMonth y (k + 1) := by
    intro k hk hm ha hb
    obtain ⟨e1, e2⟩ := monthTable y k hk
    exact ⟨k, hk, hm, by rw [e1]; exact ha, by rw [e1, e2]; exact hb⟩
  cases hl : isLeapYear y
  · rw [hl] at key
    simp only [hl, Bool.false_eq_true, if_false] at h1
    by_cases c0 : doy < 31
    · exact key 0 (by omega) (by simp [monthOfYearDay, c0]) (by simpa using h0) (by simpa using c0)
    by_cases c1 : doy < 59
    · exact key 1 (by omega) (by simp [monthOfYearDay, c0, c1]) (by simp; omega) (by simp; omega)
    by_cases c2 : doy < 90
    · exact key 2 (by omega) (by simp [monthOfYearDay, c0, c1, c2]) (by simp; omega)
        (by simp; omega)
    by_cases c3 : doy < 120
    · exact key 3 (by omega) (by simp [monthOfYearDay, c0, c1, c2, c3]) (by simp; omega)
        (by simp; omega)
    by_cases c4 : doy < 151
    · exact key 4 (by omega) (by simp [monthOfYearDay, c0, c1, c2, c3, c4]) (by simp; omega)
        (by simp; omega)
    by_cases c5 : doy < 181
    · exact key 5 (by omega) (by simp [monthOfYearDay, c0, c1, c2, c3, c4, c5]) (by simp; omega)
        (by simp; omega)
    by_cases c6 : doy < 212
    · exact key 6 (by omega) (by simp [monthOfYearDay, c0, c1, c2, c3, c4, c5, c6])
        (by simp; omega) (by simp; omega)
    by_cases c7 : doy < 243
    · exact key 7 (by omega) (by simp [monthOfYearDay, c0, c1, c2, c3, c4, c5, c6, c7])
        (by simp; omega) (by simp; omega)
    by_cases c8 : doy < 273
    · exact key 8 (by omega) (by simp [monthOfYearDay, c0, c1, c2, c3, c4, c5, c6, c7, c8])
        (by simp; omega) (by simp; omega)
    by_cases c9 : doy < 304
    · exact key 9 (by omega) (by simp [monthOfYearDay, c0, c1, c2, c3, c4, c5, c6, c7, c8, c9])
        (by simp; omega) (by simp; omega)
    by_cases c10 : doy < 334
    · exact key 10 (by omega)
        (by simp [monthOfYearDay, c0, c1, c2, c3, c4, c5, c6, c7, c8, c9, c10])
        (by simp; omega) (by simp; omega)
    · exact key 11 (by omega)
        (by simp [monthOfYearDay, c0, c1, c2, c3, c4, c5, c6, c7, c8, c9, c10])
        (by simp; omega) (by simp; omega)
  · rw [hl] at key
    simp only [hl, if_true] at h1
    by_cases c0 : doy < 31
    · exact key 0 (by omega) (by simp [monthOfYearDay, c0]) (by simpa using h0) (by simpa using c0)
    by_cases c1 : doy < 60
    · exact key 1 (by omega) (by simp [monthOfYearDay, c0]; omega) (by simp; omega)
        (by simp; omega)
    by_cases c2 : doy < 91
    · exact key 2 (by omega) (by simp [monthOfYearDay, c0]; omega) (by simp; omega)
        (by simp; omega)
    by_cases c3 : doy < 121
    · exact key 3 (by omega) (by simp [monthOfYearDay, c0]; omega) (by simp; omega)
        (by simp; omega)
    by_cases c4 : doy < 152
    · exact key 4 (by omega) (by simp [monthOfYearDay, c0]; omega) (by simp; omega)
        (by simp; omega)
    by_cases c5 : doy < 182
    · exact key 5 (by omega) (by simp [monthOfYearDay, c0]; omega) (by simp; omega)
        (by simp; omega)
    by_cases c6 : doy < 213
    · exact key 6 (by omega) (by simp [monthOfYearDay, c0]; omega) (by simp; omega)
        (by simp; omega)
    by_cases c7 : doy < 244
    · exact key 7 (by omega) (by simp [monthOfYearDay, c0]; omega) (by simp; omega)
        (by simp; omega)
    by_cases c8 : doy < 274
    · exact key 8 (by omega) (by simp [monthOfYearDay, c0]; omega) (by simp; omega)
        (by simp; omega)
    by_cases c9 : doy < 305
    · exact key 9 (by omega) (by simp [monthOfYearDay, c0]; omega) (by simp; omega)
        (by simp; omega)
    by_cases c10 : doy < 335
    · exact key 10 (by omega) (by simp [monthOfYearDay, c0]; omega) (by simp; omega)
        (by simp; omega)
    · exact key 11 (by omega) (by simp [monthOfYearDay, c0]; omega) (by simp; omega)
        (by simp; omega)

/-- What `gmtime` returns: the fields are those of a calendar date and time and
`timegm` maps them back to `t`. -/
theorem gmtime_spec (t : Int) (tm : Tm) (h : gmtime t = some tm) :
    timegm tm = t
      ∧ tm.tm_year + 1900 = yearOfDay (t / 86400)
      ∧ 0 ≤ tm.tm_mon ∧ tm.tm_mon ≤ 11
      ∧ 1 ≤ tm.tm_mday ∧ tm.tm_mday ≤ daysInMonth (tm.tm_year + 1900) (tm.tm_mon.toNat + 1)
      ∧ 0 ≤ tm.tm_hour ∧ tm.tm_hour < 24 ∧ 0 ≤ tm.tm_min ∧ tm.tm_min < 60
      ∧ 0 ≤ tm.tm_sec ∧ tm.tm_sec < 60 := by
  unfold gmtime at h
  simp only at h
  split_ifs at h
  have htm := Option.some.inj h
  obtain ⟨hy1, hy2⟩ := yearOfDay_spec (t / 86400)
  rw [daysBeforeYear_succ] at hy2
  obtain ⟨k, hk, hm, hm2, hm3⟩ := monthOfYearDay_spec (yearOfDay (t / 86400))
    (t / 86400 - daysBeforeYear (yearOfDay (t / 86400))) (by omega) (by omega)
  rw [hm] at htm
  generalize hY : yearOfDay (t / 86400) = y at *
  rw [← htm]
  simp only [timegm, sub_add_cancel, Int.toNat_ofNat]
  have e1 : (k : Int) / 12 = 0 := by omega
  have e2 : (k : Int) % 12 = (k : Int) := by omega
  rw [e1, e2, add_zero]
  refine ⟨by omega, trivial, by omega, by omega, by omega, by omega, by omega, by omega,
    by omega, by omega, by omega, by omega⟩

/-! ### Zero-padded decimal fields -/

theorem natToStringAux_fuel (f1 f2 n : Nat) (acc : Bytes) (h1 : n < 10 ^ (f1 + 1))
    (h2 : n < 10 ^ (f2 + 1)) :
    natToStringAux (f1 + 1) n acc = natToStringAux (f2 + 1) n acc := by
  induction f1 generalizing f2 n acc with
  | zero =>
    have hn : n < 10 := by simpa using h1
    unfold natToStringAux
    rw [if_pos hn, if_pos hn]
  | succ a ih =>
    by_cases hn : n < 10
    · unfold natToStringAux
      rw [if_pos hn, if_pos hn]
    · cases f2 with
      | zero => simp at h2; omega
      | succ b =>
        conv_lhs => unfold natToStringAux
        conv_rhs => unfold natToStringAux
        rw [if_neg hn, if_neg hn]
        apply ih
        · rw [pow_succ] at h1; omega
        · rw [pow_succ] at h2; omega

theorem natToString_small (n : Nat) (h : n < 10000) :
    natToString n
      = if n < 10 then [48 + n]
        else if n < 100 then [48 + n / 10, 48 + n % 10]
        else if n < 1000 then [48 + n / 100, 48 + n / 10 % 10, 48 + n % 10]
        else [48 + n / 1000, 48 + n / 100 % 10, 48 + n / 10 % 10, 48 + n % 10] := by
  unfold natToString
  have hp : n < 10 ^ (n + 1) :=
    lt_of_lt_of_le (Nat.lt_pow_self (by decide) n) (Nat.pow_le_pow_right (by decide) (by omega))
  rw [natToStringAux_fuel n 3 n [] hp (by norm_num; omega)]
  simp only [natToStringAux, Nat.div_div_eq_div_mul, Nat.reduceMul]
  split_ifs <;> first | rfl | omega

/-! ### Catchup URL: arithmetic -/

theorem fmtZeroPadded_four (v : Int) (h0 : 0 ≤ v) (h1 : v < 10000) :
    fmtZeroPadded 4 v = pad4 v.toNat := by
  obtain ⟨n, rfl⟩ := Int.eq_ofNat_of_zero_le h0
  have hn : n < 10000 := by omega
  unfold fmtZeroPadded pad4
  simp only [Int.natAbs_ofNat, Int.toNat_ofNat, natToString_small n hn]
  rw [if_neg (by omega)]
  split_ifs with a b c
  · have e1 : n / 1000 = 0 := by omega
    have e2 : n / 100 % 10 = 0 := by omega
    have e3 : n / 10 % 10 = 0 := by omega
    have e4 : n % 10 = n := by omega
    simp [e1, e2, e3, e4]
  · have e1 : n / 1000 = 0 := by omega
    have e2 : n / 100 % 10 = 0 := by omega
    have e3 : n / 10 % 10 = n / 10 := by omega
    simp [e1, e2, e3]
  · have e1 : n / 1000 = 0 := by omega
    have e2 : n / 100 % 10 = n / 100 := by omega
    simp [e1, e2]
  · simp

theorem fmtZeroPadded_two (v : Int) (h0 : 0 ≤ v) (h1 : v < 100) :
    fmtZeroPadded 2 v = pad2 v.toNat := by
  obtain ⟨n, rfl⟩ := Int.eq_ofNat_of_zero_le h0
  have hn : n < 100 := by omega
  unfold fmtZeroPadded pad2
  simp only [Int.natAbs_ofNat, Int.toNat_ofNat, natToString_small n (by omega)]
  rw [if_neg (by omega)]
  split_ifs with a
  · have e1 : n / 10 = 0 := by omega
    have e4 : n % 10 = n := by omega
    simp [e1, e4]
  · simp

theorem wrapInt64_id (v : Int) (h0 : -9223372036854775808 ≤ v) (h1 : v < 9223372036854775808) :
    wrapInt64 v = v := by
  unfold wrapInt64; omega

theorem adjustedStart_eq (settings : Settings) (startTime endTime : Int)
    (hr : catchupInRange settings startTime endTime = true) :
    adjustedStart settings startTime = startTime + catchupOffsetSeconds settings := by
  simp only [catchupInRange, Bool.and_eq_true, decide_eq_true_eq] at hr
  obtain ⟨⟨⟨⟨⟨h1, h2⟩, h3⟩, h4⟩, h5⟩, h6⟩ := hr
  unfold catchupOffsetSeconds at *
  simp only [adjustedStart]
  by_cases hneg : settings.catchupStartOffsetHours < 0
  · rw [if_pos hneg]
    rw [max_eq_right (le_of_lt hneg)] at *
    rw [show (0 : Int) * 3600 = 0 by norm_num, wrapInt32_id 0 (by decide) (by decide),
      wrapInt64_id _ (by omega) (by omega)]
    norm_num
  · rw [if_neg hneg]
    rw [max_eq_left (by omega)] at *
    rw [wrapInt32_id _ (by omega) (by omega), wrapInt64_id _ (by omega) (by omega)]
    ring

theorem durationMinutes_eq (settings : Settings) (startTime endTime : Int)
    (hr : catchupInRange settings startTime endTime = true) (h0 : 0 < startTime)
    (h1 : startTime < endTime) :
    (catchupDuration settings startTime endTime ≤ 0 →
        durationMinutes settings startTime endTime ≤ 0)
      ∧ (0 < catchupDuration settings startTime endTime →
          catchupDuration settings startTime endTime < 2147483648 →
          durationMinutes settings startTime endTime
            = catchupDuration settings startTime endTime) := by
  have hadj := adjustedStart_eq settings startTime endTime hr
  simp only [catchupInRange, Bool.and_eq_true, decide_eq_true_eq] at hr
  obtain ⟨⟨⟨⟨⟨r1, r2⟩, r3⟩, r4⟩, r5⟩, r6⟩ := hr
  have hoff : 0 ≤ catchupOffsetSeconds settings := by
    unfold catchupOffsetSeconds
    have := le_max_right settings.catchupStartOffsetHours 0
    omega
  unfold durationMinutes catchupDuration
  rw [hadj]
  generalize catchupOffsetSeconds settings = off at *
  have hw : wrapInt64 (endTime - (startTime + off)) = endTime - (startTime + off) := by
    unfold wrapInt64; omega
  rw [hw]
  have hx : -2147483648 < endTime - (startTime + off) := by omega
  generalize endTime - (startTime + off) = x at *
  constructor
  · intro hle
    have hx60 : x < 60 := by omega
    by_cases hxn : 0 ≤ x
    · have : Int.tdiv x 60 = 0 := by
        rw [Int.tdiv_eq_ediv hxn (by decide)]; omega
      rw [this]; decide
    · have e : Int.tdiv x 60 = -((-x) / 60) := by
        have := Int.neg_tdiv (-x) 60
        rw [neg_neg] at this
        rw [this, Int.tdiv_eq_ediv (by omega) (by decide)]
      rw [e]
      unfold wrapInt32; omega
  · intro hpos hlt
    have hxn : 0 ≤ x := by omega
    rw [Int.tdiv_eq_ediv hxn (by decide)]
    unfold wrapInt32; omega

/-! ### Catchup URL: shape of the result -/

theorem AppendUserAgentHeader_eq (url : Bytes) (settings : Settings) :
    AppendUserAgentHeader url settings = url ++ userAgentSuffix settings := by
  unfold AppendUserAgentHeader userAgentSuffix
  simp only
  split_ifs
  · simp
  · simp only [List.append_assoc]

/-- A non-empty result passed every check and has the assembled form. -/
theorem BuildCatchupUrl_ne_nil (settings : Settings) (streamId startTime endTime : Int)
    (streamFormat : Bytes) (h : BuildCatchupUrl settings streamId startTime endTime streamFormat ≠ []) :
    BuildBaseUrl settings ≠ [] ∧ 0 < streamId ∧ 0 < startTime ∧ startTime < endTime
      ∧ 0 < durationMinutes settings startTime endTime
      ∧ ∃ tm, gmtime (adjustedStart settings startTime) = some tm
          ∧ BuildCatchupUrl settings streamId startTime endTime streamFormat
            = BuildBaseUrl settings ++ ascii "/timeshift/" ++ UrlEncode settings.username
                ++ ascii "/" ++ UrlEncode settings.password ++ ascii "/"
                ++ intToString (durationMinutes settings startTime endTime) ++ ascii "/"
                ++ catchupTimeText tm ++ ascii "/" ++ intToString streamId
                ++ (if ToLower streamFormat = ascii "hls" then ascii ".m3u8" else ascii ".ts")
                ++ userAgentSuffix settings := by
  unfold BuildCatchupUrl at h ⊢
  simp only at h ⊢
  by_cases c1 : (BuildBaseUrl settings).isEmpty = true ∨ streamId ≤ 0 ∨ startTime ≤ 0
      ∨ endTime ≤ startTime
  · rw [if_pos c1] at h; exact absurd rfl h
  · rw [if_neg c1] at h ⊢
    simp only [not_or, not_le] at c1
    obtain ⟨b1, b2, b3, b4⟩ := c1
    by_cases c2 : durationMinutes settings startTime endTime ≤ 0
    · rw [if_pos c2] at h; exact absurd rfl h
    · rw [if_neg c2] at h ⊢
      cases hg : gmtime (adjustedStart settings startTime) with
      | none => rw [hg] at h; exact absurd rfl h
      | some tm =>
        simp only
        refine ⟨?_, b2, b3, b4, by omega, tm, rfl, ?_⟩
        · intro hb; rw [hb] at b1; simp at b1
        · rw [AppendUserAgentHeader_eq]

theorem daysBeforeYear_mono (a b : Int) (h : a ≤ b) : daysBeforeYear a ≤ daysBeforeYear b := by
  have := (daysBeforeYear_add a (b - a).toNat).1
  rw [Int.toNat_of_nonneg (by omega)] at this
  have e : a + (b - a) = b := by ring
  rw [e] at this
  omega

/-- The year of a non-negative day count lies between 1970 and
`1970 + days / 365`. -/
theorem yearOfDay_bounds (days : Int) (h : 0 ≤ days) :
    1970 ≤ yearOfDay days ∧ yearOfDay days ≤ 1970 + days / 365 := by
  obtain ⟨h1, h2⟩ := yearOfDay_spec days
  have lo : 1970 ≤ yearOfDay days := by
    by_contra hc
    have := daysBeforeYear_mono (yearOfDay days + 1) 1970 (by omega)
    rw [daysBeforeYear_1970] at this
    omega
  refine ⟨lo, ?_⟩
  have := (daysBeforeYear_add 1970 (yearOfDay days - 1970).toNat).1
  rw [Int.toNat_of_nonneg (by omega), daysBeforeYear_1970] at this
  have e : (1970 : Int) + (yearOfDay days - 1970) = yearOfDay days := by ring
  rw [e] at this
  omega

theorem gmtime_isSome (t : Int) (h0 : 0 ≤ t) (h1 : t < 36028797018963968) :
    ∃ tm, gmtime t = some tm := by
  obtain ⟨lo, hi⟩ := yearOfDay_bounds (t / 86400) (by omega)
  unfold gmtime
  simp only
  rw [if_neg (by omega)]
  exact ⟨_, rfl⟩

theorem yearLoop_ge (days : Int) (fuel : Nat) (y : Int) : y ≤ yearLoop days fuel y := by
  induction fuel generalizing y with
  | zero => exact le_refl _
  | succ n ih =>
    unfold yearLoop
    split_ifs
    · have := ih (y + 1); omega
    · exact le_refl _

/-- Beyond the years an `int` can hold there is no broken-down time. -/
theorem gmtime_overflow (t : Int) (h : 68000000000000000 ≤ t) : gmtime t = none := by
  have hy : 1970 + t / 86400 / 366 ≤ yearOfDay (t / 86400) := by
    unfold yearOfDay
    rw [if_pos (by omega)]
    exact yearLoop_ge _ _ _
  unfold gmtime
  simp only
  rw [if_pos (Or.inr (by omega))]

set_option maxRecDepth 1000000 in
/-- C18 (as stated, refuted): a window of `2^32 + 1` minutes is embedded as
duration 1; the stream format `HLS`, which is not the text `hls`, gives the
extension `.m3u8`; and for a start time whose year does not fit an `int` the
result is empty. -/
theorem C18_duration_narrowed_to_int :
    BuildCatchupUrl catchupExampleSettings 7 1 257698037821 (ascii "ts")
        = ascii "http://h:80/timeshift/u/p/1/1970-01-01:00-00/7.ts"
      ∧ catchupDuration catchupExampleSettings 1 257698037821 = 4294967297
      ∧ ascii "HLS" ≠ ascii "hls"
      ∧ BuildCatchupUrl catchupExampleSettings 7 1769022000 (1769022000 + 3600) (ascii "HLS")
          = ascii "http://h:80/timeshift/u/p/60/2026-01-21:19-00/7.m3u8"
      ∧ BuildCatchupUrl catchupExampleSettings 7 9000000000000000000
          (9000000000000000000 + 3600) (ascii "ts") = [] := by
  refine ⟨by decide, by decide, by decide, by decide, ?_⟩
  have hd : durationMinutes catchupExampleSettings 9000000000000000000
      (9000000000000000000 + 3600) = 60 := by decide
  have ha : adjustedStart catchupExampleSettings 9000000000000000000 = 9000000000000000000 := by
    decide
  unfold BuildCatchupUrl
  simp only [hd, ha, gmtime_overflow 9000000000000000000 (by decide)]
  simp

/-- C18 (amended): on inputs whose arithmetic stays within its types, whenever
`BuildCatchupUrl` returns a non-empty URL and the duration
`floor((end - (start + 3600 * max(offsetHours, 0))) / 60)` is below `2^31`, the
URL is `<base>/timeshift/<user>/<pass>/<duration>/<formatted start>/<id>`
followed by the extension and the optional `|User-Agent=` suffix, with that
duration in decimal; in particular for every `T` with `0 < T < 2^55`, stream id
`> 0`, buildable base, offset 0 and a stream format whose lowercase form is not
`hls`, the result for `start = T`, `end = T + 3600` is
`<base>/timeshift/<user>/<pass>/60/<formatted start>/<id>.ts` followed only by
the optional suffix. -/
theorem C18_duration_segment (settings : Settings) (streamId : Int) (streamFormat : Bytes) :
    (∀ (startTime endTime : Int), catchupInRange settings startTime endTime = true →
        catchupDuration settings startTime endTime < 2147483648 →
        BuildCatchupUrl settings streamId startTime endTime streamFormat ≠ [] →
        ∃ tm, gmtime (startTime + catchupOffsetSeconds settings) = some tm
          ∧ BuildCatchupUrl settings streamId startTime endTime streamFormat
            = BuildBaseUrl settings ++ ascii "/timeshift/" ++ UrlEncode settings.username
                ++ ascii "/" ++ UrlEncode settings.password ++ ascii "/"
                ++ intToString (catchupDuration settings startTime endTime) ++ ascii "/"
                ++ catchupTimeText tm ++ ascii "/" ++ intToString streamId
                ++ (if ToLower streamFormat = ascii "hls" then ascii ".m3u8" else ascii ".ts")
                ++ userAgentSuffix settings)
      ∧ (∀ (T : Int), 0 < T → T < 36028797018963968 → 0 < streamId →
          BuildBaseUrl settings ≠ [] → settings.catchupStartOffsetHours = 0 →
          ToLower streamFormat ≠ ascii "hls" →
          ∃ tm, gmtime T = some tm
            ∧ BuildCatchupUrl settings streamId T (T + 3600) streamFormat
              = BuildBaseUrl settings ++ ascii "/timeshift/" ++ UrlEncode settings.username
                  ++ ascii "/" ++ UrlEncode settings.password ++ ascii "/60/"
                  ++ catchupTimeText tm ++ ascii "/" ++ intToString streamId ++ ascii ".ts"
                  ++ userAgentSuffix settings) := by
  constructor
  · intro startTime endTime hr hd hne
    obtain ⟨-, -, h3, h4, h5, tm, hg, hurl⟩ :=
      BuildCatchupUrl_ne_nil settings streamId startTime endTime streamFormat hne
    obtain ⟨d1, d2⟩ := durationMinutes_eq settings startTime endTime hr h3 h4
    have hpos : 0 < catchupDuration settings startTime endTime := by
      by_contra hc
      have := d1 (by omega)
      omega
    rw [adjustedStart_eq settings startTime endTime hr] at hg
    refine ⟨tm, hg, ?_⟩
    rw [hurl, d2 hpos hd]
  · intro T hT0 hT1 hid hbase hoff hfmt
    have hos : catchupOffsetSeconds settings = 0 := by
      unfold catchupOffsetSeconds; rw [hoff]; rfl
    have hr : catchupInRange settings T (T + 3600) = true := by
      simp only [catchupInRange, hos, Bool.and_eq_true, decide_eq_true_eq]
      omega
    have hadj := adjustedStart_eq settings T (T + 3600) hr
    rw [hos, add_zero] at hadj
    have hcd : catchupDuration settings T (T + 3600) = 60 := by
      unfold catchupDuration; rw [hos]; omega
    have hdm : durationMinutes settings T (T + 3600) = 60 := by
      rw [(durationMinutes_eq settings T (T + 3600) hr hT0 (by omega)).2 (by omega) (by omega),
        hcd]
    obtain ⟨tm, hg⟩ := gmtime_isSome T (le_of_lt hT0) hT1
    refine ⟨tm, hg, ?_⟩
    have hb : (BuildBaseUrl settings).isEmpty = false := by
      cases h : BuildBaseUrl settings <;> simp_all
    unfold BuildCatchupUrl
    simp only [hb, hdm, hadj, hg, if_neg hfmt, AppendUserAgentHeader_eq]
    rw [if_neg (by simp; omega), if_neg (by decide)]
    have e60 : intToString 60 = ascii "60" := by decide
    rw [e60]
    have : ascii "/60/" = ascii "/" ++ ascii "60" ++ ascii "/" := by decide
    rw [this]
    simp only [List.append_assoc]

set_option maxRecDepth 1000000 in
/-- Witness for `C18_duration_segment`: one hour from 2026-01-21 19:00 UTC. -/
theorem C18_duration_segment_witness :
    BuildCatchupUrl catchupExampleSettings 7 1769022000 (1769022000 + 3600) (ascii "ts")
      = ascii "http://h:80/timeshift/u/p/60/2026-01-21:19-00/7.ts" := by
  obtain ⟨tm, hg, hurl⟩ :=
    (C18_duration_segment catchupExampleSettings 7 (ascii "ts")).2 1769022000 (by decide)
      (by decide) (by decide) (by decide) rfl (by decide)
  rw [hurl]
  have : gmtime 1769022000 = some { tm_year := 126, tm_mon := 0, tm_mday := 21, tm_hour := 19 } := by
    decide
  rw [this] at hg
  cases hg
  decide

theorem BuildBaseUrl_of_blank_server (settings : Settings) (h : Trim settings.server = []) :
    BuildBaseUrl settings = [] := by
  unfold BuildBaseUrl NormalizeServer
  rw [h]
  rfl

theorem adjustedStart_negative_offset (settings : Settings) (startTime : Int)
    (h : settings.catchupStartOffsetHours < 0) :
    adjustedStart settings startTime
      = adjustedStart { settings with catchupStartOffsetHours := 0 } startTime := by
  simp only [adjustedStart, h, if_true]
  rfl

/-- C19: `BuildCatchupUrl` returns the empty string whenever the stream id is
not positive or the base endpoint cannot be built (as when the server is empty
after trimming), and, on inputs whose arithmetic stays within its types,
whenever the duration `floor((end - (start + 3600 * max(offsetHours, 0))) / 60)`
is not positive; and a negative catchup offset gives exactly the result of
offset 0. -/
theorem C19_rejected_inputs (settings : Settings) (streamId startTime endTime : Int)
    (streamFormat : Bytes) :
    ((streamId ≤ 0 ∨ BuildBaseUrl settings = []) →
        BuildCatchupUrl settings streamId startTime endTime streamFormat = [])
      ∧ (Trim settings.server = [] →
          BuildCatchupUrl settings streamId startTime endTime streamFormat = [])
      ∧ (catchupInRange settings startTime endTime = true →
          catchupDuration settings startTime endTime ≤ 0 →
          BuildCatchupUrl settings streamId startTime endTime streamFormat = [])
      ∧ (settings.catchupStartOffsetHours < 0 →
          BuildCatchupUrl settings streamId startTime endTime streamFormat
            = BuildCatchupUrl { settings with catchupStartOffsetHours := 0 } streamId startTime
                endTime streamFormat) := by
  have h1 : (streamId ≤ 0 ∨ BuildBaseUrl settings = []) →
      BuildCatchupUrl settings streamId startTime endTime streamFormat = [] := by
    intro h
    unfold BuildCatchupUrl
    simp only
    rw [if_pos]
    rcases h with h | h
    · exact Or.inr (Or.inl h)
    · exact Or.inl (by rw [h]; rfl)
  refine ⟨h1, fun h => h1 (Or.inr (BuildBaseUrl_of_blank_server settings h)), ?_, ?_⟩
  · intro hr hd
    by_contra hne
    obtain ⟨-, -, h3, h4, h5, -⟩ :=
      BuildCatchupUrl_ne_nil settings streamId startTime endTime streamFormat hne
    have := (durationMinutes_eq settings startTime endTime hr h3 h4).1 hd
    omega
  · intro hneg
    have ha := adjustedStart_negative_offset settings startTime hneg
    have hd : durationMinutes settings startTime endTime
        = durationMinutes { settings with catchupStartOffsetHours := 0 } startTime endTime := by
      unfold durationMinutes
      rw [ha]
    unfold BuildCatchupUrl
    simp only [ha, hd]
    rfl

set_option maxRecDepth 1000000 in
/-- Witness for `C19_rejected_inputs`: a window of 59 seconds, a stream id 0, a
blank server, and the offset -2 against the offset 0. -/
theorem C19_rejected_inputs_witness :
    BuildCatchupUrl catchupExampleSettings 7 1769022000 (1769022000 + 59) (ascii "ts") = []
      ∧ BuildCatchupUrl catchupExampleSettings 0 1769022000 (1769022000 + 3600) (ascii "ts") = []
      ∧ BuildCatchupUrl { catchupExampleSettings with server := ascii "  " } 7 1769022000
          (1769022000 + 3600) (ascii "ts") = []
      ∧ BuildCatchupUrl { catchupExampleSettings with catchupStartOffsetHours := -2 } 7
          1769022000 (1769022000 + 3600) (ascii "ts")
        = ascii "http://h:80/timeshift/u/p/60/2026-01-21:19-00/7.ts" := by
  refine ⟨?_, ?_, ?_, ?_⟩
  · exact (C19_rejected_inputs catchupExampleSettings 7 1769022000 (1769022000 + 59)
      (ascii "ts")).2.2.1 (by decide) (by decide)
  · exact (C19_rejected_inputs catchupExampleSettings 0 1769022000 (1769022000 + 3600)
      (ascii "ts")).1 (Or.inl (by decide))
  · exact (C19_rejected_inputs { catchupExampleSettings with server := ascii "  " } 7 1769022000
      (1769022000 + 3600) (ascii "ts")).2.1 (by decide)
  · rw [(C19_rejected_inputs { catchupExampleSettings with catchupStartOffsetHours := -2 } 7
      1769022000 (1769022000 + 3600) (ascii "ts")).2.2.2 (by decide)]
    decide

/-! ### Catchup URL: the date-time segment (C20) -/

theorem daysBeforeYear_10000 : daysBeforeYear 10000 = 2932897 := by decide

/-- The broken-down time of an instant from 1970 to the end of year 9999, as
natural-number calendar fields. -/
theorem gmtime_calendar (t : Int) (tm : Tm) (h0 : 0 ≤ t) (h1 : t < 253402300800)
    (h : gmtime t = some tm) :
    ∃ y mo d hh mi s : Nat, validCalendarFields y mo d hh mi s = true
      ∧ utcEpochSeconds y mo d hh mi s = t
      ∧ tm.tm_year + 1900 = (y : Int) ∧ tm.tm_mon + 1 = (mo : Int) ∧ tm.tm_mday = (d : Int)
      ∧ tm.tm_hour = (hh : Int) ∧ tm.tm_min = (mi : Int) ∧ tm.tm_sec = (s : Int) := by
  obtain ⟨g1, g2, g3, g4, g5, g6, g7, g8, g9, g10, g11, g12⟩ := gmtime_spec t tm h
  obtain ⟨lo, -⟩ := yearOfDay_bounds (t / 86400) (by omega)
  obtain ⟨s1, s2⟩ := yearOfDay_spec (t / 86400)
  have hi : yearOfDay (t / 86400) < 10000 := by
    by_contra hc
    have := daysBeforeYear_mono 10000 (yearOfDay (t / 86400)) (by omega)
    rw [daysBeforeYear_10000] at this
    omega
  rw [← g2] at lo hi
  obtain ⟨y, hy⟩ := Int.eq_ofNat_of_zero_le (show 0 ≤ tm.tm_year + 1900 by omega)
  obtain ⟨m, hm⟩ := Int.eq_ofNat_of_zero_le g3
  obtain ⟨d, hd⟩ := Int.eq_ofNat_of_zero_le (show 0 ≤ tm.tm_mday by omega)
  obtain ⟨hh, hhh⟩ := Int.eq_ofNat_of_zero_le g7
  obtain ⟨mi, hmi⟩ := Int.eq_ofNat_of_zero_le g9
  obtain ⟨s, hs⟩ := Int.eq_ofNat_of_zero_le g11
  refine ⟨y, m + 1, d, hh, mi, s, ?_, ?_, hy, by rw [hm]; push_cast; rfl, hd, hhh, hmi, hs⟩
  · rw [hy, hm, hd] at g6
    simp only [Int.toNat_ofNat] at g6
    unfold daysInMonth at g6
    simp only [validCalendarFields, Bool.and_eq_true, decide_eq_true_eq]
    refine ⟨⟨⟨⟨⟨⟨⟨by omega, by omega⟩, by omega⟩, by omega⟩, ?_⟩, by omega⟩, by omega⟩, by omega⟩
    exact_mod_cast g6
  · rw [← timegm_eq_utcEpochSeconds y (m + 1) d hh mi s (by omega) (by omega), ← g1]
    congr 1
    have e : ((m + 1 : Nat) : Int) - 1 = tm.tm_mon := by rw [hm]; push_cast; ring
    rw [e, ← hy, ← hd, ← hhh, ← hmi, ← hs]
    simp

theorem catchupTimeText_calendar (tm : Tm) (y mo d hh mi : Nat)
    (hy : tm.tm_year + 1900 = (y : Int)) (hmo : tm.tm_mon + 1 = (mo : Int))
    (hd : tm.tm_mday = (d : Int)) (hh' : tm.tm_hour = (hh : Int)) (hmi : tm.tm_min = (mi : Int))
    (by' : y < 10000) (bmo : mo < 100) (bd : d < 100) (bh : hh < 100) (bmi : mi < 100) :
    catchupTimeText tm = dateTimeSegment y mo d hh mi := by
  unfold catchupTimeText dateTimeSegment
  rw [hy, hmo, hd, hh', hmi, fmtZeroPadded_four _ (by omega) (by omega),
    fmtZeroPadded_two _ (by omega) (by omega), fmtZeroPadded_two _ (by omega) (by omega),
    fmtZeroPadded_two _ (by omega) (by omega), fmtZeroPadded_two _ (by omega) (by omega)]
  simp only [Int.toNat_ofNat]
  rw [List.take_of_length_le]
  simp [pad4, pad2]

set_option maxRecDepth 100000 in
/-- C20 (as stated, refuted): for a programme that starts at 10000-01-01
00:00:00 UTC the date-time segment is `10000-01-01:00-00`, of 17 characters. -/
theorem C20_year_10000_segment :
    BuildCatchupUrl catchupExampleSettings 7 253402300800 (253402300800 + 3600) (ascii "ts")
        = ascii "http://h:80/timeshift/u/p/60/" ++ ascii "10000-01-01:00-00" ++ ascii "/7.ts"
      ∧ (ascii "10000-01-01:00-00").length = 17 := by
  decide

/-- C20 (amended): on inputs whose arithmetic stays within its types, whenever
`BuildCatchupUrl` returns a non-empty URL and the adjusted start
`start + 3600 * max(offsetHours, 0)` lies before 10000-01-01 00:00:00 UTC, the
date-time segment of the URL is the 16-character text `YYYY-MM-DD:HH-MM`, zero
padded, of calendar fields that are a valid Gregorian date and time of day and
whose UTC epoch second (counted from 1970-01-01, no zone shift) is the adjusted
start; the seconds field is not written. -/
theorem C20_segment_is_utc_date (settings : Settings) (streamId startTime endTime : Int)
    (streamFormat : Bytes) (hr : catchupInRange settings startTime endTime = true)
    (hbefore : startTime + catchupOffsetSeconds settings < 253402300800)
    (hne : BuildCatchupUrl settings streamId startTime endTime streamFormat ≠ []) :
    ∃ y mo d h mi s : Nat, validCalendarFields y mo d h mi s = true
      ∧ utcEpochSeconds y mo d h mi s = startTime + catchupOffsetSeconds settings
      ∧ (dateTimeSegment y mo d h mi).length = 16
      ∧ BuildCatchupUrl settings streamId startTime endTime streamFormat
        = BuildBaseUrl settings ++ ascii "/timeshift/" ++ UrlEncode settings.username
            ++ ascii "/" ++ UrlEncode settings.password ++ ascii "/"
            ++ intToString (durationMinutes settings startTime endTime) ++ ascii "/"
            ++ dateTimeSegment y mo d h mi ++ ascii "/" ++ intToString streamId
            ++ (if ToLower streamFormat = ascii "hls" then ascii ".m3u8" else ascii ".ts")
            ++ userAgentSuffix settings := by
  obtain ⟨-, -, h3, -, -, tm, hg, hurl⟩ :=
    BuildCatchupUrl_ne_nil settings streamId startTime endTime streamFormat hne
  rw [adjustedStart_eq settings startTime endTime hr] at hg
  have hoff : 0 ≤ catchupOffsetSeconds settings := by
    unfold catchupOffsetSeconds
    have := le_max_right settings.catchupStartOffsetHours 0
    omega
  obtain ⟨y, mo, d, h, mi, s, hv, he, e1, e2, e3, e4, e5, -⟩ :=
    gmtime_calendar _ tm (by omega) hbefore hg
  have hv' := hv
  simp only [validCalendarFields, Bool.and_eq_true, decide_eq_true_eq] at hv'
  obtain ⟨⟨⟨⟨⟨⟨⟨v1, v2⟩, v3⟩, v4⟩, v5⟩, v6⟩, v7⟩, v8⟩ := hv'
  have hd100 : d < 100 := by
    split_ifs at v5 <;> omega
  refine ⟨y, mo, d, h, mi, s, hv, he, by simp [dateTimeSegment, pad4, pad2], ?_⟩
  rw [hurl, catchupTimeText_calendar tm y mo d h mi e1 e2 e3 e4 e5 v1 (by omega) hd100
    (by omega) (by omega)]

set_option maxRecDepth 100000 in
/-- Witness for `C20_segment_is_utc_date`: a programme at 1769022000, with a
catchup offset of one hour, is addressed as 2026-01-21 20:00 UTC. -/
theorem C20_segment_is_utc_date_witness :
    utcEpochSeconds 2026 1 21 20 0 0 = 1769022000 + 3600
      ∧ dateTimeSegment 2026 1 21 20 0 = ascii "2026-01-21:20-00"
      ∧ ∃ y mo d h mi s : Nat, validCalendarFields y mo d h mi s = true
          ∧ utcEpochSeconds y mo d h mi s = 1769022000 + 3600
          ∧ BuildCatchupUrl { catchupExampleSettings with catchupStartOffsetHours := 1 } 7
              1769022000 (1769022000 + 7200) (ascii "ts")
            = ascii "http://h:80/timeshift/u/p/60/" ++ dateTimeSegment y mo d h mi
                ++ ascii "/7.ts" := by
  refine ⟨?_, by decide, ?_⟩
  · rw [← timegm_eq_utcEpochSeconds 2026 1 21 20 0 0 (by decide) (by decide)]
    decide
  obtain ⟨y, mo, d, h, mi, s, hv, he, -, hurl⟩ :=
    C20_segment_is_utc_date { catchupExampleSettings with catchupStartOffsetHours := 1 } 7
      1769022000 (1769022000 + 7200) (ascii "ts") (by decide) (by decide) (by decide)
  refine ⟨y, mo, d, h, mi, s, hv, he, ?_⟩
  rw [hurl]
  have e1 : BuildBaseUrl { catchupExampleSettings with catchupStartOffsetHours := 1 }
      ++ ascii "/timeshift/"
      ++ UrlEncode ({ catchupExampleSettings with catchupStartOffsetHours := 1 } : Settings).username
      ++ ascii "/"
      ++ UrlEncode ({ catchupExampleSettings with catchupStartOffsetHours := 1 } : Settings).password
      ++ ascii "/"
      ++ intToString (durationMinutes { catchupExampleSettings with catchupStartOffsetHours := 1 }
          1769022000 (1769022000 + 7200))
      ++ ascii "/" = ascii "http://h:80/timeshift/u/p/60/" := by decide
  have e2 : ascii "/" ++ intToString 7 ++ (if ToLower (ascii "ts") = ascii "hls" then ascii ".m3u8"
      else ascii ".ts")
      ++ userAgentSuffix { catchupExampleSettings with catchupStartOffsetHours := 1 }
      = ascii "/7.ts" := by decide
  rw [← e1, ← e2]
  simp only [List.append_assoc]

/-- C21: whenever `BuildCatchupUrl` returns a non-empty URL `u`, whose duration
segment is `d = durationMinutes`, the URL is `pre ++ segment ++ post` with
`segment` the formatted adjusted start time, and
`BuildCatchupUrlTemplate settings id d format` is `pre ++ "{Y}-{m}-{d}:{H}-{M}" ++ post`
with the same `pre` (base, `/timeshift/`, user, password, duration) and the same
`post` (stream id, extension, optional user-agent suffix). -/
theorem C21_template_is_url_with_placeholder (settings : Settings)
    (streamId startTime endTime : Int) (streamFormat : Bytes)
    (hne : BuildCatchupUrl settings streamId startTime endTime streamFormat ≠ []) :
    ∃ tm pre post,
      gmtime (adjustedStart settings startTime) = some tm
      ∧ pre = BuildBaseUrl settings ++ ascii "/timeshift/" ++ UrlEncode settings.username
              ++ ascii "/" ++ UrlEncode settings.password ++ ascii "/"
              ++ intToString (durationMinutes settings startTime endTime) ++ ascii "/"
      ∧ post = ascii "/" ++ intToString streamId
              ++ (if ToLower streamFormat = ascii "hls" then ascii ".m3u8" else ascii ".ts")
              ++ userAgentSuffix settings
      ∧ BuildCatchupUrl settings streamId startTime endTime streamFormat
          = pre ++ catchupTimeText tm ++ post
      ∧ BuildCatchupUrlTemplate settings streamId
            (durationMinutes settings startTime endTime) streamFormat
          = pre ++ catchupPlaceholder ++ post := by
  obtain ⟨h1, h2, -, -, h5, tm, hg, hurl⟩ :=
    BuildCatchupUrl_ne_nil settings streamId startTime endTime streamFormat hne
  refine ⟨tm, _, _, hg, rfl, rfl, ?_, ?_⟩
  · rw [hurl]
    simp only [List.append_assoc]
  · unfold BuildCatchupUrlTemplate
    simp only
    have hb : ¬ ((BuildBaseUrl settings).isEmpty = true ∨ streamId ≤ 0
        ∨ durationMinutes settings startTime endTime ≤ 0) := by
      rw [List.isEmpty_iff]
      simp only [not_or, not_le]
      exact ⟨h1, h2, h5⟩
    rw [if_neg hb, AppendUserAgentHeader_eq]
    simp only [List.append_assoc]

set_option maxRecDepth 1000000 in
/-- Witness for `C21_template_is_url_with_placeholder`: one hour from
2026-01-21 19:00 UTC on stream 7. -/
theorem C21_template_is_url_with_placeholder_witness :
    BuildCatchupUrl catchupExampleSettings 7 1769022000 1769025600 (ascii "ts")
        = ascii "http://h:80/timeshift/u/p/60/2026-01-21:19-00/7.ts"
      ∧ BuildCatchupUrlTemplate catchupExampleSettings 7 60 (ascii "ts")
        = ascii "http://h:80/timeshift/u/p/60/\x7bY\x7d-\x7bm\x7d-\x7bd\x7d:\x7bH\x7d-\x7bM\x7d/7.ts"
      ∧ ∃ tm pre post,
          gmtime (adjustedStart catchupExampleSettings 1769022000) = some tm
          ∧ pre = BuildBaseUrl catchupExampleSettings ++ ascii "/timeshift/"
                  ++ UrlEncode catchupExampleSettings.username
                  ++ ascii "/" ++ UrlEncode catchupExampleSettings.password ++ ascii "/"
                  ++ intToString (durationMinutes catchupExampleSettings 1769022000 1769025600)
                  ++ ascii "/"
          ∧ post = ascii "/" ++ intToString 7
                  ++ (if ToLower (ascii "ts") = ascii "hls" then ascii ".m3u8" else ascii ".ts")
                  ++ userAgentSuffix catchupExampleSettings
          ∧ BuildCatchupUrl catchupExampleSettings 7 1769022000 1769025600 (ascii "ts")
              = pre ++ catchupTimeText tm ++ post
          ∧ BuildCatchupUrlTemplate catchupExampleSettings 7
                (durationMinutes catchupExampleSettings 1769022000 1769025600) (ascii "ts")
              = pre ++ catchupPlaceholder ++ post :=
  ⟨by decide, by decide,
    C21_template_is_url_with_placeholder catchupExampleSettings 7 1769022000 1769025600
      (ascii "ts") (by decide)⟩

theorem epgStep_published (env : CycleEnv) (cap : Captured) (streams : List LiveStream) (n : Nat)
    (st : ClientState) : (epgStep env cap streams n st).published = st.published := by
  unfold epgStep
  simp only
  split_ifs <;> rfl

theorem perCategoryRequests_mem (env : CycleEnv) (settings : Settings) (ids : List Int) (n : Nat) :
    ∀ r ∈ perCategoryRequests env settings ids n, r = 0 ∨ r ∈ ids := by
  induction ids generalizing n with
  | nil => intro r hr; cases hr
  | cons i rest ih =>
    intro r hr
    unfold perCategoryRequests at hr
    simp only at hr
    split_ifs at hr
    · rcases List.mem_cons.1 hr with h | h
      · exact Or.inr (h ▸ List.mem_cons_self _ _)
      · exact Or.inl (List.mem_singleton.1 h)
    · rcases List.mem_cons.1 hr with h | h
      · exact Or.inr (h ▸ List.mem_cons_self _ _)
      · rcases ih _ r h with h | h
        · exact Or.inl h
        · exact Or.inr (List.mem_cons_of_mem _ h)

theorem keepCatIds_mem (pats : List Bytes) (mode : Bytes) (categories : List LiveCategory)
    (r : Int) (hr : r ∈ keepCatIds pats mode categories) :
    0 < r ∧ (mode = ascii "include" ∨ mode = ascii "exclude") := by
  unfold keepCatIds at hr
  obtain ⟨c, -, hc⟩ := List.mem_filterMap.1 hr
  split_ifs at hc with h1 h2 h3 h4 h5
  · cases hc
    exact ⟨by simp only [not_or, not_le] at h1; exact h1.1, Or.inl h2⟩
  · cases hc
    exact ⟨by simp only [not_or, not_le] at h1; exact h1.1, Or.inr h4⟩

theorem perCategoryLoop_requests (env : CycleEnv) (settings : Settings) (st : ClientState)
    (ids : List Int) (n : Nat) (acc : List LiveStream) :
    ∃ st' streams, perCategoryLoop env settings st ids n acc
      = .proceed st' streams (n + (perCategoryRequests env settings ids n).length) := by
  induction ids generalizing n acc with
  | nil => exact ⟨st, acc, rfl⟩
  | cons i rest ih =>
    unfold perCategoryLoop perCategoryRequests
    simp only
    by_cases h : (!(FetchLiveStreams (streamsUrl settings i)
        (env.httpGet n (streamsUrl settings i))).1.ok) = true
    · rw [if_pos h, if_pos h]
      split_ifs
      · exact ⟨_, _, rfl⟩
      · exact ⟨_, _, rfl⟩
    · rw [if_neg h, if_neg h]
      obtain ⟨st', streams, e⟩ := ih (n + 1)
        (acc ++ (FetchLiveStreams (streamsUrl settings i) (env.httpGet n (streamsUrl settings i))).2)
      refine ⟨st', streams, ?_⟩
      rw [e, List.length_cons]
      congr 1
      omega

/-- The request list agrees with the stream fetch phase: when the phase ends the
cycle, the one unfiltered request was issued, and otherwise the request counter
it hands on is one (the categories request) plus the number of stream requests. -/
theorem fetchStreams_requests (env : CycleEnv) (cap : Captured) (categories : List LiveCategory)
    (st : ClientState) :
    (∃ st', fetchStreams env cap categories st = .aborted st'
        ∧ streamRequests env cap categories = [0])
      ∨ ∃ st' streams, fetchStreams env cap categories st
          = .proceed st' streams (1 + (streamRequests env cap categories).length) := by
  unfold fetchStreams streamRequests
  simp only
  generalize SplitPatterns cap.categoryFilterRaw = pats
  generalize ToLower cap.categoryFilterMode = mode
  have hbulk : (∃ st', (if (!(FetchLiveStreams (streamsUrl cap.settings 0)
            (env.httpGet 1 (streamsUrl cap.settings 0))).1.ok) = true then
          StreamFetch.aborted (failLoad st)
        else StreamFetch.proceed st (FetchLiveStreams (streamsUrl cap.settings 0)
            (env.httpGet 1 (streamsUrl cap.settings 0))).2 2) = .aborted st' ∧ ([0] : List Int) = [0])
      ∨ ∃ st' streams, (if (!(FetchLiveStreams (streamsUrl cap.settings 0)
            (env.httpGet 1 (streamsUrl cap.settings 0))).1.ok) = true then
          StreamFetch.aborted (failLoad st)
        else StreamFetch.proceed st (FetchLiveStreams (streamsUrl cap.settings 0)
            (env.httpGet 1 (streamsUrl cap.settings 0))).2 2)
          = .proceed st' streams (1 + ([0] : List Int).length) := by
    by_cases hk : (!(FetchLiveStreams (streamsUrl cap.settings 0)
            (env.httpGet 1 (streamsUrl cap.settings 0))).1.ok) = true
    · rw [if_pos hk]
      exact Or.inl ⟨_, rfl, rfl⟩
    · rw [if_neg hk]
      exact Or.inr ⟨_, _, rfl⟩
  by_cases hA : pats.isEmpty = true ∨ mode = ascii "all"
      ∨ decide ((!pats.isEmpty) = true ∧ (mode = ascii "include" ∨ mode = ascii "exclude")
          ∧ ShouldFilterOut pats (ascii "Uncategorized") = true) = true
  · rw [if_pos hA, if_pos hA]
    exact hbulk
  rw [if_neg hA, if_neg hA]
  by_cases hB : (!decide ((keepCatIds pats mode categories).length ≤ 20
      ∨ 0 < categories.length ∧ (keepCatIds pats mode categories).length * 4 ≤ categories.length))
      = true
  · rw [if_pos hB, if_pos hB]
    exact hbulk
  rw [if_neg hB, if_neg hB]
  exact Or.inr (perCategoryLoop_requests env cap.settings st _ 1 [])

/-- Per-category requests are issued only under an active category filter whose
kept set has at most 20 categories or at most a quarter of all categories. -/
theorem streamRequests_per_category_only_when_active (env : CycleEnv) (cap : Captured)
    (categories : List LiveCategory) (r : Int) (hr : r ∈ streamRequests env cap categories)
    (hr0 : r ≠ 0) :
    categoryFilterActive cap = true
      ∧ ((keepCatIds (SplitPatterns cap.categoryFilterRaw) (ToLower cap.categoryFilterMode)
            categories).length ≤ 20
        ∨ 4 * (keepCatIds (SplitPatterns cap.categoryFilterRaw) (ToLower cap.categoryFilterMode)
            categories).length ≤ categories.length) := by
  unfold streamRequests at hr
  unfold categoryFilterActive
  simp only at hr
  generalize SplitPatterns cap.categoryFilterRaw = pats at hr ⊢
  generalize ToLower cap.categoryFilterMode = mode at hr ⊢
  by_cases hA : pats.isEmpty = true ∨ mode = ascii "all"
      ∨ decide ((!pats.isEmpty) = true ∧ (mode = ascii "include" ∨ mode = ascii "exclude")
          ∧ ShouldFilterOut pats (ascii "Uncategorized") = true) = true
  · rw [if_pos hA] at hr
    exact absurd (List.mem_singleton.1 hr) hr0
  rw [if_neg hA] at hr
  by_cases hB : (!decide ((keepCatIds pats mode categories).length ≤ 20
      ∨ 0 < categories.length ∧ (keepCatIds pats mode categories).length * 4 ≤ categories.length))
      = true
  · rw [if_pos hB] at hr
    exact absurd (List.mem_singleton.1 hr) hr0
  rw [if_neg hB] at hr
  rcases perCategoryRequests_mem env cap.settings _ 1 r hr with h | h
  · exact absurd h hr0
  obtain ⟨-, hm⟩ := keepCatIds_mem pats mode categories r h
  simp only [not_or] at hA
  constructor
  · have h1 : pats.isEmpty = false := by simpa using hA.1
    rw [h1]
    rcases hm with hm | hm <;> simp [hm]
  · simp only [Bool.not_eq_true', decide_eq_false_iff_not, not_not] at hB
    rcases hB with hB | hB
    · exact Or.inl hB
    · exact Or.inr (by omega)

/-- Under the modes `all`, `include` and `exclude` the other half of the fetch
strategy holds: with an empty pattern list or mode `all`, or with an active
filter keeping more than 20 categories and more than a quarter of all, exactly
one request is issued, the unfiltered one. -/
theorem streamRequests_single_unfiltered (env : CycleEnv) (cap : Captured)
    (categories : List LiveCategory)
    (h : SplitPatterns cap.categoryFilterRaw = [] ∨ ToLower cap.categoryFilterMode = ascii "all"
      ∨ (20 < (keepCatIds (SplitPatterns cap.categoryFilterRaw) (ToLower cap.categoryFilterMode)
            categories).length
        ∧ categories.length < 4 * (keepCatIds (SplitPatterns cap.categoryFilterRaw)
            (ToLower cap.categoryFilterMode) categories).length)) :
    streamRequests env cap categories = [0] := by
  unfold streamRequests
  simp only
  generalize SplitPatterns cap.categoryFilterRaw = pats at h ⊢
  generalize ToLower cap.categoryFilterMode = mode at h ⊢
  by_cases hA : pats.isEmpty = true ∨ mode = ascii "all"
      ∨ decide ((!pats.isEmpty) = true ∧ (mode = ascii "include" ∨ mode = ascii "exclude")
          ∧ ShouldFilterOut pats (ascii "Uncategorized") = true) = true
  · rw [if_pos hA]
  rw [if_neg hA]
  simp only [not_or] at hA
  rcases h with h | h | h
  · exact absurd (by rw [h]; rfl) hA.1
  · exact absurd h hA.2.1
  · have hB : (!decide ((keepCatIds pats mode categories).length ≤ 20
        ∨ 0 < categories.length ∧ (keepCatIds pats mode categories).length * 4 ≤ categories.length))
        = true := by
      simp only [Bool.not_eq_true', decide_eq_false_iff_not, not_or, not_and, not_le]
      exact ⟨h.1, fun _ => by omega⟩
    rw [if_pos hB]

set_option maxRecDepth 1000000 in
/-- C23 (the code at the failing input): with the category filter mode `off` and
a stored pattern `news` the filter is inactive, yet the fetch phase takes the
branch of the active filter with an empty kept set: it issues no streams request
at all, and the cycle publishes an empty channel list and an empty stream list
and flags the data as loaded, although the provider offers three streams, which
the same cycle under mode `all` fetches with one unfiltered request and
publishes. -/
theorem C23_unknown_mode_issues_no_stream_request :
    categoryFilterActive (capture unknownModeState) = false
      ∧ streamRequests twoCategoriesEnv (capture unknownModeState)
          (FetchLiveCategories (categoriesUrl unknownModeState.xtreamSettings)
            (twoCategoriesEnv.httpGet 0 (categoriesUrl unknownModeState.xtreamSettings))).2 = []
      ∧ (workerCycle twoCategoriesEnv unknownModeState).triggeredUpdate = true
      ∧ (workerCycle twoCategoriesEnv unknownModeState).state.channels = some []
      ∧ (workerCycle twoCategoriesEnv unknownModeState).state.streams = some []
      ∧ (workerCycle twoCategoriesEnv unknownModeState).state.dataLoaded = true
      ∧ streamRequests twoCategoriesEnv
          (capture { unknownModeState with categoryFilterMode := ascii "all" })
          (FetchLiveCategories (categoriesUrl unknownModeState.xtreamSettings)
            (twoCategoriesEnv.httpGet 0 (categoriesUrl unknownModeState.xtreamSettings))).2 = [0]
      ∧ ((workerCycle twoCategoriesEnv
            { unknownModeState with categoryFilterMode := ascii "all" }).state.channels.map
          (fun l => l.map (fun c => c.uniqueId))) = some [11, 12, 13] := by
  decide

/-- C24: after a refresh issued at steady-clock time `t1 ≠ 0` (the call at `t1`
called `TriggerChannelUpdate`, whatever was stored before), every later call at
a time `t2` with `0 ≤ t2 - t1 < 2000`, in a sequence of any length, calls neither
`TriggerChannelUpdate` nor `TriggerChannelGroupsUpdate` and leaves the stored
last-trigger time at `t1`. -/
theorem C24_refresh_throttled (last0 t1 : Int) (ts : List Int) (ht1 : t1 ≠ 0)
    (hissued : (TriggerKodiRefreshThrottled t1 last0).channelUpdate = true)
    (hwin : ∀ t2 ∈ ts, 0 ≤ t2 - t1 ∧ t2 - t1 < 2000) :
    (TriggerKodiRefreshThrottled t1 last0).lastRefreshTriggerMs = t1
      ∧ (∀ t2 ∈ ts, TriggerKodiRefreshThrottled t2 t1
          = { lastRefreshTriggerMs := t1, channelUpdate := false, groupsUpdate := false })
      ∧ ∀ r ∈ throttledCalls (TriggerKodiRefreshThrottled t1 last0).lastRefreshTriggerMs ts,
          r = { lastRefreshTriggerMs := t1, channelUpdate := false, groupsUpdate := false } := by
  have h1 : (TriggerKodiRefreshThrottled t1 last0).lastRefreshTriggerMs = t1 := by
    unfold TriggerKodiRefreshThrottled at hissued ⊢
    by_cases h : last0 ≠ 0 ∧ wrapInt64 (t1 - last0) < 2000
    · rw [if_pos h] at hissued
      cases hissued
    · rw [if_neg h]
  have h2 : ∀ t2, 0 ≤ t2 - t1 ∧ t2 - t1 < 2000 → TriggerKodiRefreshThrottled t2 t1
      = { lastRefreshTriggerMs := t1, channelUpdate := false, groupsUpdate := false } := by
    intro t2 ht
    unfold TriggerKodiRefreshThrottled
    rw [if_pos]
    refine ⟨ht1, ?_⟩
    rw [wrapInt64_id _ (by omega) (by omega)]
    exact ht.2
  refine ⟨h1, fun t2 ht => h2 t2 (hwin t2 ht), ?_⟩
  rw [h1]
  clear hissued h1
  induction ts with
  | nil => intro r hr; cases hr
  | cons t rest ih =>
    intro r hr
    have ht := h2 t (hwin t (List.mem_cons_self _ _))
    unfold throttledCalls at hr
    rw [ht] at hr
    rcases List.mem_cons.1 hr with h | h
    · exact h
    · exact ih (fun t2 h2' => hwin t2 (List.mem_cons_of_mem _ h2')) r h

/-- Witness for `C24_refresh_throttled`: first refresh at 5000 ms, then calls at
5000, 5001 and 6999 ms; a call at 7000 ms refreshes again. -/
theorem C24_refresh_throttled_witness :
    throttledCalls 0 [5000, 5000, 5001, 6999, 7000]
        = [{ lastRefreshTriggerMs := 5000, channelUpdate := true, groupsUpdate := true },
           { lastRefreshTriggerMs := 5000, channelUpdate := false, groupsUpdate := false },
           { lastRefreshTriggerMs := 5000, channelUpdate := false, groupsUpdate := false },
           { lastRefreshTriggerMs := 5000, channelUpdate := false, groupsUpdate := false },
           { lastRefreshTriggerMs := 7000, channelUpdate := true, groupsUpdate := true }]
      ∧ (TriggerKodiRefreshThrottled 5000 0).lastRefreshTriggerMs = 5000
      ∧ (∀ t2 ∈ [(5000 : Int), 5001, 6999], TriggerKodiRefreshThrottled t2 5000
          = { lastRefreshTriggerMs := 5000, channelUpdate := false, groupsUpdate := false })
      ∧ ∀ r ∈ throttledCalls (TriggerKodiRefreshThrottled 5000 0).lastRefreshTriggerMs
            [5000, 5001, 6999],
          r = { lastRefreshTriggerMs := 5000, channelUpdate := false, groupsUpdate := false } :=
  ⟨by decide,
    C24_refresh_throttled 0 5000 [5000, 5001, 6999] (by decide) (by decide) (by decide)⟩

theorem mapFind_mapErase {κ ν : Type} [DecidableEq κ] (m : List (κ × ν)) (k k' : κ) :
    mapFind (mapErase m k) k' = if k = k' then none else mapFind m k' := by
  induction m with
  | nil => simp [mapErase, mapFind]
  | cons p rest ih =>
    obtain ⟨a, b⟩ := p
    unfold mapErase at ih ⊢
    by_cases hak : a = k
    · subst hak
      rw [List.filter_cons_of_neg (by simp), ih]
      by_cases hk : a = k'
      · simp [hk]
      · simp [hk, mapFind]
    · rw [List.filter_cons_of_pos (by simpa using hak)]
      by_cases hk : k = k'
      · subst hk
        simp only [mapFind, if_neg hak, ih, if_true]
      · simp only [mapFind, ih, if_neg hk]

/-- The pending map after a call of `GetChannelStreamProperties`: the entry of
the channel is gone and every other entry is as before. -/
theorem GetChannelStreamProperties_pending (env : EnsureEnv) (nowMs nowTs : Int) (c : Nat)
    (st : PvrState) (c' : Nat) :
    mapFind (GetChannelStreamProperties env nowMs nowTs c st).state.pendingCatchupByChannel c'
      = if c = c' then none else mapFind st.pendingCatchupByChannel c' := by
  have key : ∀ (s : PvrState), (s.pendingCatchupByChannel
        = match mapFind st.pendingCatchupByChannel c with
          | some _ => mapErase st.pendingCatchupByChannel c
          | none => st.pendingCatchupByChannel) →
      mapFind s.pendingCatchupByChannel c'
        = if c = c' then none else mapFind st.pendingCatchupByChannel c' := by
    intro s hs
    rw [hs]
    cases hf : mapFind st.pendingCatchupByChannel c with
    | none =>
      simp only
      by_cases hk : c = c'
      · rw [if_pos hk, ← hk, hf]
      · rw [if_neg hk]
    | some p => exact mapFind_mapErase _ _ _
  apply key
  unfold GetChannelStreamProperties
  simp only
  cases hf : mapFind st.pendingCatchupByChannel c with
  | none =>
    simp only
    cases (EnsureLoaded env st.loader).state.client.uidToStreamId with
    | none => rfl
    | some m =>
      simp only
      split_ifs <;> rfl
  | some p =>
    simp only
    cases (EnsureLoaded env st.loader).state.client.uidToStreamId with
    | none =>
      simp only
      split_ifs <;> rfl
    | some m =>
      simp only
      split_ifs <;> rfl

/-- When a call of `GetChannelStreamProperties` takes the catchup branch, the
channel had a pending entry that had not expired, and the URL returned is the
one of that entry. -/
theorem GetChannelStreamProperties_used (env : EnsureEnv) (nowMs nowTs : Int) (c : Nat)
    (st : PvrState)
    (h : (GetChannelStreamProperties env nowMs nowTs c st).usedCatchup = true) :
    ∃ p, mapFind st.pendingCatchupByChannel c = some p ∧ nowMs ≤ p.expiresAtMs ∧ p.url ≠ []
      ∧ (GetChannelStreamProperties env nowMs nowTs c st).error = .noError
      ∧ (GetChannelStreamProperties env nowMs nowTs c st).properties.head?
          = some (.streamUrl, p.url) := by
  unfold GetChannelStreamProperties at h ⊢
  simp only at h ⊢
  cases hu : (EnsureLoaded env st.loader).state.client.uidToStreamId with
  | none => rw [hu] at h; cases h
  | some m =>
    rw [hu] at h
    simp only at h ⊢
    cases hf : mapFind st.pendingCatchupByChannel c with
    | none =>
      rw [hf] at h
      simp at h
    | some p =>
      rw [hf] at h
      simp only at h ⊢
      by_cases hc : nowMs ≤ p.expiresAtMs ∧ (!p.url.isEmpty) = true
      · have hne : p.url ≠ [] := by
          intro e
          rw [e] at hc
          simp at hc
        have hne' : (!p.url.isEmpty) = true := hc.2
        refine ⟨p, rfl, hc.1, hne, ?_, ?_⟩
        · rw [if_pos hc, if_pos hne']
        · rw [if_pos hc, if_pos hne']
          rfl
      · rw [if_neg hc] at h
        simp at h

/-- A call of `GetEPGTagStreamProperties` that succeeds has stored, under the
channel of the tag, the URL it returns, with the expiry 30000 ms after its
reading of the steady clock. -/
theorem GetEPGTagStreamProperties_stored (env : EnsureEnv) (nowMs nowTs : Int) (c : Nat)
    (startTime endTime : Int) (st : PvrState)
    (h : (GetEPGTagStreamProperties env nowMs nowTs c startTime endTime st).error = .noError) :
    ∃ url, url ≠ []
      ∧ (PropName.streamUrl, url)
          ∈ (GetEPGTagStreamProperties env nowMs nowTs c startTime endTime st).properties
      ∧ mapFind (GetEPGTagStreamProperties env nowMs nowTs c startTime endTime
            st).state.pendingCatchupByChannel c
          = some { url := url, expiresAtMs := wrapInt64 (nowMs + 30000)
                   programStart := startTime, programEnd := endTime } := by
  unfold GetEPGTagStreamProperties at h ⊢
  simp only at h ⊢
  cases hs : (EnsureLoaded env st.loader).state.client.streams with
  | none => rw [hs] at h; cases h
  | some streams =>
    rw [hs] at h
    simp only at h ⊢
    cases hfd : streams.find? (fun stream => decide (toUInt32 stream.id = c)) with
    | none => rw [hfd] at h; cases h
    | some stream =>
      rw [hfd] at h
      simp only at h ⊢
      by_cases h1 : (!stream.tvArchive) = true
      · rw [if_pos h1] at h; cases h
      rw [if_neg h1] at h ⊢
      by_cases h2 : nowTs < startTime
      · rw [if_pos h2] at h; cases h
      rw [if_neg h2] at h ⊢
      generalize hurl : BuildCatchupUrl (EnsureLoaded env st.loader).state.client.xtreamSettings
        stream.id startTime (if nowTs < endTime then nowTs else endTime)
        (EnsureLoaded env st.loader).state.client.streamFormat = url at h ⊢
      by_cases h3 : url.isEmpty = true
      · rw [if_pos h3] at h; cases h
      rw [if_neg h3] at h ⊢
      have hne : url ≠ [] := by
        intro e
        rw [e] at h3
        exact h3 rfl
      generalize BuildCatchupUrlTemplate _ _ _ _ = tpl at h ⊢
      by_cases h4 : (EnsureLoaded env st.loader).state.client.xtreamSettings.useFFmpegDirect = true
      · rw [if_pos h4] at h ⊢
        by_cases h5 : tpl.isEmpty = true
        · rw [if_pos h5] at h; cases h
        rw [if_neg h5]
        refine ⟨url, hne, ?_, ?_⟩
        · simp
        · simp only [mapFind_mapSet, if_true]
      · rw [if_neg h4]
        refine ⟨url, hne, ?_, ?_⟩
        · simp
        · simp only [mapFind_mapSet, if_true]

/-- The calls for channel `c` that take the catchup branch. -/
theorem channelCalls_none (c : Nat) (calls : List ChannelCall) (st : PvrState)
    (h : mapFind st.pendingCatchupByChannel c = none) :
    ∀ kr ∈ channelCalls calls st, kr.1.channelUid = c → kr.2.usedCatchup = false := by
  induction calls generalizing st with
  | nil => intro kr hkr; cases hkr
  | cons k rest ih =>
    intro kr hkr hc
    unfold channelCalls at hkr
    rcases List.mem_cons.1 hkr with e | e
    · rw [e] at hc ⊢
      simp only at hc ⊢
      cases hu : (GetChannelStreamProperties k.env k.nowMs k.nowTs k.channelUid st).usedCatchup with
      | false => rfl
      | true =>
        obtain ⟨p, hp, -⟩ := GetChannelStreamProperties_used _ _ _ _ _ hu
        rw [hc, h] at hp
        cases hp
    · refine ih _ ?_ kr e hc
      rw [GetChannelStreamProperties_pending]
      split_ifs
      · rfl
      · exact h

theorem channelCalls_count (c : Nat) (calls : List ChannelCall) (st : PvrState) :
    ((channelCalls calls st).filter
      (fun kr => decide (kr.1.channelUid = c) && kr.2.usedCatchup)).length ≤ 1 := by
  induction calls generalizing st with
  | nil => simp [channelCalls]
  | cons k rest ih =>
    unfold channelCalls
    by_cases hk : k.channelUid = c
    · have hnone : mapFind (GetChannelStreamProperties k.env k.nowMs k.nowTs k.channelUid
          st).state.pendingCatchupByChannel c = none := by
        rw [GetChannelStreamProperties_pending, if_pos hk]
      have hrest := channelCalls_none c rest _ hnone
      have h0 : (channelCalls rest (GetChannelStreamProperties k.env k.nowMs k.nowTs k.channelUid
          st).state).filter (fun kr => decide (kr.1.channelUid = c) && kr.2.usedCatchup) = [] := by
        rw [List.filter_eq_nil_iff]
        intro kr hkr
        by_cases hc : kr.1.channelUid = c
        · simp [hrest kr hkr hc]
        · simp [hc]
      rw [List.filter_cons]
      split_ifs
      · rw [h0]; simp
      · rw [h0]; simp
    · rw [List.filter_cons_of_neg (by simp [hk])]
      exact ih _

theorem channelCalls_uses (c : Nat) (p : PendingCatchup) (calls : List ChannelCall)
    (st : PvrState) (h : ∀ q, mapFind st.pendingCatchupByChannel c = some q → q = p) :
    ∀ kr ∈ channelCalls calls st, kr.1.channelUid = c → kr.2.usedCatchup = true →
      kr.1.nowMs ≤ p.expiresAtMs ∧ kr.2.error = .noError
        ∧ kr.2.properties.head? = some (.streamUrl, p.url) := by
  induction calls generalizing st with
  | nil => intro kr hkr; cases hkr
  | cons k rest ih =>
    intro kr hkr hc hu
    unfold channelCalls at hkr
    rcases List.mem_cons.1 hkr with e | e
    · rw [e] at hc hu ⊢
      simp only at hc hu ⊢
      obtain ⟨q, hq, h1, -, h3, h4⟩ := GetChannelStreamProperties_used _ _ _ _ _ hu
      rw [hc] at hq
      rw [← h q hq]
      exact ⟨h1, h3, h4⟩
    · refine ih _ ?_ kr e hc hu
      intro q hq
      rw [GetChannelStreamProperties_pending] at hq
      split_ifs at hq
      exact h q hq

/-- A call whose pending entry has expired, or is missing, takes the live
path. -/
theorem GetChannelStreamProperties_live (env : EnsureEnv) (nowMs nowTs : Int) (c : Nat)
    (st : PvrState)
    (h : ∀ p, mapFind st.pendingCatchupByChannel c = some p → p.expiresAtMs < nowMs)
    (m : List (Nat × Int))
    (hm : (EnsureLoaded env st.loader).state.client.uidToStreamId = some m) :
    (GetChannelStreamProperties env nowMs nowTs c st).usedCatchup = false
      ∧ (GetChannelStreamProperties env nowMs nowTs c st).error
        = (liveStreamProperties m (EnsureLoaded env st.loader).state.client.streams
            (EnsureLoaded env st.loader).state.client.xtreamSettings
            (EnsureLoaded env st.loader).state.client.streamFormat nowTs c).1
      ∧ (GetChannelStreamProperties env nowMs nowTs c st).properties
        = (liveStreamProperties m (EnsureLoaded env st.loader).state.client.streams
            (EnsureLoaded env st.loader).state.client.xtreamSettings
            (EnsureLoaded env st.loader).state.client.streamFormat nowTs c).2 := by
  unfold GetChannelStreamProperties
  simp only
  rw [hm]
  simp only
  cases hf : mapFind st.pendingCatchupByChannel c with
  | none => simp
  | some p =>
    have hx : ¬ (nowMs ≤ p.expiresAtMs ∧ (!p.url.isEmpty) = true) := by
      intro hh
      have := h p hf
      omega
    simp only [if_neg hx]
    simp

/-- On the live path the live URL is returned whenever it can be built. -/
theorem liveStreamProperties_url (m : List (Nat × Int)) (streams : Option (List LiveStream))
    (settings : Settings) (streamFormat : Bytes) (nowTs : Int) (uid : Nat) (streamId : Int)
    (h1 : mapFind m uid = some streamId)
    (h2 : BuildLiveStreamUrl settings streamId streamFormat ≠ []) :
    (liveStreamProperties m streams settings streamFormat nowTs uid).1 = .noError
      ∧ (PropName.streamUrl, BuildLiveStreamUrl settings streamId streamFormat)
          ∈ (liveStreamProperties m streams settings streamFormat nowTs uid).2 := by
  unfold liveStreamProperties
  rw [h1]
  simp only
  have : ¬ (BuildLiveStreamUrl settings streamId streamFormat).isEmpty = true := by
    rw [List.isEmpty_iff]
    exact h2
  rw [if_neg this]
  simp

/-- C26: let a `GetEPGTagStreamProperties` call for channel `c` succeed at
steady-clock reading `t0` (with `t0 + 30000` an `int64_t` value). It returns a
non-empty URL as `STREAMURL` and stores it as the pending entry of `c`, expiring
at `t0 + 30000`. In every sequence of later `GetChannelStreamProperties` calls
at most one call for `c` takes the catchup branch; such a call is made at a
reading `≤ t0 + 30000` and returns the stored URL as `STREAMURL`. Every
`GetChannelStreamProperties` call for `c`, in any state, leaves no pending entry
for `c`. A call for `c` after `t0 + 30000` does not use the entry and returns
what the live path returns, the live URL when it can be built. -/
theorem C26_pending_catchup_consumed_at_most_once (envE : EnsureEnv) (t0 nowTs0 : Int) (c : Nat)
    (startTime endTime : Int) (st0 : PvrState) (calls : List ChannelCall)
    (hclock : -9223372036854775808 ≤ t0 ∧ t0 + 30000 < 9223372036854775808)
    (hok : (GetEPGTagStreamProperties envE t0 nowTs0 c startTime endTime st0).error = .noError) :
    ∃ url, url ≠ []
      ∧ (PropName.streamUrl, url)
          ∈ (GetEPGTagStreamProperties envE t0 nowTs0 c startTime endTime st0).properties
      ∧ mapFind (GetEPGTagStreamProperties envE t0 nowTs0 c startTime endTime
            st0).state.pendingCatchupByChannel c
          = some { url := url, expiresAtMs := t0 + 30000
                   programStart := startTime, programEnd := endTime }
      ∧ ((channelCalls calls (GetEPGTagStreamProperties envE t0 nowTs0 c startTime endTime
            st0).state).filter
          (fun kr => decide (kr.1.channelUid = c) && kr.2.usedCatchup)).length ≤ 1
      ∧ (∀ kr ∈ channelCalls calls (GetEPGTagStreamProperties envE t0 nowTs0 c startTime endTime
            st0).state,
          kr.1.channelUid = c → kr.2.usedCatchup = true →
            kr.1.nowMs ≤ t0 + 30000 ∧ kr.2.error = .noError
              ∧ kr.2.properties.head? = some (.streamUrl, url))
      ∧ (∀ (env : EnsureEnv) (nowMs nowTs : Int) (st : PvrState),
          mapFind (GetChannelStreamProperties env nowMs nowTs c st).state.pendingCatchupByChannel c
            = none)
      ∧ ∀ (env : EnsureEnv) (nowMs nowTs : Int) (m : List (Nat × Int)),
          t0 + 30000 < nowMs →
          (EnsureLoaded env (GetEPGTagStreamProperties envE t0 nowTs0 c startTime endTime
            st0).state.loader).state.client.uidToStreamId = some m →
          (GetChannelStreamProperties env nowMs nowTs c
              (GetEPGTagStreamProperties envE t0 nowTs0 c startTime endTime st0).state).usedCatchup
            = false
          ∧ (GetChannelStreamProperties env nowMs nowTs c
              (GetEPGTagStreamProperties envE t0 nowTs0 c startTime endTime st0).state).error
            = (liveStreamProperties m
                (EnsureLoaded env (GetEPGTagStreamProperties envE t0 nowTs0 c startTime endTime
                  st0).state.loader).state.client.streams
                (EnsureLoaded env (GetEPGTagStreamProperties envE t0 nowTs0 c startTime endTime
                  st0).state.loader).state.client.xtreamSettings
                (EnsureLoaded env (GetEPGTagStreamProperties envE t0 nowTs0 c startTime endTime
                  st0).state.loader).state.client.streamFormat nowTs c).1
          ∧ (GetChannelStreamProperties env nowMs nowTs c
              (GetEPGTagStreamProperties envE t0 nowTs0 c startTime endTime st0).state).properties
            = (liveStreamProperties m
                (EnsureLoaded env (GetEPGTagStreamProperties envE t0 nowTs0 c startTime endTime
                  st0).state.loader).state.client.streams
                (EnsureLoaded env (GetEPGTagStreamProperties envE t0 nowTs0 c startTime endTime
                  st0).state.loader).state.client.xtreamSettings
                (EnsureLoaded env (GetEPGTagStreamProperties envE t0 nowTs0 c startTime endTime
                  st0).state.loader).state.client.streamFormat nowTs c).2
          ∧ ∀ streamId, mapFind m c = some streamId →
              BuildLiveStreamUrl
                (EnsureLoaded env (GetEPGTagStreamProperties envE t0 nowTs0 c startTime endTime
                  st0).state.loader).state.client.xtreamSettings streamId
                (EnsureLoaded env (GetEPGTagStreamProperties envE t0 nowTs0 c startTime endTime
                  st0).state.loader).state.client.streamFormat ≠ [] →
              (GetChannelStreamProperties env nowMs nowTs c
                (GetEPGTagStreamProperties envE t0 nowTs0 c startTime endTime st0).state).error
                = .noError
              ∧ (PropName.streamUrl, BuildLiveStreamUrl
                  (EnsureLoaded env (GetEPGTagStreamProperties envE t0 nowTs0 c startTime endTime
                    st0).state.loader).state.client.xtreamSettings streamId
                  (EnsureLoaded env (GetEPGTagStreamProperties envE t0 nowTs0 c startTime endTime
                    st0).state.loader).state.client.streamFormat)
                ∈ (GetChannelStreamProperties env nowMs nowTs c
                    (GetEPGTagStreamProperties envE t0 nowTs0 c startTime endTime
                      st0).state).properties := by
  obtain ⟨url, hne, hmem, hst⟩ :=
    GetEPGTagStreamProperties_stored envE t0 nowTs0 c startTime endTime st0 hok
  rw [wrapInt64_id _ (by omega) hclock.2] at hst
  generalize (GetEPGTagStreamProperties envE t0 nowTs0 c startTime endTime st0).state = s1
    at hst ⊢
  refine ⟨url, hne, hmem, hst, channelCalls_count c calls s1, ?_, ?_, ?_⟩
  · intro kr hkr hc hu
    exact channelCalls_uses c { url := url, expiresAtMs := t0 + 30000
                                programStart := startTime, programEnd := endTime } calls s1
      (fun q hq => by rw [hst] at hq; exact (Option.some.inj hq).symm) kr hkr hc hu
  · intro env nowMs nowTs st
    rw [GetChannelStreamProperties_pending, if_pos rfl]
  · intro env nowMs nowTs m hlate hm
    have hexp : ∀ p, mapFind s1.pendingCatchupByChannel c = some p → p.expiresAtMs < nowMs := by
      intro p hp
      rw [hst] at hp
      rw [← Option.some.inj hp]
      exact hlate
    obtain ⟨h1, h2, h3⟩ := GetChannelStreamProperties_live env nowMs nowTs c s1 hexp m hm
    refine ⟨h1, h2, h3, ?_⟩
    intro streamId hs hb
    rw [h2, h3]
    exact liveStreamProperties_url m _ _ _ nowTs c streamId hs hb

set_option maxRecDepth 1000000 in
/-- Witness for `C26_pending_catchup_consumed_at_most_once`: the programme of
2026-01-21 19:00-20:00 UTC on channel 7 is requested at clock reading 1000 ms;
the channel is opened at 31000 ms (catchup URL), again at 31000 ms (live URL),
and, in another run, first at 31001 ms (live URL). -/
theorem C26_pending_catchup_consumed_at_most_once_witness :
    (GetEPGTagStreamProperties (callWithFormat (ascii "ts")) 1000 1769030000 7 1769022000
        1769025600 catchupExampleState).state.pendingCatchupByChannel
        = [(7, { url := ascii "http://h:80/timeshift/u/p/60/2026-01-21:19-00/7.ts"
                 expiresAtMs := 31000, programStart := 1769022000, programEnd := 1769025600 })]
      ∧ (channelCalls
          [{ env := callWithFormat (ascii "ts"), nowMs := 31000, nowTs := 1769030030
             channelUid := 7 },
           { env := callWithFormat (ascii "ts"), nowMs := 31000, nowTs := 1769030030
             channelUid := 7 }]
          (GetEPGTagStreamProperties (callWithFormat (ascii "ts")) 1000 1769030000 7 1769022000
            1769025600 catchupExampleState).state).map
            (fun kr => (kr.2.usedCatchup, kr.2.properties.head?,
              kr.2.state.pendingCatchupByChannel))
        = [(true, some (.streamUrl, ascii "http://h:80/timeshift/u/p/60/2026-01-21:19-00/7.ts"),
              []),
           (false, some (.streamUrl, ascii "http://h:80/live/u/p/7.ts"), [])]
      ∧ (channelCalls
          [{ env := callWithFormat (ascii "ts"), nowMs := 31001, nowTs := 1769030030
             channelUid := 7 }]
          (GetEPGTagStreamProperties (callWithFormat (ascii "ts")) 1000 1769030000 7 1769022000
            1769025600 catchupExampleState).state).map
            (fun kr => (kr.2.usedCatchup, kr.2.properties.head?,
              kr.2.state.pendingCatchupByChannel))
        = [(false, some (.streamUrl, ascii "http://h:80/live/u/p/7.ts"), [])]
      ∧ ((channelCalls
          [{ env := callWithFormat (ascii "ts"), nowMs := 31000, nowTs := 1769030030
             channelUid := 7 },
           { env := callWithFormat (ascii "ts"), nowMs := 31000, nowTs := 1769030030
             channelUid := 7 }]
          (GetEPGTagStreamProperties (callWithFormat (ascii "ts")) 1000 1769030000 7 1769022000
            1769025600 catchupExampleState).state).filter
          (fun kr => decide (kr.1.channelUid = 7) && kr.2.usedCatchup)).length ≤ 1 := by
  refine ⟨by decide, by decide, by decide, ?_⟩
  obtain ⟨_, -, -, -, hcount, -⟩ :=
    C26_pending_catchup_consumed_at_most_once (callWithFormat (ascii "ts")) 1000 1769030000 7
      1769022000 1769025600 catchupExampleState
      [{ env := callWithFormat (ascii "ts"), nowMs := 31000, nowTs := 1769030030
         channelUid := 7 },
       { env := callWithFormat (ascii "ts"), nowMs := 31000, nowTs := 1769030030
         channelUid := 7 }]
      (by decide) (by decide)
  exact hcount

theorem FindKeyPos_member (k ws v : Bytes) : FindKeyPos (memberObject k ws v) k = some 1 := by
  unfold FindKeyPos find memberObject
  rw [if_pos (Nat.zero_le _), List.drop_zero, findFrom, if_neg (by simp [List.isPrefixOf])]
  have e : (34 :: (k ++ 34 :: 58 :: (ws ++ (v ++ [125]))))
      = (34 :: (k ++ [34])) ++ (58 :: (ws ++ (v ++ [125]))) := by simp
  rw [e]
  exact findFrom_prefix _ _ _

theorem findColon_member (k ws v : Bytes) (hk : 58 ∉ k) :
    find (memberObject k ws v) [58] 1 = some (k.length + 3) := by
  unfold find memberObject
  rw [if_pos (by simp)]
  have e : (123 :: 34 :: (k ++ 34 :: 58 :: (ws ++ (v ++ [125])))).drop 1
      = (34 :: (k ++ [34])) ++ 58 :: (ws ++ (v ++ [125])) := by simp
  rw [e, findFrom_char 58 _ _ 1 (by simp [hk])]
  simp only [List.length_cons, List.length_append, List.length_singleton, List.length_nil]
  congr 1
  omega

theorem drop_member (k ws v : Bytes) :
    (memberObject k ws v).drop (k.length + 3 + 1) = ws ++ (v ++ [125]) := by
  unfold memberObject
  have e : (123 :: 34 :: (k ++ 34 :: 58 :: (ws ++ (v ++ [125]))))
      = (123 :: 34 :: (k ++ [34, 58])) ++ (ws ++ (v ++ [125])) := by simp
  rw [e, List.drop_append_of_le_length (by simp)]
  simp [List.drop_eq_nil_of_le]

/-- After the colon the extractors skip the whitespace and stand at the value. -/
theorem skip_member (k ws v : Bytes) (hws : ∀ c ∈ ws, isSpace c = true)
    (hv : ∀ c, (v ++ [125]).head? = some c → isSpace c = false) :
    (memberObject k ws v).drop (skipSpaces (memberObject k ws v) (k.length + 3 + 1))
      = v ++ [125] := by
  unfold skipSpaces
  rw [drop_member]
  have htw : (ws ++ (v ++ [125])).takeWhile isSpace = ws := by
    rw [List.takeWhile_append, takeWhile_all isSpace ws hws, if_pos rfl]
    cases hvv : v ++ [125] with
    | nil => simp
    | cons c cs =>
      have := hv c (by rw [hvv]; rfl)
      simp [List.takeWhile_cons, this]
  rw [htw, ← List.drop_drop, drop_member, List.drop_left]

theorem digitsValue_ge (ds : Bytes) (v : Nat) : v ≤ digitsValue ds v := by
  induction ds generalizing v with
  | nil => exact le_refl _
  | cons c cs ih =>
    have := ih (v * 10 + (c - 48))
    simp only [digitsValue, List.foldl_cons] at this ⊢
    omega

/-- The digit loop of `ParseIntAt` on a run of digits followed by something
else, while the value stays a `long long`. -/
theorem parseDigits_digits (ds rest : Bytes) (v : Nat) (any : Bool)
    (hd : ∀ c ∈ ds, isDigit c = true) (hr : ∀ c, rest.head? = some c → isDigit c = false)
    (hv : digitsValue ds v < 9223372036854775808) :
    parseDigits (ds ++ rest) (v : Int) any
      = (((digitsValue ds v : Nat) : Int), any || !ds.isEmpty) := by
  induction ds generalizing v any with
  | nil =>
    cases rest with
    | nil => simp [parseDigits, digitsValue]
    | cons c cs =>
      have := hr c rfl
      simp [parseDigits, digitsValue, this]
  | cons c cs ih =>
    have hc := hd c (List.mem_cons_self _ _)
    have hc' : 48 ≤ c ∧ c ≤ 57 := by
      simpa [isDigit] using hc
    have hstep : digitsValue (c :: cs) v = digitsValue cs (v * 10 + (c - 48)) := by
      simp [digitsValue]
    rw [hstep] at hv ⊢
    have hle := digitsValue_ge cs (v * 10 + (c - 48))
    have hw : wrapInt64 ((v : Int) * 10 + ((c : Int) - 48)) = ((v * 10 + (c - 48) : Nat) : Int) := by
      rw [wrapInt64_id _ (by omega) (by omega)]
      omega
    rw [List.cons_append, parseDigits, if_pos hc, hw,
      ih _ true (fun x hx => hd x (List.mem_cons_of_mem _ hx)) hv]
    simp

theorem natToString_digits (n : Nat) : ∀ c ∈ natToString n, isDigit c = true :=
  natToStringAux_digits (n + 1) n

theorem natToString_value (n : Nat) : digitsValue (natToString n) 0 = n :=
  natToStringAux_value (n + 1) n
    (lt_of_lt_of_le (Nat.lt_pow_self (by decide) _) (Nat.pow_le_pow_right (by decide) (by omega)))

theorem natToString_ne_nil (n : Nat) : natToString n ≠ [] := natToStringAux_ne_nil n n

/-- The digit loop on the decimal text of `n`, followed by a non-digit. -/
theorem parseDigits_natToString (n : Nat) (rest : Bytes) (hn : n < 9223372036854775808)
    (hr : ∀ c, rest.head? = some c → isDigit c = false) :
    parseDigits (natToString n ++ rest) 0 false = ((n : Int), true) := by
  have h := parseDigits_digits (natToString n) rest 0 false (natToString_digits n) hr
    (by rw [natToString_value]; exact hn)
  rw [natToString_value] at h
  have hne : (natToString n).isEmpty = false := by
    cases hs : natToString n with
    | nil => exact absurd hs (natToString_ne_nil n)
    | cons _ _ => rfl
  rw [hne] at h
  simpa using h

/-- `ParseIntAt` standing at the decimal text of a 32-bit integer, bare, followed
by a non-digit. -/
theorem ParseIntAt_bare (obj : Bytes) (pos : Nat) (n : Int) (rest : Bytes)
    (hn : -2147483648 ≤ n ∧ n < 2147483648)
    (hr : ∀ c, rest.head? = some c → isDigit c = false)
    (hobj : obj.drop (skipSpaces obj pos) = intToString n ++ rest) :
    ParseIntAt obj pos = some n := by
  unfold ParseIntAt
  rw [hobj]
  unfold intToString
  by_cases hneg : n < 0
  · rw [if_pos hneg]
    simp only [List.cons_append, if_neg (show ¬ (45 : Nat) = 34 by decide), if_true]
    rw [parseDigits_natToString _ _ (by omega) hr]
    simp only [if_true]
    rw [wrapInt64_id _ (by omega) (by omega), wrapInt32_id _ (by omega) (by omega)]
    congr 1
    omega
  · rw [if_neg hneg]
    have hdig := natToString_digits n.natAbs
    have hp := parseDigits_natToString n.natAbs rest (by omega) hr
    cases hs : natToString n.natAbs with
    | nil => exact absurd hs (natToString_ne_nil _)
    | cons c cs =>
      rw [hs] at hp hdig
      have hc : 48 ≤ c ∧ c ≤ 57 := by
        simpa [isDigit] using hdig c (List.mem_cons_self _ _)
      simp only [List.cons_append, if_neg (show ¬ c = 34 by omega),
        if_neg (show ¬ c = 45 by omega)]
      rw [List.cons_append] at hp
      rw [hp]
      simp only [if_true]
      rw [wrapInt32_id _ (by omega) (by omega)]
      congr 1
      omega

/-- `ParseIntAt` standing at the decimal text of a 32-bit integer in quotes. -/
theorem ParseIntAt_quoted (obj : Bytes) (pos : Nat) (n : Int) (rest : Bytes)
    (hn : -2147483648 ≤ n ∧ n < 2147483648)
    (hobj : obj.drop (skipSpaces obj pos) = 34 :: (intToString n ++ 34 :: rest)) :
    ParseIntAt obj pos = some n := by
  have hr : ∀ c, (34 :: rest).head? = some c → isDigit c = false := by
    intro c hc
    cases hc
    rfl
  unfold ParseIntAt
  rw [hobj]
  simp only [if_true]
  unfold intToString
  by_cases hneg : n < 0
  · rw [if_pos hneg]
    simp only [List.cons_append, List.head?_cons, if_true, List.drop_succ_cons, List.drop_zero]
    rw [parseDigits_natToString _ _ (by omega) hr]
    simp only [if_true]
    rw [wrapInt64_id _ (by omega) (by omega), wrapInt32_id _ (by omega) (by omega)]
    congr 1
    omega
  · rw [if_neg hneg]
    have hdig := natToString_digits n.natAbs
    have hp := parseDigits_natToString n.natAbs (34 :: rest) (by omega) hr
    cases hs : natToString n.natAbs with
    | nil => exact absurd hs (natToString_ne_nil _)
    | cons c cs =>
      rw [hs] at hp hdig
      have hc : 48 ≤ c ∧ c ≤ 57 := by
        simpa [isDigit] using hdig c (List.mem_cons_self _ _)
      have h45 : ¬ (some c = some 45) := by
        intro e
        have := Option.some.inj e
        omega
      simp only [List.cons_append, List.head?_cons, if_neg h45]
      rw [List.cons_append] at hp
      rw [hp]
      simp only [if_true]
      rw [wrapInt32_id _ (by omega) (by omega)]
      congr 1
      omega

theorem intToString_head (n : Int) (rest : Bytes) :
    ∀ c, (intToString n ++ rest).head? = some c → isSpace c = false := by
  intro c hc
  unfold intToString at hc
  by_cases hneg : n < 0
  · rw [if_pos hneg] at hc
    cases hc
    rfl
  · rw [if_neg hneg] at hc
    have hdig := natToString_digits n.natAbs
    cases hs : natToString n.natAbs with
    | nil => exact absurd hs (natToString_ne_nil _)
    | cons d ds =>
      rw [hs] at hc hdig
      cases hc
      have hd : 48 ≤ c ∧ c ≤ 57 := by
        simpa [isDigit] using hdig c (List.mem_cons_self _ _)
      simp [isSpace]
      omega

/-- C27 (counterexample): on `{"a:b":5}` with key `a:b`, `ExtractIntField`
returns false: the first colon from the key position on lies inside the key. -/
theorem C27_key_with_colon_fails :
    memberObject (ascii "a:b") [] (intToString 5) = ascii "\x7b\"a:b\":5\x7d"
      ∧ ExtractIntField (memberObject (ascii "a:b") [] (intToString 5)) (ascii "a:b") = none := by
  decide

/-- C27 (amended): for every key `k` that contains no colon, every 32-bit signed
integer `n` and every run `ws` of whitespace after the colon, `ExtractIntField`
returns true with value `n` on `{"k":ws n}` (decimal text of `n`, with a leading
`-` when negative) and on `{"k":ws "n"}` (the same text in quotes). -/
theorem C27_int_field_decimal (k ws : Bytes) (n : Int) (hk : 58 ∉ k)
    (hws : ∀ c ∈ ws, isSpace c = true) (hn : -2147483648 ≤ n ∧ n < 2147483648) :
    ExtractIntField (memberObject k ws (intToString n)) k = some n
      ∧ ExtractIntField (memberObject k ws (34 :: (intToString n ++ [34]))) k = some n := by
  constructor
  · unfold ExtractIntField
    rw [FindKeyPos_member]
    simp only [findColon_member k ws _ hk]
    apply ParseIntAt_bare _ _ n [125] hn
    · intro c hc
      cases hc
      rfl
    · exact skip_member k ws _ hws (intToString_head n [125])
  · unfold ExtractIntField
    rw [FindKeyPos_member]
    simp only [findColon_member k ws _ hk]
    apply ParseIntAt_quoted _ _ n [125] hn
    rw [skip_member k ws _ hws (by intro c hc; cases hc; rfl)]
    simp

/-- Witness for `C27_int_field_decimal`: the least 32-bit integer under key
`num`, after a space and a tab. -/
theorem C27_int_field_decimal_witness :
    memberObject (ascii "num") [32, 9] (intToString (-2147483648))
        = ascii "\x7b\"num\": \t-2147483648\x7d"
      ∧ ExtractIntField (memberObject (ascii "num") [32, 9] (intToString (-2147483648)))
          (ascii "num") = some (-2147483648)
      ∧ ExtractIntField
          (memberObject (ascii "num") [32, 9] (34 :: (intToString (-2147483648) ++ [34])))
          (ascii "num") = some (-2147483648) :=
  ⟨by decide,
    C27_int_field_decimal (ascii "num") [32, 9] (-2147483648) (by decide) (by decide)
      (by decide)⟩

theorem take_append_brace (p v : Bytes) (hp : 125 ∉ p) :
    (v ++ [125]).take p.length = p ↔ p <+: v := by
  constructor
  · intro h
    have h1 : p <+: v ++ [125] := by
      rw [← h]
      exact List.take_prefix _ _
    rcases List.prefix_concat_iff.1 h1 with e | e
    · exfalso
      apply hp
      rw [e]
      simp
    · exact e
  · intro h
    have h1 : p <+: v ++ [125] := h.trans (List.prefix_append _ _)
    exact (List.prefix_iff_eq_take.1 h1).symm

/-- The value `ExtractBoolField` reads from an object with one member is decided
by the first bytes of the value text. -/
theorem ExtractBoolField_member (k ws v : Bytes) (hk : 58 ∉ k)
    (hws : ∀ c ∈ ws, isSpace c = true) (hv : ∀ c, v.head? = some c → isSpace c = false) :
    (ExtractBoolField (memberObject k ws v) k = some true
        ↔ (ascii "true" <+: v ∨ ascii "1" <+: v ∨ ascii "\"1" <+: v))
      ∧ (ExtractBoolField (memberObject k ws v) k = some false
        ↔ (ascii "false" <+: v ∨ ascii "0" <+: v ∨ ascii "\"0" <+: v)) := by
  have hv' : ∀ c, (v ++ [125]).head? = some c → isSpace c = false := by
    intro c hc
    cases v with
    | nil => cases hc; rfl
    | cons d ds => exact hv c hc
  have h1 := take_append_brace (ascii "true") v (by decide)
  have h2 := take_append_brace (ascii "false") v (by decide)
  have h3 := take_append_brace (ascii "1") v (by decide)
  have h4 := take_append_brace (ascii "0") v (by decide)
  have h5 := take_append_brace (ascii "\"1") v (by decide)
  have h6 := take_append_brace (ascii "\"0") v (by decide)
  rw [← h1, ← h2, ← h3, ← h4, ← h5, ← h6]
  unfold ExtractBoolField
  rw [FindKeyPos_member]
  simp only [findColon_member k ws _ hk]
  rw [skip_member k ws v hws hv']
  clear h1 h2 h3 h4 h5 h6 hv' hv hws hk
  have e1 : ascii "true" = [116, 114, 117, 101] := by decide
  have e2 : ascii "false" = [102, 97, 108, 115, 101] := by decide
  have e3 : ascii "1" = [49] := by decide
  have e4 : ascii "0" = [48] := by decide
  have e5 : ascii "\"1" = [34, 49] := by decide
  have e6 : ascii "\"0" = [34, 48] := by decide
  rw [e1, e2, e3, e4, e5, e6]
  generalize v ++ [125] = t
  cases t with
  | nil => simp
  | cons c rest =>
    simp only [List.length_cons, List.length_nil, List.length_singleton]
    by_cases hA : (c :: rest).take 4 = [116, 114, 117, 101]
    · have hc : c = 116 := by
        simp only [List.take_succ_cons] at hA
        exact (List.cons.inj hA).1
      subst hc
      rw [if_pos hA]
      simp [hA]
    rw [if_neg hA]
    by_cases hB : (c :: rest).take 5 = [102, 97, 108, 115, 101]
    · have hc : c = 102 := by
        simp only [List.take_succ_cons] at hB
        exact (List.cons.inj hB).1
      subst hc
      rw [if_pos hB]
      simp [hB]
    rw [if_neg hB]
    by_cases hC : c = 49
    · subst hC
      simp
    rw [if_neg hC]
    by_cases hD : c = 48
    · subst hD
      simp
    rw [if_neg hD]
    by_cases hE : c = 34
    · subst hE
      cases rest with
      | nil => simp
      | cons d ds =>
        by_cases hd1 : d = 49
        · subst hd1; simp
        by_cases hd0 : d = 48
        · subst hd0; simp
        simp [hd1, hd0]
    rw [if_neg hE]
    simp only [List.take_succ_cons] at hA hB
    simp [hA, hB, hC, hD, hE]

/-- C28 (counterexample): the key `a:b` defeats the extractor on
`{"a:b":true}`, and on `{"k":10}`, `{"k":0.5}` and `{"k":"1x"}` the extractor
returns true (with values true, false, true) although `10`, `0.5` and `"1x"` are
none of the six encodings. -/
theorem C28_other_values_accepted :
    memberObject (ascii "a:b") [] (ascii "true") = ascii "\x7b\"a:b\":true\x7d"
      ∧ ExtractBoolField (memberObject (ascii "a:b") [] (ascii "true")) (ascii "a:b") = none
      ∧ memberObject (ascii "k") [] (ascii "10") = ascii "\x7b\"k\":10\x7d"
      ∧ ExtractBoolField (memberObject (ascii "k") [] (ascii "10")) (ascii "k") = some true
      ∧ ExtractBoolField (memberObject (ascii "k") [] (ascii "0.5")) (ascii "k") = some false
      ∧ ExtractBoolField (memberObject (ascii "k") [] (ascii "\"1x\"")) (ascii "k") = some true
      ∧ ascii "10" ∉ [ascii "true", ascii "1", ascii "\"1\"", ascii "false", ascii "0",
          ascii "\"0\""] := by
  decide

/-- C28 (amended): for every key `k` that contains no colon, any whitespace `ws`
after the colon and every value text `v`, `ExtractBoolField` on `{"k":ws v}`
returns true with value true when `v` is `true`, `1` or `"1"` and true with
value false when `v` is `false`, `0` or `"0"`; in general it returns true with
value true exactly when `v` starts with `true`, `1` or `"1`, true with value
false exactly when `v` starts with `false`, `0` or `"0`, and false (absent) for
every other value. -/
theorem C28_bool_field_by_first_bytes (k ws v : Bytes) (hk : 58 ∉ k)
    (hws : ∀ c ∈ ws, isSpace c = true) (hv : ∀ c, v.head? = some c → isSpace c = false) :
    (v ∈ [ascii "true", ascii "1", ascii "\"1\""] →
        ExtractBoolField (memberObject k ws v) k = some true)
      ∧ (v ∈ [ascii "false", ascii "0", ascii "\"0\""] →
        ExtractBoolField (memberObject k ws v) k = some false)
      ∧ (ExtractBoolField (memberObject k ws v) k = some true
        ↔ (ascii "true" <+: v ∨ ascii "1" <+: v ∨ ascii "\"1" <+: v))
      ∧ (ExtractBoolField (memberObject k ws v) k = some false
        ↔ (ascii "false" <+: v ∨ ascii "0" <+: v ∨ ascii "\"0" <+: v))
      ∧ (ExtractBoolField (memberObject k ws v) k = none
        ↔ ¬ (ascii "true" <+: v ∨ ascii "1" <+: v ∨ ascii "\"1" <+: v
            ∨ ascii "false" <+: v ∨ ascii "0" <+: v ∨ ascii "\"0" <+: v)) := by
  obtain ⟨ht, hf⟩ := ExtractBoolField_member k ws v hk hws hv
  refine ⟨?_, ?_, ht, hf, ?_⟩
  · intro hm
    rw [ht]
    simp only [List.mem_cons, List.mem_singleton, List.not_mem_nil, or_false] at hm
    rcases hm with e | e | e
    · exact Or.inl (e ▸ List.prefix_refl _)
    · exact Or.inr (Or.inl (e ▸ List.prefix_refl _))
    · refine Or.inr (Or.inr ?_)
      rw [e]
      exact ⟨[34], by decide⟩
  · intro hm
    rw [hf]
    simp only [List.mem_cons, List.mem_singleton, List.not_mem_nil, or_false] at hm
    rcases hm with e | e | e
    · exact Or.inl (e ▸ List.prefix_refl _)
    · exact Or.inr (Or.inl (e ▸ List.prefix_refl _))
    · refine Or.inr (Or.inr ?_)
      rw [e]
      exact ⟨[34], by decide⟩
  · cases hr : ExtractBoolField (memberObject k ws v) k with
    | none =>
      rw [hr] at ht hf
      simp only [true_iff]
      intro h
      rcases h with h | h | h | h | h | h
      · exact absurd (ht.2 (Or.inl h)) (by simp)
      · exact absurd (ht.2 (Or.inr (Or.inl h))) (by simp)
      · exact absurd (ht.2 (Or.inr (Or.inr h))) (by simp)
      · exact absurd (hf.2 (Or.inl h)) (by simp)
      · exact absurd (hf.2 (Or.inr (Or.inl h))) (by simp)
      · exact absurd (hf.2 (Or.inr (Or.inr h))) (by simp)
    | some b =>
      rw [hr] at ht hf
      simp only [false_iff, not_not, reduceCtorEq]
      cases b with
      | true =>
        rcases ht.1 rfl with h | h | h
        · exact Or.inl h
        · exact Or.inr (Or.inl h)
        · exact Or.inr (Or.inr (Or.inl h))
      | false =>
        rcases hf.1 rfl with h | h | h
        · exact Or.inr (Or.inr (Or.inr (Or.inl h)))
        · exact Or.inr (Or.inr (Or.inr (Or.inr (Or.inl h))))
        · exact Or.inr (Or.inr (Or.inr (Or.inr (Or.inr h))))

/-- Witness for `C28_bool_field_by_first_bytes`: the member `"tv_archive": "1"`. -/
theorem C28_bool_field_by_first_bytes_witness :
    memberObject (ascii "tv_archive") [32] (ascii "\"1\"") = ascii "\x7b\"tv_archive\": \"1\"\x7d"
      ∧ ExtractBoolField (memberObject (ascii "tv_archive") [32] (ascii "\"1\""))
          (ascii "tv_archive") = some true :=
  ⟨by decide,
    (C28_bool_field_by_first_bytes (ascii "tv_archive") [32] (ascii "\"1\"") (by decide) (by decide)
      (by decide)).1 (by decide)⟩

theorem ParseIntAtInto_eq (obj : Bytes) (pos : Nat) (out : Int) :
    ParseIntAtInto obj pos out
      = match ParseIntAt obj pos with
        | some v => (true, v)
        | none => (false, out) := by
  unfold ParseIntAtInto ParseIntAt
  cases obj.drop (skipSpaces obj pos) with
  | nil => rfl
  | cons c rest =>
    simp only
    split_ifs <;> simp_all

theorem ExtractIntFieldInto_eq (obj key : Bytes) (out : Int) :
    ExtractIntFieldInto obj key out
      = match ExtractIntField obj key with
        | some v => (true, v)
        | none => (false, out) := by
  unfold ExtractIntFieldInto ExtractIntField
  cases FindKeyPos obj key with
  | none => rfl
  | some pos =>
    simp only
    cases find obj [58] pos with
    | none => rfl
    | some p => exact ParseIntAtInto_eq obj (p + 1) out

theorem ExtractBoolFieldInto_eq (obj key : Bytes) (out : Bool) :
    ExtractBoolFieldInto obj key out
      = match ExtractBoolField obj key with
        | some v => (true, v)
        | none => (false, out) := by
  unfold ExtractBoolFieldInto ExtractBoolField
  cases FindKeyPos obj key with
  | none => rfl
  | some pos =>
    simp only
    cases find obj [58] pos with
    | none => rfl
    | some p =>
      simp only
      cases obj.drop (skipSpaces obj (p + 1)) with
      | nil => rfl
      | cons c rest =>
        simp only
        cases rest with
        | nil => split_ifs <;> rfl
        | cons d ds =>
          simp only
          split_ifs <;> rfl

theorem ExtractStringFieldInto_eq (obj key : Bytes) (out : Bytes) :
    ExtractStringFieldInto obj key out
      = match ExtractStringField obj key with
        | some v => (true, v)
        | none => (false, out) := by
  unfold ExtractStringFieldInto ExtractStringField
  cases FindKeyPos obj key with
  | none => rfl
  | some pos =>
    simp only
    cases find obj [58] pos with
    | none => rfl
    | some p =>
      simp only
      cases obj.drop (skipSpaces obj (p + 1)) with
      | nil => rfl
      | cons c rest =>
        simp only
        split_ifs
        · cases decodeString rest 0 false [] <;> rfl
        · rfl

theorem ExtractIntFieldInto_spec (obj key : Bytes) (out : Int) :
    (ExtractIntFieldInto obj key out).1 = (ExtractIntField obj key).isSome
      ∧ (ExtractIntFieldInto obj key out).2 = (ExtractIntField obj key).getD out := by
  rw [ExtractIntFieldInto_eq]
  cases ExtractIntField obj key <;> exact ⟨rfl, rfl⟩

theorem ExtractBoolFieldInto_spec (obj key : Bytes) (out : Bool) :
    (ExtractBoolFieldInto obj key out).1 = (ExtractBoolField obj key).isSome
      ∧ (ExtractBoolFieldInto obj key out).2 = (ExtractBoolField obj key).getD out := by
  rw [ExtractBoolFieldInto_eq]
  cases ExtractBoolField obj key <;> exact ⟨rfl, rfl⟩

theorem ExtractStringFieldInto_spec (obj key : Bytes) (out : Bytes) :
    (ExtractStringFieldInto obj key out).1 = (ExtractStringField obj key).isSome
      ∧ (ExtractStringFieldInto obj key out).2 = (ExtractStringField obj key).getD out := by
  rw [ExtractStringFieldInto_eq]
  cases ExtractStringField obj key <;> exact ⟨rfl, rfl⟩

/-- The callback with its vector agrees with the record function used by
`FetchLiveStreams`. -/
theorem liveStreamCallback_eq (body : Bytes) (span : Nat × Nat) (out : List LiveStream) :
    liveStreamCallback body span out = out ++ (liveStreamOfSpan body span).toList := by
  unfold liveStreamCallback liveStreamOfSpan
  simp only [(ExtractIntFieldInto_spec _ _ _).1, (ExtractIntFieldInto_spec _ _ _).2,
    (ExtractBoolFieldInto_spec _ _ _).2, (ExtractStringFieldInto_spec _ _ _).2]
  cases ExtractIntField (slice body span) (ascii "stream_id") with
  | none => simp
  | some id => simp

/-- C29: an extractor that reports absent (returns false) leaves the caller's
variable as it was; and a span in which `stream_id` is found makes the callback
of `FetchLiveStreams` push a record, the one `FetchLiveStreams` yields for the
span, in which every optional field whose extractor reports absent has its
default: 0 for `category_id`, `num` and `tv_archive_duration`, the empty string
for `name`, `stream_icon` and `epg_channel_id`, false for `tv_archive`. -/
theorem C29_absent_field_keeps_default (obj key : Bytes) (i : Int) (b : Bool) (s : Bytes)
    (body : Bytes) (span : Nat × Nat) (out : List LiveStream)
    (hid : (ExtractIntFieldInto (slice body span) (ascii "stream_id") 0).1 = true) :
    ((ExtractIntFieldInto obj key i).1 = false → (ExtractIntFieldInto obj key i).2 = i)
      ∧ ((ExtractBoolFieldInto obj key b).1 = false → (ExtractBoolFieldInto obj key b).2 = b)
      ∧ ((ExtractStringFieldInto obj key s).1 = false → (ExtractStringFieldInto obj key s).2 = s)
      ∧ ∃ r, liveStreamCallback body span out = out ++ [r]
          ∧ liveStreamOfSpan body span = some r
          ∧ ((ExtractIntFieldInto (slice body span) (ascii "category_id") 0).1 = false →
              r.categoryId = 0)
          ∧ ((ExtractIntFieldInto (slice body span) (ascii "num") 0).1 = false → r.number = 0)
          ∧ ((ExtractStringFieldInto (slice body span) (ascii "name") []).1 = false → r.name = [])
          ∧ ((ExtractStringFieldInto (slice body span) (ascii "stream_icon") []).1 = false →
              r.icon = [])
          ∧ ((ExtractStringFieldInto (slice body span) (ascii "epg_channel_id") []).1 = false →
              r.epgChannelId = [])
          ∧ ((ExtractBoolFieldInto (slice body span) (ascii "tv_archive") false).1 = false →
              r.tvArchive = false)
          ∧ ((ExtractIntFieldInto (slice body span) (ascii "tv_archive_duration") 0).1 = false →
              r.tvArchiveDuration = 0) := by
  have hopt : ∀ {α : Type} (o : Option α) (d : α), o.isSome = false → o.getD d = d := by
    intro α o d h
    cases o with
    | none => rfl
    | some v => cases h
  refine ⟨?_, ?_, ?_, ?_⟩
  · rw [(ExtractIntFieldInto_spec _ _ _).1, (ExtractIntFieldInto_spec _ _ _).2]
    exact hopt _ _
  · rw [(ExtractBoolFieldInto_spec _ _ _).1, (ExtractBoolFieldInto_spec _ _ _).2]
    exact hopt _ _
  · rw [(ExtractStringFieldInto_spec _ _ _).1, (ExtractStringFieldInto_spec _ _ _).2]
    exact hopt _ _
  · rw [(ExtractIntFieldInto_spec _ _ _).1] at hid
    simp only [(ExtractIntFieldInto_spec _ _ _).1, (ExtractBoolFieldInto_spec _ _ _).1,
      (ExtractStringFieldInto_spec _ _ _).1]
    rw [liveStreamCallback_eq]
    unfold liveStreamOfSpan
    simp only
    cases hs : ExtractIntField (slice body span) (ascii "stream_id") with
    | none => rw [hs] at hid; cases hid
    | some id =>
      refine ⟨_, rfl, rfl, ?_, ?_, ?_, ?_, ?_, ?_, ?_⟩ <;> exact hopt _ _

set_option maxRecDepth 1000000 in
/-- Witness for `C29_absent_field_keeps_default`: a record with `stream_id` 7,
name `A`, a `num` that is no number, a `tv_archive` that is no boolean and no
other field. -/
theorem C29_absent_field_keeps_default_witness :
    FetchLiveStreams (ascii "u") { ok := true, body := malformedFieldsBody }
        = ({ ok := true, details := ascii "OK" }, [{ id := 7, name := ascii "A" }])
      ∧ ExtractIntFieldInto (slice malformedFieldsBody (1, 56)) (ascii "num") 5 = (false, 5)
      ∧ ExtractBoolFieldInto (slice malformedFieldsBody (1, 56)) (ascii "tv_archive") true
          = (false, true)
      ∧ ExtractStringFieldInto (slice malformedFieldsBody (1, 56)) (ascii "stream_icon")
          (ascii "old") = (false, ascii "old")
      ∧ liveStreamCallback malformedFieldsBody (1, 56) []
          = [{ id := 7, name := ascii "A" }]
      ∧ ∃ r, liveStreamCallback malformedFieldsBody (1, 56) [] = [] ++ [r]
          ∧ liveStreamOfSpan malformedFieldsBody (1, 56) = some r := by
  refine ⟨by decide, by decide, by decide, by decide, by decide, ?_⟩
  obtain ⟨r, h1, h2, -⟩ :=
    (C29_absent_field_keeps_default (slice malformedFieldsBody (1, 56)) (ascii "num") 5 true
      (ascii "old") malformedFieldsBody (1, 56) [] (by decide)).2.2.2
  exact ⟨r, h1, h2⟩

/-- The `case 'u'` branch on a lone or invalid surrogate: the replacement
character, and only the four hex digits are consumed. -/
theorem unicodeEscape_lone (h1 h2 h3 h4 : Nat) (rest : Bytes)
    (hhex : 0 ≤ hexVal h1 ∧ 0 ≤ hexVal h2 ∧ 0 ≤ hexVal h3 ∧ 0 ≤ hexVal h4)
    (hlone : (0xDC00 ≤ codeUnit (hexVal h1) (hexVal h2) (hexVal h3) (hexVal h4)
          ∧ codeUnit (hexVal h1) (hexVal h2) (hexVal h3) (hexVal h4) ≤ 0xDFFF)
        ∨ (0xD800 ≤ codeUnit (hexVal h1) (hexVal h2) (hexVal h3) (hexVal h4)
          ∧ codeUnit (hexVal h1) (hexVal h2) (hexVal h3) (hexVal h4) ≤ 0xDBFF
          ∧ startsWithLowSurrogateEscape rest = false)) :
    unicodeEscape (h1 :: h2 :: h3 :: h4 :: rest) = ([0xEF, 0xBF, 0xBD], 4) := by
  have hrep : appendUtf8 0xFFFD = [0xEF, 0xBF, 0xBD] := by decide
  unfold unicodeEscape
  simp only [if_pos hhex]
  generalize codeUnit (hexVal h1) (hexVal h2) (hexVal h3) (hexVal h4) = cu at hlone ⊢
  have hsur : 0xD800 ≤ cu ∧ cu ≤ 0xDFFF := by
    rcases hlone with h | h <;> omega
  rw [if_pos hsur, hrep]
  rcases hlone with h | ⟨h1', h2', h3'⟩
  · rw [if_neg (by omega)]
  · rw [if_pos ⟨h1', h2'⟩]
    match rest, h3' with
    | [], _ => rfl
    | [_], _ => rfl
    | [_, _], _ => rfl
    | [_, _, _], _ => rfl
    | [_, _, _, _], _ => rfl
    | [_, _, _, _, _], _ => rfl
    | b :: u :: l1 :: l2 :: l3 :: l4 :: more, h3' =>
      simp only
      rw [if_neg]
      rintro ⟨hb, hu, hlo⟩
      unfold startsWithLowSurrogateEscape at h3'
      by_cases hx : 0 ≤ hexVal l1 ∧ 0 ≤ hexVal l2 ∧ 0 ≤ hexVal l3 ∧ 0 ≤ hexVal l4
      · rw [if_pos hx] at hlo
        simp [hb, hu, hx, hlo] at h3'
      · rw [if_neg hx] at hlo
        omega

/-- A lone or invalid surrogate escape in the decoding loop. -/
theorem decodeString_lone (h1 h2 h3 h4 : Nat) (rest acc : Bytes)
    (hhex : 0 ≤ hexVal h1 ∧ 0 ≤ hexVal h2 ∧ 0 ≤ hexVal h3 ∧ 0 ≤ hexVal h4)
    (hlone : (0xDC00 ≤ codeUnit (hexVal h1) (hexVal h2) (hexVal h3) (hexVal h4)
          ∧ codeUnit (hexVal h1) (hexVal h2) (hexVal h3) (hexVal h4) ≤ 0xDFFF)
        ∨ (0xD800 ≤ codeUnit (hexVal h1) (hexVal h2) (hexVal h3) (hexVal h4)
          ∧ codeUnit (hexVal h1) (hexVal h2) (hexVal h3) (hexVal h4) ≤ 0xDBFF
          ∧ startsWithLowSurrogateEscape rest = false)) :
    decodeString (92 :: 117 :: h1 :: h2 :: h3 :: h4 :: rest) 0 false acc
      = decodeString rest 0 false (acc ++ [0xEF, 0xBF, 0xBD]) := by
  rw [decodeString, if_pos rfl, decodeString]
  simp only [show ¬ ((117 : Nat) = 34 ∨ (117 : Nat) = 92 ∨ (117 : Nat) = 47) by decide,
    show ¬ ((117 : Nat) = 98) by decide, show ¬ ((117 : Nat) = 102) by decide,
    show ¬ ((117 : Nat) = 110) by decide, show ¬ ((117 : Nat) = 114) by decide,
    show ¬ ((117 : Nat) = 116) by decide, if_false, if_true]
  rw [unicodeEscape_lone h1 h2 h3 h4 rest hhex hlone]
  exact decodeString_skip [h1, h2, h3, h4] rest false _

theorem startsWithLowSurrogateEscape_head (b : Nat) (xs : Bytes) (hb : b ≠ 92) :
    startsWithLowSurrogateEscape (b :: xs) = false := by
  match xs with
  | [] => rfl
  | [_] => rfl
  | [_, _] => rfl
  | [_, _, _] => rfl
  | [_, _, _, _] => rfl
  | _ :: _ :: _ :: _ :: _ :: _ => simp [startsWithLowSurrogateEscape, hb]

theorem startsWithLowSurrogateEscape_second (b u : Nat) (xs : Bytes) (hu : u ≠ 117) :
    startsWithLowSurrogateEscape (b :: u :: xs) = false := by
  match xs with
  | [] => rfl
  | [_] => rfl
  | [_, _] => rfl
  | [_, _, _] => rfl
  | _ :: _ :: _ :: _ :: _ => simp [startsWithLowSurrogateEscape, hu]

theorem utf8EncodeScalar_head (v : Nat) (hv : v ≠ 92) (rest : Bytes) :
    ∃ b xs, utf8EncodeScalar v ++ rest = b :: xs ∧ b ≠ 92 := by
  unfold utf8EncodeScalar
  split_ifs
  · exact ⟨_, _, rfl, hv⟩
  · exact ⟨_, _, rfl, by omega⟩
  · exact ⟨_, _, rfl, by omega⟩
  · exact ⟨_, _, rfl, by omega⟩

/-- The encoding `E` of a string, followed by the closing quote, never starts
with a low surrogate escape. -/
theorem encodeString_not_low (s : List (Char × CharStyle)) (tail : Bytes) :
    startsWithLowSurrogateEscape (encodeString s ++ 34 :: tail) = false := by
  cases s with
  | nil => exact startsWithLowSurrogateEscape_head 34 tail (by decide)
  | cons p ps =>
    obtain ⟨c, style⟩ := p
    have hc := char_scalar c
    have e : encodeString ((c, style) :: ps) ++ 34 :: tail
        = encodeChar c style ++ (encodeString ps ++ 34 :: tail) := by
      simp [encodeString]
    rw [e]
    generalize encodeString ps ++ 34 :: tail = more
    unfold encodeChar
    by_cases hq : c.toNat = 34 ∨ c.toNat = 92
    · rw [if_pos hq]
      exact startsWithLowSurrogateEscape_second 92 c.toNat more (by omega)
    · rw [if_neg hq]
      cases style with
      | raw =>
        simp only
        obtain ⟨b, xs, hbx, hb⟩ := utf8EncodeScalar_head c.toNat (fun e => hq (Or.inr e)) more
        rw [hbx]
        exact startsWithLowSurrogateEscape_head b xs hb
      | escaped up1 up2 =>
        simp only
        have key : ∀ (up : Nat → Bool) (u : Nat) (xs : Bytes), u < 65536 →
            ¬ (0xDC00 ≤ u ∧ u ≤ 0xDFFF) →
            startsWithLowSurrogateEscape (unicodeEscapeText up u ++ xs) = false := by
          intro up u xs hu hns
          have d1 : u / 4096 % 16 < 16 := Nat.mod_lt _ (by decide)
          have d2 : u / 256 % 16 < 16 := Nat.mod_lt _ (by decide)
          have d3 : u / 16 % 16 < 16 := Nat.mod_lt _ (by decide)
          have d4 : u % 16 < 16 := Nat.mod_lt _ (by decide)
          simp only [unicodeEscapeText, List.cons_append, List.nil_append,
            startsWithLowSurrogateEscape, hexVal_hexDigit _ _ d1, hexVal_hexDigit _ _ d2,
            hexVal_hexDigit _ _ d3, hexVal_hexDigit _ _ d4, codeUnit_of u hu]
          simp
          omega
        by_cases hb : c.toNat < 0x10000
        · rw [if_pos hb]
          exact key up1 c.toNat more hb (by omega)
        · rw [if_neg hb, List.append_assoc]
          exact key up1 _ _ (by omega) (by omega)

/-- `ExtractStringField` on `{"k":"v"}` runs the decoding loop on `v"}`. -/
theorem ExtractStringField_singleField (k v : Bytes) (hk : 58 ∉ k) :
    ExtractStringField (singleFieldObject k v) k = decodeString (v ++ [34, 125]) 0 false [] := by
  unfold ExtractStringField
  rw [FindKeyPos_singleField]
  simp only [findColon_singleField k _ hk]
  have hdrop : (singleFieldObject k v).drop (k.length + 3 + 1) = 34 :: (v ++ [34, 125]) := by
    unfold singleFieldObject
    have e : (123 :: 34 :: (k ++ 34 :: 58 :: 34 :: (v ++ [34, 125])))
        = (123 :: 34 :: (k ++ [34, 58])) ++ (34 :: (v ++ [34, 125])) := by simp
    rw [e, List.drop_append_of_le_length (by simp)]
    simp [List.drop_eq_nil_of_le]
  have hskip : skipSpaces (singleFieldObject k v) (k.length + 3 + 1) = k.length + 3 + 1 := by
    unfold skipSpaces
    rw [hdrop, List.takeWhile_cons, if_neg (by decide)]
    rfl
  rw [hskip, hdrop]
  simp only [if_true]

theorem decodeString_encode_append (s : List (Char × CharStyle)) (rest acc : Bytes) :
    decodeString (encodeString s ++ rest) 0 false acc
      = decodeString rest 0 false (acc ++ utf8Bytes (s.map Prod.fst)) := by
  induction s generalizing acc with
  | nil => simp [encodeString, utf8Bytes]
  | cons p ps ih =>
    have := ih (acc ++ utf8EncodeScalar p.1.toNat)
    simp only [encodeString, List.flatMap_cons, List.append_assoc] at this ⊢
    rw [decodeString_char, this]
    simp [utf8Bytes]

/-- C30: in the decoding loop of `ExtractStringField`, an escape `\uXXXX` whose
code unit is a low surrogate (DC00-DFFF), or a high surrogate (D800-DBFF) not
immediately followed by an escape `\uDC00`..`\uDFFF`, appends exactly the bytes
EF BF BD and the loop goes on right after the four hex digits, in its normal
state. In particular, on `{"k":"E(s1)\uXXXX E(s2)"}` with such a code unit
between the encodings of two strings, `ExtractStringField` returns the UTF-8
bytes of `s1`, then EF BF BD, then the UTF-8 bytes of `s2`. -/
theorem C30_lone_surrogate_is_replacement (h1 h2 h3 h4 : Nat) (rest acc k : Bytes)
    (s1 s2 : List (Char × CharStyle))
    (hhex : 0 ≤ hexVal h1 ∧ 0 ≤ hexVal h2 ∧ 0 ≤ hexVal h3 ∧ 0 ≤ hexVal h4)
    (hk : 58 ∉ k) :
    (((0xDC00 ≤ codeUnit (hexVal h1) (hexVal h2) (hexVal h3) (hexVal h4)
          ∧ codeUnit (hexVal h1) (hexVal h2) (hexVal h3) (hexVal h4) ≤ 0xDFFF)
        ∨ (0xD800 ≤ codeUnit (hexVal h1) (hexVal h2) (hexVal h3) (hexVal h4)
          ∧ codeUnit (hexVal h1) (hexVal h2) (hexVal h3) (hexVal h4) ≤ 0xDBFF
          ∧ startsWithLowSurrogateEscape rest = false)) →
      decodeString (92 :: 117 :: h1 :: h2 :: h3 :: h4 :: rest) 0 false acc
        = decodeString rest 0 false (acc ++ [0xEF, 0xBF, 0xBD]))
      ∧ ((0xD800 ≤ codeUnit (hexVal h1) (hexVal h2) (hexVal h3) (hexVal h4)
          ∧ codeUnit (hexVal h1) (hexVal h2) (hexVal h3) (hexVal h4) ≤ 0xDFFF) →
        ExtractStringField
            (singleFieldObject k
              (encodeString s1 ++ 92 :: 117 :: h1 :: h2 :: h3 :: h4 :: encodeString s2)) k
          = some (utf8Bytes (s1.map Prod.fst) ++ [0xEF, 0xBF, 0xBD]
              ++ utf8Bytes (s2.map Prod.fst))) := by
  refine ⟨decodeString_lone h1 h2 h3 h4 rest acc hhex, ?_⟩
  intro hsur
  rw [ExtractStringField_singleField k _ hk]
  have e : (encodeString s1 ++ 92 :: 117 :: h1 :: h2 :: h3 :: h4 :: encodeString s2) ++ [34, 125]
      = encodeString s1 ++ (92 :: 117 :: h1 :: h2 :: h3 :: h4 :: (encodeString s2 ++ 34 :: [125]))
      := by simp
  rw [e, decodeString_encode_append, decodeString_lone h1 h2 h3 h4 _ _ hhex, decodeString_encode]
  · simp
  · by_cases hlow : 0xDC00 ≤ codeUnit (hexVal h1) (hexVal h2) (hexVal h3) (hexVal h4)
    · exact Or.inl ⟨hlow, hsur.2⟩
    · exact Or.inr ⟨hsur.1, by omega, encodeString_not_low s2 [125]⟩

set_option maxRecDepth 1000000 in
/-- Witness for `C30_lone_surrogate_is_replacement`: `{"name":"a\uD83Db"}`, a high
surrogate followed by the letter `b`, decodes to `a`, EF BF BD, `b`; and the
low surrogate `\uDE00` followed by `A` decodes to EF BF BD, `A`. -/
theorem C30_lone_surrogate_is_replacement_witness :
    singleFieldObject (ascii "name")
        (encodeString [('a', .raw)] ++ 92 :: 117 :: 68 :: 56 :: 51 :: 68
          :: encodeString [('b', .raw)])
        = ascii "\x7b\"name\":\"a\\uD83Db\"\x7d"
      ∧ ExtractStringField
          (singleFieldObject (ascii "name")
            (encodeString [('a', .raw)] ++ 92 :: 117 :: 68 :: 56 :: 51 :: 68
              :: encodeString [('b', .raw)])) (ascii "name")
        = some [97, 0xEF, 0xBF, 0xBD, 98]
      ∧ ExtractStringField (ascii "\x7b\"name\":\"\\uDE00\\u0041\"\x7d") (ascii "name")
        = some [0xEF, 0xBF, 0xBD, 65]
      ∧ decodeString (92 :: 117 :: 68 :: 56 :: 51 :: 68 :: ascii "b\"") 0 false [97]
        = decodeString (ascii "b\"") 0 false ([97] ++ [0xEF, 0xBF, 0xBD]) := by
  have h := C30_lone_surrogate_is_replacement 68 56 51 68 (ascii "b\"") [97] (ascii "name")
    [('a', .raw)] [('b', .raw)] (by decide) (by decide)
  exact ⟨by decide, by decide, by decide, h.1 (Or.inr (by decide))⟩

theorem haveCreds_eq_false_iff (env : EnsureEnv) :
    env.haveCreds = false ↔ credentialsInvalid env.xt := by
  unfold EnsureEnv.haveCreds credentialsInvalid
  simp only [Bool.and_eq_false_iff, Bool.not_eq_false', List.isEmpty_iff, decide_eq_false_iff_not,
    not_lt, not_le]
  constructor
  · rintro (((h | h) | h) | h)
    · exact Or.inl h
    · exact Or.inr (Or.inl h)
    · exact Or.inr (Or.inr (Or.inl h))
    · rcases h with h | h
      · exact Or.inr (Or.inr (Or.inr (Or.inl (by omega))))
      · exact Or.inr (Or.inr (Or.inr (Or.inr (by omega))))
  · rintro (h | h | h | h | h)
    · exact Or.inl (Or.inl (Or.inl h))
    · exact Or.inl (Or.inl (Or.inr h))
    · exact Or.inl (Or.inr h)
    · exact Or.inr (Or.inl (by omega))
    · exact Or.inr (Or.inr (by omega))

/-- A call without usable credentials: only the warning flag changes. -/
theorem EnsureLoaded_invalid (env : EnsureEnv) (st : LoaderState)
    (h : credentialsInvalid env.xt) :
    EnsureLoaded env st
      = { state := { st with warnedMissingCreds := true }, warned := !st.warnedMissingCreds } := by
  have hc : env.haveCreds = false := (haveCreds_eq_false_iff env).2 h
  unfold EnsureLoaded
  rw [hc]
  rfl

/-- A call with usable credentials re-arms the warning. -/
theorem EnsureLoaded_rearms (env : EnsureEnv) (st : LoaderState) (h : env.haveCreds = true) :
    (EnsureLoaded env st).state.warnedMissingCreds = false
      ∧ (EnsureLoaded env st).warned = false := by
  unfold EnsureLoaded
  rw [h]
  simp only [Bool.not_true, Bool.false_eq_true, if_false]
  split_ifs <;> exact ⟨rfl, rfl⟩

theorem ensureCalls_invalid_warned (envs : List EnsureEnv) (st : LoaderState)
    (hall : ∀ e ∈ envs, credentialsInvalid e.xt) (hw : st.warnedMissingCreds = true) :
    (∀ r ∈ ensureCalls envs st, r.warned = false ∧ r.shouldStart = false ∧ r.cacheRead = none)
      ∧ ensureState envs st = st := by
  induction envs generalizing st with
  | nil => exact ⟨fun r hr => (by cases hr), rfl⟩
  | cons e rest ih =>
    have he := EnsureLoaded_invalid e st (hall e (List.mem_cons_self _ _))
    have hst : (EnsureLoaded e st).state = st := by
      rw [he]
      cases st
      simp only at hw
      simp [hw]
    obtain ⟨h1, h2⟩ := ih st (fun x hx => hall x (List.mem_cons_of_mem _ hx)) hw
    unfold ensureCalls ensureState
    rw [hst]
    refine ⟨?_, h2⟩
    intro r hr
    rcases List.mem_cons.1 hr with e' | e'
    · rw [e', he, hw]
      exact ⟨rfl, rfl, rfl⟩
    · exact h1 r e'

theorem ensureCalls_length (envs : List EnsureEnv) (st : LoaderState) :
    (ensureCalls envs st).length = envs.length := by
  induction envs generalizing st with
  | nil => rfl
  | cons e rest ih => simp [ensureCalls, ih]

/-- C32: an `EnsureLoaded` call with missing or invalid credentials leaves the
whole client state as it was (generation, signature, flags, captured settings
and published snapshot), reads no cache and does not wake the worker. Over a run
of consecutive such calls that starts with the warning armed, the warning is
issued by the first call and by no other; while it is not armed no call of the
run warns; the run leaves it not armed, and a call with usable credentials arms
it again. -/
theorem C32_invalid_credentials_skip_and_warn_once (env : EnsureEnv) (envs : List EnsureEnv)
    (st : LoaderState) (hinv : credentialsInvalid env.xt)
    (hall : ∀ e ∈ envs, credentialsInvalid e.xt) :
    ((EnsureLoaded env st).state.client = st.client
        ∧ (EnsureLoaded env st).state.cacheSignatureAttempted = st.cacheSignatureAttempted
        ∧ (EnsureLoaded env st).shouldStart = false
        ∧ (EnsureLoaded env st).cacheRead = none)
      ∧ (ensureState (env :: envs) st).client = st.client
      ∧ (st.warnedMissingCreds = false →
          (ensureCalls (env :: envs) st).map (fun r => r.warned)
            = true :: List.replicate envs.length false)
      ∧ (st.warnedMissingCreds = true →
          (ensureCalls (env :: envs) st).map (fun r => r.warned)
            = List.replicate (envs.length + 1) false)
      ∧ (ensureState (env :: envs) st).warnedMissingCreds = true
      ∧ ∀ (valid : EnsureEnv) (s : LoaderState), valid.haveCreds = true →
          (EnsureLoaded valid s).state.warnedMissingCreds = false := by
  have he := EnsureLoaded_invalid env st hinv
  have hrest := ensureCalls_invalid_warned envs { st with warnedMissingCreds := true } hall rfl
  have hmap : (ensureCalls envs { st with warnedMissingCreds := true }).map (fun r => r.warned)
      = List.replicate envs.length false := by
    apply List.eq_replicate_iff.2
    constructor
    · simp [ensureCalls_length]
    · intro b hb
      obtain ⟨r, hr, e⟩ := List.mem_map.1 hb
      rw [← e]
      exact (hrest.1 r hr).1
  refine ⟨?_, ?_, ?_, ?_, ?_, fun valid s hv => (EnsureLoaded_rearms valid s hv).1⟩
  · rw [he]
    exact ⟨rfl, rfl, rfl, rfl⟩
  · unfold ensureState
    rw [he]
    simp only
    rw [hrest.2]
  · intro hw
    unfold ensureCalls
    rw [he, hw]
    simp only [List.map_cons, Bool.not_false]
    rw [hmap]
  · intro hw
    unfold ensureCalls
    rw [he, hw]
    simp only [List.map_cons, Bool.not_true]
    rw [hmap]
    rfl
  · unfold ensureState
    rw [he]
    simp only
    rw [hrest.2]

set_option maxRecDepth 1000000 in
/-- Witness for `C32_invalid_credentials_skip_and_warn_once`: three calls with a
blank password, then a call with a password, then a call without one again. -/
theorem C32_invalid_credentials_skip_and_warn_once_witness :
    (ensureCalls [callWithoutPassword, callWithoutPassword, callWithoutPassword,
        callWithFormat (ascii "ts"), callWithoutPassword] {}).map (fun r => r.warned)
        = [true, false, false, false, true]
      ∧ (ensureCalls [callWithoutPassword, callWithoutPassword, callWithoutPassword] {}).map
          (fun r => r.warned) = true :: List.replicate 2 false
      ∧ (ensureState [callWithoutPassword, callWithoutPassword, callWithoutPassword]
          loadedOtherSignature).client = loadedOtherSignature.client :=
  ⟨by decide,
    (C32_invalid_credentials_skip_and_warn_once callWithoutPassword
      [callWithoutPassword, callWithoutPassword] {}
      (Or.inr (Or.inr (Or.inl (by decide))))
      (fun e he => by
        simp only [List.mem_cons, List.mem_singleton, List.not_mem_nil, or_false, or_self] at he
        rw [he]
        exact Or.inr (Or.inr (Or.inl (by decide))))).2.2.1 rfl,
    (C32_invalid_credentials_skip_and_warn_once callWithoutPassword
      [callWithoutPassword, callWithoutPassword] loadedOtherSignature
      (Or.inr (Or.inr (Or.inl (by decide))))
      (fun e he => by
        simp only [List.mem_cons, List.mem_singleton, List.not_mem_nil, or_false, or_self] at he
        rw [he]
        exact Or.inr (Or.inr (Or.inl (by decide))))).2.1⟩

/-- The cache load leaves the members of the scheduling decision as they
were. -/
theorem TryLoadCacheForSignature_scheduling (file : Option Bytes) (signature : Bytes)
    (st : ClientState) :
    (TryLoadCacheForSignature file signature st).2.scheduling = st.scheduling := by
  unfold TryLoadCacheForSignature
  cases file with
  | none => rfl
  | some blob =>
    simp only
    by_cases hb : blob.isEmpty = true
    · rw [if_pos hb]
    · rw [if_neg hb]
      cases decodeCache blob signature with
      | fault => rfl
      | miss => rfl
      | ok d =>
        simp only
        split_ifs
        · rfl
        · rfl

/-- C39: when a load for signature `S` is in progress, or the data for `S` is
loaded and no load is in progress, an `EnsureLoaded` call with usable
credentials and fingerprint `S` leaves the generation, the stored signature, the
loading, loaded and groups-ready flags, the work-requested flag and the captured
settings as they were, and does not wake the worker. -/
theorem C39_same_fingerprint_is_idempotent (env : EnsureEnv) (st : LoaderState)
    (hcreds : env.haveCreds = true) (hsame : env.sig = st.client.settingsSignature)
    (hstate : st.client.loading = true
      ∨ (st.client.dataLoaded = true ∧ st.client.loading = false)) :
    (EnsureLoaded env st).state.client.scheduling = st.client.scheduling
      ∧ (EnsureLoaded env st).shouldStart = false
      ∧ (EnsureLoaded env (EnsureLoaded env st).state).state = (EnsureLoaded env st).state := by
  have key : ∀ s : LoaderState, env.sig = s.client.settingsSignature →
      (s.client.loading = true ∨ (s.client.dataLoaded = true ∧ s.client.loading = false)) →
      (EnsureLoaded env s).state.client.scheduling = s.client.scheduling
        ∧ (EnsureLoaded env s).shouldStart = false
        ∧ (EnsureLoaded env s).state.cacheSignatureAttempted = env.sig
        ∧ (EnsureLoaded env s).state.warnedMissingCreds = false
        ∧ (s.cacheSignatureAttempted = env.sig → s.warnedMissingCreds = false →
            (EnsureLoaded env s).state = s) := by
    intro s hsig hst
    unfold EnsureLoaded
    rw [hcreds]
    simp only [Bool.not_true, Bool.false_eq_true, if_false]
    generalize hs1 : (if s.cacheSignatureAttempted ≠ env.sig then
        ({ s with warnedMissingCreds := false, cacheSignatureAttempted := env.sig
                  client := (TryLoadCacheForSignature env.cacheFile env.sig s.client).2 }
          : LoaderState)
      else { s with warnedMissingCreds := false }) = s1
    have hg : s1.client.scheduling = s.client.scheduling
        ∧ s1.cacheSignatureAttempted = env.sig ∧ s1.warnedMissingCreds = false
        ∧ (s.cacheSignatureAttempted = env.sig → s.warnedMissingCreds = false → s1 = s) := by
      rw [← hs1]
      by_cases hx : s.cacheSignatureAttempted ≠ env.sig
      · rw [if_pos hx]
        exact ⟨TryLoadCacheForSignature_scheduling _ _ _, rfl, rfl, fun h => absurd h hx⟩
      · rw [if_neg hx]
        refine ⟨rfl, not_not.1 hx, rfl, fun _ hw => ?_⟩
        cases s
        simp only at hw
        simp [hw]
    clear hs1
    have hflags : s1.client.loading = s.client.loading ∧ s1.client.dataLoaded = s.client.dataLoaded
        ∧ s1.client.settingsSignature = s.client.settingsSignature := by
      have := hg.1
      simp only [ClientState.scheduling, Prod.mk.injEq] at this
      exact ⟨this.2.2.1, this.2.2.2.1, this.2.1⟩
    by_cases ha : s1.client.dataLoaded = true ∧ env.sig = s1.client.settingsSignature
        ∧ (!s1.client.loading) = true
    · simp only [if_pos ha]
      exact ⟨hg.1, trivial, hg.2.1, hg.2.2.1, hg.2.2.2⟩
    simp only [if_neg ha]
    by_cases hb : s1.client.loading = true ∧ env.sig = s1.client.settingsSignature
    · simp only [if_pos hb]
      exact ⟨hg.1, trivial, hg.2.1, hg.2.2.1, hg.2.2.2⟩
    exfalso
    rcases hst with h | ⟨h1, h2⟩
    · exact hb ⟨hflags.1.trans h, hsig.trans hflags.2.2.symm⟩
    · apply ha
      refine ⟨hflags.2.1.trans h1, hsig.trans hflags.2.2.symm, ?_⟩
      rw [hflags.1, h2]
      rfl
  obtain ⟨h1, h2, h3, h4, -⟩ := key st hsame hstate
  refine ⟨h1, h2, ?_⟩
  have hsched := h1
  simp only [ClientState.scheduling, Prod.mk.injEq] at hsched
  obtain ⟨-, -, -, -, h5⟩ := key (EnsureLoaded env st).state (hsame.trans hsched.2.1.symm)
    (by
      rw [hsched.2.2.1, hsched.2.2.2.1]
      exact hstate)
  exact h5 h3 h4

set_option maxRecDepth 1000000 in
/-- Witness for `C39_same_fingerprint_is_idempotent`: data loaded for the
signature of the call. -/
theorem C39_same_fingerprint_is_idempotent_witness :
    (EnsureLoaded (callWithFormat (ascii "ts")) loadedSameSignature).state.client.scheduling
        = loadedSameSignature.client.scheduling
      ∧ (EnsureLoaded (callWithFormat (ascii "ts")) loadedSameSignature).shouldStart = false
      ∧ (EnsureLoaded (callWithFormat (ascii "ts"))
          (EnsureLoaded (callWithFormat (ascii "ts")) loadedSameSignature).state).state
        = (EnsureLoaded (callWithFormat (ascii "ts")) loadedSameSignature).state :=
  C39_same_fingerprint_is_idempotent (callWithFormat (ascii "ts")) loadedSameSignature
    (by decide) rfl (Or.inr ⟨rfl, rfl⟩)

theorem dropWhile_of_head (p : Nat → Bool) (l : Bytes)
    (h : ∀ c, l.head? = some c → p c = false) : l.dropWhile p = l := by
  cases l with
  | nil => rfl
  | cons c cs => rw [List.dropWhile_cons, h c rfl]; rfl

theorem Trim_of_clean_ends (n : Bytes) (hh : ∀ c, n.head? = some c → isSpace c = false)
    (hl : ∀ c, n.getLast? = some c → isSpace c = false) : Trim n = n := by
  unfold Trim
  rw [dropWhile_of_head isSpace n hh, dropWhile_of_head isSpace n.reverse, List.reverse_reverse]
  intro c hc
  rw [List.head?_reverse] at hc
  exact hl c hc

theorem replaceAllAux_of_not_mem (a' b t : Bytes) (c : Nat) (fuel : Nat) (h : c ∉ t) :
    replaceAllAux (c :: a') b fuel t = t := by
  induction t generalizing fuel with
  | nil => cases fuel <;> rfl
  | cons x xs ih =>
    cases fuel with
    | zero => rfl
    | succ f =>
      have hx : x ≠ c := fun e => h (e ▸ List.mem_cons_self _ _)
      have hne : ¬ (c = x) := fun e => hx e.symm
      rw [replaceAllAux, if_neg (by simp [List.isPrefixOf, hne]),
        ih f (fun hc => h (List.mem_cons_of_mem _ hc))]

theorem replaceAll_of_not_mem (a' b t : Bytes) (c : Nat) (h : c ∉ t) :
    replaceAll t (c :: a') b = t := replaceAllAux_of_not_mem a' b t c _ h

theorem stripEscapeText_of_plain (n : Bytes) (h92 : 92 ∉ n) (hu : hasUHexText n = false) :
    stripEscapeText n 0 = n := by
  induction n with
  | nil => rfl
  | cons c rest ih =>
    have hc : c ≠ 92 := fun e => h92 (e ▸ List.mem_cons_self _ _)
    unfold hasUHexText at hu
    rw [Bool.or_eq_false_iff] at hu
    have hnu : ¬ (c = 117 ∧ escapeAfterU rest = true) := by
      rintro ⟨e, he⟩
      have h1 := hu.1
      rw [e, he] at h1
      cases h1
    rw [stripEscapeText, if_neg (fun hh => hc hh.1), if_neg hnu,
      ih (fun hm => h92 (List.mem_cons_of_mem _ hm)) hu.2]

theorem collapseSpaces_of_single (n : Bytes) (prev : Bool)
    (hhead : prev = true → ∀ c, n.head? = some c → isSpace c = false)
    (hall : ∀ c ∈ n, isSpace c = true → c = 32) (hs : singleSpaces n = true) :
    collapseSpaces n prev = n := by
  induction n generalizing prev with
  | nil => rfl
  | cons c rest ih =>
    have hrest : singleSpaces rest = true := by
      cases rest with
      | nil => rfl
      | cons d ds =>
        unfold singleSpaces at hs
        rw [Bool.and_eq_true] at hs
        exact hs.2
    have hall' : ∀ x ∈ rest, isSpace x = true → x = 32 :=
      fun x hx => hall x (List.mem_cons_of_mem _ hx)
    unfold collapseSpaces
    by_cases hc : isSpace c = true
    · rw [if_pos hc]
      have hp : prev = false := by
        cases prev with
        | false => rfl
        | true => rw [hhead rfl c rfl] at hc; cases hc
      have h32 : c = 32 := hall c (List.mem_cons_self _ _) hc
      rw [hp, ih true ?_ hall' hrest, h32]
      · rfl
      · intro _ d hd
        cases rest with
        | nil => cases hd
        | cons e es =>
          cases hd
          unfold singleSpaces at hs
          rw [Bool.and_eq_true] at hs
          have := hs.1
          rw [hc] at this
          simpa using this
    · rw [if_neg hc, ih false (fun h => by cases h) hall' hrest]

/-- C35 (counterexample): `Subdeacon` is made of ASCII letters only and is clean,
yet the sanitizer returns `Scon`: it strips the `u` and the four hexadecimal
digits `bdea` that follow it; likewise `Menu2024 HD` becomes `Men HD`. -/
theorem C35_clean_name_is_changed :
    cleanName (ascii "Subdeacon") = true
      ∧ SanitizeChannelName (ascii "Subdeacon") = ascii "Scon"
      ∧ cleanName (ascii "Menu2024 HD") = true
      ∧ SanitizeChannelName (ascii "Menu2024 HD") = ascii "Men HD" := by
  decide

/-- C35 (amended): `SanitizeChannelName` returns its input unchanged for every
name that is clean (no leading or trailing whitespace, no whitespace other than
single spaces, no `&`, no backslash) and in which no `u` is followed by four
hexadecimal digits. -/
theorem C35_clean_name_unchanged (n : Bytes) (hclean : cleanName n = true)
    (hu : hasUHexText n = false) : SanitizeChannelName n = n := by
  unfold cleanName at hclean
  simp only [Bool.and_eq_true, Bool.not_eq_true', List.all_eq_true, Bool.or_eq_true,
    beq_iff_eq] at hclean
  obtain ⟨⟨⟨⟨⟨h1, h2⟩, h3⟩, h4⟩, h5⟩, h6⟩ := hclean
  have hh : ∀ c, n.head? = some c → isSpace c = false := by
    intro c hc
    rw [hc] at h1
    simpa using h1
  have hl : ∀ c, n.getLast? = some c → isSpace c = false := by
    intro c hc
    rw [hc] at h2
    simpa using h2
  have h38 : 38 ∉ n := by simpa using h5
  have h92 : 92 ∉ n := by simpa using h6
  have hall : ∀ c ∈ n, isSpace c = true → c = 32 := by
    intro c hc hs
    rcases h3 c hc with h | h
    · rw [hs] at h; cases h
    · exact h
  unfold SanitizeChannelName
  simp only
  rw [Trim_of_clean_ends n hh hl]
  have e1 : ascii "&amp;" = 38 :: ascii "amp;" := by decide
  have e2 : ascii "&quot;" = 38 :: ascii "quot;" := by decide
  have e3 : ascii "&#039;" = 38 :: ascii "#039;" := by decide
  have e4 : ascii "&lt;" = 38 :: ascii "lt;" := by decide
  have e5 : ascii "&gt;" = 38 :: ascii "gt;" := by decide
  rw [e1, e2, e3, e4, e5, replaceAll_of_not_mem _ _ n 38 h38, replaceAll_of_not_mem _ _ n 38 h38,
    replaceAll_of_not_mem _ _ n 38 h38, replaceAll_of_not_mem _ _ n 38 h38,
    replaceAll_of_not_mem _ _ n 38 h38, stripEscapeText_of_plain n h92 hu,
    collapseSpaces_of_single n false (fun h => by cases h) hall h4, Trim_of_clean_ends n hh hl]

/-- Witness for `C35_clean_name_unchanged`: the name `BBC One HD`. -/
theorem C35_clean_name_unchanged_witness :
    SanitizeChannelName (ascii "BBC One HD") = ascii "BBC One HD" :=
  C35_clean_name_unchanged (ascii "BBC One HD") (by decide) (by decide)

theorem seriesTimers_get (ss : List SeriesRule) :
    ∀ (k i : Nat), k + i < 4294967296 → ∀ (hi : i < ss.length),
      (seriesTimers ss k).get? i = some (seriesTimer (ss.get ⟨i, hi⟩) (k + i)) := by
  induction ss with
  | nil => intro k i _ hi; simp at hi
  | cons s rest ih =>
    intro k i hk hi
    simp only [List.length_cons] at hi
    cases i with
    | zero => simp [seriesTimers]
    | succ j =>
      have hj : j < rest.length := by omega
      have hk1 : (k + 1) % 4294967296 = k + 1 := Nat.mod_eq_of_lt (by omega)
      simp only [seriesTimers, List.get?_cons_succ, hk1]
      rw [ih (k + 1) j (by omega) hj]
      simp only [List.get_cons_succ]
      congr 2
      omega

theorem seriesTimers_length (ss : List SeriesRule) :
    ∀ k, (seriesTimers ss k).length = ss.length := by
  induction ss with
  | nil => intro k; rfl
  | cons s rest ih => intro k; simp [seriesTimers, ih]

theorem GetTimers_timers (env : DvrEnv) (nowTs : Int) (ss : List SeriesRule)
    (rs : List RecurringRule) (qs : List Recording) (hc : env.hasClient = true)
    (hs : env.series = some ss) (hr : env.recurring = some rs) (hq : env.recordings = some qs) :
    GetTimers env nowTs
      = (.noError, seriesTimers ss 0 ++ rs.map (recurringTimer env nowTs)
          ++ (qs.filter isTimerRecording).map (recordingTimer env)) := by
  simp [GetTimers, hc, hs, hr, hq]

/-- C37 (as stated, refuted): a recurring rule with id 10000 and a scheduled
recording with id 0 both receive the client index 30000 from `GetTimers`, and
`DeleteTimer` routes the recurring rule's timer to `DeleteRecording(0)`. -/
theorem C37_recurring_rule_collides_with_recording :
    (GetTimers collidingTimersEnv 0).2.map (fun t => (t.timerType, t.clientIndex))
        = [(3, 30000), (1, 30000)]
      ∧ (DeleteTimer collidingTimersEnv
            (recurringTimer collidingTimersEnv 0
              { id := 10000, channelId := 1, name := ascii "News", enabled := true })).calls
          = [.deleteRecording 0] := by
  decide

/-- C37 (amended): inside the ranges the code reserves, the client indexes do
not collide and `DeleteTimer` inverts `GetTimers`. With all three fetches
answering, the series rule at position `i < 10000` gets index `10000 + i` and
its timer is routed to `DeleteSeriesRule` of the rule at position `i`; a
recurring rule with `0 ≤ id < 10000` gets `20000 + id` and is routed to
`DeleteRecurringRule(id)`; a listed recording with `0 ≤ id` and `30000 + id`
in `int` range gets `30000 + id` and is routed to `DeleteRecording(id)`; and
the three index ranges are disjoint. -/
theorem C37_delete_inverts_get_in_range (env : DvrEnv) (nowTs : Int) (ss : List SeriesRule)
    (rs : List RecurringRule) (qs : List Recording) (hc : env.hasClient = true)
    (hs : env.series = some ss) (hr : env.recurring = some rs) (hq : env.recordings = some qs) :
    (∀ (i : Nat) (hi : i < ss.length), i < 10000 →
        (GetTimers env nowTs).2.get? i = some (seriesTimer (ss.get ⟨i, hi⟩) i)
          ∧ (seriesTimer (ss.get ⟨i, hi⟩) i).clientIndex = 10000 + i
          ∧ (DeleteTimer env (seriesTimer (ss.get ⟨i, hi⟩) i)).calls
              = [.fetchSeriesRules, .deleteSeriesRule (ss.get ⟨i, hi⟩).tvgId])
      ∧ (∀ r ∈ rs, 0 ≤ r.id → r.id < 10000 →
          recurringTimer env nowTs r ∈ (GetTimers env nowTs).2
            ∧ ((recurringTimer env nowTs r).clientIndex : Int) = 20000 + r.id
            ∧ (DeleteTimer env (recurringTimer env nowTs r)).calls = [.deleteRecurringRule r.id])
      ∧ (∀ q ∈ qs, isTimerRecording q = true → 0 ≤ q.id → q.id ≤ 2147453647 →
          recordingTimer env q ∈ (GetTimers env nowTs).2
            ∧ ((recordingTimer env q).clientIndex : Int) = 30000 + q.id
            ∧ (DeleteTimer env (recordingTimer env q)).calls = [.deleteRecording q.id])
      ∧ (∀ (i : Nat) (r q : Int), i < 10000 → 0 ≤ r → r < 10000 → 0 ≤ q →
          (10000 + i : Int) ≠ 20000 + r ∧ (10000 + i : Int) ≠ 30000 + q
            ∧ 20000 + r ≠ 30000 + q) := by
  rw [GetTimers_timers env nowTs ss rs qs hc hs hr hq]
  refine ⟨?_, ?_, ?_, ?_⟩
  · intro i hi hlt
    have hidx : (seriesTimer (ss.get ⟨i, hi⟩) i).clientIndex = 10000 + i := by
      show (10000 + i) % 4294967296 = 10000 + i
      exact Nat.mod_eq_of_lt (by omega)
    refine ⟨?_, hidx, ?_⟩
    · have hlen : i < (seriesTimers ss 0).length := by rw [seriesTimers_length]; exact hi
      show (seriesTimers ss 0 ++ rs.map (recurringTimer env nowTs)
          ++ (qs.filter isTimerRecording).map (recordingTimer env)).get? i = _
      rw [List.append_assoc, List.get?_eq_getElem?, List.getElem?_append_left hlen,
        ← List.get?_eq_getElem?]
      have := seriesTimers_get ss 0 i (by omega) hi
      simpa using this
    · unfold DeleteTimer
      rw [hidx]
      have h1 : ¬ (10000 + i ≥ 30000) := by omega
      have h2 : ¬ (10000 + i ≥ 20000) := by omega
      have h3 : 10000 + i ≥ 10000 := by omega
      have hget : ss.get? (10000 + i - 10000) = some (ss.get ⟨i, hi⟩) := by
        rw [Nat.add_sub_cancel_left]; exact List.get?_eq_get hi
      simp only [hc, Bool.not_true, Bool.false_eq_true, if_false, if_neg h1, if_neg h2,
        if_pos h3, hs, hget]
      split <;> rfl
  · intro r hrm h0 hlt
    have hidx : (recurringTimer env nowTs r).clientIndex = (20000 + r.id).toNat := by
      show toUInt32 (wrapInt32 (20000 + r.id)) = _
      rw [wrapInt32_id _ (by omega) (by omega)]
      unfold toUInt32
      rw [Int.emod_eq_of_lt (by omega) (by omega)]
    refine ⟨?_, ?_, ?_⟩
    · simp only [List.mem_append, List.mem_map]
      exact Or.inl (Or.inr ⟨r, hrm, rfl⟩)
    · rw [hidx]; omega
    · unfold DeleteTimer
      rw [hidx]
      have h1 : ¬ ((20000 + r.id).toNat ≥ 30000) := by omega
      have h2 : (20000 + r.id).toNat ≥ 20000 := by omega
      have hid : wrapInt32 (((20000 + r.id).toNat - 20000 : Nat) : Int) = r.id := by
        rw [wrapInt32_id _ (by omega) (by omega)]; omega
      simp only [hc, Bool.not_true, Bool.false_eq_true, if_false, if_neg h1, if_pos h2, hid]
      split <;> rfl
  · intro q hqm hlisted h0 hmax
    have hidx : (recordingTimer env q).clientIndex = (30000 + q.id).toNat := by
      show toUInt32 (wrapInt32 (30000 + q.id)) = _
      rw [wrapInt32_id _ (by omega) (by omega)]
      unfold toUInt32
      rw [Int.emod_eq_of_lt (by omega) (by omega)]
    refine ⟨?_, ?_, ?_⟩
    · simp only [List.mem_append, List.mem_map, List.mem_filter]
      exact Or.inr ⟨q, ⟨hqm, hlisted⟩, rfl⟩
    · rw [hidx]; omega
    · unfold DeleteTimer
      rw [hidx]
      have h1 : (30000 + q.id).toNat ≥ 30000 := by omega
      have hid : wrapInt32 (((30000 + q.id).toNat - 30000 : Nat) : Int) = q.id := by
        rw [wrapInt32_id _ (by omega) (by omega)]; omega
      simp only [hc, Bool.not_true, Bool.false_eq_true, if_false, if_pos h1, hid]
      split <;> rfl
  · intro i r q hi h0 hr1 hq0
    omega

/-- C37 witness: a server with two series rules, one recurring rule and two
recordings. -/
theorem C37_delete_inverts_get_in_range_witness :
    (GetTimers timersExampleEnv 0).2.map (fun t => t.clientIndex) = [10000, 10001, 20007, 30012]
      ∧ (DeleteTimer timersExampleEnv
            (seriesTimer { tvgId := ascii "itv", title := ascii "Quiz", mode := ascii "new" } 1)).calls
          = [.fetchSeriesRules, .deleteSeriesRule (ascii "itv")]
      ∧ (DeleteTimer timersExampleEnv
            (recurringTimer timersExampleEnv 0
              { id := 7, channelId := 4, name := ascii "News", enabled := true })).calls
          = [.deleteRecurringRule 7]
      ∧ (DeleteTimer timersExampleEnv
            (recordingTimer timersExampleEnv
              { id := 12, channelId := 4, title := ascii "Film", status := ascii "scheduled",
                startTime := 100, endTime := 200 })).calls
          = [.deleteRecording 12] :=
  have h := C37_delete_inverts_get_in_range timersExampleEnv 0 _ _ _ rfl rfl rfl rfl
  ⟨by decide, (h.1 1 (by decide) (by decide)).2.2,
    (h.2.1 _ (List.mem_singleton.mpr rfl) (by decide) (by decide)).2.2,
    (h.2.2.1 _ (List.mem_cons_self _ _) (by decide) (by decide) (by decide)).2.2⟩

/-- C34 (code diverges from the claim): a `*` in the text is consumed by the
byte comparison, which the loop makes before it looks for a `*` in the
pattern, so no backtrack point is recorded. The pattern `*hd` and the text
`** bbc hd` match as a glob (the `*` stands for `** bbc `), but the loop
returns false at the second byte, within its iteration bound; hence the
channel `** BBC HD` is not filtered out by the pattern `*hd`. The same happens
for the pattern `*sports*` and the text `**** sports ****`. -/
theorem C34_star_in_text_defeats_matcher :
    globMatch (ascii "*hd") (ascii "** bbc hd") = true
      ∧ wildcardLoop (ascii "*hd") (ascii "** bbc hd")
          (wildcardFuel (ascii "*hd") (ascii "** bbc hd")) 0 0 none 0 = some none
      ∧ WildcardMatchLower (ascii "*hd") (ascii "** bbc hd") = false
      ∧ PatternMatchesLower (ascii "*hd") (ascii "** bbc hd") = false
      ∧ ShouldFilterOut [ascii "*hd"] (ascii "** BBC HD") = false
      ∧ globMatch (ascii "*sports*") (ascii "**** sports ****") = true
      ∧ WildcardMatchLower (ascii "*sports*") (ascii "**** sports ****") = false := by
  decide

theorem flatObject_split (before after : List FlatMember) (m : FlatMember) :
    flatObject (before ++ m :: after)
      = objectPrefix before ++ (m.text ++ (membersTail after ++ [125])) := by
  cases before with
  | nil => simp [flatObject, objectPrefix]
  | cons b bs =>
    simp [flatObject, objectPrefix, membersTail, List.flatMap_append, List.flatMap_cons]

theorem findFrom_none_of_not_occurs (needle : Bytes) :
    ∀ (text : Bytes) (i : Nat), occursIn needle text = false → findFrom needle text i = none := by
  intro text
  induction text with
  | nil =>
    intro i h
    simp only [occursIn, List.tails, List.any_cons, List.any_nil, Bool.or_false] at h
    rw [findFrom, if_neg]
    intro e
    rw [e] at h
    simp [List.isPrefixOf] at h
  | cons c cs ih =>
    intro i h
    simp only [occursIn, List.tails, List.any_cons, Bool.or_eq_false_iff] at h
    rw [findFrom, if_neg (by simp [h.1])]
    exact ih (i + 1) h.2

/-- The search stops at the first occurrence: when `dl ++ [z]` does not occur
before the copy that follows `pre`, that copy is found. -/
theorem findFrom_first (dl : Bytes) (z : Nat) (rest : Bytes) :
    ∀ (pre : Bytes) (i : Nat), occursIn (dl ++ [z]) (pre ++ dl) = false →
      findFrom (dl ++ [z]) (pre ++ ((dl ++ [z]) ++ rest)) i = some (i + pre.length) := by
  intro pre
  induction pre with
  | nil => intro i _; simpa using findFrom_prefix (dl ++ [z]) rest i
  | cons x pre ih =>
    intro i h
    have h : (dl ++ [z]).isPrefixOf (x :: (pre ++ dl)) = false
        ∧ occursIn (dl ++ [z]) (pre ++ dl) = false := by
      simpa only [List.cons_append, occursIn, List.tails, List.any_cons,
        Bool.or_eq_false_iff] using h
    have hnp : ¬ ((dl ++ [z]).isPrefixOf (x :: (pre ++ ((dl ++ [z]) ++ rest))) = true) := by
      intro hp
      rw [List.isPrefixOf_iff_prefix] at hp
      have h2 : (x :: (pre ++ dl)) <+: (x :: (pre ++ ((dl ++ [z]) ++ rest))) := by
        refine ⟨z :: rest, ?_⟩
        simp
      have h3 := List.prefix_of_prefix_length_le hp h2 (by simp)
      have h4 : (dl ++ [z]).isPrefixOf (x :: (pre ++ dl)) = true :=
        List.isPrefixOf_iff_prefix.mpr h3
      rw [h4] at h
      exact Bool.noConfusion h.1
    rw [List.cons_append, findFrom, if_neg hnp, ih (i + 1) h.2]
    simp only [List.length_cons]
    congr 1
    omega

/-- The three steps the extractors share, on a text in which the quoted name
occurs first in front of a colon: the name is found there, the colon is the one
after it, and after the whitespace the extractor stands at the value. -/
theorem member_lookup (pre k ws v post : Bytes) (hk : 58 ∉ k)
    (hws : ∀ c ∈ ws, isSpace c = true)
    (hv : ∀ c, (v ++ post).head? = some c → isSpace c = false)
    (hfirst : occursIn (34 :: (k ++ [34])) (pre ++ 34 :: k) = false) :
    let obj := pre ++ (34 :: (k ++ 34 :: 58 :: (ws ++ (v ++ post))))
    FindKeyPos obj k = some pre.length
      ∧ find obj [58] pre.length = some (pre.length + k.length + 2)
      ∧ obj.drop (skipSpaces obj (pre.length + k.length + 2 + 1)) = v ++ post := by
  intro obj
  have hobj1 : obj = pre ++ (((34 :: k) ++ [34]) ++ (58 :: (ws ++ (v ++ post)))) := by
    simp [obj]
  have hdrop : obj.drop (pre.length + k.length + 2 + 1) = ws ++ (v ++ post) := by
    have e : obj = (pre ++ (34 :: (k ++ [34, 58]))) ++ (ws ++ (v ++ post)) := by simp [obj]
    rw [e, List.drop_append_of_le_length (by simp; omega)]
    rw [List.drop_eq_nil_of_le (by simp; omega), List.nil_append]
  refine ⟨?_, ?_, ?_⟩
  · unfold FindKeyPos find
    rw [if_pos (Nat.zero_le _), List.drop_zero, hobj1]
    have := findFrom_first (34 :: k) 34 (58 :: (ws ++ (v ++ post))) pre 0
      (by simpa using hfirst)
    simpa using this
  · unfold find
    rw [if_pos (by simp [obj])]
    have e : obj.drop pre.length = (34 :: (k ++ [34])) ++ 58 :: (ws ++ (v ++ post)) := by
      simp [obj]
    rw [e, findFrom_char 58 _ _ _ (by simp [hk])]
    simp only [List.length_cons, List.length_append, List.length_singleton, List.length_nil]
    congr 1
  · unfold skipSpaces
    rw [hdrop]
    have htw : (ws ++ (v ++ post)).takeWhile isSpace = ws := by
      rw [List.takeWhile_append, takeWhile_all isSpace ws hws, if_pos rfl]
      cases hvv : v ++ post with
      | nil => simp
      | cons c cs =>
        have := hv c (by rw [hvv]; rfl)
        simp [List.takeWhile_cons, this]
    rw [htw, ← List.drop_drop, hdrop, List.drop_left]

theorem membersTail_head (after : List FlatMember) :
    ∀ c, (membersTail after ++ [125]).head? = some c → c = 44 ∨ c = 125 := by
  intro c hc
  cases after with
  | nil => simp [membersTail] at hc; exact Or.inr hc.symm
  | cons a rest => simp [membersTail, List.flatMap_cons] at hc; exact Or.inl hc.symm

/-- C36 (as stated, refuted): the extractors take the first place where the
quoted name occurs, which may be a string value. In `{"a":"k","b":1,"k":7}` the
member named `k` has value 7 but `ExtractIntField` returns 1; in
`{"a":"k","b":"x","k":"y"}` `ExtractStringField` returns `x` instead of `y`; in
`{"a":"k","b":1}` no member is named `k`, yet 1 is reported. The integer is
also narrowed to `int`: `{"k":4294967296}` gives 0. -/
theorem C36_name_inside_earlier_value :
    flatObject [⟨ascii "a", [], .str [('k', .raw)]⟩, ⟨ascii "b", [], .int 1⟩,
        ⟨ascii "k", [], .int 7⟩] = ascii "\x7b\"a\":\"k\",\"b\":1,\"k\":7\x7d"
      ∧ ExtractIntField (flatObject [⟨ascii "a", [], .str [('k', .raw)]⟩,
          ⟨ascii "b", [], .int 1⟩, ⟨ascii "k", [], .int 7⟩]) (ascii "k") = some 1
      ∧ ExtractStringField (flatObject [⟨ascii "a", [], .str [('k', .raw)]⟩,
          ⟨ascii "b", [], .str [('x', .raw)]⟩, ⟨ascii "k", [], .str [('y', .raw)]⟩]) (ascii "k")
          = some (ascii "x")
      ∧ ExtractIntField (flatObject [⟨ascii "a", [], .str [('k', .raw)]⟩,
          ⟨ascii "b", [], .int 1⟩]) (ascii "k") = some 1
      ∧ ExtractIntField (flatObject [⟨ascii "k", [], .int 4294967296⟩]) (ascii "k") = some 0 := by
  decide

/-- C36 (amended): for every flat JSON object with integer or string values
and a member named `k`, where `k` contains no colon and the quoted text `"k"`
does not occur in the object before that member's name, `ExtractIntField`
returns the member's value when it is an integer that fits `int`, and
`ExtractStringField` returns the UTF-8 bytes of the member's value when it is a
string, whatever the members after it contain; both report absent when the
quoted text `"k"` occurs nowhere in the object. -/
theorem C36_first_quoted_name_decides (before after : List FlatMember) (k ws : Bytes)
    (hk : 58 ∉ k) (hws : ∀ c ∈ ws, isSpace c = true)
    (hfirst : occursIn (34 :: (k ++ [34])) (objectPrefix before ++ 34 :: k) = false) :
    (∀ n : Int, -2147483648 ≤ n → n < 2147483648 →
        ExtractIntField (flatObject (before ++ ⟨k, ws, .int n⟩ :: after)) k = some n)
      ∧ (∀ s : List (Char × CharStyle),
          ExtractStringField (flatObject (before ++ ⟨k, ws, .str s⟩ :: after)) k
            = some (utf8Bytes (s.map Prod.fst)))
      ∧ (∀ ms : List FlatMember, occursIn (34 :: (k ++ [34])) (flatObject ms) = false →
          ExtractIntField (flatObject ms) k = none
            ∧ ExtractStringField (flatObject ms) k = none) := by
  refine ⟨?_, ?_, ?_⟩
  · intro n h0 h1
    have hv : ∀ c, (intToString n ++ (membersTail after ++ [125])).head? = some c →
        isSpace c = false := intToString_head n _
    obtain ⟨hkey, hcolon, hdrop⟩ := member_lookup (objectPrefix before) k ws (intToString n)
      (membersTail after ++ [125]) hk hws hv hfirst
    rw [flatObject_split]
    show ExtractIntField (objectPrefix before
      ++ (34 :: (k ++ 34 :: 58 :: (ws ++ intToString n)) ++ (membersTail after ++ [125]))) k = _
    have e : objectPrefix before
        ++ (34 :: (k ++ 34 :: 58 :: (ws ++ intToString n)) ++ (membersTail after ++ [125]))
        = objectPrefix before
          ++ (34 :: (k ++ 34 :: 58 :: (ws ++ (intToString n ++ (membersTail after ++ [125]))))) := by
      simp
    rw [e]
    unfold ExtractIntField
    rw [hkey]
    simp only [hcolon]
    apply ParseIntAt_bare _ _ n (membersTail after ++ [125]) ⟨h0, h1⟩
    · intro c hc
      rcases membersTail_head after c hc with h | h <;> rw [h] <;> rfl
    · exact hdrop
  · intro s
    have hv : ∀ c, ((34 :: (encodeString s ++ [34])) ++ (membersTail after ++ [125])).head?
        = some c → isSpace c = false := by
      intro c hc
      cases hc
      rfl
    obtain ⟨hkey, hcolon, hdrop⟩ := member_lookup (objectPrefix before) k ws
      (34 :: (encodeString s ++ [34])) (membersTail after ++ [125]) hk hws hv hfirst
    rw [flatObject_split]
    show ExtractStringField (objectPrefix before
      ++ (34 :: (k ++ 34 :: 58 :: (ws ++ (34 :: (encodeString s ++ [34]))))
        ++ (membersTail after ++ [125]))) k = _
    have e : objectPrefix before
        ++ (34 :: (k ++ 34 :: 58 :: (ws ++ (34 :: (encodeString s ++ [34]))))
          ++ (membersTail after ++ [125]))
        = objectPrefix before
          ++ (34 :: (k ++ 34 :: 58 :: (ws ++ ((34 :: (encodeString s ++ [34]))
            ++ (membersTail after ++ [125]))))) := by
      simp
    rw [e]
    unfold ExtractStringField
    rw [hkey]
    simp only [hcolon]
    rw [hdrop]
    simp only [List.cons_append, if_true, List.append_assoc, List.singleton_append]
    have := decodeString_encode s (membersTail after ++ [125]) []
    simpa using this
  · intro ms hno
    have hnone : FindKeyPos (flatObject ms) k = none := by
      unfold FindKeyPos find
      rw [if_pos (Nat.zero_le _), List.drop_zero]
      exact findFrom_none_of_not_occurs _ _ _ hno
    constructor
    · unfold ExtractIntField; rw [hnone]
    · unfold ExtractStringField; rw [hnone]

/-- Witness for `C36_first_quoted_name_decides`: the member `k` of
`{"a":"x","k": 7,"z":"k"}` and of `{"a":"x","k": "y","z":"k"}`, and the object
`{"a":"x"}` without it. -/
theorem C36_first_quoted_name_decides_witness :
    flatObject ([⟨ascii "a", [], .str [('x', .raw)]⟩]
        ++ ⟨ascii "k", [32], .int 7⟩ :: [⟨ascii "z", [], .str [('k', .raw)]⟩])
        = ascii "\x7b\"a\":\"x\",\"k\": 7,\"z\":\"k\"\x7d"
      ∧ ExtractIntField (flatObject ([⟨ascii "a", [], .str [('x', .raw)]⟩]
          ++ ⟨ascii "k", [32], .int 7⟩ :: [⟨ascii "z", [], .str [('k', .raw)]⟩])) (ascii "k")
          = some 7
      ∧ ExtractStringField (flatObject ([⟨ascii "a", [], .str [('x', .raw)]⟩]
          ++ ⟨ascii "k", [32], .str [('y', .raw)]⟩ :: [⟨ascii "z", [], .str [('k', .raw)]⟩]))
          (ascii "k") = some (utf8Bytes ['y'])
      ∧ ExtractIntField (flatObject [⟨ascii "a", [], .str [('x', .raw)]⟩]) (ascii "k") = none :=
  have h := C36_first_quoted_name_decides [⟨ascii "a", [], .str [('x', .raw)]⟩]
    [⟨ascii "z", [], .str [('k', .raw)]⟩] (ascii "k") [32] (by decide) (by decide) (by decide)
  ⟨by decide, h.1 7 (by decide) (by decide), h.2.1 [('y', .raw)],
    (h.2.2 [⟨ascii "a", [], .str [('x', .raw)]⟩] (by decide)).1⟩

theorem natToString_no_space (n : Nat) : 32 ∉ natToString n := by
  intro h
  have := natToString_digits n 32 h
  exact absurd this (by decide)

theorem stoi_natToString (n : Nat) :
    stoi (natToString n) = if n ≤ 2147483647 then some (n : Int) else none := by
  have hd := natToString_digits n
  cases hs : natToString n with
  | nil => exact absurd hs (natToString_ne_nil n)
  | cons c cs =>
    have hc : isDigit c = true := hd c (by rw [hs]; exact List.mem_cons_self _ _)
    have hc2 : 48 ≤ c ∧ c ≤ 57 := by simpa [isDigit] using hc
    have hsp : isSpace c = false := by
      unfold isSpace
      have h1 : (c == 32) = false := by simp; omega
      have h2 : (decide (9 ≤ c) && decide (c ≤ 13)) = false := by simp; omega
      rw [h1, h2]; rfl
    have htw : (c :: cs).takeWhile isDigit = c :: cs :=
      takeWhile_all isDigit (c :: cs) (by rw [← hs]; exact hd)
    have hval : digitsValue (c :: cs) 0 = n := by rw [← hs]; exact natToString_value n
    unfold stoi
    have h45 : ¬ (some c = some 45) := by intro e; have := Option.some.inj e; omega
    have h43 : ¬ (some c = some 43) := by intro e; have := Option.some.inj e; omega
    simp only [List.dropWhile_cons, hsp, Bool.false_eq_true, if_false, List.head?_cons, h45, h43,
      or_self, htw, List.isEmpty_cons, hval, decide_False]
    by_cases hn : n ≤ 2147483647
    · rw [if_neg (by omega), if_pos hn]
    · rw [if_pos (by omega), if_neg hn]

theorem stoi_no_digit (tok : Bytes) (h : ∀ c ∈ tok, isDigit c = false) : stoi tok = none := by
  unfold stoi
  have hsub : ∀ l : Bytes, (∀ c ∈ l, c ∈ tok) → l.takeWhile isDigit = [] := by
    intro l hl
    cases l with
    | nil => rfl
    | cons c cs => simp [List.takeWhile_cons, h c (hl c (List.mem_cons_self _ _))]
  have h1 : ∀ c ∈ tok.dropWhile isSpace, c ∈ tok :=
    fun c hc => (List.dropWhile_suffix isSpace).subset hc
  have h2 : ∀ c ∈ (tok.dropWhile isSpace).drop 1, c ∈ tok :=
    fun c hc => h1 c (List.mem_of_mem_drop hc)
  simp only []
  by_cases ha : (tok.dropWhile isSpace).head? = some 45 ∨ (tok.dropWhile isSpace).head? = some 43
  · rw [if_pos ha, hsub _ h2]
    rfl
  · rw [if_neg ha, hsub _ h1]
    rfl

theorem find_space_first (version rest : Bytes) (hv : 32 ∉ version) :
    find (version ++ 32 :: rest) [32] 0 = some version.length := by
  unfold find
  rw [if_pos (Nat.zero_le _), List.drop_zero, findFrom_char 32 _ _ 0 hv]
  simp

theorem find_space_second (version tok rest : Bytes) (ht : 32 ∉ tok) :
    find (version ++ 32 :: (tok ++ 32 :: rest)) [32] (version.length + 1)
      = some (version.length + 1 + tok.length) := by
  unfold find
  rw [if_pos (by simp)]
  have e : (version ++ 32 :: (tok ++ 32 :: rest)).drop (version.length + 1) = tok ++ 32 :: rest := by
    have e2 : version ++ 32 :: (tok ++ 32 :: rest) = (version ++ [32]) ++ (tok ++ 32 :: rest) := by
      simp
    rw [e2, List.drop_append_of_le_length (by simp), List.drop_eq_nil_of_le (by simp),
      List.nil_append]
  rw [e, findFrom_char 32 _ _ _ ht]

/-- On `version SP tok SP rest` the check reads the token between the two
spaces. -/
theorem IsHttpStatusOk_token (version tok rest : Bytes) (hv : 32 ∉ version) (ht : 32 ∉ tok) :
    (∀ code, stoi tok = some code →
        IsHttpStatusOk (version ++ 32 :: (tok ++ 32 :: rest)) = decide (code ≥ 200 ∧ code < 300))
      ∧ (stoi tok = none → IsHttpStatusOk (version ++ 32 :: (tok ++ 32 :: rest)) = false) := by
  by_cases he : tok = []
  · rw [he]
    constructor
    · intro code hs
      have hnone : stoi [] = none := by decide
      rw [hnone] at hs
      exact Option.noConfusion hs
    · intro _
      unfold IsHttpStatusOk
      rw [find_space_first version _ hv]
      simp only [find_space_second version [] rest (by simp)]
      rw [if_pos (by simp)]
  · have hlen : 0 < tok.length := List.length_pos.mpr he
    have e : ((version ++ 32 :: (tok ++ 32 :: rest)).drop (version.length + 1)).take
        (version.length + 1 + tok.length - version.length - 1) = tok := by
      have e2 : version ++ 32 :: (tok ++ 32 :: rest) = (version ++ [32]) ++ (tok ++ 32 :: rest) := by
        simp
      rw [e2, List.drop_append_of_le_length (by simp), List.drop_eq_nil_of_le (by simp),
        List.nil_append]
      have e3 : version.length + 1 + tok.length - version.length - 1 = tok.length := by omega
      rw [e3, List.take_left]
    constructor
    · intro code hs
      unfold IsHttpStatusOk
      rw [find_space_first version _ hv]
      simp only [find_space_second version tok rest ht]
      rw [if_neg (by omega)]
      simp only [e, hs]
    · intro hs
      unfold IsHttpStatusOk
      rw [find_space_first version _ hv]
      simp only [find_space_second version tok rest ht]
      rw [if_neg (by omega)]
      simp only [e, hs]

theorem IsHttpStatusOk_no_space (p : Bytes) (h : 32 ∉ p) : IsHttpStatusOk p = false := by
  unfold IsHttpStatusOk
  have : find p [32] 0 = none := by
    unfold find
    rw [if_pos (Nat.zero_le _), List.drop_zero]
    have : ∀ (l : Bytes) (i : Nat), 32 ∉ l → findFrom [32] l i = none := by
      intro l
      induction l with
      | nil => intro i _; simp [findFrom]
      | cons c cs ih =>
        intro i hl
        have hc : ¬ (32 = c) := fun e => hl (e ▸ List.mem_cons_self _ _)
        rw [findFrom, if_neg (by simp [List.isPrefixOf, hc])]
        exact ih _ (fun hm => hl (List.mem_cons_of_mem _ hm))
    exact this p 0 h
  rw [this]

theorem IsHttpStatusOk_no_second_space (version tok : Bytes) (hv : 32 ∉ version)
    (ht : 32 ∉ tok) : IsHttpStatusOk (version ++ 32 :: tok) = false := by
  have hnone : ∀ (l : Bytes) (i : Nat), 32 ∉ l → findFrom [32] l i = none := by
    intro l
    induction l with
    | nil => intro i _; simp [findFrom]
    | cons c cs ih =>
      intro i hl
      have hc : ¬ (32 = c) := fun e => hl (e ▸ List.mem_cons_self _ _)
      rw [findFrom, if_neg (by simp [List.isPrefixOf, hc])]
      exact ih _ (fun hm => hl (List.mem_cons_of_mem _ hm))
  have h2 : find (version ++ 32 :: tok) [32] (version.length + 1) = none := by
    unfold find
    rw [if_pos (by simp)]
    have e : (version ++ 32 :: tok).drop (version.length + 1) = tok := by
      have e2 : version ++ 32 :: tok = (version ++ [32]) ++ tok := by simp
      rw [e2, List.drop_append_of_le_length (by simp), List.drop_eq_nil_of_le (by simp),
        List.nil_append]
    rw [e]
    exact hnone tok _ ht
  unfold IsHttpStatusOk
  rw [find_space_first version _ hv]
  simp only [h2]

theorem HttpGet_ok_eq (t : Transport) (ho : t.opens = true) :
    (HttpGet t).ok = ((ReadAll t.chunks [] kMaxHttpBodyBytes).1 && IsHttpStatusOk t.protocol) := by
  unfold HttpGet
  rw [ho]
  simp only [Bool.not_true, Bool.false_eq_true, if_false]
  cases hr : (ReadAll t.chunks [] kMaxHttpBodyBytes).1 <;> simp

theorem HttpGet_closed (t : Transport) (ho : t.opens = false) : (HttpGet t).ok = false := by
  unfold HttpGet
  rw [ho]
  rfl

theorem HttpGet_refused (t : Transport) (h : IsHttpStatusOk t.protocol = false) :
    (HttpGet t).ok = false := by
  cases ho : t.opens with
  | false => exact HttpGet_closed t ho
  | true => rw [HttpGet_ok_eq t ho, h, Bool.and_false]

/-- C33 (as stated, refuted): the status line `HTTP/1.1 200` carries the code
200, but there is no space after the code, so `IsHttpStatusOk` returns false and
`HttpGet` reports failure although the file opened and the body was read; the
same holds for `HTTP/2 204`. -/
theorem C33_code_without_second_space_refused :
    IsHttpStatusOk (ascii "HTTP/1.1 200") = false
      ∧ (HttpGet { opens := true, protocol := ascii "HTTP/1.1 200", chunks := [ascii "[]"] }).ok
          = false
      ∧ (ReadAll [ascii "[]"] [] kMaxHttpBodyBytes).1 = true
      ∧ IsHttpStatusOk (ascii "HTTP/2 204") = false
      ∧ IsHttpStatusOk (ascii "HTTP/1.1 200 ") = true := by
  decide

/-- C33 (amended): on every status line of the form `version SP code SP reason`
(a version without a space, the code in decimal, a space after the code, any
reason, possibly empty) `IsHttpStatusOk` returns true if and only if the code
lies in 200..299; with a code outside that range `HttpGet` reports failure, and
with a code inside it the line is accepted: `HttpGet` reports success once the
file opened and the body was read within its size limit. A line without any
space, a line without a second space (such as `HTTP/1.1 200`) and a line whose
token between the first two spaces has no digit are refused, and `HttpGet`
reports failure for every refused line and whenever the file does not open. -/
theorem C33_status_ok_iff_2xx_on_spaced_line (version : Bytes) (hv : 32 ∉ version) :
    (∀ (code : Nat) (reason : Bytes),
        (IsHttpStatusOk (statusLine version code reason) = true ↔ 200 ≤ code ∧ code ≤ 299))
      ∧ (∀ (t : Transport) (code : Nat) (reason : Bytes),
          t.protocol = statusLine version code reason → ¬ (200 ≤ code ∧ code ≤ 299) →
          (HttpGet t).ok = false)
      ∧ (∀ (t : Transport) (code : Nat) (reason : Bytes), t.opens = true →
          t.protocol = statusLine version code reason → 200 ≤ code ∧ code ≤ 299 →
          (ReadAll t.chunks [] kMaxHttpBodyBytes).1 = true → (HttpGet t).ok = true)
      ∧ IsHttpStatusOk version = false
      ∧ (∀ tok : Bytes, 32 ∉ tok → IsHttpStatusOk (version ++ 32 :: tok) = false)
      ∧ (∀ tok reason : Bytes, 32 ∉ tok → (∀ c ∈ tok, isDigit c = false) →
          IsHttpStatusOk (version ++ 32 :: (tok ++ 32 :: reason)) = false)
      ∧ (∀ t : Transport, IsHttpStatusOk t.protocol = false → (HttpGet t).ok = false)
      ∧ (∀ t : Transport, t.opens = false → (HttpGet t).ok = false)
      ∧ (∀ t : Transport, t.opens = true →
          (HttpGet t).ok
            = ((ReadAll t.chunks [] kMaxHttpBodyBytes).1 && IsHttpStatusOk t.protocol)) := by
  have hline : ∀ (code : Nat) (reason : Bytes),
      (IsHttpStatusOk (statusLine version code reason) = true ↔ 200 ≤ code ∧ code ≤ 299) := by
    intro code reason
    unfold statusLine
    have htok := IsHttpStatusOk_token version _ reason hv (natToString_no_space code)
    have hs := stoi_natToString code
    by_cases hn : code ≤ 2147483647
    · rw [if_pos hn] at hs
      rw [htok.1 _ hs]
      simp only [decide_eq_true_eq]
      omega
    · rw [if_neg hn] at hs
      rw [htok.2 hs]
      simp only [Bool.false_eq_true, false_iff]
      omega
  refine ⟨hline, ?_, ?_, IsHttpStatusOk_no_space version hv,
    fun tok ht => IsHttpStatusOk_no_second_space version tok hv ht, ?_, HttpGet_refused,
    HttpGet_closed, HttpGet_ok_eq⟩
  · intro t code reason hp hout
    apply HttpGet_refused
    rw [hp]
    cases h : IsHttpStatusOk (statusLine version code reason) with
    | false => rfl
    | true => exact absurd ((hline code reason).mp h) hout
  · intro t code reason ho hp hin hread
    rw [HttpGet_ok_eq t ho, hp, hread, (hline code reason).mpr hin]
    rfl
  · intro tok reason ht hnd
    exact (IsHttpStatusOk_token version tok reason hv ht).2 (stoi_no_digit tok hnd)

/-- Witness for `C33_status_ok_iff_2xx_on_spaced_line`: the lines
`HTTP/1.1 204 No Content`, `HTTP/1.1 404 Not Found` and `HTTP/1.1 204`. -/
theorem C33_status_ok_iff_2xx_on_spaced_line_witness :
    statusLine (ascii "HTTP/1.1") 204 (ascii "No Content") = ascii "HTTP/1.1 204 No Content"
      ∧ (IsHttpStatusOk (statusLine (ascii "HTTP/1.1") 204 (ascii "No Content")) = true
          ↔ 200 ≤ 204 ∧ 204 ≤ 299)
      ∧ (HttpGet { opens := true, protocol := statusLine (ascii "HTTP/1.1") 404 (ascii "Not Found"),
                   chunks := [ascii "gone"] }).ok = false
      ∧ (HttpGet { opens := true, protocol := statusLine (ascii "HTTP/1.1") 204 (ascii "No Content"),
                   chunks := [ascii "ok"] }).ok = true
      ∧ IsHttpStatusOk (ascii "HTTP/1.1" ++ 32 :: ascii "204") = false :=
  have h := C33_status_ok_iff_2xx_on_spaced_line (ascii "HTTP/1.1") (by decide)
  ⟨by decide, h.1 204 (ascii "No Content"),
    h.2.1 _ 404 (ascii "Not Found") rfl (by decide),
    h.2.2.1 _ 204 (ascii "No Content") rfl rfl (by decide) (by decide),
    h.2.2.2.2.1 (ascii "204") (by decide)⟩

theorem findFrom_char_none (c : Nat) :
    ∀ (l : Bytes) (i : Nat), c ∉ l → findFrom [c] l i = none := by
  intro l
  induction l with
  | nil => intro i _; simp [findFrom]
  | cons x xs ih =>
    intro i hl
    have hc : ¬ (c = x) := fun e => hl (e ▸ List.mem_cons_self _ _)
    rw [findFrom, if_neg (by simp [List.isPrefixOf, hc])]
    exact ih _ (fun hm => hl (List.mem_cons_of_mem _ hm))

theorem occursIn_nil_iff (n : Bytes) : occursIn n [] = n.isPrefixOf [] := by
  simp [occursIn, List.tails]

theorem occursIn_cons (n : Bytes) (x : Nat) (t : Bytes) :
    occursIn n (x :: t) = (n.isPrefixOf (x :: t) || occursIn n t) := by
  simp [occursIn, List.tails]

/-- A prefix of `a ++ b` lies inside `a` or reaches into `b`. -/
theorem prefix_append_cases (n a b : Bytes) (h : n <+: a ++ b) :
    n <+: a ∨ ∃ r, r ≠ [] ∧ n = a ++ r ∧ r <+: b := by
  rcases List.prefix_or_prefix_of_prefix h (List.prefix_append a b) with h1 | h1
  · exact Or.inl h1
  · obtain ⟨r, hr⟩ := h1
    by_cases hre : r = []
    · left
      rw [← hr, hre, List.append_nil]
    · right
      refine ⟨r, hre, hr.symm, ?_⟩
      rw [← hr] at h
      exact (List.prefix_append_right_inj a).mp h

/-- No occurrence across a byte that the needle does not contain. -/
theorem occursIn_append_sep (n : Bytes) (c : Nat) (b : Bytes) (hc : c ∉ n)
    (hb : occursIn n b = false) :
    ∀ a : Bytes, occursIn n a = false → occursIn n (a ++ c :: b) = false := by
  have hcb : occursIn n (c :: b) = false := by
    rw [occursIn_cons, hb, Bool.or_false]
    cases n with
    | nil => exact absurd (List.mem_cons_self c b) (by cases b <;> simp [occursIn, List.tails] at hb)
    | cons x xs =>
      have hx : ¬ (x = c) := fun e => hc (e ▸ List.mem_cons_self _ _)
      simp [List.isPrefixOf, hx]
  intro a
  induction a with
  | nil => intro _; exact hcb
  | cons x a ih =>
    intro h
    rw [occursIn_cons, Bool.or_eq_false_iff] at h
    rw [List.cons_append, occursIn_cons, ih h.2, Bool.or_false]
    cases hp : n.isPrefixOf (x :: (a ++ c :: b)) with
    | false => rfl
    | true =>
      rw [List.isPrefixOf_iff_prefix] at hp
      have hp2 : n <+: (x :: a) ++ (c :: b) := by simpa using hp
      rcases prefix_append_cases n (x :: a) (c :: b) hp2 with h1 | ⟨r, hre, hn, hr⟩
      · rw [List.isPrefixOf_iff_prefix.mpr h1] at h
        exact Bool.noConfusion h.1
      · exfalso
        apply hc
        rw [hn]
        cases r with
        | nil => exact absurd rfl hre
        | cons y ys =>
          have hy : y = c := by
            obtain ⟨t, ht⟩ := hr
            simp at ht
            exact ht.1
          rw [hy]
          simp

/-- No occurrence of a needle in a text followed by bytes that lack the
needle's last byte. -/
theorem occursIn_append_tail (dl : Bytes) (z : Nat) (b : Bytes) (hz : z ∉ b) :
    ∀ a : Bytes, occursIn (dl ++ [z]) a = false → occursIn (dl ++ [z]) (a ++ b) = false := by
  have hbase : ∀ b : Bytes, z ∉ b → occursIn (dl ++ [z]) b = false := by
    intro b
    induction b with
    | nil => intro _; cases dl <;> simp [occursIn, List.tails, List.isPrefixOf]
    | cons y ys ih =>
      intro hy
      rw [occursIn_cons, ih (fun h => hy (List.mem_cons_of_mem _ h)), Bool.or_false]
      cases hp : (dl ++ [z]).isPrefixOf (y :: ys) with
      | false => rfl
      | true =>
        rw [List.isPrefixOf_iff_prefix] at hp
        exact absurd (hp.subset (by simp)) hy
  intro a
  induction a with
  | nil => intro _; exact hbase b hz
  | cons x a ih =>
    intro h
    rw [occursIn_cons, Bool.or_eq_false_iff] at h
    rw [List.cons_append, occursIn_cons, ih h.2, Bool.or_false]
    cases hp : (dl ++ [z]).isPrefixOf (x :: (a ++ b)) with
    | false => rfl
    | true =>
      rw [List.isPrefixOf_iff_prefix] at hp
      have hp2 : (dl ++ [z]) <+: (x :: a) ++ b := by simpa using hp
      rcases prefix_append_cases _ (x :: a) b hp2 with h1 | ⟨r, hre, hn, hr⟩
      · rw [List.isPrefixOf_iff_prefix.mpr h1] at h
        exact Bool.noConfusion h.1
      · exfalso
        apply hz
        apply hr.subset
        have hrev := congrArg List.reverse hn
        simp only [List.reverse_append, List.reverse_cons, List.reverse_nil, List.nil_append,
          List.singleton_append] at hrev
        cases hr2 : r.reverse with
        | nil => exact absurd (List.reverse_eq_nil_iff.mp hr2) hre
        | cons y ys =>
          rw [hr2, List.cons_append] at hrev
          have hy : z = y := List.head_eq_of_cons_eq hrev
          have : y ∈ r.reverse := by rw [hr2]; exact List.mem_cons_self _ _
          rw [hy]
          exact List.mem_reverse.mp this

theorem UrlEncode_no_delimiter (s : Bytes) (c : Nat) (hc : c = 38 ∨ c = 61) :
    c ∉ UrlEncode s := by
  intro h
  unfold UrlEncode at h
  rw [List.mem_flatMap] at h
  obtain ⟨b, _, hb⟩ := h
  have hhex : ∀ v : Nat, v ≤ 15 → c ≠ upperHexDigit v := by
    intro v hv
    unfold upperHexDigit
    split_ifs <;> omega
  by_cases hu : IsUnreserved b = true
  · rw [if_pos hu] at hb
    have : c = b := by simpa using hb
    rw [← this] at hu
    rcases hc with rfl | rfl <;> exact absurd hu (by decide)
  · rw [if_neg hu] at hb
    simp only [List.mem_cons, List.mem_singleton, List.not_mem_nil, or_false] at hb
    rcases hb with h1 | h1 | h1
    · omega
    · exact hhex _ Nat.and_le_right h1
    · exact hhex _ Nat.and_le_right h1

/-- One pass of `redactParam` over a text in which the needle is found once:
the value, which ends at the next `&` or at the end, is replaced by `***`, and
the loop returns at its second iteration. -/
theorem redactLoop_single_core (n pre v tail : Bytes) (fuel : Nat)
    (hfind : find (pre ++ (n ++ (v ++ tail))) n 0 = some pre.length)
    (hv : 38 ∉ v) (htail : tail = [] ∨ tail.head? = some 38)
    (hrest : occursIn n tail = false) :
    redactLoop n (fuel + 2) (pre ++ (n ++ (v ++ tail))) 0
      = some (pre ++ (n ++ (ascii "***" ++ tail))) := by
  have hsplit : pre ++ (n ++ (v ++ tail)) = (pre ++ n) ++ (v ++ tail) := by simp
  have hlen : (pre ++ n).length = pre.length + n.length := by simp
  have htake : (pre ++ (n ++ (v ++ tail))).take (pre.length + n.length) = pre ++ n := by
    rw [hsplit, ← hlen, List.take_left]
  have hdrop : (pre ++ (n ++ (v ++ tail))).drop (pre.length + n.length + v.length) = tail := by
    have e : pre ++ (n ++ (v ++ tail)) = (pre ++ n ++ v) ++ tail := by simp
    have hl : (pre ++ n ++ v).length = pre.length + n.length + v.length := by
      simp only [List.length_append]
    rw [e, ← hl, List.drop_left]
  have hnone : find (pre ++ n ++ (ascii "***" ++ tail)) n (pre.length + n.length + 3) = none := by
    unfold find
    have e : pre ++ n ++ (ascii "***" ++ tail) = (pre ++ n ++ ascii "***") ++ tail := by simp
    have hl : (pre ++ n ++ ascii "***").length = pre.length + n.length + 3 := by
      simp only [List.length_append]
      rfl
    rw [if_pos (by rw [e, List.length_append, hl]; omega), e, ← hl, List.drop_left]
    exact findFrom_none_of_not_occurs _ _ _ hrest
  have hdone : redactLoop n (fuel + 1) (pre ++ n ++ (ascii "***" ++ tail))
      (pre.length + n.length + 3) = some (pre ++ (n ++ (ascii "***" ++ tail))) := by
    rw [redactLoop, hnone]
    simp
  rcases htail with ht | ht
  · have hfa : find (pre ++ (n ++ (v ++ tail))) [38] (pre.length + n.length) = none := by
      unfold find
      rw [if_pos (by simp only [List.length_append]; omega), hsplit, ← hlen, List.drop_left,
        ht, List.append_nil]
      exact findFrom_char_none 38 v _ hv
    have hd2 : (pre ++ (n ++ (v ++ tail))).drop (pre ++ (n ++ (v ++ tail))).length = tail := by
      rw [List.drop_length, ht]
    rw [redactLoop, hfind]
    simp only [hfa, htake, hd2]
    exact hdone
  · have hfa : find (pre ++ (n ++ (v ++ tail))) [38] (pre.length + n.length)
        = some (pre.length + n.length + v.length) := by
      unfold find
      rw [if_pos (by simp only [List.length_append]; omega), hsplit, ← hlen, List.drop_left]
      cases tail with
      | nil => simp at ht
      | cons c cs =>
        have hc : c = 38 := by simpa using ht
        rw [hc, findFrom_char 38 v cs _ hv]
    rw [redactLoop, hfind]
    simp only [hfa, htake, hdrop]
    exact hdone

theorem redactLoop_single (key pre v tail : Bytes) (fuel : Nat)
    (hfirst : occursIn (key ++ [61]) (pre ++ key) = false)
    (hv : 38 ∉ v) (htail : tail = [] ∨ tail.head? = some 38)
    (hrest : occursIn (key ++ [61]) tail = false) :
    redactLoop (key ++ [61]) (fuel + 2) (pre ++ ((key ++ [61]) ++ (v ++ tail))) 0
      = some (pre ++ ((key ++ [61]) ++ (ascii "***" ++ tail))) := by
  apply redactLoop_single_core _ _ _ _ _ _ hv htail hrest
  unfold find
  rw [if_pos (Nat.zero_le _), List.drop_zero, findFrom_first key 61 (v ++ tail) pre 0 hfirst]
  simp

theorem redactParam_single (key pre v tail : Bytes)
    (hfirst : occursIn (key ++ [61]) (pre ++ key) = false)
    (hv : 38 ∉ v) (htail : tail = [] ∨ tail.head? = some 38)
    (hrest : occursIn (key ++ [61]) tail = false) :
    redactParam key (pre ++ ((key ++ [61]) ++ (v ++ tail)))
      = some (pre ++ ((key ++ [61]) ++ (ascii "***" ++ tail))) := by
  unfold redactParam
  have hf : (pre ++ ((key ++ [61]) ++ (v ++ tail))).length + 1
      = ((pre ++ ((key ++ [61]) ++ (v ++ tail))).length - 1) + 2 := by
    simp only [List.length_append, List.length_singleton]
    omega
  rw [hf]
  exact redactLoop_single key pre v tail _ hfirst hv htail hrest

/-- The redaction of a player-API URL with percent-encoded values `u`, `p` and
`a`, over a base that contains neither `username=` nor `password=`. -/
theorem RedactUrlCredentials_playerApi (base u p a : Bytes)
    (hu : occursIn (ascii "username=") base = false)
    (hp : occursIn (ascii "password=") base = false)
    (hu38 : 38 ∉ u) (hp38 : 38 ∉ p) (hp61 : 61 ∉ p) (ha61 : 61 ∉ a) :
    RedactUrlCredentials (base ++ ascii "/player_api.php?username=" ++ u ++ ascii "&password=" ++ p
        ++ ascii "&action=" ++ a)
      = some (base ++ ascii "/player_api.php?username=***&password=***&action=" ++ a) := by
  have hL1 : ascii "/player_api.php?username="
      = ascii "/player_api.php?" ++ (ascii "username" ++ [61]) := by decide
  have hL2 : ascii "/player_api.php?" ++ ((ascii "username" ++ [61]) ++ (ascii "***"
        ++ (ascii "&password=" ++ (p ++ (ascii "&action=" ++ a)))))
      = ascii "/player_api.php?username=***&" ++ ((ascii "password" ++ [61])
          ++ (p ++ (ascii "&action=" ++ a))) := by
    rfl
  have hL3 : ascii "/player_api.php?username=***&" ++ ((ascii "password" ++ [61])
        ++ (ascii "***" ++ (ascii "&action=" ++ a)))
      = ascii "/player_api.php?username=***&password=***&action=" ++ a := by
    rfl
  have hurl : base ++ ascii "/player_api.php?username=" ++ u ++ ascii "&password=" ++ p
        ++ ascii "&action=" ++ a
      = (base ++ ascii "/player_api.php?") ++ ((ascii "username" ++ [61])
          ++ (u ++ (ascii "&password=" ++ (p ++ (ascii "&action=" ++ a))))) := by
    rw [hL1]
    simp only [List.append_assoc]
  have hkey1 : ascii "username=" = ascii "username" ++ [61] := by decide
  have hkey2 : ascii "password=" = ascii "password" ++ [61] := by decide
  rw [hkey1] at hu
  rw [hkey2] at hp
  have hfirst1 : occursIn (ascii "username" ++ [61])
      ((base ++ ascii "/player_api.php?") ++ ascii "username") = false := by
    have e : (base ++ ascii "/player_api.php?") ++ ascii "username"
        = base ++ 47 :: ascii "player_api.php?username" := by
      rw [List.append_assoc]
      rfl
    rw [e]
    exact occursIn_append_sep _ 47 _ (by decide) (by decide) base hu
  have hrest1 : occursIn (ascii "username" ++ [61])
      (ascii "&password=" ++ (p ++ (ascii "&action=" ++ a))) = false := by
    have e : ascii "&password=" ++ (p ++ (ascii "&action=" ++ a))
        = [] ++ 38 :: ((ascii "password=" ++ p) ++ 38 :: (ascii "action=" ++ a)) := by
      simp only [List.append_assoc, List.nil_append]
      rfl
    rw [e]
    refine occursIn_append_sep _ 38 _ (by decide) ?_ [] (by decide)
    refine occursIn_append_sep _ 38 _ (by decide) ?_ _ ?_
    · exact occursIn_append_tail _ 61 a ha61 _ (by decide)
    · exact occursIn_append_tail _ 61 p hp61 _ (by decide)
  have hfirst2 : occursIn (ascii "password" ++ [61])
      ((base ++ ascii "/player_api.php?username=***&") ++ ascii "password") = false := by
    have e : (base ++ ascii "/player_api.php?username=***&") ++ ascii "password"
        = base ++ 47 :: ascii "player_api.php?username=***&password" := by
      rw [List.append_assoc]
      rfl
    rw [e]
    exact occursIn_append_sep _ 47 _ (by decide) (by decide) base hp
  have hrest2 : occursIn (ascii "password" ++ [61]) (ascii "&action=" ++ a) = false :=
    occursIn_append_tail _ 61 a ha61 _ (by decide)
  unfold RedactUrlCredentials
  rw [hurl, redactParam_single (ascii "username") _ u
    (ascii "&password=" ++ (p ++ (ascii "&action=" ++ a))) hfirst1 hu38 (Or.inr rfl) hrest1]
  simp only [Option.some_bind]
  rw [List.append_assoc, hL2, ← List.append_assoc,
    redactParam_single (ascii "password") _ p (ascii "&action=" ++ a) hfirst2 hp38 (Or.inr rfl)
      hrest2,
    List.append_assoc, hL3, ← List.append_assoc]

theorem findFrom_bounds (n : Bytes) :
    ∀ (l : Bytes) (i p : Nat), findFrom n l i = some p → i ≤ p ∧ p + n.length ≤ i + l.length := by
  intro l
  induction l with
  | nil =>
    intro i p h
    rw [findFrom] at h
    by_cases hn : n = []
    · rw [if_pos hn] at h
      have := Option.some.inj h
      rw [hn]
      simp only [List.length_nil]
      omega
    · rw [if_neg hn] at h
      exact Option.noConfusion h
  | cons c cs ih =>
    intro i p h
    rw [findFrom] at h
    by_cases hp : n.isPrefixOf (c :: cs) = true
    · rw [if_pos hp] at h
      have := Option.some.inj h
      have hl := (List.isPrefixOf_iff_prefix.mp hp).length_le
      omega
    · rw [if_neg hp] at h
      have := ih (i + 1) p h
      simp only [List.length_cons]
      omega

theorem find_bounds (hay n : Bytes) (pos p : Nat) (h : find hay n pos = some p) :
    pos ≤ p ∧ p + n.length ≤ hay.length := by
  unfold find at h
  by_cases hpos : pos ≤ hay.length
  · rw [if_pos hpos] at h
    have := findFrom_bounds n _ _ _ h
    rw [List.length_drop] at this
    omega
  · rw [if_neg hpos] at h
    exact Option.noConfusion h

/-- The loop of `redactParam` returns within the bound: every iteration leaves
fewer bytes after `pos`. -/
theorem redactLoop_returns (n : Bytes) (hn : n ≠ []) :
    ∀ (fuel : Nat) (out : Bytes) (pos : Nat), 0 < fuel → out.length < pos + fuel →
      (redactLoop n fuel out pos).isSome = true := by
  have hnl : 0 < n.length := List.length_pos.mpr hn
  intro fuel
  induction fuel with
  | zero => intro out pos h; exact absurd h (by decide)
  | succ fuel ih =>
    intro out pos _ hlen
    rw [redactLoop]
    cases hf : find out n pos with
    | none => rfl
    | some p =>
      have hb := find_bounds out n pos p hf
      simp only []
      cases he : find out [38] (p + n.length) with
      | none =>
        simp only []
        apply ih
        · omega
        · simp only [List.length_append, List.length_take, List.length_drop]
          have : (ascii "***").length = 3 := rfl
          omega
      | some e =>
        have hb2 := find_bounds out [38] (p + n.length) e he
        simp only [List.length_singleton] at hb2
        simp only []
        apply ih
        · omega
        · simp only [List.length_append, List.length_take, List.length_drop]
          have : (ascii "***").length = 3 := rfl
          omega

/-- `RedactUrlCredentials` returns a string for every URL. -/
theorem RedactUrlCredentials_returns (url : Bytes) : (RedactUrlCredentials url).isSome = true := by
  unfold RedactUrlCredentials redactParam
  have h1 := redactLoop_returns (ascii "username" ++ [61]) (by decide) (url.length + 1) url 0
    (by omega) (by omega)
  cases hr : redactLoop (ascii "username" ++ [61]) (url.length + 1) url 0 with
  | none => rw [hr] at h1; exact Bool.noConfusion h1
  | some out =>
    simp only [Option.some_bind]
    exact redactLoop_returns (ascii "password" ++ [61]) (by decide) (out.length + 1) out 0
      (by omega) (by omega)

/-- C40: the redacted player-API URL does not depend on the credentials. For
settings whose base URL contains neither `username=` nor `password=`, any
other username and password and any action, `RedactUrlCredentials` gives the
same string for both URLs; when a URL is built (the base is not empty) that
string is `<base>/player_api.php?username=***&password=***&action=<encoded
action>`, and when none is built it is the empty string. -/
theorem C40_redaction_independent_of_credentials (s : Settings) (u2 p2 action : Bytes)
    (hu : occursIn (ascii "username=") (BuildBaseUrl s) = false)
    (hp : occursIn (ascii "password=") (BuildBaseUrl s) = false) :
    RedactUrlCredentials (BuildPlayerApiUrlWithAction s action)
        = RedactUrlCredentials
            (BuildPlayerApiUrlWithAction { s with username := u2, password := p2 } action)
      ∧ (BuildBaseUrl s ≠ [] →
          RedactUrlCredentials (BuildPlayerApiUrlWithAction s action)
            = some (BuildBaseUrl s ++ ascii "/player_api.php?username=***&password=***&action="
                ++ UrlEncode action))
      ∧ (BuildBaseUrl s = [] →
          RedactUrlCredentials (BuildPlayerApiUrlWithAction s action) = some []) := by
  have hbuild : ∀ u p : Bytes, BuildBaseUrl s ≠ [] →
      BuildPlayerApiUrlWithAction { s with username := u, password := p } action
        = BuildBaseUrl s ++ ascii "/player_api.php?username=" ++ UrlEncode u ++ ascii "&password="
            ++ UrlEncode p ++ ascii "&action=" ++ UrlEncode action := by
    intro u p hne
    have hb : BuildBaseUrl { s with username := u, password := p } = BuildBaseUrl s := rfl
    have hne1 : (BuildBaseUrl s).isEmpty = false := by
      cases hbs : BuildBaseUrl s with
      | nil => exact absurd hbs hne
      | cons _ _ => rfl
    have hne2 : (BuildBaseUrl s ++ ascii "/player_api.php?username=" ++ UrlEncode u
        ++ ascii "&password=" ++ UrlEncode p).isEmpty = false := by
      cases hbs : BuildBaseUrl s with
      | nil => exact absurd hbs hne
      | cons _ _ => rfl
    unfold BuildPlayerApiUrlWithAction BuildPlayerApiUrl
    simp only [hb, hne1, Bool.false_eq_true, if_false, hne2]
  have hempty : ∀ u p : Bytes, BuildBaseUrl s = [] →
      BuildPlayerApiUrlWithAction { s with username := u, password := p } action = [] := by
    intro u p he
    have hb : BuildBaseUrl { s with username := u, password := p } = BuildBaseUrl s := rfl
    unfold BuildPlayerApiUrlWithAction BuildPlayerApiUrl
    simp [hb, he]
  have hred : ∀ u p : Bytes, BuildBaseUrl s ≠ [] →
      RedactUrlCredentials
          (BuildPlayerApiUrlWithAction { s with username := u, password := p } action)
        = some (BuildBaseUrl s ++ ascii "/player_api.php?username=***&password=***&action="
            ++ UrlEncode action) := by
    intro u p hne
    rw [hbuild u p hne]
    exact RedactUrlCredentials_playerApi _ _ _ _ hu hp
      (UrlEncode_no_delimiter u 38 (Or.inl rfl)) (UrlEncode_no_delimiter p 38 (Or.inl rfl))
      (UrlEncode_no_delimiter p 61 (Or.inr rfl)) (UrlEncode_no_delimiter action 61 (Or.inr rfl))
  have hself : ({ s with username := s.username, password := s.password } : Settings) = s := rfl
  refine ⟨?_, ?_, ?_⟩
  · by_cases hne : BuildBaseUrl s = []
    · have h1 := hempty s.username s.password hne
      rw [hself] at h1
      rw [h1, hempty u2 p2 hne]
    · have h1 := hred s.username s.password hne
      rw [hself] at h1
      rw [h1, hred u2 p2 hne]
  · intro hne
    have h1 := hred s.username s.password hne
    rw [hself] at h1
    exact h1
  · intro he
    have h1 := hempty s.username s.password he
    rw [hself] at h1
    rw [h1]
    decide

/-- Witness for `C40_redaction_independent_of_credentials`: the server
`tv.example.org:8080` with the credentials `me&you` / `p=ss word` and with
`other` / `secret`, action `get_live_streams`. -/
theorem C40_redaction_independent_of_credentials_witness :
    BuildPlayerApiUrlWithAction redactExampleSettings (ascii "get_live_streams")
        = ascii ("http://tv.example.org:8080/player_api.php?username=me%26you"
            ++ "&password=p%3Dss%20word&action=get_live_streams")
      ∧ RedactUrlCredentials
            (BuildPlayerApiUrlWithAction redactExampleSettings (ascii "get_live_streams"))
          = RedactUrlCredentials
              (BuildPlayerApiUrlWithAction
                { redactExampleSettings with username := ascii "other", password := ascii "secret" }
                (ascii "get_live_streams"))
      ∧ RedactUrlCredentials
            (BuildPlayerApiUrlWithAction redactExampleSettings (ascii "get_live_streams"))
          = some (ascii ("http://tv.example.org:8080/player_api.php?username=***"
              ++ "&password=***&action=get_live_streams")) :=
  have h := C40_redaction_independent_of_credentials redactExampleSettings (ascii "other")
    (ascii "secret") (ascii "get_live_streams") (by decide) (by decide)
  ⟨by decide, h.1, (h.2.1 (by decide)).trans (by decide)⟩

theorem mem_mapPush {κ ν : Type} [DecidableEq κ] (m : List (κ × List ν)) (k : κ) (x : ν)
    (g : κ × List ν) (hg : g ∈ mapPush m k x) (y : ν) (hy : y ∈ g.2) :
    y = x ∨ ∃ g2 ∈ m, y ∈ g2.2 := by
  unfold mapPush at hg
  rcases mem_mapSet _ _ _ _ hg with h | h
  · rw [h] at hy
    simp only [List.mem_append, List.mem_singleton] at hy
    rcases hy with hy | hy
    · cases hf : mapFind m k with
      | none => rw [hf] at hy; simp at hy
      | some l =>
        rw [hf] at hy
        exact Or.inr ⟨(k, l), mapFind_mem m k l hf, hy⟩
    · exact Or.inl hy
  · exact Or.inr ⟨g, h, hy⟩

theorem mapEmplace_keys {κ ν : Type} [DecidableEq κ] (m : List (κ × ν)) (k : κ) (v : ν)
    (x : κ) : x ∈ (mapEmplace m k v).map Prod.fst ↔ x ∈ m.map Prod.fst ∨ x = k := by
  unfold mapEmplace
  cases hf : mapFind m k with
  | none => simp
  | some w =>
    simp only
    constructor
    · exact Or.inl
    · rintro (h | h)
      · exact h
      · rw [h]
        exact List.mem_map.mpr ⟨(k, w), mapFind_mem m k w hf, rfl⟩

theorem mem_mapEmplace {κ ν : Type} [DecidableEq κ] (m : List (κ × ν)) (k : κ) (v : ν)
    (p : κ × ν) (h : p ∈ mapEmplace m k v) : p ∈ m ∨ p = (k, v) := by
  unfold mapEmplace at h
  cases hf : mapFind m k with
  | none => rw [hf] at h; simpa using h
  | some w => rw [hf] at h; exact Or.inl h

/-- Adding a channel with its index entry, and possibly a group member that
carries its uid and number, keeps the collections consistent. -/
theorem collectionsConsistent_add (streamIdOf : Nat → Int) (channels : List PVRChannel)
    (idx : List (Nat × Int)) (gm : List (Bytes × List GroupMember)) (ch : PVRChannel)
    (sid : Int) (hsid : sid = streamIdOf ch.uniqueId)
    (h : collectionsConsistent streamIdOf channels idx gm) :
    collectionsConsistent streamIdOf (channels ++ [ch]) (mapEmplace idx ch.uniqueId sid) gm
      ∧ ∀ name, collectionsConsistent streamIdOf (channels ++ [ch])
          (mapEmplace idx ch.uniqueId sid)
          (mapPush gm name { channelUid := ch.uniqueId
                             channelNumber := toUInt32 ch.channelNumber
                             subChannelNumber := 0 }) := by
  obtain ⟨h1, h2, h3⟩ := h
  have hk : ∀ uid, uid ∈ (mapEmplace idx ch.uniqueId sid).map Prod.fst
      ↔ uid ∈ (channels ++ [ch]).map (fun c => c.uniqueId) := by
    intro uid
    rw [mapEmplace_keys, h1 uid]
    simp
  have hv : ∀ kv ∈ mapEmplace idx ch.uniqueId sid, kv.2 = streamIdOf kv.1 := by
    intro kv hkv
    rcases mem_mapEmplace _ _ _ _ hkv with hm | hm
    · exact h2 kv hm
    · rw [hm]; exact hsid
  have hg : ∀ g ∈ gm, ∀ m ∈ g.2, ∃ c ∈ channels ++ [ch],
      m.channelUid = c.uniqueId ∧ m.channelNumber = toUInt32 c.channelNumber := by
    intro g hgm m hm
    obtain ⟨c, hc, hcc⟩ := h3 g hgm m hm
    exact ⟨c, List.mem_append_left _ hc, hcc⟩
  refine ⟨⟨hk, hv, hg⟩, fun name => ⟨hk, hv, ?_⟩⟩
  intro g hgm m hm
  rcases mem_mapPush _ _ _ g hgm m hm with hx | ⟨g2, hg2, hm2⟩
  · exact ⟨ch, by simp, by rw [hx], by rw [hx]⟩
  · exact hg g2 hg2 m hm2

/-- What one step of the worker's channel loop does to the three collections:
nothing, or one channel added with its index entry and, when its category is
known, one group member. -/
theorem channelLoopStep_collections (cap : Captured) (catNames : List (Int × Bytes))
    (allowIcons : Bool) (b : Built) (s : LiveStream) :
    ((channelLoopStep cap catNames allowIcons b s).channels = b.channels
        ∧ (channelLoopStep cap catNames allowIcons b s).uidToStreamId = b.uidToStreamId
        ∧ (channelLoopStep cap catNames allowIcons b s).groupMembers = b.groupMembers)
      ∨ (0 < s.id ∧ ∃ ch : PVRChannel, ch.uniqueId = toUInt32 s.id
          ∧ (channelLoopStep cap catNames allowIcons b s).channels = b.channels ++ [ch]
          ∧ (channelLoopStep cap catNames allowIcons b s).uidToStreamId
              = mapEmplace b.uidToStreamId ch.uniqueId s.id
          ∧ ((channelLoopStep cap catNames allowIcons b s).groupMembers = b.groupMembers
              ∨ ∃ name, (channelLoopStep cap catNames allowIcons b s).groupMembers
                  = mapPush b.groupMembers name
                      { channelUid := ch.uniqueId, channelNumber := toUInt32 ch.channelNumber
                        subChannelNumber := 0 })) := by
  unfold channelLoopStep
  simp only
  generalize (if ((mapFind catNames s.categoryId).getD []).isEmpty = true then
      ascii "Uncategorized" else (mapFind catNames s.categoryId).getD []) = cn
  by_cases h1 : s.id ≤ 0
  · rw [if_pos h1]; exact Or.inl ⟨rfl, rfl, rfl⟩
  rw [if_neg h1]
  by_cases h2 : s.name.isEmpty = true
  · rw [if_pos h2]; exact Or.inl ⟨rfl, rfl, rfl⟩
  rw [if_neg h2]
  by_cases h3 : cap.filterChannelSeparators = true ∧ LooksLikeChannelSeparator s.name = true
  · rw [if_pos h3]; exact Or.inl ⟨rfl, rfl, rfl⟩
  rw [if_neg h3]
  by_cases h4 : (!(SplitPatterns cap.categoryFilterRaw).isEmpty) = true
      ∧ (ToLower cap.categoryFilterMode = ascii "include"
          ∨ ToLower cap.categoryFilterMode = ascii "exclude")
      ∧ ((ToLower cap.categoryFilterMode = ascii "include"
            ∧ (!ShouldFilterOut (SplitPatterns cap.categoryFilterRaw) cn) = true)
          ∨ (ToLower cap.categoryFilterMode = ascii "exclude"
            ∧ ShouldFilterOut (SplitPatterns cap.categoryFilterRaw) cn = true))
  · rw [if_pos h4]; exact Or.inl ⟨rfl, rfl, rfl⟩
  rw [if_neg h4]
  by_cases h5 : ShouldFilterOut (SplitPatterns cap.filterRaw) s.name = true
  · rw [if_pos h5]; exact Or.inl ⟨rfl, rfl, rfl⟩
  rw [if_neg h5]
  right
  refine ⟨by omega, PVRChannel.mk (toUInt32 s.id) false (SanitizeChannelName s.name)
    (if ToLower cap.channelNumbering = ascii "provider" ∧ 0 < s.number then s.number
      else b.sequentialChannelNumber)
    (if allowIcons ∧ !s.icon.isEmpty then s.icon else []), ?_, ?_, ?_, ?_⟩
  · dsimp only
  · dsimp only
  · dsimp only
  · dsimp only
    cases mapFind catNames s.categoryId with
    | none => exact Or.inl rfl
    | some name => exact Or.inr ⟨name, rfl⟩

theorem toUInt32_id (v : Int) (h0 : 0 ≤ v) (h1 : v < 4294967296) : ((toUInt32 v : Nat) : Int) = v := by
  unfold toUInt32
  rw [Int.emod_eq_of_lt h0 h1]
  exact Int.toNat_of_nonneg h0

theorem foldl_channelLoopStep_consistent (cap : Captured) (catNames : List (Int × Bytes))
    (allowIcons : Bool) (streams : List LiveStream)
    (hid : ∀ s ∈ streams, s.id < 2147483648) :
    ∀ b : Built,
      collectionsConsistent (fun uid => (uid : Int)) b.channels b.uidToStreamId b.groupMembers →
      collectionsConsistent (fun uid => (uid : Int))
        (streams.foldl (channelLoopStep cap catNames allowIcons) b).channels
        (streams.foldl (channelLoopStep cap catNames allowIcons) b).uidToStreamId
        (streams.foldl (channelLoopStep cap catNames allowIcons) b).groupMembers := by
  induction streams with
  | nil => intro b h; exact h
  | cons s rest ih =>
    intro b h
    rw [List.foldl_cons]
    apply ih (fun x hx => hid x (List.mem_cons_of_mem _ hx))
    rcases channelLoopStep_collections cap catNames allowIcons b s with
      ⟨e1, e2, e3⟩ | ⟨hpos, ch, hu, e1, e2, e3⟩
    · rw [e1, e2, e3]; exact h
    · have hs := hid s (List.mem_cons_self _ _)
      have hsid : s.id = (fun uid : Nat => (uid : Int)) ch.uniqueId := by
        show s.id = ((ch.uniqueId : Nat) : Int)
        rw [hu, toUInt32_id _ (by omega) (by omega)]
      have hadd := collectionsConsistent_add _ b.channels b.uidToStreamId b.groupMembers ch s.id
        hsid h
      rw [e1, e2]
      rcases e3 with e3 | ⟨name, e3⟩
      · rw [e3]; exact hadd.1
      · rw [e3]; exact hadd.2 name

theorem groupNamesFor_nonempty (categories : List LiveCategory) (catNames : List (Int × Bytes))
    (groupMembers : List (Bytes × List GroupMember)) :
    ∀ name ∈ groupNamesFor categories catNames groupMembers,
      ∃ members, mapFind groupMembers name = some members ∧ members ≠ [] := by
  intro name hn
  unfold groupNamesFor at hn
  rw [List.mem_filterMap] at hn
  obtain ⟨c, _, hc⟩ := hn
  cases h1 : mapFind catNames c.id with
  | none => rw [h1] at hc; exact Option.noConfusion hc
  | some nm =>
    rw [h1] at hc
    simp only at hc
    cases h2 : mapFind groupMembers nm with
    | none => rw [h2] at hc; exact Option.noConfusion hc
    | some members =>
      rw [h2] at hc
      simp only at hc
      by_cases he : members.isEmpty = true
      · rw [if_pos he] at hc; exact Option.noConfusion hc
      · rw [if_neg he] at hc
        have hnm : nm = name := Option.some.inj hc
        rw [← hnm]
        refine ⟨members, h2, ?_⟩
        intro hnil
        rw [hnil] at he
        exact he rfl

/-- The collections the transform phase builds from streams whose ids fit
`int` are consistent, each uid being mapped to itself. -/
theorem buildCollections_consistent (cap : Captured) (categories : List LiveCategory)
    (streams : List LiveStream) (hid : ∀ s ∈ streams, s.id < 2147483648) :
    snapshotConsistent (fun uid => (uid : Int))
      (buildCollections cap categories streams).channels
      (buildCollections cap categories streams).uidToStreamId
      (buildCollections cap categories streams).groupMembers
      (buildCollections cap categories streams).groupNamesOrdered := by
  have h := foldl_channelLoopStep_consistent cap (categoryIdToName categories)
    (decide (streams.length ≤ 800)) streams hid {}
    ⟨(by intro uid; simp), (by intro kv hkv; cases hkv), (by intro g hg; cases hg)⟩
  obtain ⟨h1, h2, h3⟩ := h
  exact ⟨h1, h2, h3, groupNamesFor_nonempty _ _ _⟩

theorem wrapInt32_lt (v : Int) : wrapInt32 v < 2147483648 := by
  unfold wrapInt32
  omega

theorem ParseIntAt_lt (obj : Bytes) (pos : Nat) (v : Int) (h : ParseIntAt obj pos = some v) :
    v < 2147483648 := by
  unfold ParseIntAt at h
  cases hd : obj.drop (skipSpaces obj pos) with
  | nil => rw [hd] at h; exact Option.noConfusion h
  | cons c rest =>
    rw [hd] at h
    simp only at h
    split_ifs at h <;>
      first
      | exact Option.noConfusion h
      | exact (Option.some.inj h) ▸ wrapInt32_lt _

theorem ExtractIntField_lt (obj key : Bytes) (v : Int) (h : ExtractIntField obj key = some v) :
    v < 2147483648 := by
  unfold ExtractIntField at h
  cases h1 : FindKeyPos obj key with
  | none => rw [h1] at h; exact Option.noConfusion h
  | some p =>
    rw [h1] at h
    simp only at h
    cases h2 : find obj [58] p with
    | none => rw [h2] at h; exact Option.noConfusion h
    | some q =>
      rw [h2] at h
      exact ParseIntAt_lt _ _ _ h

theorem FetchLiveStreams_id_lt (url : Bytes) (http : HttpResult) :
    ∀ s ∈ (FetchLiveStreams url http).2, s.id < 2147483648 := by
  have hspan : ∀ (body : Bytes) (spans : List (Nat × Nat)),
      ∀ s ∈ spans.filterMap (liveStreamOfSpan body), s.id < 2147483648 := by
    intro body spans s hs
    rw [List.mem_filterMap] at hs
    obtain ⟨span, _, hsp⟩ := hs
    unfold liveStreamOfSpan at hsp
    simp only at hsp
    cases h1 : ExtractIntField (slice body span) (ascii "stream_id") with
    | none => rw [h1] at hsp; exact Option.noConfusion hsp
    | some id =>
      rw [h1] at hsp
      have := Option.some.inj hsp
      rw [← this]
      exact ExtractIntField_lt _ _ _ h1
  intro s hs
  unfold FetchLiveStreams at hs
  by_cases hu : url.isEmpty = true
  · rw [if_pos hu] at hs; cases hs
  rw [if_neg hu] at hs
  by_cases hok : (!http.ok) = true
  · rw [if_pos hok] at hs; cases hs
  rw [if_neg hok] at hs
  simp only at hs
  split_ifs at hs <;> exact hspan _ _ s hs

theorem perCategoryLoop_id_lt (env : CycleEnv) (settings : Settings) (st : ClientState) :
    ∀ (ids : List Int) (n : Nat) (acc : List LiveStream) (st2 : ClientState)
      (streams : List LiveStream) (m : Nat),
      (∀ s ∈ acc, s.id < 2147483648) →
      perCategoryLoop env settings st ids n acc = .proceed st2 streams m →
      ∀ s ∈ streams, s.id < 2147483648 := by
  intro ids
  induction ids with
  | nil =>
    intro n acc st2 streams m hacc h
    unfold perCategoryLoop at h
    cases h
    exact hacc
  | cons i rest ih =>
    intro n acc st2 streams m hacc h
    unfold perCategoryLoop at h
    simp only at h
    by_cases h1 : (!(FetchLiveStreams (streamsUrl settings i)
        (env.httpGet n (streamsUrl settings i))).1.ok) = true
    · rw [if_pos h1] at h
      by_cases h2 : (!(FetchLiveStreams (streamsUrl settings 0)
          (env.httpGet (n + 1) (streamsUrl settings 0))).1.ok) = true
      · rw [if_pos h2] at h
        cases h
        exact FetchLiveStreams_id_lt _ _
      · rw [if_neg h2] at h
        cases h
        exact FetchLiveStreams_id_lt _ _
    · rw [if_neg h1] at h
      refine ih _ _ _ _ _ ?_ h
      intro s hs
      rcases List.mem_append.mp hs with hs | hs
      · exact hacc s hs
      · exact FetchLiveStreams_id_lt _ _ s hs

theorem fetchStreams_id_lt (env : CycleEnv) (cap : Captured) (categories : List LiveCategory)
    (st st2 : ClientState) (streams : List LiveStream) (m : Nat)
    (h : fetchStreams env cap categories st = .proceed st2 streams m) :
    ∀ s ∈ streams, s.id < 2147483648 := by
  unfold fetchStreams at h
  simp only at h
  split_ifs at h <;>
    first
    | exact perCategoryLoop_id_lt env cap.settings st _ _ _ _ _ _ (by intro s hs; cases hs) h
    | (cases h; exact FetchLiveStreams_id_lt _ _)

/-- A cycle that tells Kodi to reload has published the four collections built
from the fetched categories and from fetched streams whose ids fit `int`. -/
theorem runCycle_triggered_collections (env : CycleEnv) (st : ClientState)
    (h : (runCycle env st).triggeredUpdate = true) :
    ∃ (categories : List LiveCategory) (streams : List LiveStream),
      (∀ s ∈ streams, s.id < 2147483648)
      ∧ (runCycle env st).state.channels
          = some (buildCollections (capture st) categories streams).channels
      ∧ (runCycle env st).state.uidToStreamId
          = some (buildCollections (capture st) categories streams).uidToStreamId
      ∧ (runCycle env st).state.groupMembers
          = some (buildCollections (capture st) categories streams).groupMembers
      ∧ (runCycle env st).state.groupNamesOrdered
          = some (buildCollections (capture st) categories streams).groupNamesOrdered := by
  unfold runCycle at h ⊢
  simp only [] at h ⊢
  rw [show (capture st).settings = st.xtreamSettings from rfl] at h ⊢
  by_cases h0 : env.stopAt 0 = true ∨ (capture st).gen ≠ env.generationAt 0
  · rw [if_pos h0] at h; cases h
  rw [if_neg h0] at h ⊢
  by_cases hc : (!(FetchLiveCategories (categoriesUrl st.xtreamSettings)
      (env.httpGet 0 (categoriesUrl st.xtreamSettings))).1.ok) = true
  · rw [if_pos hc] at h; cases h
  rw [if_neg hc] at h ⊢
  cases hf : fetchStreams env (capture st) (FetchLiveCategories (categoriesUrl st.xtreamSettings)
      (env.httpGet 0 (categoriesUrl st.xtreamSettings))).2 st with
  | aborted st2 => rw [hf] at h; cases h
  | proceed st2 streams n =>
    rw [hf] at h
    simp only at h ⊢
    by_cases h1 : env.stopAt 1 = true ∨ (capture st).gen ≠ env.generationAt 1
    · rw [if_pos h1] at h; cases h
    rw [if_neg h1] at h ⊢
    by_cases h2 : env.stopAt 2 = true ∨ (capture st).gen ≠ env.generationAt 2
    · rw [if_pos h2] at h; cases h
    rw [if_neg h2]
    have hp := epgStep_published env (capture st) streams n
      (publish st2 (capture st) (buildCollections (capture st)
        (FetchLiveCategories (categoriesUrl st.xtreamSettings)
          (env.httpGet 0 (categoriesUrl st.xtreamSettings))).2 streams) streams)
    refine ⟨(FetchLiveCategories (categoriesUrl st.xtreamSettings)
      (env.httpGet 0 (categoriesUrl st.xtreamSettings))).2, streams,
      fetchStreams_id_lt _ _ _ _ _ _ _ hf, ?_, ?_, ?_, ?_⟩
    · exact congrArg Published.channels hp
    · exact congrArg Published.uidToStreamId hp
    · exact congrArg Published.groupMembers hp
    · exact congrArg Published.groupNamesOrdered hp

theorem readChannels_consistent (blob : Bytes) :
    ∀ (n off : Nat) (acc : CachedChannels) (r : CachedChannels × Nat),
      readChannels blob n off acc = .ok r →
      collectionsConsistent (fun uid => wrapInt32 (uid : Int)) acc.channels acc.uidToStreamId [] →
      collectionsConsistent (fun uid => wrapInt32 (uid : Int)) r.1.channels r.1.uidToStreamId []
      := by
  intro n
  induction n with
  | zero =>
    intro off acc r h hacc
    cases h
    exact hacc
  | succ n ih =>
    intro off acc r h hacc
    rw [readChannels_succ] at h
    simp only [Outcome.bind_eq_ok] at h
    obtain ⟨uid, _, catId, _, chNum, _, nameLen, _, name, _, h6⟩ := h
    refine ih _ _ _ h6 ?_
    by_cases hskip : uid.1 = 0 ∨ name.1.isEmpty = true
    · rw [if_pos hskip]; exact hacc
    · rw [if_neg hskip]
      have hadd := collectionsConsistent_add (fun u : Nat => wrapInt32 (u : Int)) acc.channels
        acc.uidToStreamId [] (PVRChannel.mk uid.1 false name.1 (wrapInt32 chNum.1) [])
        (wrapInt32 uid.1) (by dsimp only) hacc
      exact hadd.1

theorem foldl_cacheGroupStep_members (categoryIdToName : List (Int × Bytes))
    (channels : List PVRChannel) (l : List (PVRChannel × Int)) (hl : ∀ x ∈ l, x.1 ∈ channels) :
    ∀ gm : List (Bytes × List GroupMember),
      (∀ g ∈ gm, ∀ m ∈ g.2, ∃ ch ∈ channels,
          m.channelUid = ch.uniqueId ∧ m.channelNumber = toUInt32 ch.channelNumber) →
      ∀ g ∈ l.foldl (cacheGroupStep categoryIdToName) gm, ∀ m ∈ g.2, ∃ ch ∈ channels,
          m.channelUid = ch.uniqueId ∧ m.channelNumber = toUInt32 ch.channelNumber := by
  induction l with
  | nil => intro gm h; exact h
  | cons x rest ih =>
    intro gm h
    rw [List.foldl_cons]
    apply ih (fun y hy => hl y (List.mem_cons_of_mem _ hy))
    unfold cacheGroupStep
    cases mapFind categoryIdToName x.2 with
    | none => exact h
    | some name =>
      intro g hg m hm
      rcases mem_mapPush _ _ _ g hg m hm with hx | ⟨g2, hg2, hm2⟩
      · exact ⟨x.1, hl x (List.mem_cons_self _ _), by rw [hx], by rw [hx]⟩
      · exact h g2 hg2 m hm2

theorem cacheGroupNames_nonempty (categoryIdToName : List (Int × Bytes))
    (groupMembers : List (Bytes × List GroupMember)) :
    ∀ name ∈ cacheGroupNames categoryIdToName groupMembers,
      ∃ members, mapFind groupMembers name = some members ∧ members ≠ [] := by
  intro name hn
  unfold cacheGroupNames at hn
  rw [List.mem_filterMap] at hn
  obtain ⟨kv, _, hc⟩ := hn
  cases h2 : mapFind groupMembers kv.2 with
  | none => rw [h2] at hc; exact Option.noConfusion hc
  | some members =>
    rw [h2] at hc
    simp only at hc
    by_cases he : members.isEmpty = true
    · rw [if_pos he] at hc; exact Option.noConfusion hc
    · rw [if_neg he] at hc
      have hnm : kv.2 = name := Option.some.inj hc
      rw [← hnm]
      refine ⟨members, h2, ?_⟩
      intro hnil
      rw [hnil] at he
      exact he rfl

/-- The collections decoded from a cache blob are consistent, each uid being
mapped to `static_cast<int>(uid)`. -/
theorem decodeCache_consistent (blob signature : Bytes) (d : Decoded)
    (h : decodeCache blob signature = .ok d) :
    snapshotConsistent (fun uid => wrapInt32 (uid : Int)) d.channels d.uidToStreamId
      d.groupMembers d.groupNamesOrdered := by
  rw [decodeCache_eq, Outcome.bind_eq_ok] at h
  obtain ⟨r, h, hd⟩ := h
  cases hd
  unfold decodeFrom at h
  simp only [Outcome.bind_eq_ok] at h
  obtain ⟨magic, _, h⟩ := h
  split_ifs at h
  simp only [Outcome.bind_eq_ok] at h
  obtain ⟨sigLen, _, sigOnDisk, _, h⟩ := h
  split_ifs at h
  simp only [Outcome.bind_eq_ok] at h
  obtain ⟨ts, _, catCount, _, cats, _, chCount, _, chans, h8, h⟩ := h
  cases h
  have hc := readChannels_consistent blob _ _ _ _ h8
    ⟨(by intro uid; simp), (by intro kv hkv; cases hkv), (by intro g hg; cases hg)⟩
  obtain ⟨h1, h2, _⟩ := hc
  refine ⟨h1, h2, ?_, cacheGroupNames_nonempty _ _⟩
  exact foldl_cacheGroupStep_members cats.1 chans.1.channels _
    (fun x hx => (List.of_mem_zip hx).1) [] (by intro g hg; cases hg)

/-- A successful seeding from the cache stores the decoded collections. -/
theorem TryLoadCacheForSignature_seeded (file : Option Bytes) (signature : Bytes)
    (st : ClientState) (h : (TryLoadCacheForSignature file signature st).1 = true) :
    ∃ blob d, file = some blob ∧ decodeCache blob signature = .ok d
      ∧ (TryLoadCacheForSignature file signature st).2.channels = some d.channels
      ∧ (TryLoadCacheForSignature file signature st).2.uidToStreamId = some d.uidToStreamId
      ∧ (TryLoadCacheForSignature file signature st).2.groupMembers = some d.groupMembers
      ∧ (TryLoadCacheForSignature file signature st).2.groupNamesOrdered
          = some d.groupNamesOrdered := by
  unfold TryLoadCacheForSignature at h ⊢
  cases file with
  | none => cases h
  | some blob =>
    simp only at h ⊢
    by_cases hb : blob.isEmpty = true
    · rw [if_pos hb] at h; cases h
    rw [if_neg hb] at h ⊢
    cases hd : decodeCache blob signature with
    | fault => rw [hd] at h; cases h
    | miss => rw [hd] at h; cases h
    | ok d =>
      rw [hd] at h
      simp only at h ⊢
      split_ifs at h ⊢
      exact ⟨blob, d, rfl, hd, rfl, rfl, rfl, rfl⟩

set_option maxRecDepth 1000000 in
/-- C38 (as stated, refuted): a cache blob whose only channel has the uid
`0x80000000` seeds a snapshot in which that uid is a key of the index and a
uid of the channel list, but is mapped to the stream id `-2147483648`, not to
itself: the source stores `static_cast<int>(uid)`. -/
theorem C38_cache_uid_maps_to_negative_id :
    (TryLoadCacheForSignature (some highUidBlob) (ascii "sig") {}).1 = true
      ∧ (TryLoadCacheForSignature (some highUidBlob) (ascii "sig") {}).2.channels
          = some [{ uniqueId := 2147483648, channelName := ascii "A", channelNumber := 1 }]
      ∧ (TryLoadCacheForSignature (some highUidBlob) (ascii "sig") {}).2.uidToStreamId
          = some [(2147483648, -2147483648)] := by
  decide

/-- C38 (amended): the collections of every snapshot the worker publishes and
of every snapshot seeded from the cache are consistent: the keys of the uid
index are the uids of the channel list; every group member carries the uid and
the channel number (as `unsigned int`) of some channel of the list; every name
of the ordered group list has a non-empty member list; and each uid is mapped
to itself as stream id in a published snapshot, and to `static_cast<int>(uid)`
in a seeded one, which is the uid itself when it is below `2^31`. -/
theorem C38_snapshots_consistent (env : CycleEnv) (st : ClientState) (file : Option Bytes)
    (signature : Bytes) (st0 : ClientState) :
    ((workerCycle env st).triggeredUpdate = true →
        ∃ chans idx gm names,
          (workerCycle env st).state.channels = some chans
          ∧ (workerCycle env st).state.uidToStreamId = some idx
          ∧ (workerCycle env st).state.groupMembers = some gm
          ∧ (workerCycle env st).state.groupNamesOrdered = some names
          ∧ snapshotConsistent (fun uid => (uid : Int)) chans idx gm names)
      ∧ ((TryLoadCacheForSignature file signature st0).1 = true →
        ∃ chans idx gm names,
          (TryLoadCacheForSignature file signature st0).2.channels = some chans
          ∧ (TryLoadCacheForSignature file signature st0).2.uidToStreamId = some idx
          ∧ (TryLoadCacheForSignature file signature st0).2.groupMembers = some gm
          ∧ (TryLoadCacheForSignature file signature st0).2.groupNamesOrdered = some names
          ∧ snapshotConsistent (fun uid => wrapInt32 (uid : Int)) chans idx gm names
          ∧ ∀ kv ∈ idx, kv.1 < 2147483648 → kv.2 = (kv.1 : Int)) := by
  constructor
  · intro hpub
    unfold workerCycle at hpub ⊢
    by_cases hs : st.stopRequested = true
    · rw [if_pos hs] at hpub; cases hpub
    rw [if_neg hs] at hpub ⊢
    by_cases hw : (!st.workRequested) = true
    · rw [if_pos hw] at hpub; cases hpub
    rw [if_neg hw] at hpub ⊢
    obtain ⟨categories, streams, hid, h1, h2, h3, h4⟩ :=
      runCycle_triggered_collections env { st with workRequested := false } hpub
    exact ⟨_, _, _, _, h1, h2, h3, h4, buildCollections_consistent _ categories streams hid⟩
  · intro hseed
    obtain ⟨blob, d, _, hd, h1, h2, h3, h4⟩ :=
      TryLoadCacheForSignature_seeded file signature st0 hseed
    have hc := decodeCache_consistent blob signature d hd
    refine ⟨_, _, _, _, h1, h2, h3, h4, hc, ?_⟩
    intro kv hkv hlt
    rw [hc.2.1 kv hkv]
    exact wrapInt32_id _ (by omega) (by omega)

set_option maxRecDepth 1000000 in
/-- Witness for `C38_snapshots_consistent`: the cycle that publishes the
channels 12 and 13 with the group `Sport`, and the example cache blob with the
channels 5 and 7 and the group `News`. -/
theorem C38_snapshots_consistent_witness :
    (workerCycle twoCategoriesEnv excludeNewsState).state.uidToStreamId = some [(12, 12), (13, 13)]
      ∧ (TryLoadCacheForSignature (some cacheExampleBlob) (ascii "sig") {}).2.uidToStreamId
          = some [(5, 5), (7, 7)]
      ∧ (∃ chans idx gm names,
          (workerCycle twoCategoriesEnv excludeNewsState).state.channels = some chans
          ∧ (workerCycle twoCategoriesEnv excludeNewsState).state.uidToStreamId = some idx
          ∧ (workerCycle twoCategoriesEnv excludeNewsState).state.groupMembers = some gm
          ∧ (workerCycle twoCategoriesEnv excludeNewsState).state.groupNamesOrdered = some names
          ∧ snapshotConsistent (fun uid => (uid : Int)) chans idx gm names)
      ∧ (∃ chans idx gm names,
          (TryLoadCacheForSignature (some cacheExampleBlob) (ascii "sig") {}).2.channels
              = some chans
          ∧ (TryLoadCacheForSignature (some cacheExampleBlob) (ascii "sig") {}).2.uidToStreamId
              = some idx
          ∧ (TryLoadCacheForSignature (some cacheExampleBlob) (ascii "sig") {}).2.groupMembers
              = some gm
          ∧ (TryLoadCacheForSignature (some cacheExampleBlob) (ascii "sig") {}).2.groupNamesOrdered
              = some names
          ∧ snapshotConsistent (fun uid => wrapInt32 (uid : Int)) chans idx gm names
          ∧ ∀ kv ∈ idx, kv.1 < 2147483648 → kv.2 = (kv.1 : Int)) :=
  have h := C38_snapshots_consistent twoCategoriesEnv excludeNewsState (some cacheExampleBlob)
    (ascii "sig") {}
  ⟨by decide, by decide, h.1 (by decide), h.2 (by decide)⟩

theorem singleSpaces_tail (c : Nat) (rest : Bytes) (h : singleSpaces (c :: rest) = true) :
    singleSpaces rest = true := by
  cases rest with
  | nil => rfl
  | cons d ds =>
    unfold singleSpaces at h
    rw [Bool.and_eq_true] at h
    exact h.2

theorem singleSpaces_drop (l : Bytes) (h : singleSpaces l = true) :
    ∀ n, singleSpaces (l.drop n) = true := by
  induction l with
  | nil => intro n; simp [singleSpaces]
  | cons c rest ih =>
    intro n
    cases n with
    | zero => exact h
    | succ k => exact ih (singleSpaces_tail c rest h) k

theorem singleSpaces_dropWhile (l : Bytes) (h : singleSpaces l = true) :
    singleSpaces (l.dropWhile isSpace) = true := by
  induction l with
  | nil => exact h
  | cons c rest ih =>
    rw [List.dropWhile_cons]
    by_cases hc : isSpace c = true
    · rw [if_pos hc]; exact ih (singleSpaces_tail c rest h)
    · rw [if_neg hc]; exact h

theorem singleSpaces_append_singleton (l : Bytes) (x : Nat) (h : singleSpaces (l ++ [x]) = true) :
    singleSpaces l = true := by
  induction l with
  | nil => rfl
  | cons c rest ih =>
    cases rest with
    | nil => rfl
    | cons d ds =>
      have h2 : singleSpaces (c :: d :: (ds ++ [x])) = true := h
      unfold singleSpaces at h2 ⊢
      rw [Bool.and_eq_true] at h2 ⊢
      exact ⟨h2.1, ih h2.2⟩

theorem singleSpaces_reverse (l : Bytes) : singleSpaces l.reverse = singleSpaces l := by
  have key : ∀ (l : Bytes) (x : Nat),
      singleSpaces (l ++ [x])
        = (singleSpaces l && (match l.getLast? with
            | some y => !(isSpace y && isSpace x)
            | none => true)) := by
    intro l x
    induction l with
    | nil => rfl
    | cons c rest ih =>
      cases rest with
      | nil => simp [singleSpaces]
      | cons d ds =>
        have e : singleSpaces (c :: d :: ds ++ [x])
            = (!(isSpace c && isSpace d) && singleSpaces (d :: ds ++ [x])) := by
          simp only [List.cons_append, singleSpaces]
          rfl
        rw [e, ih]
        simp only [singleSpaces, List.getLast?_cons_cons, Bool.and_assoc]
  induction l with
  | nil => rfl
  | cons c rest ih =>
    rw [List.reverse_cons, key, ih, List.getLast?_reverse]
    cases rest with
    | nil => simp [singleSpaces]
    | cons d ds =>
      simp only [List.head?_cons, singleSpaces]
      rw [Bool.and_comm (isSpace d) (isSpace c), Bool.and_comm]

theorem singleSpaces_Trim (l : Bytes) (h : singleSpaces l = true) : singleSpaces (Trim l) = true := by
  unfold Trim
  rw [singleSpaces_reverse]
  apply singleSpaces_dropWhile
  rw [singleSpaces_reverse]
  exact singleSpaces_dropWhile l h

theorem head_dropWhile_isSpace (l : Bytes) :
    ∀ c, (l.dropWhile isSpace).head? = some c → isSpace c = false := by
  induction l with
  | nil => intro c h; cases h
  | cons x rest ih =>
    intro c h
    rw [List.dropWhile_cons] at h
    by_cases hx : isSpace x = true
    · rw [if_pos hx] at h; exact ih c h
    · rw [if_neg hx] at h
      cases h
      exact Bool.eq_false_iff.mpr hx

theorem cleanEnds_Trim (l : Bytes) : cleanEnds (Trim l) = true := by
  have hlast : ∀ c, (Trim l).getLast? = some c → isSpace c = false := by
    intro c hc
    unfold Trim at hc
    rw [List.getLast?_reverse] at hc
    exact head_dropWhile_isSpace _ c hc
  have hhead : ∀ c, (Trim l).head? = some c → isSpace c = false := by
    intro c hc
    have hpre : Trim l <+: l.dropWhile isSpace := by
      unfold Trim
      have hsuf : ((l.dropWhile isSpace).reverse).dropWhile isSpace
          <:+ (l.dropWhile isSpace).reverse := List.dropWhile_suffix isSpace
      have h2 := List.reverse_prefix.mpr hsuf
      rwa [List.reverse_reverse] at h2
    cases ht : Trim l with
    | nil => rw [ht] at hc; cases hc
    | cons x xs =>
      rw [ht] at hc hpre
      cases hc
      obtain ⟨t, ht2⟩ := hpre
      exact head_dropWhile_isSpace l c (by rw [← ht2]; rfl)
  unfold cleanEnds
  cases h1 : (Trim l).head? with
  | none =>
    cases h2 : (Trim l).getLast? with
    | none => rfl
    | some d => simp [hlast d h2]
  | some c =>
    cases h2 : (Trim l).getLast? with
    | none => simp [hhead c h1]
    | some d => simp [hhead c h1, hlast d h2]

theorem collapseSpaces_single (s : Bytes) :
    ∀ prev : Bool, singleSpaces (collapseSpaces s prev) = true
      ∧ (prev = true → ∀ c, (collapseSpaces s prev).head? = some c → isSpace c = false) := by
  induction s with
  | nil => intro prev; exact ⟨rfl, fun _ c h => by cases h⟩
  | cons x rest ih =>
    intro prev
    unfold collapseSpaces
    by_cases hx : isSpace x = true
    · rw [if_pos hx]
      cases prev with
      | true =>
        simp only [if_true, List.nil_append]
        exact ⟨(ih true).1, fun _ => (ih true).2 rfl⟩
      | false =>
        simp only [Bool.false_eq_true, if_false, List.singleton_append]
        refine ⟨?_, fun h => by cases h⟩
        cases hc : collapseSpaces rest true with
        | nil => rfl
        | cons d ds =>
          have hd := (ih true).2 rfl d (by rw [hc]; rfl)
          have hs := (ih true).1
          rw [hc] at hs
          unfold singleSpaces
          rw [hd, hs]
          rfl
    · rw [if_neg hx]
      refine ⟨?_, fun _ c h => ?_⟩
      · cases hc : collapseSpaces rest false with
        | nil => rfl
        | cons d ds =>
          have hs := (ih false).1
          rw [hc] at hs
          unfold singleSpaces
          rw [hs, Bool.eq_false_iff.mpr hx]
          rfl
      · cases h
        exact Bool.eq_false_iff.mpr hx

theorem occursIn_iff_within (n t : Bytes) : occursIn n t = true ↔ n <:+: t := by
  unfold occursIn
  rw [List.any_eq_true, List.infix_iff_prefix_suffix]
  constructor
  · rintro ⟨s, hs, hp⟩
    exact ⟨s, List.isPrefixOf_iff_prefix.mp hp, (List.mem_tails s t).mp hs⟩
  · rintro ⟨s, hp, hs⟩
    exact ⟨s, (List.mem_tails s t).mpr hs, List.isPrefixOf_iff_prefix.mpr hp⟩

theorem Trim_within (l : Bytes) : Trim l <:+: l := by
  have hpre : Trim l <+: l.dropWhile isSpace := by
    unfold Trim
    have hsuf : ((l.dropWhile isSpace).reverse).dropWhile isSpace
        <:+ (l.dropWhile isSpace).reverse := List.dropWhile_suffix isSpace
    have h2 := List.reverse_prefix.mpr hsuf
    rwa [List.reverse_reverse] at h2
  exact hpre.isInfix.trans (List.dropWhile_suffix isSpace).isInfix

/-- What `rfind` returns: a position where the needle stands and after which it
stands nowhere, or `npos` when it stands nowhere. -/
theorem rfind_spec (hay needle : Bytes) :
    (∀ pos, rfind hay needle = some pos →
        needle <+: hay.drop pos
          ∧ ∀ i, i ≤ hay.length → needle <+: hay.drop i → i ≤ pos)
      ∧ (rfind hay needle = none → ∀ i, i ≤ hay.length → ¬ needle <+: hay.drop i) := by
  unfold rfind
  constructor
  · intro pos h
    rw [List.getLast?_eq_some_iff] at h
    obtain ⟨ys, hys⟩ := h
    have hmem : pos ∈ (List.range (hay.length + 1)).filter
        (fun i => needle.isPrefixOf (hay.drop i)) := by
      rw [hys]; simp
    rw [List.mem_filter] at hmem
    refine ⟨List.isPrefixOf_iff_prefix.mp hmem.2, ?_⟩
    intro i hi hp
    have hi2 : i ∈ (List.range (hay.length + 1)).filter
        (fun i => needle.isPrefixOf (hay.drop i)) := by
      rw [List.mem_filter]
      exact ⟨List.mem_range.mpr (by omega), List.isPrefixOf_iff_prefix.mpr hp⟩
    have hsorted := List.Pairwise.filter (fun i => needle.isPrefixOf (hay.drop i))
      (List.pairwise_lt_range (hay.length + 1))
    rw [hys] at hi2 hsorted
    rcases List.mem_append.mp hi2 with h1 | h1
    · exact Nat.le_of_lt ((List.pairwise_append.mp hsorted).2.2 i h1 pos (by simp))
    · have : i = pos := by simpa using h1
      omega
  · intro h i hi hp
    rw [List.getLast?_eq_none_iff, List.filter_eq_nil_iff] at h
    exact h i (List.mem_range.mpr (by omega)) (List.isPrefixOf_iff_prefix.mpr hp)

theorem within_drop_index (n c : Bytes) (k : Nat) (hk : k ≤ c.length) (h : n <:+: c.drop k) :
    ∃ i, k ≤ i ∧ i ≤ c.length ∧ n <+: c.drop i := by
  rw [List.infix_iff_prefix_suffix] at h
  obtain ⟨s, hp, hs⟩ := h
  have hs2 : s <:+ c := hs.trans (List.drop_suffix k c)
  have hlen := hs.length_le
  rw [List.length_drop] at hlen
  refine ⟨c.length - s.length, by omega, by omega, ?_⟩
  rw [← List.suffix_iff_eq_drop.mp hs2]
  exact hp

/-- The steps of `NormalizeChannelNameForEpg`, one after the other. -/
theorem NormalizeChannelNameForEpg_steps (name : Bytes) :
    NormalizeChannelNameForEpg name
      = if (Trim name).isEmpty then Trim name
        else stripCategoryPrefix (Trim (collapseSpaces (replaceEntities (Trim name)) false)) := by
  rw [NormalizeChannelNameForEpg]
  dsimp only
  by_cases he : (Trim name).isEmpty = true
  · rw [if_pos he, if_pos he]
  · rw [if_neg he, if_neg he]
    have hfold : replaceAll (replaceAll (replaceAll (replaceAll
        (replaceAll (Trim name) (ascii "&amp;") (ascii "&")) (ascii "&quot;") [34])
        (ascii "&#039;") [39]) (ascii "&lt;") (ascii "<")) (ascii "&gt;") (ascii ">")
        = replaceEntities (Trim name) := rfl
    rw [hfold]
    cases hr : rfind (Trim (collapseSpaces (replaceEntities (Trim name)) false)) (ascii " | ") with
    | none => simp only [stripCategoryPrefix, hr]
    | some pos => simp only [stripCategoryPrefix, hr]

theorem stripCategoryPrefix_shape (c : Bytes) (hc1 : singleSpaces c = true)
    (hc2 : cleanEnds c = true) :
    cleanEnds (stripCategoryPrefix c) = true
      ∧ singleSpaces (stripCategoryPrefix c) = true
      ∧ occursIn (ascii " | ") (stripCategoryPrefix c) = false
      ∧ (∀ pos, rfind c (ascii " | ") = some pos → pos + 3 < c.length) := by
  have hspec := rfind_spec c (ascii " | ")
  unfold stripCategoryPrefix
  cases hr : rfind c (ascii " | ") with
  | none =>
    simp only
    refine ⟨hc2, hc1, ?_, fun pos h => Option.noConfusion h⟩
    cases ho : occursIn (ascii " | ") c with
    | false => rfl
    | true =>
      exfalso
      have hin := (occursIn_iff_within _ _).mp ho
      obtain ⟨i, _, hi, hp⟩ := within_drop_index _ c 0 (Nat.zero_le _) (by simpa using hin)
      exact hspec.2 hr i hi hp
  | some pos =>
    simp only
    obtain ⟨hp, hmax⟩ := hspec.1 pos hr
    have hlen : pos + 3 ≤ c.length := by
      have := hp.length_le
      rw [List.length_drop] at this
      have h3 : (ascii " | ").length = 3 := rfl
      omega
    have hg : pos + 3 < c.length := by
      by_contra hng
      have heq : c.drop pos = ascii " | " := by
        have hl : (c.drop pos).length = (ascii " | ").length := by
          rw [List.length_drop]
          have h3 : (ascii " | ").length = 3 := rfl
          omega
        exact (List.IsPrefix.eq_of_length hp hl.symm).symm
      have hlast : c.getLast? = some 32 := by
        have hsplit : c = c.take pos ++ ascii " | " := by
          rw [← heq, List.take_append_drop]
        rw [hsplit]
        have e : ascii " | " = [32, 124] ++ [32] := rfl
        rw [e, ← List.append_assoc, List.getLast?_append, List.getLast?_singleton]
        rfl
      unfold cleanEnds at hc2
      rw [hlast] at hc2
      cases hh : c.head? with
      | none => rw [hh] at hc2; exact absurd hc2 (by decide)
      | some x =>
        rw [hh] at hc2
        simp only [Bool.and_eq_true] at hc2
        exact absurd hc2.2 (by decide)
    rw [if_pos hg]
    refine ⟨cleanEnds_Trim _, singleSpaces_Trim _ (singleSpaces_drop c hc1 _), ?_, ?_⟩
    · cases ho : occursIn (ascii " | ") (Trim (c.drop (pos + 3))) with
      | false => rfl
      | true =>
        exfalso
        have hin := ((occursIn_iff_within _ _).mp ho).trans (Trim_within _)
        obtain ⟨i, hi1, hi2, hpi⟩ := within_drop_index _ c (pos + 3) hlen hin
        have := hmax i hi2 hpi
        omega
    · intro p hp2
      have : pos = p := Option.some.inj hp2
      rw [← this]
      exact hg

/-- The result of `NormalizeChannelNameForEpg` has no whitespace at its ends,
no two whitespace bytes in a row, and does not contain ` | `. -/
theorem NormalizeChannelNameForEpg_shape (name : Bytes) :
    cleanEnds (NormalizeChannelNameForEpg name) = true
      ∧ singleSpaces (NormalizeChannelNameForEpg name) = true
      ∧ occursIn (ascii " | ") (NormalizeChannelNameForEpg name) = false := by
  rw [NormalizeChannelNameForEpg_steps]
  by_cases he : (Trim name).isEmpty = true
  · rw [if_pos he]
    have hnil : Trim name = [] := List.isEmpty_iff.mp he
    rw [hnil]
    exact ⟨rfl, rfl, rfl⟩
  · rw [if_neg he]
    have h := stripCategoryPrefix_shape (Trim (collapseSpaces (replaceEntities (Trim name)) false))
      (singleSpaces_Trim _ (collapseSpaces_single _ false).1) (cleanEnds_Trim _)
    exact ⟨h.1, h.2.1, h.2.2.1⟩

set_option maxRecDepth 1000000 in
/-- C31 (code diverges from the claim): the five replacements run one after the
other, `&amp;` first, so a name that holds an escaped entity is decoded twice.
The name `Tom &amp;lt; Jerry` with its entities decoded is `Tom &lt; Jerry`, but
the function returns `Tom < Jerry`. The rest of the claim holds: on the claim's
example `UK | Channel` the result is `Channel`, and for every name the result
is the trimmed text after the rightmost ` | ` of the collapsed and trimmed
text (all of it when there is none), has no leading, trailing or doubled
whitespace and does not contain ` | `. -/
theorem C31_escaped_entity_is_decoded_twice :
    decodeEntities (ascii "Tom &amp;lt; Jerry") = ascii "Tom &lt; Jerry"
      ∧ NormalizeChannelNameForEpg (ascii "Tom &amp;lt; Jerry") = ascii "Tom < Jerry"
      ∧ NormalizeChannelNameForEpg (ascii "  UK |  News &amp; Sport &quot;HD&quot; ")
          = ascii "News & Sport \"HD\""
      ∧ NormalizeChannelNameForEpg (ascii "UK | Channel") = ascii "Channel"
      ∧ (∀ name : Bytes,
          cleanEnds (NormalizeChannelNameForEpg name) = true
            ∧ singleSpaces (NormalizeChannelNameForEpg name) = true
            ∧ occursIn (ascii " | ") (NormalizeChannelNameForEpg name) = false)
      ∧ (∀ (name : Bytes) (pos : Nat),
          rfind (Trim (collapseSpaces (replaceEntities (Trim name)) false)) (ascii " | ") = some pos →
          NormalizeChannelNameForEpg name
            = Trim ((Trim (collapseSpaces (replaceEntities (Trim name)) false)).drop (pos + 3)))
      ∧ (∀ name : Bytes,
          rfind (Trim (collapseSpaces (replaceEntities (Trim name)) false)) (ascii " | ") = none →
          NormalizeChannelNameForEpg name
            = Trim (collapseSpaces (replaceEntities (Trim name)) false)) := by
  refine ⟨by decide, by decide, by decide, by decide, NormalizeChannelNameForEpg_shape, ?_, ?_⟩
  · intro name pos hr
    rw [NormalizeChannelNameForEpg_steps]
    have hsh := stripCategoryPrefix_shape (Trim (collapseSpaces (replaceEntities (Trim name)) false))
      (singleSpaces_Trim _ (collapseSpaces_single _ false).1) (cleanEnds_Trim _)
    have hg := hsh.2.2.2 pos hr
    by_cases he : (Trim name).isEmpty = true
    · exfalso
      have hnil : Trim name = [] := List.isEmpty_iff.mp he
      rw [hnil] at hr
      have hnone : rfind (Trim (collapseSpaces (replaceEntities []) false)) (ascii " | ") = none := by
        decide
      rw [hnone] at hr
      exact Option.noConfusion hr
    · rw [if_neg he, stripCategoryPrefix, hr]
      simp only [if_pos hg]
  · intro name hr
    rw [NormalizeChannelNameForEpg_steps]
    by_cases he : (Trim name).isEmpty = true
    · rw [if_pos he]
      have hnil : Trim name = [] := List.isEmpty_iff.mp he
      rw [hnil]
      rfl
    · rw [if_neg he, stripCategoryPrefix, hr]

theorem Outcome.andThen_cases {α β : Type} (x : Outcome α) (g : α → Run β) (f : α → Outcome β)
    (P : Prop) (h : ∀ a, (g a = .threw ∧ P) ∨ g a = .ended (f a)) :
    (x.andThen g = .threw ∧ P) ∨ x.andThen g = .ended (x.bind f) := by
  cases x with
  | fault => exact Or.inr rfl
  | miss => exact Or.inr rfl
  | ok a => exact h a

theorem ite_run_cases {β : Type} (c : Prop) [Decidable c] (g : Run β) (f : Outcome β) (P : Prop)
    (h : (g = .threw ∧ P) ∨ g = .ended f) :
    ((if c then Run.ended Outcome.miss else g) = .threw ∧ P)
      ∨ (if c then Run.ended Outcome.miss else g) = .ended (if c then Outcome.miss else f) := by
  by_cases hc : c
  · rw [if_pos hc, if_pos hc]; exact Or.inr rfl
  · rw [if_neg hc, if_neg hc]; exact h

/-- A run of the reader either leaves by an exception of `reserve`, and then
some `reserve` call was refused, or returns what `decodeCache` computes. -/
theorem decodeCacheReserving_cases (canReserve : ReserveSite → Nat → Bool)
    (blob signature : Bytes) :
    (decodeCacheReserving canReserve blob signature = .threw
        ∧ ∃ site n, canReserve site n = false)
      ∨ decodeCacheReserving canReserve blob signature = .ended (decodeCache blob signature) := by
  unfold decodeCacheReserving decodeCache
  refine Outcome.andThen_cases _ _ _ _ (fun magic => ?_)
  refine ite_run_cases _ _ _ _ ?_
  refine Outcome.andThen_cases _ _ _ _ (fun sigLen => ?_)
  refine ite_run_cases _ _ _ _ ?_
  refine Outcome.andThen_cases _ _ _ _ (fun sigOnDisk => ?_)
  refine ite_run_cases _ _ _ _ ?_
  refine Outcome.andThen_cases _ _ _ _ (fun ts => ?_)
  refine Outcome.andThen_cases _ _ _ _ (fun catCount => ?_)
  by_cases h0 : canReserve .categoryIdToName catCount.1 = false
  · rw [if_pos h0]; exact Or.inl ⟨rfl, _, _, h0⟩
  rw [if_neg h0]
  refine Outcome.andThen_cases _ _ _ _ (fun cats => ?_)
  refine Outcome.andThen_cases _ _ _ _ (fun chCount => ?_)
  by_cases h1 : canReserve .channels chCount.1 = false
  · rw [if_pos h1]; exact Or.inl ⟨rfl, _, _, h1⟩
  rw [if_neg h1]
  by_cases h2 : canReserve .uidToStreamId chCount.1 = false
  · rw [if_pos h2]; exact Or.inl ⟨rfl, _, _, h2⟩
  rw [if_neg h2]
  by_cases h3 : canReserve .channelCategoryIds chCount.1 = false
  · rw [if_pos h3]; exact Or.inl ⟨rfl, _, _, h3⟩
  rw [if_neg h3]
  refine Outcome.andThen_cases _ _ _ _ (fun chans => ?_)
  exact Or.inr rfl

/-- The run on `corruptCountBlob` is decided by the first `reserve` call. -/
theorem decodeCacheReserving_corruptCount (canReserve : ReserveSite → Nat → Bool) :
    decodeCacheReserving canReserve corruptCountBlob (ascii "sig")
      = if canReserve .categoryIdToName 4294967295 = false then .threw else .ended .miss := by
  rfl

/-- The run on the example blob with a corrupted channel count is decided by
the `reserve` calls. -/
theorem decodeCacheReserving_corruptChannelCount (canReserve : ReserveSite → Nat → Bool) :
    decodeCacheReserving canReserve corruptChannelCountBlob (ascii "sig")
      = if canReserve .categoryIdToName 2 = false then .threw
        else if canReserve .channels 4294967295 = false then .threw
        else if canReserve .uidToStreamId 4294967295 = false then .threw
        else if canReserve .channelCategoryIds 4294967295 = false then .threw
        else .ended .miss := by
  rfl

/-- On a file with a well-formed header for `signature`, the declared category
count goes to `reserve` whatever follows it in the file. -/
theorem decodeCacheReserving_declared_count (canReserve : ReserveSite → Nat → Bool)
    (now : Nat) (signature : Bytes) (count : Nat) (rest : Bytes)
    (hsig : signature.length < 4294967296) (hcount : count < 4294967296)
    (hno : canReserve .categoryIdToName count = false) :
    decodeCacheReserving canReserve (cacheDeclaringCategories now signature count rest) signature
      = .threw := by
  generalize hb : cacheDeclaringCategories now signature count rest = blob
  have hlay : blob.drop 0 = AppendU32 [] kCacheMagic ++ (AppendU32 [] signature.length
      ++ (signature ++ (AppendU64 [] (now % 18446744073709551616)
      ++ (AppendU32 [] count ++ rest)))) := by
    rw [← hb, List.drop_zero]
    unfold cacheDeclaringCategories
    rw [Nat.mod_eq_of_lt hsig, AppendU32_append, AppendU64_append,
      AppendU32_append (AppendU32 [] kCacheMagic)]
    simp only [List.append_assoc]
  have h0 : At blob 0 _ := ⟨Nat.zero_le _, hlay⟩
  obtain ⟨r1, a1⟩ := ReadU32_at _ h0
  obtain ⟨r2, a2⟩ := ReadU32_at _ a1
  obtain ⟨r3, a3⟩ := readBytes_at _ a2
  obtain ⟨⟨ts, r4⟩, a4⟩ := ReadU64_at _ a3
  obtain ⟨r5, a5⟩ := ReadU32_at _ a4
  have e1 : kCacheMagic % 4294967296 = kCacheMagic := by decide
  rw [e1] at r1
  rw [Nat.mod_eq_of_lt hsig] at r2
  rw [Nat.mod_eq_of_lt hcount] at r5
  have hsub : substr blob (0 + 4 + 4) signature.length = .ok signature := by
    unfold substr
    rw [if_neg (by have := a2.1; omega), a2.2, List.take_left]
  unfold decodeCacheReserving
  rw [r1]
  simp only [Outcome.andThen, ne_eq, not_true_eq_false, if_false, r2]
  rw [if_neg (by have := a3.1; omega)]
  simp only [hsub, not_true_eq_false, if_false, r4, r5, hno, if_true]

/-- C15 (code bug): the cache reader of `TryLoadCacheForSignature` checks every
declared length against the end of the buffer before it uses it, but passes the
two declared record counts to `reserve` unchecked (addon.cpp:1479, 1497-1501).
On a file that starts with a well-formed header for the signature and declares
a category count that `reserve` refuses, whatever follows, the run leaves the
function by an exception instead of a miss: so for the 23-byte file
`corruptCountBlob` (count `0xFFFFFFFF`) on every platform that cannot reserve
`2^32 - 1` hash buckets, and likewise for the example blob with its channel
count overwritten. Apart from that the claim holds: a run leaves by an
exception only when a `reserve` call was refused, and otherwise it returns what
`decodeCache` computes, a miss or a decoded result and never a read outside the
buffer. -/
theorem C15_declared_count_reaches_reserve :
    (∀ (canReserve : ReserveSite → Nat → Bool) (now : Nat) (signature : Bytes) (count : Nat)
        (rest : Bytes), signature.length < 4294967296 → count < 4294967296 →
        canReserve .categoryIdToName count = false →
        decodeCacheReserving canReserve (cacheDeclaringCategories now signature count rest)
          signature = .threw)
      ∧ corruptCountBlob = cacheDeclaringCategories 1700000000 (ascii "sig") 4294967295 []
      ∧ corruptCountBlob.length = 23
      ∧ (∀ limit : Nat, limit < 4294967295 →
          decodeCacheReserving (reserveUpTo limit) corruptCountBlob (ascii "sig") = .threw)
      ∧ decodeCacheReserving (reserveUpTo 4294967295) corruptCountBlob (ascii "sig")
          = .ended .miss
      ∧ decodeCache corruptCountBlob (ascii "sig") = .miss
      ∧ (∀ limit : Nat, 2 ≤ limit → limit < 4294967295 →
          decodeCacheReserving (reserveUpTo limit) corruptChannelCountBlob (ascii "sig")
            = .threw)
      ∧ (∀ (canReserve : ReserveSite → Nat → Bool) (blob signature : Bytes),
          (decodeCacheReserving canReserve blob signature = .threw
              ∧ ∃ site n, canReserve site n = false)
            ∨ decodeCacheReserving canReserve blob signature
                = .ended (decodeCache blob signature))
      ∧ (∀ (canReserve : ReserveSite → Nat → Bool) (blob signature : Bytes),
          (∀ site n, canReserve site n = true) →
          decodeCacheReserving canReserve blob signature = .ended (decodeCache blob signature))
      ∧ (∀ (canReserve : ReserveSite → Nat → Bool) (blob signature : Bytes),
          decodeCacheReserving canReserve blob signature ≠ .ended .fault) := by
  refine ⟨decodeCacheReserving_declared_count, by decide, by decide, ?_, ?_, by decide, ?_,
    decodeCacheReserving_cases, ?_, ?_⟩
  · intro limit hl
    rw [decodeCacheReserving_corruptCount, if_pos]
    unfold reserveUpTo
    exact decide_eq_false (by omega)
  · rw [decodeCacheReserving_corruptCount, if_neg]
    decide
  · intro limit h2 hl
    rw [decodeCacheReserving_corruptChannelCount, if_neg, if_pos]
    · unfold reserveUpTo
      exact decide_eq_false (by omega)
    · unfold reserveUpTo
      rw [decide_eq_true h2]
      decide
  · intro canReserve blob signature hall
    rcases decodeCacheReserving_cases canReserve blob signature with ⟨-, site, n, hn⟩ | h
    · rw [hall site n] at hn
      exact Bool.noConfusion hn
    · exact h
  · intro canReserve blob signature h
    rcases decodeCacheReserving_cases canReserve blob signature with ⟨ht, -⟩ | he
    · rw [ht] at h
      exact Run.noConfusion h
    · rw [he] at h
      exact (decodeCache_exact blob signature).1 (Run.ended.inj h)

end Dispatcharr
